import Mathlib

/-!
# clox (Ch. 19 Strings, Challenge #1): scanner, compiler and VM

A shallow embedding of `scanner.c`, `compiler.c` and `vm.c`.

* A `const char*` into a NUL-terminated text is represented by the list of the
  characters from that position up to the terminator; reading at the end gives
  the terminator, pointer difference is the difference of the lengths.
* The C globals (`scanner`, `parser`, `compilingChunk`, `vm`, the two output
  streams) are fields of explicit state records.
* Every C loop and every recursive call consumes one unit of fuel; running out
  of fuel is the result `Res.outOfFuel`, C undefined behaviour (reading or
  writing outside an array, calling a NULL function pointer) is the result
  `Res.undefinedBehaviour`.
* `double` arithmetic and the libc function `strtod` are parameters
  (`DoubleOps`).
-/

namespace Clox

/-! ## Results of fuel-bounded execution -/

/-- Result of running a C function with a bound on loop iterations and call depth. -/
inductive Res (α : Type) where
  | done (a : α) : Res α
  | undefinedBehaviour : Res α
  | outOfFuel : Res α
  deriving DecidableEq, Repr

namespace Res

/-- Sequencing: the continuation runs only after a normal return. -/
def bind {α β : Type} (r : Res α) (f : α → Res β) : Res β :=
  match r with
  | done a => f a
  | undefinedBehaviour => undefinedBehaviour
  | outOfFuel => outOfFuel

end Res

/-! ## scanner.h -/

inductive TokenType where
  | TOKEN_LEFT_PAREN | TOKEN_RIGHT_PAREN
  | TOKEN_LEFT_BRACE | TOKEN_RIGHT_BRACE
  | TOKEN_COMMA | TOKEN_DOT | TOKEN_MINUS | TOKEN_PLUS
  | TOKEN_SEMICOLON | TOKEN_SLASH | TOKEN_STAR
  | TOKEN_BANG | TOKEN_BANG_EQUAL
  | TOKEN_EQUAL | TOKEN_EQUAL_EQUAL
  | TOKEN_GREATER | TOKEN_GREATER_EQUAL
  | TOKEN_LESS | TOKEN_LESS_EQUAL
  | TOKEN_IDENTIFIER | TOKEN_STRING | TOKEN_NUMBER
  | TOKEN_AND | TOKEN_CLASS | TOKEN_ELSE | TOKEN_FALSE
  | TOKEN_FOR | TOKEN_FUN | TOKEN_IF | TOKEN_NIL | TOKEN_OR
  | TOKEN_PRINT | TOKEN_RETURN | TOKEN_SUPER | TOKEN_THIS
  | TOKEN_TRUE | TOKEN_VAR | TOKEN_WHILE
  | TOKEN_ERROR | TOKEN_EOF
  deriving DecidableEq, Repr

open TokenType

/-- The struct `Token`: `start` points into the source, or at a message for an error token. -/
structure Token where
  type : TokenType
  start : List Char
  length : Nat
  line : Nat
  deriving DecidableEq, Repr

/-! ## scanner.c -/

/-- The struct `Scanner` (the global `scanner`). -/
structure Scanner where
  start : List Char
  current : List Char
  line : Nat
  deriving DecidableEq, Repr

def initScanner (source : List Char) : Scanner :=
  { start := source, current := source, line := 1 }

namespace Scan

def isAlpha (c : Char) : Bool :=
  (decide ('a' ≤ c) && decide (c ≤ 'z')) ||
  (decide ('A' ≤ c) && decide (c ≤ 'Z')) ||
  c == '_'

def isDigit (c : Char) : Bool :=
  decide ('0' ≤ c) && decide (c ≤ '9')

/-- The character a pointer points at; the terminator at the end of the text. -/
def deref (p : List Char) : Char := p.headD '\x00'

def isAtEnd (s : Scanner) : Bool := deref s.current == '\x00'

/-- Function `advance` of scanner.c: `scanner.current++; return scanner.current[-1];`. -/
def advance (s : Scanner) : Char × Scanner :=
  (deref s.current, { s with current := s.current.tail })

def peek (s : Scanner) : Char := deref s.current

def peekNext (s : Scanner) : Char :=
  if isAtEnd s then '\x00' else deref s.current.tail

/-- Function `match` of scanner.c. -/
def matchChar (s : Scanner) (expected : Char) : Bool × Scanner :=
  if isAtEnd s then (false, s)
  else if deref s.current ≠ expected then (false, s)
  else (true, { s with current := s.current.tail })

/-- Pointer difference `scanner.current - scanner.start`. -/
def lexemeLength (s : Scanner) : Nat := s.start.length - s.current.length

def makeToken (s : Scanner) (type : TokenType) : Token :=
  { type := type, start := s.start, length := lexemeLength s, line := s.line }

def errorToken (s : Scanner) (message : String) : Token :=
  { type := TOKEN_ERROR, start := message.toList, length := message.length, line := s.line }

/-- The comment loop `while (peek() != '\n' && !isAtEnd()) advance;` of skipWhitespace:
its body is the expression statement `advance;`, which names the function without
calling it, so the scanner is unchanged by an iteration. -/
def skipComment : Nat → Scanner → Res Scanner
  | 0, _ => Res.outOfFuel
  | fuel + 1, s =>
    if peek s ≠ '\n' ∧ ¬ isAtEnd s then skipComment fuel s else Res.done s

def skipWhitespace : Nat → Scanner → Res Scanner
  | 0, _ => Res.outOfFuel
  | fuel + 1, s =>
    let c := peek s
    if c = ' ' ∨ c = '\r' ∨ c = '\t' then
      skipWhitespace fuel (advance s).2
    else if c = '\n' then
      skipWhitespace fuel (advance { s with line := s.line + 1 }).2
    else if c = '/' then
      if peekNext s = '/' then
        (skipComment fuel s).bind (skipWhitespace fuel)
      else Res.done s
    else Res.done s

def checkKeyword (s : Scanner) (start length : Nat) (rest : String) (type : TokenType) :
    TokenType :=
  if lexemeLength s = start + length ∧ (s.start.drop start).take length = rest.toList then type
  else TOKEN_IDENTIFIER

def identifierType (s : Scanner) : TokenType :=
  let c0 := deref s.start
  if c0 = 'a' then checkKeyword s 1 2 "nd" TOKEN_AND
  else if c0 = 'c' then checkKeyword s 1 4 "lass" TOKEN_CLASS
  else if c0 = 'e' then checkKeyword s 1 3 "lse" TOKEN_ELSE
  else if c0 = 'f' then
    if lexemeLength s > 1 then
      let c1 := deref (s.start.drop 1)
      if c1 = 'a' then checkKeyword s 2 3 "lse" TOKEN_FALSE
      else if c1 = 'o' then checkKeyword s 2 1 "r" TOKEN_FOR
      else if c1 = 'u' then checkKeyword s 2 1 "n" TOKEN_FUN
      else TOKEN_IDENTIFIER
    else TOKEN_IDENTIFIER
  else if c0 = 'i' then checkKeyword s 1 1 "f" TOKEN_IF
  else if c0 = 'n' then checkKeyword s 1 2 "il" TOKEN_NIL
  else if c0 = 'o' then checkKeyword s 1 1 "r" TOKEN_OR
  else if c0 = 'p' then checkKeyword s 1 4 "rint" TOKEN_PRINT
  else if c0 = 'r' then checkKeyword s 1 5 "eturn" TOKEN_RETURN
  else if c0 = 's' then checkKeyword s 1 4 "uper" TOKEN_SUPER
  else if c0 = 't' then
    if lexemeLength s > 1 then
      let c1 := deref (s.start.drop 1)
      if c1 = 'h' then checkKeyword s 2 2 "is" TOKEN_THIS
      else if c1 = 'r' then checkKeyword s 2 2 "ue" TOKEN_TRUE
      else TOKEN_IDENTIFIER
    else TOKEN_IDENTIFIER
  else if c0 = 'v' then checkKeyword s 1 2 "ar" TOKEN_VAR
  else if c0 = 'w' then checkKeyword s 1 4 "hile" TOKEN_WHILE
  else TOKEN_IDENTIFIER

/-- The loop `while (isAlpha(peek()) || isDigit(peek())) advance();`. -/
def identifierLoop : Nat → Scanner → Res Scanner
  | 0, _ => Res.outOfFuel
  | fuel + 1, s =>
    if isAlpha (peek s) || isDigit (peek s) then identifierLoop fuel (advance s).2
    else Res.done s

def identifier (fuel : Nat) (s : Scanner) : Res (Token × Scanner) :=
  (identifierLoop fuel s).bind fun s => Res.done (makeToken s (identifierType s), s)

/-- The loop `while (isDigit(peek())) advance();`. -/
def digitLoop : Nat → Scanner → Res Scanner
  | 0, _ => Res.outOfFuel
  | fuel + 1, s =>
    if isDigit (peek s) then digitLoop fuel (advance s).2 else Res.done s

def number (fuel : Nat) (s : Scanner) : Res (Token × Scanner) :=
  (digitLoop fuel s).bind fun s =>
    if peek s = '.' ∧ isDigit (peekNext s) then
      (digitLoop fuel (advance s).2).bind fun s => Res.done (makeToken s TOKEN_NUMBER, s)
    else Res.done (makeToken s TOKEN_NUMBER, s)

/-- The loop of `string`: runs to the closing quote or the end of the text, counting lines. -/
def stringLoop : Nat → Scanner → Res Scanner
  | 0, _ => Res.outOfFuel
  | fuel + 1, s =>
    if peek s ≠ '"' ∧ ¬ isAtEnd s then
      let s1 := if peek s = '\n' then { s with line := s.line + 1 } else s
      stringLoop fuel (advance s1).2
    else Res.done s

def string (fuel : Nat) (s : Scanner) : Res (Token × Scanner) :=
  (stringLoop fuel s).bind fun s =>
    if isAtEnd s then Res.done (errorToken s "Unterminated string", s)
    else
      let s := (advance s).2
      Res.done (makeToken s TOKEN_STRING, s)

/-- Two-character operators: `makeToken(match('=') ? a : b)`. -/
def makeToken2 (s : Scanner) (a b : TokenType) : Token × Scanner :=
  let r := matchChar s '='
  (makeToken r.2 (if r.1 then a else b), r.2)

/-- The `switch (c)` of `scanToken` and the final `return errorToken(...)`. -/
def scanSwitch (fuel : Nat) (s : Scanner) (c : Char) : Res (Token × Scanner) :=
  if c = '(' then Res.done (makeToken s TOKEN_LEFT_PAREN, s)
  else if c = ')' then Res.done (makeToken s TOKEN_RIGHT_PAREN, s)
  else if c = '{' then Res.done (makeToken s TOKEN_LEFT_BRACE, s)
  else if c = '}' then Res.done (makeToken s TOKEN_RIGHT_BRACE, s)
  else if c = ';' then Res.done (makeToken s TOKEN_SEMICOLON, s)
  else if c = ',' then Res.done (makeToken s TOKEN_COMMA, s)
  else if c = '.' then Res.done (makeToken s TOKEN_DOT, s)
  else if c = '-' then Res.done (makeToken s TOKEN_MINUS, s)
  else if c = '+' then Res.done (makeToken s TOKEN_PLUS, s)
  else if c = '/' then Res.done (makeToken s TOKEN_SLASH, s)
  else if c = '*' then Res.done (makeToken s TOKEN_STAR, s)
  else if c = '!' then Res.done (makeToken2 s TOKEN_BANG_EQUAL TOKEN_BANG)
  else if c = '=' then Res.done (makeToken2 s TOKEN_EQUAL_EQUAL TOKEN_EQUAL)
  else if c = '<' then Res.done (makeToken2 s TOKEN_LESS_EQUAL TOKEN_LESS)
  else if c = '>' then Res.done (makeToken2 s TOKEN_GREATER_EQUAL TOKEN_GREATER)
  else if c = '"' then string fuel s
  else Res.done (errorToken s "Unexpected character.", s)

/-- Function `scanToken` after `skipWhitespace()` and `scanner.start = scanner.current`. -/
def scanLexeme (fuel : Nat) (s : Scanner) : Res (Token × Scanner) :=
  if isAtEnd s then Res.done (makeToken s TOKEN_EOF, s)
  else if isAlpha (advance s).1 then identifier fuel (advance s).2
  else if isDigit (advance s).1 then number fuel (advance s).2
  else scanSwitch fuel (advance s).2 (advance s).1

def scanToken (fuel : Nat) (s : Scanner) : Res (Token × Scanner) :=
  (skipWhitespace fuel s).bind fun s1 => scanLexeme fuel { s1 with start := s1.current }

end Scan

/-! ## Floating point -/

/-- The arithmetic of the C type `double` and the libc function `strtod`, which are not part
of the program: `strtod` receives the text its argument points at. -/
structure DoubleOps (D : Type) where
  strtod : List Char → D
  add : D → D → D
  sub : D → D → D
  mul : D → D → D
  div : D → D → D
  neg : D → D
  gt : D → D → Bool
  lt : D → D → Bool
  eq : D → D → Bool

/-! ## value.h, object.h, object.c -/

/-- The struct `Value`: a type tag with the payload of that type; an object payload is the
address of the object in the heap. -/
inductive Value (D : Type) where
  | BOOL_VAL (value : Bool) : Value D
  | NIL_VAL : Value D
  | NUMBER_VAL (value : D) : Value D
  | OBJ_VAL (object : Nat) : Value D
  deriving DecidableEq, Repr

open Value

def IS_BOOL {D : Type} : Value D → Bool
  | BOOL_VAL _ => true
  | _ => false

def IS_NIL {D : Type} : Value D → Bool
  | NIL_VAL => true
  | _ => false

def IS_NUMBER {D : Type} : Value D → Bool
  | NUMBER_VAL _ => true
  | _ => false

def IS_OBJ {D : Type} : Value D → Bool
  | OBJ_VAL _ => true
  | _ => false

/-- Macro `AS_NUMBER`: reading the `number` member of a value that holds another member is
not given a meaning. -/
def AS_NUMBER {D : Type} : Value D → Res D
  | NUMBER_VAL n => Res.done n
  | _ => Res.undefinedBehaviour

/-- Macro `AS_BOOL`. -/
def AS_BOOL {D : Type} : Value D → Bool
  | BOOL_VAL b => b
  | _ => false

inductive ObjType where
  | OBJ_STRING
  deriving DecidableEq, Repr

/-- The struct `ObjString` with its header `Obj`: `chars` is the whole character buffer,
terminator included. -/
structure ObjString where
  type : ObjType
  next : Option Nat
  length : Nat
  chars : List Char
  deriving DecidableEq, Repr

/-- Modelled from the spec: memory.c (`reallocate`) is not among the sources. The heap is the
sequence of the objects allocated so far; an allocation takes the next free address, and no
object is released before teardown. -/
abbrev Heap := List ObjString

/-- Modelled from the spec: value.c (`valuesEqual`) is not among the sources. Equality is
structural: same tag and equal payload; object payloads compare by identity. -/
def valuesEqual {D : Type} (ops : DoubleOps D) : Value D → Value D → Bool
  | BOOL_VAL a, BOOL_VAL b => a == b
  | NIL_VAL, NIL_VAL => true
  | NUMBER_VAL a, NUMBER_VAL b => ops.eq a b
  | OBJ_VAL a, OBJ_VAL b => a == b
  | _, _ => false

/-! ## chunk.h -/

inductive OpCode where
  | OP_CONSTANT | OP_NIL | OP_TRUE | OP_FALSE | OP_EQUAL | OP_GREATER | OP_LESS
  | OP_ADD | OP_SUBTRACT | OP_MULTIPLY | OP_DIVIDE | OP_NOT | OP_NEGATE | OP_RETURN
  deriving DecidableEq, Repr

open OpCode

/-- The numeric value of an enumerator of `OpCode`. -/
def OpCode.toByte : OpCode → Nat
  | OP_CONSTANT => 0 | OP_NIL => 1 | OP_TRUE => 2 | OP_FALSE => 3 | OP_EQUAL => 4
  | OP_GREATER => 5 | OP_LESS => 6 | OP_ADD => 7 | OP_SUBTRACT => 8 | OP_MULTIPLY => 9
  | OP_DIVIDE => 10 | OP_NOT => 11 | OP_NEGATE => 12 | OP_RETURN => 13

/-- The struct `Chunk`: instruction bytes, the line of each byte, the constant pool. The
growth bookkeeping (`count`, `capacity`) is the length of the lists. -/
structure Chunk (D : Type) where
  code : List Nat
  lines : List Nat
  constants : List (Value D)
  deriving DecidableEq, Repr

/-- Modelled from the spec: chunk.c is not among the sources. A chunk is created empty. -/
def initChunk {D : Type} : Chunk D := { code := [], lines := [], constants := [] }

/-- Modelled from the spec: chunk.c is not among the sources. The instruction bytes are
append-only and every byte has one entry in the parallel line table. -/
def writeChunk {D : Type} (chunk : Chunk D) (byte : Nat) (line : Nat) : Chunk D :=
  { chunk with code := chunk.code ++ [byte], lines := chunk.lines ++ [line] }

/-- Modelled from the spec: chunk.c is not among the sources. The constant pool is an ordered
sequence without deduplication; the value is appended and its index returned. -/
def addConstant {D : Type} (chunk : Chunk D) (value : Value D) : Nat × Chunk D :=
  (chunk.constants.length, { chunk with constants := chunk.constants ++ [value] })

/-! ## The global state -/

/-- The struct `Parser` (the global `parser`). -/
structure Parser where
  current : Token
  previous : Token
  hadError : Bool
  panicMode : Bool
  deriving DecidableEq, Repr

/-- Modelled from the spec: vm.h is not among the sources. The value stack has capacity 256. -/
def STACK_MAX : Nat := 256

/-- Modelled from the spec: vm.h is not among the sources. The struct `VM`: the chunk being
executed, the offset `ip - chunk->code`, the live part of the value stack (`stack` up to
`stackTop`, top first) and the head of the object list. -/
structure VM (D : Type) where
  chunk : Chunk D
  ip : Nat
  stack : List (Value D)
  objects : Option Nat
  deriving DecidableEq, Repr

/-- One `printf` to standard output: a number (format `%g`) or a text. -/
inductive Printed (D : Type) where
  | number (value : D) : Printed D
  | text (chars : List Char) : Printed D
  deriving DecidableEq, Repr

/-- One report on the diagnostic stream.
`compileError line location message` is `[line <line>] Error<location>: <message>`;
`runtimeError message line` is `<message>` followed by `[line <line>] in script`. -/
inductive Diagnostic where
  | compileError (line : Nat) (location : List Char) (message : List Char) : Diagnostic
  | runtimeError (message : List Char) (line : Nat) : Diagnostic
  deriving DecidableEq, Repr

/-- The globals of the program, the heap and the two output streams. `chunk` is the chunk
that `compilingChunk` points to. -/
structure State (D : Type) where
  scanner : Scanner
  parser : Parser
  chunk : Chunk D
  vm : VM D
  heap : Heap
  stdout : List (Printed D)
  stderr : List Diagnostic
  deriving DecidableEq, Repr

/-! ## object.c -/

/-- Functions `allocateObject` and `allocateString`: the new object is linked in front of
`vm.objects`; `length` characters are copied and a terminator is stored after them. -/
def allocateString {D : Type} (st : State D) (chars : List Char) (length : Nat) :
    Nat × State D :=
  (st.heap.length,
   { st with
     heap := st.heap ++ [{ type := ObjType.OBJ_STRING, next := st.vm.objects, length := length,
                           chars := chars.take length ++ ['\x00'] }],
     vm := { st.vm with objects := some st.heap.length } })

/-- Function `takeString`: the buffer handed over is copied into the object and released. -/
def takeString {D : Type} (st : State D) (chars : List Char) (length : Nat) : Nat × State D :=
  allocateString st chars length

/-- Function `copyString`: copies `length` characters into a fresh buffer with a terminator
and hands it to `takeString`. -/
def copyString {D : Type} (st : State D) (chars : List Char) (length : Nat) : Nat × State D :=
  takeString st (chars.take length ++ ['\x00']) length

/-- Function `isObjType`: reads the type tag of the object a value points to. -/
def isObjType {D : Type} (heap : Heap) (value : Value D) (type : ObjType) : Res Bool :=
  match value with
  | OBJ_VAL a =>
    match heap.get? a with
    | some o => Res.done (o.type == type)
    | none => Res.undefinedBehaviour
  | _ => Res.done false

/-- Macro `IS_STRING`. -/
def IS_STRING {D : Type} (heap : Heap) (value : Value D) : Res Bool :=
  isObjType heap value ObjType.OBJ_STRING

/-- Function `printObject`: `printf("%s", AS_CSTRING(value))` prints the characters in front
of the first terminator. -/
def printObject {D : Type} (st : State D) (value : Value D) : Res (State D) :=
  match value with
  | OBJ_VAL a =>
    match st.heap.get? a with
    | some o => Res.done { st with stdout := st.stdout ++ [Printed.text (o.chars.takeWhile (· ≠ '\x00'))] }
    | none => Res.undefinedBehaviour
  | _ => Res.undefinedBehaviour

/-- Modelled from the spec: value.c (`printValue`) is not among the sources. The textual form
of a value: numbers in default decimal form, `true`/`false`, `nil`, or the raw characters of a
string. -/
def printValue {D : Type} (st : State D) (value : Value D) : Res (State D) :=
  match value with
  | BOOL_VAL b =>
    Res.done { st with stdout := st.stdout ++ [Printed.text (if b then "true" else "false").toList] }
  | NIL_VAL => Res.done { st with stdout := st.stdout ++ [Printed.text "nil".toList] }
  | NUMBER_VAL n => Res.done { st with stdout := st.stdout ++ [Printed.number n] }
  | OBJ_VAL a => printObject st (OBJ_VAL a)

/-! ## compiler.c -/

abbrev Precedence := Nat

def PREC_NONE : Precedence := 0
def PREC_ASSIGNMENT : Precedence := 1
def PREC_OR : Precedence := 2
def PREC_AND : Precedence := 3
def PREC_EQUALITY : Precedence := 4
def PREC_COMPARISON : Precedence := 5
def PREC_TERM : Precedence := 6
def PREC_FACTOR : Precedence := 7
def PREC_UNARY : Precedence := 8
def PREC_CALL : Precedence := 9
def PREC_PRIMARY : Precedence := 10

/-- The functions a `ParseFn` pointer of the table `rules` can point to. -/
inductive ParseFn where
  | grouping | unary | binary | number | string | literal
  deriving DecidableEq, Repr

/-- The struct `ParseRule`; a NULL function pointer is `none`. -/
structure ParseRule where
  prefixRule : Option ParseFn
  infixRule : Option ParseFn
  precedence : Precedence
  deriving DecidableEq, Repr

/-- The macro `UINT8_MAX` of stdint.h. -/
def UINT8_MAX : Nat := 255

namespace Compiler

variable {D : Type}

def errorAt (st : State D) (token : Token) (message : List Char) : State D :=
  if st.parser.panicMode then st
  else
    let location : List Char :=
      if token.type = TOKEN_EOF then " at end".toList
      else if token.type = TOKEN_ERROR then []
      else " at '".toList ++ token.start.take token.length ++ "'".toList
    { st with
      parser := { st.parser with panicMode := true, hadError := true },
      stderr := st.stderr ++ [Diagnostic.compileError token.line location message] }

def error (st : State D) (message : List Char) : State D :=
  errorAt st st.parser.previous message

def errorAtCurrent (st : State D) (message : List Char) : State D :=
  errorAt st st.parser.current message

/-- The loop of `advance`: scans until a token that is not an error token. -/
def advanceLoop : Nat → State D → Res (State D)
  | 0, _ => Res.outOfFuel
  | fuel + 1, st =>
    (Scan.scanToken fuel st.scanner).bind fun r =>
      let st1 : State D := { st with scanner := r.2, parser := { st.parser with current := r.1 } }
      if r.1.type ≠ TOKEN_ERROR then Res.done st1
      else advanceLoop fuel (errorAtCurrent st1 st1.parser.current.start)

/-- Function `advance` of compiler.c. -/
def advance (fuel : Nat) (st : State D) : Res (State D) :=
  advanceLoop fuel { st with parser := { st.parser with previous := st.parser.current } }

def consume (fuel : Nat) (st : State D) (type : TokenType) (message : List Char) :
    Res (State D) :=
  if st.parser.current.type = type then advance fuel st
  else Res.done (errorAtCurrent st message)

def emitByte (st : State D) (byte : Nat) : State D :=
  { st with chunk := writeChunk st.chunk byte st.parser.previous.line }

def emitBytes (st : State D) (byte1 byte2 : Nat) : State D :=
  emitByte (emitByte st byte1) byte2

def emitReturn (st : State D) : State D :=
  emitByte st OP_RETURN.toByte

/-- Function `makeConstant`: the value is added to the pool first, then the index is checked;
the result is the index converted to `uint8_t`. -/
def makeConstant (st : State D) (value : Value D) : Nat × State D :=
  let r := addConstant st.chunk value
  let st1 : State D := { st with chunk := r.2 }
  if r.1 > UINT8_MAX then (0, error st1 "Too many constants in one chunk.".toList)
  else (r.1 % 256, st1)

def emitConstant (st : State D) (value : Value D) : State D :=
  let r := makeConstant st value
  emitBytes r.2 OP_CONSTANT.toByte r.1

def endCompiler (st : State D) : State D :=
  emitReturn st

def literal (st : State D) : State D :=
  match st.parser.previous.type with
  | TOKEN_FALSE => emitByte st OP_FALSE.toByte
  | TOKEN_NIL => emitByte st OP_NIL.toByte
  | TOKEN_TRUE => emitByte st OP_TRUE.toByte
  | _ => st

def number (ops : DoubleOps D) (st : State D) : State D :=
  let value := ops.strtod st.parser.previous.start
  emitConstant st (NUMBER_VAL value)

def string (st : State D) : State D :=
  let r := copyString st (st.parser.previous.start.drop 1) (st.parser.previous.length - 2)
  emitConstant r.2 (OBJ_VAL r.1)

/-- The table `rules`. -/
def rules : TokenType → ParseRule
  | TOKEN_LEFT_PAREN    => ⟨some ParseFn.grouping, none, PREC_NONE⟩
  | TOKEN_RIGHT_PAREN   => ⟨none, none, PREC_NONE⟩
  | TOKEN_LEFT_BRACE    => ⟨none, none, PREC_NONE⟩
  | TOKEN_RIGHT_BRACE   => ⟨none, none, PREC_NONE⟩
  | TOKEN_COMMA         => ⟨none, none, PREC_NONE⟩
  | TOKEN_DOT           => ⟨none, none, PREC_NONE⟩
  | TOKEN_MINUS         => ⟨some ParseFn.unary, some ParseFn.binary, PREC_TERM⟩
  | TOKEN_PLUS          => ⟨none, some ParseFn.binary, PREC_TERM⟩
  | TOKEN_SEMICOLON     => ⟨none, none, PREC_NONE⟩
  | TOKEN_SLASH         => ⟨none, some ParseFn.binary, PREC_FACTOR⟩
  | TOKEN_STAR          => ⟨none, some ParseFn.binary, PREC_FACTOR⟩
  | TOKEN_BANG          => ⟨some ParseFn.unary, none, PREC_NONE⟩
  | TOKEN_BANG_EQUAL    => ⟨none, some ParseFn.binary, PREC_NONE⟩
  | TOKEN_EQUAL         => ⟨none, none, PREC_NONE⟩
  | TOKEN_EQUAL_EQUAL   => ⟨none, some ParseFn.binary, PREC_EQUALITY⟩
  | TOKEN_GREATER       => ⟨none, some ParseFn.binary, PREC_COMPARISON⟩
  | TOKEN_GREATER_EQUAL => ⟨none, some ParseFn.binary, PREC_COMPARISON⟩
  | TOKEN_LESS          => ⟨none, some ParseFn.binary, PREC_COMPARISON⟩
  | TOKEN_LESS_EQUAL    => ⟨none, some ParseFn.binary, PREC_COMPARISON⟩
  | TOKEN_IDENTIFIER    => ⟨none, none, PREC_NONE⟩
  | TOKEN_STRING        => ⟨some ParseFn.string, none, PREC_NONE⟩
  | TOKEN_NUMBER        => ⟨some ParseFn.number, none, PREC_NONE⟩
  | TOKEN_AND           => ⟨none, none, PREC_NONE⟩
  | TOKEN_CLASS         => ⟨none, none, PREC_NONE⟩
  | TOKEN_ELSE          => ⟨none, none, PREC_NONE⟩
  | TOKEN_FALSE         => ⟨some ParseFn.literal, none, PREC_NONE⟩
  | TOKEN_FOR           => ⟨none, none, PREC_NONE⟩
  | TOKEN_FUN           => ⟨none, none, PREC_NONE⟩
  | TOKEN_IF            => ⟨none, none, PREC_NONE⟩
  | TOKEN_NIL           => ⟨some ParseFn.literal, none, PREC_NONE⟩
  | TOKEN_OR            => ⟨none, none, PREC_NONE⟩
  | TOKEN_PRINT         => ⟨none, none, PREC_NONE⟩
  | TOKEN_RETURN        => ⟨none, none, PREC_NONE⟩
  | TOKEN_SUPER         => ⟨none, none, PREC_NONE⟩
  | TOKEN_THIS          => ⟨none, none, PREC_NONE⟩
  | TOKEN_TRUE          => ⟨some ParseFn.literal, none, PREC_NONE⟩
  | TOKEN_VAR           => ⟨none, none, PREC_NONE⟩
  | TOKEN_WHILE         => ⟨none, none, PREC_NONE⟩
  | TOKEN_ERROR         => ⟨none, none, PREC_NONE⟩
  | TOKEN_EOF           => ⟨none, none, PREC_NONE⟩

def getRule (type : TokenType) : ParseRule := rules type

/-- The `switch (operatorType)` at the end of `binary`; it has no default case. -/
def binaryEmit (st : State D) (operatorType : TokenType) : State D :=
  match operatorType with
  | TOKEN_BANG_EQUAL    => emitBytes st OP_EQUAL.toByte OP_NOT.toByte
  | TOKEN_EQUAL_EQUAL   => emitByte st OP_EQUAL.toByte
  | TOKEN_GREATER       => emitByte st OP_GREATER.toByte
  | TOKEN_GREATER_EQUAL => emitBytes st OP_LESS.toByte OP_NOT.toByte
  | TOKEN_LESS          => emitByte st OP_LESS.toByte
  | TOKEN_LESS_EQUAL    => emitBytes st OP_GREATER.toByte OP_NOT.toByte
  | TOKEN_PLUS          => emitByte st OP_ADD.toByte
  | TOKEN_MINUS         => emitByte st OP_SUBTRACT.toByte
  | TOKEN_STAR          => emitByte st OP_MULTIPLY.toByte
  | TOKEN_SLASH         => emitByte st OP_DIVIDE.toByte
  | _ => st

/-- The `switch (operatorType)` at the end of `unary`. -/
def unaryEmit (st : State D) (operatorType : TokenType) : State D :=
  match operatorType with
  | TOKEN_BANG => emitByte st OP_NOT.toByte
  | TOKEN_MINUS => emitByte st OP_NEGATE.toByte
  | _ => st

mutual

/-- Function `parsePrecedence`, up to the loop over the infix operators. -/
def parsePrecedence (ops : DoubleOps D) : Nat → Precedence → State D → Res (State D)
  | 0, _, _ => Res.outOfFuel
  | fuel + 1, precedence, st =>
    (advance fuel st).bind fun st1 =>
      match (getRule st1.parser.previous.type).prefixRule with
      | none => Res.done (error st1 "Expect expression.".toList)
      | some prefixRule =>
        (callParseFn ops fuel prefixRule st1).bind fun st2 =>
          infixLoop ops fuel precedence st2

/-- The loop `while (precedence <= getRule(parser.current.type)->precedence)` of
`parsePrecedence`. -/
def infixLoop (ops : DoubleOps D) : Nat → Precedence → State D → Res (State D)
  | 0, _, _ => Res.outOfFuel
  | fuel + 1, precedence, st =>
    if precedence ≤ (getRule st.parser.current.type).precedence then
      (advance fuel st).bind fun st1 =>
        match (getRule st1.parser.previous.type).infixRule with
        | none => Res.undefinedBehaviour
        | some infixRule =>
          (callParseFn ops fuel infixRule st1).bind fun st2 =>
            infixLoop ops fuel precedence st2
    else Res.done st

/-- A call through a `ParseFn` pointer. -/
def callParseFn (ops : DoubleOps D) : Nat → ParseFn → State D → Res (State D)
  | 0, _, _ => Res.outOfFuel
  | fuel + 1, ParseFn.grouping, st => grouping ops fuel st
  | fuel + 1, ParseFn.unary, st => unary ops fuel st
  | fuel + 1, ParseFn.binary, st => binary ops fuel st
  | _ + 1, ParseFn.number, st => Res.done (number ops st)
  | _ + 1, ParseFn.string, st => Res.done (string st)
  | _ + 1, ParseFn.literal, st => Res.done (literal st)

def binary (ops : DoubleOps D) : Nat → State D → Res (State D)
  | 0, _ => Res.outOfFuel
  | fuel + 1, st =>
    let operatorType := st.parser.previous.type
    let rule := getRule operatorType
    (parsePrecedence ops fuel (rule.precedence + 1) st).bind fun st1 =>
      Res.done (binaryEmit st1 operatorType)

def grouping (ops : DoubleOps D) : Nat → State D → Res (State D)
  | 0, _ => Res.outOfFuel
  | fuel + 1, st =>
    (parsePrecedence ops fuel PREC_ASSIGNMENT st).bind fun st1 =>
      consume fuel st1 TOKEN_RIGHT_PAREN "Expect ')' after expression.".toList

def unary (ops : DoubleOps D) : Nat → State D → Res (State D)
  | 0, _ => Res.outOfFuel
  | fuel + 1, st =>
    let operatorType := st.parser.previous.type
    (parsePrecedence ops fuel PREC_UNARY st).bind fun st1 =>
      Res.done (unaryEmit st1 operatorType)

end

def expression (ops : DoubleOps D) (fuel : Nat) (st : State D) : Res (State D) :=
  parsePrecedence ops fuel PREC_ASSIGNMENT st

/-- Function `compile`; `chunk` is the chunk the caller passes, the result holds the return
value and the state, whose field `chunk` is the compiled chunk. -/
def compile (ops : DoubleOps D) (fuel : Nat) (source : List Char) (chunk : Chunk D)
    (st : State D) : Res (Bool × State D) :=
  let st0 : State D :=
    { st with
      scanner := initScanner source,
      chunk := chunk,
      parser := { st.parser with hadError := false, panicMode := false } }
  (advance fuel st0).bind fun st1 =>
    (expression ops fuel st1).bind fun st2 =>
      (consume fuel st2 TOKEN_EOF "Expect end of expression".toList).bind fun st3 =>
        let st4 := endCompiler st3
        Res.done (!st4.parser.hadError, st4)

end Compiler

/-! ## vm.c -/

/-- Modelled from the spec: vm.h is not among the sources. The result of `interpret`. -/
inductive InterpretResult where
  | INTERPRET_OK | INTERPRET_COMPILE_ERROR | INTERPRET_RUNTIME_ERROR
  deriving DecidableEq, Repr

open InterpretResult

namespace VMachine

variable {D : Type}

def resetStack (st : State D) : State D :=
  { st with vm := { st.vm with stack := [] } }

/-- Function `runtimeError`: prints the message and the line of the instruction just read
(`lines[vm.ip - vm.chunk->code - 1]`), then resets the stack. -/
def runtimeError (st : State D) (message : List Char) : Res (State D) :=
  if st.vm.ip = 0 then Res.undefinedBehaviour
  else
    match st.vm.chunk.lines.get? (st.vm.ip - 1) with
    | some line =>
      Res.done
        (resetStack { st with stderr := st.stderr ++ [Diagnostic.runtimeError message line] })
    | none => Res.undefinedBehaviour

def initVM (st : State D) : State D :=
  let st1 := resetStack st
  { st1 with vm := { st1.vm with objects := none } }

/-- Function `push`: writes at `stackTop`; writing behind the last slot is undefined. -/
def push (st : State D) (value : Value D) : Res (State D) :=
  if st.vm.stack.length < STACK_MAX then
    Res.done { st with vm := { st.vm with stack := value :: st.vm.stack } }
  else Res.undefinedBehaviour

/-- Function `pop`: moves `stackTop` down and reads there; below the first slot this is
undefined. -/
def pop (st : State D) : Res (Value D × State D) :=
  match st.vm.stack with
  | value :: rest => Res.done (value, { st with vm := { st.vm with stack := rest } })
  | [] => Res.undefinedBehaviour

/-- Function `peek`: reads `stackTop[-1 - distance]`. -/
def peek (st : State D) (distance : Nat) : Res (Value D) :=
  match st.vm.stack.get? distance with
  | some value => Res.done value
  | none => Res.undefinedBehaviour

def isFalsey (value : Value D) : Bool :=
  IS_NIL value || (IS_BOOL value && !AS_BOOL value)

/-- Macro `AS_STRING` followed by the reads of `length` and `chars` of the object. -/
def AS_STRING (st : State D) (value : Value D) : Res ObjString :=
  match value with
  | OBJ_VAL a =>
    match st.heap.get? a with
    | some o => Res.done o
    | none => Res.undefinedBehaviour
  | _ => Res.undefinedBehaviour

def concatenate (st : State D) : Res (State D) :=
  (pop st).bind fun rb =>
    (AS_STRING rb.2 rb.1).bind fun b =>
      (pop rb.2).bind fun ra =>
        (AS_STRING ra.2 ra.1).bind fun a =>
          let length := a.length + b.length
          let chars := a.chars.take a.length ++ b.chars.take b.length ++ ['\x00']
          let r := takeString ra.2 chars length
          push r.2 (OBJ_VAL r.1)

/-- Macro `READ_BYTE`: `*vm.ip++`. -/
def READ_BYTE (st : State D) : Res (Nat × State D) :=
  match st.vm.chunk.code.get? st.vm.ip with
  | some byte => Res.done (byte, { st with vm := { st.vm with ip := st.vm.ip + 1 } })
  | none => Res.undefinedBehaviour

/-- Macro `READ_CONSTANT`. -/
def READ_CONSTANT (st : State D) : Res (Value D × State D) :=
  (READ_BYTE st).bind fun r =>
    match r.2.vm.chunk.constants.get? r.1 with
    | some value => Res.done (value, r.2)
    | none => Res.undefinedBehaviour

/-- Macro `BINARY_OP`: after the call of `runtimeError` there is no `return`, the two pops
and the push follow in every case. -/
def BINARY_OP (st : State D) (valueType : D → D → Value D) : Res (State D) :=
  (peek st 0).bind fun v0 =>
    (if !IS_NUMBER v0 then Res.done true
     else (peek st 1).bind fun v1 => Res.done (!IS_NUMBER v1)).bind fun mismatch =>
      (if mismatch then runtimeError st "Operands must be numbers.".toList
       else Res.done st).bind fun st1 =>
        (pop st1).bind fun rb =>
          (AS_NUMBER rb.1).bind fun b =>
            (pop rb.2).bind fun ra =>
              (AS_NUMBER ra.1).bind fun a =>
                push ra.2 (valueType a b)

/-- The body of `case OP_RETURN`. -/
def opReturn (st : State D) : Res (InterpretResult × State D) :=
  (pop st).bind fun r =>
    (printValue r.2 r.1).bind fun st1 =>
      Res.done (INTERPRET_OK, { st1 with stdout := st1.stdout ++ [Printed.text ['\n']] })

/-- The body of `case OP_ADD` up to its `break`; `none` is the `return` after the runtime
error. -/
def opAdd (ops : DoubleOps D) (st : State D) : Res (Option InterpretResult × State D) :=
  (peek st 0).bind fun v0 =>
    (IS_STRING st.heap v0).bind fun s0 =>
      (if s0 then (peek st 1).bind fun v1 => IS_STRING st.heap v1 else Res.done false).bind
        fun bothStrings =>
          if bothStrings then
            (concatenate st).bind fun st1 => Res.done (none, st1)
          else
            (if IS_NUMBER v0 then (peek st 1).bind fun v1 => Res.done (IS_NUMBER v1)
             else Res.done false).bind fun bothNumbers =>
              if bothNumbers then
                (pop st).bind fun rb =>
                  (AS_NUMBER rb.1).bind fun b =>
                    (pop rb.2).bind fun ra =>
                      (AS_NUMBER ra.1).bind fun a =>
                        (push ra.2 (NUMBER_VAL (ops.add a b))).bind fun st1 =>
                          Res.done (none, st1)
              else
                (runtimeError st "Operands must be two numbers or two strings.".toList).bind
                  fun st1 => Res.done (some INTERPRET_RUNTIME_ERROR, st1)

/-- Function `run`: the loop `for (;;)` around the `switch` on the instruction byte. The case
`OP_NEGATE` does not end in `break` or `return`: after the push, control continues in the body
of `case OP_RETURN`. A byte that is no opcode matches no case. -/
def run (ops : DoubleOps D) : Nat → State D → Res (InterpretResult × State D)
  | 0, _ => Res.outOfFuel
  | fuel + 1, st =>
    (READ_BYTE st).bind fun r =>
      let instruction := r.1
      let st1 := r.2
      if instruction = OP_CONSTANT.toByte then
        (READ_CONSTANT st1).bind fun rc => (push rc.2 rc.1).bind (run ops fuel)
      else if instruction = OP_NIL.toByte then
        (push st1 NIL_VAL).bind (run ops fuel)
      else if instruction = OP_TRUE.toByte then
        (push st1 (BOOL_VAL true)).bind (run ops fuel)
      else if instruction = OP_FALSE.toByte then
        (push st1 (BOOL_VAL false)).bind (run ops fuel)
      else if instruction = OP_EQUAL.toByte then
        (pop st1).bind fun rb =>
          (pop rb.2).bind fun ra =>
            (push ra.2 (BOOL_VAL (valuesEqual ops ra.1 rb.1))).bind (run ops fuel)
      else if instruction = OP_GREATER.toByte then
        (BINARY_OP st1 fun a b => BOOL_VAL (ops.gt a b)).bind (run ops fuel)
      else if instruction = OP_LESS.toByte then
        (BINARY_OP st1 fun a b => BOOL_VAL (ops.lt a b)).bind (run ops fuel)
      else if instruction = OP_ADD.toByte then
        (opAdd ops st1).bind fun ra =>
          match ra.1 with
          | some result => Res.done (result, ra.2)
          | none => run ops fuel ra.2
      else if instruction = OP_SUBTRACT.toByte then
        (BINARY_OP st1 fun a b => NUMBER_VAL (ops.sub a b)).bind (run ops fuel)
      else if instruction = OP_MULTIPLY.toByte then
        (BINARY_OP st1 fun a b => NUMBER_VAL (ops.mul a b)).bind (run ops fuel)
      else if instruction = OP_DIVIDE.toByte then
        (BINARY_OP st1 fun a b => NUMBER_VAL (ops.div a b)).bind (run ops fuel)
      else if instruction = OP_NOT.toByte then
        (pop st1).bind fun rv => (push rv.2 (BOOL_VAL (isFalsey rv.1))).bind (run ops fuel)
      else if instruction = OP_NEGATE.toByte then
        (peek st1 0).bind fun v0 =>
          if !IS_NUMBER v0 then
            (runtimeError st1 "Operand must be a number.".toList).bind fun st2 =>
              Res.done (INTERPRET_RUNTIME_ERROR, st2)
          else
            (pop st1).bind fun rv =>
              (AS_NUMBER rv.1).bind fun n =>
                (push rv.2 (NUMBER_VAL (ops.neg n))).bind fun st2 =>
                  opReturn st2
      else if instruction = OP_RETURN.toByte then
        opReturn st1
      else run ops fuel st1

/-- Function `interpret`: the chunk is a local of the call; it is compiled into, handed to the
VM with `ip` at its first byte, and run. -/
def interpret (ops : DoubleOps D) (fuel : Nat) (source : List Char) (st : State D) :
    Res (InterpretResult × State D) :=
  (Compiler.compile ops fuel source initChunk st).bind fun rc =>
    if !rc.1 then Res.done (INTERPRET_COMPILE_ERROR, rc.2)
    else
      let st1 : State D := { rc.2 with vm := { rc.2.vm with chunk := rc.2.chunk, ip := 0 } }
      run ops fuel st1

end VMachine


/-! ## Definitions used in the statements and proofs -/

namespace Res

/-- The relation `r.le r'`: `r'` is the result of running `r` with more fuel. -/
def le {α : Type} (r r' : Res α) : Prop := r = outOfFuel ∨ r = r'

/-- The postcondition `r.All Q`: if `r` is a normal return, the value returned satisfies `Q`. -/
def All {α : Type} (Q : α → Prop) (r : Res α) : Prop := ∀ a, r = done a → Q a

end Res

/-- The statement `Returns f a`: run with enough fuel, `f` returns `a`. -/
def Returns {α : Type} (f : Nat → Res α) (a : α) : Prop := ∃ n, ∀ m, n ≤ m → f m = Res.done a

/-- Integer arithmetic in the place of `double` arithmetic, for closed examples; `strtod`
reads the leading decimal digits. -/
def exampleOps : DoubleOps Int where
  strtod := fun cs =>
    Int.ofNat ((cs.takeWhile Scan.isDigit).foldl (fun n c => 10 * n + (c.toNat - 48)) 0)
  add := fun a b => a + b
  sub := fun a b => a - b
  mul := fun a b => a * b
  div := fun a b => a / b
  neg := fun a => -a
  gt := fun a b => decide (a > b)
  lt := fun a b => decide (a < b)
  eq := fun a b => decide (a = b)

/-- The state of a freshly started program: the globals zero-initialised, `initVM` called,
nothing printed yet. -/
def startState (D : Type) : State D :=
  { scanner := ⟨[], [], 0⟩,
    parser := ⟨⟨TokenType.TOKEN_LEFT_PAREN, [], 0, 0⟩, ⟨TokenType.TOKEN_LEFT_PAREN, [], 0, 0⟩,
               false, false⟩,
    chunk := initChunk,
    vm := ⟨initChunk, 0, [], none⟩,
    heap := [], stdout := [], stderr := [] }

namespace Scan

/-- The texts in front of which `skipWhitespace` stops at once: no blank, no line break, and
no pair of slashes. -/
def StopsWhitespace (r : List Char) : Prop :=
  deref r ≠ ' ' ∧ deref r ≠ '\r' ∧ deref r ≠ '\t' ∧ deref r ≠ '\n' ∧
    (deref r = '/' → deref r.tail ≠ '/')

/-- A number lexeme: digits, optionally followed by a dot and digits. -/
def IsNumberLexeme (a : List Char) : Prop :=
  ∃ ds fs, ds ≠ [] ∧ (∀ c ∈ ds, isDigit c = true) ∧ (∀ c ∈ fs, isDigit c = true) ∧
    (a = ds ∨ (fs ≠ [] ∧ a = ds ++ '.' :: fs))

/-- What may follow a number lexeme: neither a digit nor a dot. -/
def StopsNumber (r : List Char) : Prop := isDigit (deref r) = false ∧ deref r ≠ '.'

/-- The lexemes of the nine binary operators of the spec's table. -/
def binaryLexeme : TokenType → Option (List Char)
  | TokenType.TOKEN_EQUAL_EQUAL => some ['=', '=']
  | TokenType.TOKEN_GREATER => some ['>']
  | TokenType.TOKEN_GREATER_EQUAL => some ['>', '=']
  | TokenType.TOKEN_LESS => some ['<']
  | TokenType.TOKEN_LESS_EQUAL => some ['<', '=']
  | TokenType.TOKEN_PLUS => some ['+']
  | TokenType.TOKEN_MINUS => some ['-']
  | TokenType.TOKEN_STAR => some ['*']
  | TokenType.TOKEN_SLASH => some ['/']
  | _ => none

/-- The one-character tokens of the `switch` of `scanToken`, the slash apart. -/
def symbolToken (c : Char) : Option TokenType :=
  if c = '(' then some TokenType.TOKEN_LEFT_PAREN
  else if c = ')' then some TokenType.TOKEN_RIGHT_PAREN
  else if c = '{' then some TokenType.TOKEN_LEFT_BRACE
  else if c = '}' then some TokenType.TOKEN_RIGHT_BRACE
  else if c = ';' then some TokenType.TOKEN_SEMICOLON
  else if c = ',' then some TokenType.TOKEN_COMMA
  else if c = '.' then some TokenType.TOKEN_DOT
  else if c = '-' then some TokenType.TOKEN_MINUS
  else if c = '+' then some TokenType.TOKEN_PLUS
  else if c = '*' then some TokenType.TOKEN_STAR
  else none

end Scan

namespace VMachine

variable {D : Type}

/-- The state after an instruction of `width` bytes has replaced the stack by `stack`. -/
def stepTo (st : State D) (width : Nat) (stack : List (Value D)) : State D :=
  { st with vm := { st.vm with ip := st.vm.ip + width, stack := stack } }

end VMachine

namespace Compiler

variable {D : Type}

/-- The state after `advance` has read the token `tok` and left the scanner in `sc`. -/
def shift (st : State D) (tok : Token) (sc : Scanner) : State D :=
  { st with scanner := sc,
            parser := { st.parser with previous := st.parser.current, current := tok } }

/-- The text ` + l₁ + l₂ ...` that follows the first of a chain of terms joined by `+`. -/
def joinPlus : List (List Char) → List Char
  | [] => []
  | l :: ls => ' ' :: '+' :: ' ' :: (l ++ joinPlus ls)

/-- The token that follows a term when the rest of the text is `joinPlus ls`, on line `ln`,
and the scanner after that token: a `+`, or the end of the text. -/
def lookahead (ln : Nat) : List (List Char) → Token × Scanner
  | [] => (⟨TokenType.TOKEN_EOF, [], 0, ln⟩, ⟨[], [], ln⟩)
  | l :: ls =>
    (⟨TokenType.TOKEN_PLUS, '+' :: ' ' :: (l ++ joinPlus ls), 1, ln⟩,
     ⟨'+' :: ' ' :: (l ++ joinPlus ls), ' ' :: (l ++ joinPlus ls), ln⟩)

/-- The state after the infix loop has compiled the terms ` + l` for `l` in `ls`: per term the
number token is read, then the token after it, the constant is emitted, then `OP_ADD`. -/
def afterTerms (ops : DoubleOps D) (ln : Nat) : List (List Char) → State D → State D
  | [], st => st
  | l :: ls, st =>
    afterTerms ops ln ls
      (binaryEmit
        (number ops
          (shift
            (shift st ⟨TokenType.TOKEN_NUMBER, l ++ joinPlus ls, l.length, ln⟩
              ⟨l ++ joinPlus ls, joinPlus ls, ln⟩)
            (lookahead ln ls).1 (lookahead ln ls).2))
        TokenType.TOKEN_PLUS)

/-- The state in which `compile` starts parsing: scanner at the start of `source`, the
chunk of the caller, the two error flags cleared. -/
def compileStart (st : State D) (source : List Char) (chunk : Chunk D) : State D :=
  { st with scanner := initScanner source, chunk := chunk,
            parser := { st.parser with hadError := false, panicMode := false } }

/-- The state after the first literal of the source `l0 ++ joinPlus ls` has been compiled:
the literal and the token after it have been read and the constant emitted. -/
def chainStart (ops : DoubleOps D) (st : State D) (chunk : Chunk D) (l0 : List Char)
    (ls : List (List Char)) : State D :=
  number ops
    (shift
      (shift (compileStart st (l0 ++ joinPlus ls) chunk)
        ⟨TokenType.TOKEN_NUMBER, l0 ++ joinPlus ls, l0.length, 1⟩
        ⟨l0 ++ joinPlus ls, joinPlus ls, 1⟩)
      (lookahead 1 ls).1 (lookahead 1 ls).2)

/-- The state in which `compile` returns for the source `l0 ++ joinPlus ls`, a chain of
number literals joined by `+`. -/
def chainState (ops : DoubleOps D) (st : State D) (chunk : Chunk D) (l0 : List Char)
    (ls : List (List Char)) : State D :=
  endCompiler
    (shift (afterTerms ops 1 ls (chainStart ops st chunk l0 ls))
      ⟨TokenType.TOKEN_EOF, [], 0, 1⟩ ⟨[], [], 1⟩)

/-- The statement that the six parsing functions, run with fuel `n`, keep the property `P` of
the state. -/
def ParsePreserves (ops : DoubleOps D) (P : State D → Prop) (n : Nat) : Prop :=
  (∀ p (st st' : State D), P st → parsePrecedence ops n p st = Res.done st' → P st') ∧
  (∀ p (st st' : State D), P st → infixLoop ops n p st = Res.done st' → P st') ∧
  (∀ fn (st st' : State D), P st → callParseFn ops n fn st = Res.done st' → P st') ∧
  (∀ (st st' : State D), P st → binary ops n st = Res.done st' → P st') ∧
  (∀ (st st' : State D), P st → grouping ops n st = Res.done st' → P st') ∧
  (∀ (st st' : State D), P st → unary ops n st = Res.done st' → P st')

/-- The steps of the compiler that change the state: reading a token, moving `current` to
`previous`, reporting an error, emitting a byte, adding a constant, allocating a string. -/
structure StepsPreserve (P : State D → Prop) : Prop where
  scan : ∀ n (st : State D) tok sc, P st → Scan.scanToken n st.scanner = Res.done (tok, sc) →
    P { st with scanner := sc, parser := { st.parser with current := tok } }
  previous : ∀ (st : State D), P st →
    P { st with parser := { st.parser with previous := st.parser.current } }
  errorAt : ∀ (st : State D) tok msg, P st → P (errorAt st tok msg)
  emitByte : ∀ (st : State D) b, P st → P (emitByte st b)
  makeConstant : ∀ (st : State D) v, P st → P (makeConstant st v).2
  copyString : ∀ (st : State D) chars length, P st → P (copyString st chars length).2

/-- Panic mode is only entered together with the error flag. -/
def PanicInv (st : State D) : Prop :=
  st.parser.panicMode = true → st.parser.hadError = true

/-- As long as no error was reported the constant pool has at most 256 entries. -/
def PoolInv (st : State D) : Prop :=
  PanicInv st ∧ (st.parser.hadError = false → st.chunk.constants.length ≤ 256)

/-- When the current token is the end-of-input token the scanner is at the end of the text. -/
def EofInv (st : State D) : Prop :=
  PanicInv st ∧ (st.parser.current.type = TokenType.TOKEN_EOF → Scan.isAtEnd st.scanner = true)

/-- The opcodes of the spec's table of emitted code for the binary operators
`==`, `>`, `>=`, `<`, `<=`, `+`, `-`, `*`, `/`. -/
def specBinaryOpcodes : TokenType → Option (List OpCode)
  | TokenType.TOKEN_EQUAL_EQUAL => some [OpCode.OP_EQUAL]
  | TokenType.TOKEN_GREATER => some [OpCode.OP_GREATER]
  | TokenType.TOKEN_GREATER_EQUAL => some [OpCode.OP_LESS, OpCode.OP_NOT]
  | TokenType.TOKEN_LESS => some [OpCode.OP_LESS]
  | TokenType.TOKEN_LESS_EQUAL => some [OpCode.OP_GREATER, OpCode.OP_NOT]
  | TokenType.TOKEN_PLUS => some [OpCode.OP_ADD]
  | TokenType.TOKEN_MINUS => some [OpCode.OP_SUBTRACT]
  | TokenType.TOKEN_STAR => some [OpCode.OP_MULTIPLY]
  | TokenType.TOKEN_SLASH => some [OpCode.OP_DIVIDE]
  | _ => none

/-- The state `st` after the bytes of `opcodes` have been appended to its chunk, each with
the line of the previous token. -/
def withOpcodes (st : State D) (opcodes : List OpCode) : State D :=
  { st with chunk :=
      { st.chunk with
        code := st.chunk.code ++ opcodes.map OpCode.toByte,
        lines := st.chunk.lines ++ opcodes.map (fun _ => st.parser.previous.line) } }

/-- An example of a state in which `binary` is entered: the source `1 + 2` after the `+` has
been consumed, the current token is `2`. -/
def binaryEntryExample : State Int :=
  { startState Int with
    scanner := ⟨"2".toList, [], 1⟩,
    parser := ⟨⟨TokenType.TOKEN_NUMBER, "2".toList, 1, 1⟩,
               ⟨TokenType.TOKEN_PLUS, "+ 2".toList, 1, 1⟩, false, false⟩ }

/-- The state `binaryEntryExample` after its right operand `2` has been compiled. -/
def binaryOperandExample : State Int :=
  { startState Int with
    scanner := ⟨[], [], 1⟩,
    parser := ⟨⟨TokenType.TOKEN_EOF, [], 0, 1⟩,
               ⟨TokenType.TOKEN_NUMBER, "2".toList, 1, 1⟩, false, false⟩,
    chunk := ⟨[0, 0], [1, 1], [Value.NUMBER_VAL 2]⟩ }

/-- The six statements proved together by induction on the fuel. -/
def ParseLe (ops : DoubleOps D) (n : Nat) : Prop :=
  (∀ m p (st : State D), n ≤ m →
    (parsePrecedence ops n p st).le (parsePrecedence ops m p st)) ∧
  (∀ m p (st : State D), n ≤ m → (infixLoop ops n p st).le (infixLoop ops m p st)) ∧
  (∀ m fn (st : State D), n ≤ m → (callParseFn ops n fn st).le (callParseFn ops m fn st)) ∧
  (∀ m (st : State D), n ≤ m → (binary ops n st).le (binary ops m st)) ∧
  (∀ m (st : State D), n ≤ m → (grouping ops n st).le (grouping ops m st)) ∧
  (∀ m (st : State D), n ≤ m → (unary ops n st).le (unary ops m st))

end Compiler


namespace VMachine

variable {D : Type}

/-- The state after `OP_ADD` has concatenated the strings `a` (below) and `b` (top): a new
object holding the characters of `a` followed by those of `b` is linked in front of
`vm.objects`, and a reference to it replaces the two operands on the stack `rest`. -/
def afterConcatenate (st : State D) (a b : ObjString) (rest : List (Value D)) : State D :=
  { st with
    heap := st.heap ++
      [⟨ObjType.OBJ_STRING, st.vm.objects, a.length + b.length,
        a.chars.take a.length ++ b.chars.take b.length ++ ['\x00']⟩],
    vm := ⟨st.vm.chunk, st.vm.ip + 1, Value.OBJ_VAL st.heap.length :: rest,
      some st.heap.length⟩ }

/-- An example state in front of `OP_ADD`: the strings `foo` and `bar` on the stack. -/
def concatExample : State Int :=
  { startState Int with
    heap := [⟨ObjType.OBJ_STRING, none, 3, "foo\x00".toList⟩,
             ⟨ObjType.OBJ_STRING, some 0, 3, "bar\x00".toList⟩],
    vm := ⟨⟨[7, 13], [1, 1], []⟩, 0, [Value.OBJ_VAL 1, Value.OBJ_VAL 0], some 1⟩ }

/-- An example state in front of `OP_ADD`: the number `1` below the string `a`. -/
def mismatchExample : State Int :=
  { startState Int with
    heap := [⟨ObjType.OBJ_STRING, none, 1, "a\x00".toList⟩],
    vm := ⟨⟨[7, 13], [1, 1], []⟩, 0, [Value.OBJ_VAL 0, Value.NUMBER_VAL 1], some 0⟩ }

/-- An example state in front of `OP_NOT`: the number `0` on the stack. -/
def notExample : State Int :=
  { startState Int with vm := ⟨⟨[11, 13], [1, 1], []⟩, 0, [Value.NUMBER_VAL 0], none⟩ }

/-- An example state in front of `OP_RETURN`: the number `7` on the stack. -/
def returnExample : State Int :=
  { startState Int with vm := ⟨⟨[13], [1], []⟩, 0, [Value.NUMBER_VAL 7], none⟩ }

/-- The steps of `run` that change the state: moving `ip` and the stack top (and, in
`interpret`, installing the chunk), reporting a runtime error, allocating a string. -/
structure VmStepsPreserve (P : State D → Prop) : Prop where
  vm : ∀ (st : State D) chunk ip stack, P st →
    P { st with vm := ⟨chunk, ip, stack, st.vm.objects⟩ }
  stderr : ∀ (st : State D) e, P st → P { st with stderr := e }
  takeString : ∀ (st : State D) chars length, P st → P (takeString st chars length).2

end VMachine

namespace Compiler

variable {D : Type}

/-- Where `errorAt` says the error is: at the end, nowhere for an error token, at the lexeme
of any other token. -/
def errorLocation (token : Token) : List Char :=
  if token.type = TokenType.TOKEN_EOF then " at end".toList
  else if token.type = TokenType.TOKEN_ERROR then []
  else " at '".toList ++ token.start.take token.length ++ "'".toList

/-- The state `st` with `tok` as the previous token of the parser. -/
def withPrevious (st : State D) (tok : Token) : State D :=
  { st with parser := { st.parser with previous := tok } }

/-- What has been reported since the diagnostic stream held `base`: nothing while the two
error flags are clear, one diagnostic once they are set; the flags are set together. -/
def ReportInv (base : List Diagnostic) (st : State D) : Prop :=
  st.parser.panicMode = st.parser.hadError ∧
  ((st.parser.hadError = false ∧ st.stderr = base) ∨
   (st.parser.hadError = true ∧ ∃ d, st.stderr = base ++ [d]))

/-- The part of the state that belongs to `run` is as in `st0`: the chunk and `ip` of the VM,
the value stack and standard output. -/
def SameRun (st0 st : State D) : Prop :=
  st.vm.chunk = st0.vm.chunk ∧ st.vm.ip = st0.vm.ip ∧ st.vm.stack = st0.vm.stack ∧
    st.stdout = st0.stdout

end Compiler

/-- The addresses reached from `head` along the `next` links, at most `fuel` of them. -/
def registryFrom (heap : Heap) : Nat → Option Nat → List Nat
  | 0, _ => []
  | _ + 1, none => []
  | fuel + 1, some a =>
    a :: (match heap.get? a with
          | some o => registryFrom heap fuel o.next
          | none => [])

/-- The object registry: the list that starts at `vm.objects`. -/
def registry {D : Type} (st : State D) : List Nat :=
  registryFrom st.heap st.heap.length st.vm.objects

/-- The registry holds every object allocated so far, the newest first. -/
def RegistryInv {D : Type} (st : State D) : Prop :=
  registry st = (List.range st.heap.length).reverse


namespace Res

/-- The result `r` is not undefined behaviour. -/
def Defined {α : Type} (r : Res α) : Prop := r ≠ undefinedBehaviour

end Res

namespace Scan

/-- The kind of the lexeme `lexeme` by the spec's list of keywords: the kind of the keyword
whose text it is, character for character, and an identifier otherwise. -/
def keywordKind (lexeme : List Char) : TokenType :=
  if lexeme = "and".toList then TokenType.TOKEN_AND
  else if lexeme = "class".toList then TokenType.TOKEN_CLASS
  else if lexeme = "else".toList then TokenType.TOKEN_ELSE
  else if lexeme = "false".toList then TokenType.TOKEN_FALSE
  else if lexeme = "for".toList then TokenType.TOKEN_FOR
  else if lexeme = "fun".toList then TokenType.TOKEN_FUN
  else if lexeme = "if".toList then TokenType.TOKEN_IF
  else if lexeme = "nil".toList then TokenType.TOKEN_NIL
  else if lexeme = "or".toList then TokenType.TOKEN_OR
  else if lexeme = "print".toList then TokenType.TOKEN_PRINT
  else if lexeme = "return".toList then TokenType.TOKEN_RETURN
  else if lexeme = "super".toList then TokenType.TOKEN_SUPER
  else if lexeme = "this".toList then TokenType.TOKEN_THIS
  else if lexeme = "true".toList then TokenType.TOKEN_TRUE
  else if lexeme = "var".toList then TokenType.TOKEN_VAR
  else if lexeme = "while".toList then TokenType.TOKEN_WHILE
  else TokenType.TOKEN_IDENTIFIER

/-- The sixteen keywords: the text of each and its token kind. -/
def keywordTable : List (List Char × TokenType) :=
  [("and".toList, TokenType.TOKEN_AND), ("class".toList, TokenType.TOKEN_CLASS),
   ("else".toList, TokenType.TOKEN_ELSE), ("false".toList, TokenType.TOKEN_FALSE),
   ("for".toList, TokenType.TOKEN_FOR), ("fun".toList, TokenType.TOKEN_FUN),
   ("if".toList, TokenType.TOKEN_IF), ("nil".toList, TokenType.TOKEN_NIL),
   ("or".toList, TokenType.TOKEN_OR), ("print".toList, TokenType.TOKEN_PRINT),
   ("return".toList, TokenType.TOKEN_RETURN), ("super".toList, TokenType.TOKEN_SUPER),
   ("this".toList, TokenType.TOKEN_THIS), ("true".toList, TokenType.TOKEN_TRUE),
   ("var".toList, TokenType.TOKEN_VAR), ("while".toList, TokenType.TOKEN_WHILE)]

/-- The scanner `s` when a closing parenthesis is appended to the source text. -/
def closeScanner (s : Scanner) : Scanner :=
  ⟨s.start ++ [')'], s.current ++ [')'], s.line⟩

/-- The token `tok` when a closing parenthesis is appended to the source text. -/
def closeToken (tok : Token) : Token :=
  { tok with start := tok.start ++ [')'] }

end Scan

namespace Compiler

variable {D : Type}

/-- The state `st` of a compilation when a closing parenthesis is appended to the source
text: the two tokens and the scanner point into the longer text, and where the current token
is the end-of-input token of the shorter text, it is the closing parenthesis, already
scanned. -/
def closeState (st : State D) : State D :=
  { st with
    scanner :=
      if st.parser.current.type = TokenType.TOKEN_EOF then ⟨[')'], [], st.scanner.line⟩
      else Scan.closeScanner st.scanner,
    parser :=
      { st.parser with
        current :=
          if st.parser.current.type = TokenType.TOKEN_EOF then
            ⟨TokenType.TOKEN_RIGHT_PAREN, [')'], 1, st.parser.current.line⟩
          else Scan.closeToken st.parser.current,
        previous := Scan.closeToken st.parser.previous } }

/-- What the comparison of two compilations relies on: panic mode implies the error flag, the
text left to scan holds no terminator, and the lexemes of the two tokens lie within the
text. -/
def CloseInv (st : State D) : Prop :=
  PanicInv st ∧ '\x00' ∉ st.scanner.current ∧
    st.parser.current.length ≤ st.parser.current.start.length ∧
    st.parser.previous.length ≤ st.parser.previous.start.length ∧
    (st.parser.current.type = TokenType.TOKEN_NUMBER →
      Scan.isDigit (Scan.deref st.parser.current.start) = true) ∧
    (st.parser.previous.type = TokenType.TOKEN_NUMBER →
      Scan.isDigit (Scan.deref st.parser.previous.start) = true)

/-- The statement that the six parsing functions, run with fuel `m` and returning without an
error, run in the same way when a closing parenthesis is appended to the source text. -/
def ParseCloses (ops : DoubleOps D) (m : Nat) : Prop :=
  (∀ p (st st' : State D), CloseInv st → parsePrecedence ops m p st = Res.done st' →
    st'.parser.hadError = false →
    parsePrecedence ops m p (closeState st) = Res.done (closeState st')) ∧
  (∀ p (st st' : State D), CloseInv st → infixLoop ops m p st = Res.done st' →
    st'.parser.hadError = false →
    infixLoop ops m p (closeState st) = Res.done (closeState st')) ∧
  (∀ fn (st st' : State D), CloseInv st → callParseFn ops m fn st = Res.done st' →
    st'.parser.hadError = false →
    ((getRule st.parser.previous.type).prefixRule = some fn ∨
      (getRule st.parser.previous.type).infixRule = some fn) →
    callParseFn ops m fn (closeState st) = Res.done (closeState st')) ∧
  (∀ (st st' : State D), CloseInv st → binary ops m st = Res.done st' →
    st'.parser.hadError = false →
    binary ops m (closeState st) = Res.done (closeState st')) ∧
  (∀ (st st' : State D), CloseInv st → grouping ops m st = Res.done st' →
    st'.parser.hadError = false →
    grouping ops m (closeState st) = Res.done (closeState st')) ∧
  (∀ (st st' : State D), CloseInv st → unary ops m st = Res.done st' →
    st'.parser.hadError = false →
    unary ops m (closeState st) = Res.done (closeState st'))

/-- The statement that the six parsing functions, run with fuel `n` (and `parsePrecedence`
and its loop with a minimum precedence of `PREC_ASSIGNMENT` or higher), do not call a NULL
handler. -/
def ParseDefined (ops : DoubleOps D) (n : Nat) : Prop :=
  (∀ p (st : State D), PREC_ASSIGNMENT ≤ p → (parsePrecedence ops n p st).Defined) ∧
  (∀ p (st : State D), PREC_ASSIGNMENT ≤ p → (infixLoop ops n p st).Defined) ∧
  (∀ fn (st : State D), (callParseFn ops n fn st).Defined) ∧
  (∀ (st : State D), (binary ops n st).Defined) ∧
  (∀ (st : State D), (grouping ops n st).Defined) ∧
  (∀ (st : State D), (unary ops n st).Defined)

/-- The instruction bytes and the line table of the chunk have the same length. -/
def LinesInv (st : State D) : Prop := st.chunk.code.length = st.chunk.lines.length

end Compiler

/-- Walks the instruction bytes with their stack effects, starting with `depth` values on the
stack; `operand` says that the next byte is the operand of `OP_CONSTANT`. The result is the
number of values on the stack when the final `OP_RETURN` is reached; there is none when an
instruction finds fewer values than it needs, when a byte is no opcode, and when the code
does not end with its first `OP_RETURN`. -/
def stackWalkFrom : List Nat → Bool → Nat → Option Nat
  | [], _, _ => none
  | _ :: rest, true, depth => stackWalkFrom rest false depth
  | b :: rest, false, depth =>
    if b = OpCode.OP_CONSTANT.toByte then stackWalkFrom rest true (depth + 1)
    else if b = OpCode.OP_NIL.toByte ∨ b = OpCode.OP_TRUE.toByte ∨ b = OpCode.OP_FALSE.toByte
    then stackWalkFrom rest false (depth + 1)
    else if b = OpCode.OP_NOT.toByte ∨ b = OpCode.OP_NEGATE.toByte then
      if 1 ≤ depth then stackWalkFrom rest false depth else none
    else if OpCode.OP_EQUAL.toByte ≤ b ∧ b ≤ OpCode.OP_DIVIDE.toByte then
      if 2 ≤ depth then stackWalkFrom rest false (depth - 1) else none
    else if b = OpCode.OP_RETURN.toByte then
      if rest = [] then some depth else none
    else none

/-- The walk over a whole chunk, from its first byte and an empty stack. -/
def stackWalk (code : List Nat) : Option Nat := stackWalkFrom code false 0

/-- The code of one expression: `ExprCode n w k` says that the bytes `w` are what the compiler
emits for an expression when the constant pool holds `n` entries, and that `k` constants are
added: a constant instruction with the operand `n`, a literal instruction, the code of an
operand followed by a unary instruction, or the code of two operands followed by a binary
instruction. -/
inductive ExprCode : Nat → List Nat → Nat → Prop where
  | constant (n : Nat) (h : n ≤ 255) : ExprCode n [OpCode.OP_CONSTANT.toByte, n] 1
  | literal (n b : Nat)
      (h : b = OpCode.OP_NIL.toByte ∨ b = OpCode.OP_TRUE.toByte ∨ b = OpCode.OP_FALSE.toByte) :
      ExprCode n [b] 0
  | unary (n : Nat) (w : List Nat) (k b : Nat) (hw : ExprCode n w k)
      (h : b = OpCode.OP_NOT.toByte ∨ b = OpCode.OP_NEGATE.toByte) : ExprCode n (w ++ [b]) k
  | binary (n : Nat) (w1 : List Nat) (k1 : Nat) (w2 : List Nat) (k2 b : Nat)
      (h1 : ExprCode n w1 k1) (h2 : ExprCode (n + k1) w2 k2)
      (h : OpCode.OP_EQUAL.toByte ≤ b ∧ b ≤ OpCode.OP_DIVIDE.toByte) :
      ExprCode n (w1 ++ w2 ++ [b]) (k1 + k2)

namespace Compiler

variable {D : Type}

/-- The chunk of `st'` is the chunk of `st` with the code of one expression appended. -/
def EmitsExpr (st st' : State D) : Prop :=
  ∃ w k, st'.chunk.code = st.chunk.code ++ w ∧
    st'.chunk.constants.length = st.chunk.constants.length + k ∧
    ExprCode st.chunk.constants.length w k

/-- The chunk of `st` holds the bytes `base` followed by the code of one expression, compiled
when the pool held `n` entries. -/
def HoldsExpr (base : List Nat) (n : Nat) (st : State D) : Prop :=
  ∃ w k, st.chunk.code = base ++ w ∧ st.chunk.constants.length = n + k ∧ ExprCode n w k

/-- The statement that the six parsing functions, run with fuel `m`, emit the code of
expressions whenever they return without an error: the prefix functions and
`parsePrecedence` append the code of one expression, `binary` and the infix loop turn the code
of one expression into the code of a longer one. -/
def ParseEmits (ops : DoubleOps D) (m : Nat) : Prop :=
  (∀ p (st st' : State D), PanicInv st → parsePrecedence ops m p st = Res.done st' →
    st'.parser.hadError = false → EmitsExpr st st') ∧
  (∀ p (st st' : State D) base n, PanicInv st → infixLoop ops m p st = Res.done st' →
    st'.parser.hadError = false → HoldsExpr base n st → HoldsExpr base n st') ∧
  (∀ fn (st st' : State D), PanicInv st → callParseFn ops m fn st = Res.done st' →
    st'.parser.hadError = false →
    (getRule st.parser.previous.type).prefixRule = some fn → EmitsExpr st st') ∧
  (∀ (st st' : State D) base n, PanicInv st → binary ops m st = Res.done st' →
    st'.parser.hadError = false →
    (getRule st.parser.previous.type).infixRule = some ParseFn.binary →
    HoldsExpr base n st → HoldsExpr base n st') ∧
  (∀ (st st' : State D) base n, PanicInv st →
    callParseFn ops m ParseFn.binary st = Res.done st' →
    st'.parser.hadError = false →
    (getRule st.parser.previous.type).infixRule = some ParseFn.binary →
    HoldsExpr base n st → HoldsExpr base n st') ∧
  (∀ (st st' : State D), PanicInv st → grouping ops m st = Res.done st' →
    st'.parser.hadError = false → EmitsExpr st st') ∧
  (∀ (st st' : State D), PanicInv st → unary ops m st = Res.done st' →
    st'.parser.hadError = false →
    (getRule st.parser.previous.type).prefixRule = some ParseFn.unary → EmitsExpr st st')

end Compiler

/-- The state in which `string` is called for the source `"a"`: the string token is the
previous token, the chunk is empty. -/
def stringExample : State Int :=
  Compiler.shift (Compiler.shift (startState Int) ⟨TokenType.TOKEN_STRING, ['"', 'a', '"'], 3, 1⟩
    ⟨['"', 'a', '"'], [], 1⟩) ⟨TokenType.TOKEN_EOF, [], 0, 1⟩ ⟨[], [], 1⟩

/-- As `stringExample`, with 256 constants in the pool already. -/
def poolFullExample : State Int :=
  { stringExample with
    chunk := ⟨[], [], List.replicate 256 (Value.NUMBER_VAL 1)⟩ }

/-- The state in which `unary` is called for the source `-1`: the minus sign is the previous
token, the number the current one. -/
def negateExample : State Int :=
  Compiler.shift (Compiler.shift (startState Int) ⟨TokenType.TOKEN_MINUS, ['-', '1'], 1, 1⟩
    ⟨['-', '1'], ['1'], 1⟩) ⟨TokenType.TOKEN_NUMBER, ['1'], 1, 1⟩ ⟨['1'], [], 1⟩


namespace VMachine

open Value OpCode InterpretResult

variable {D : Type}

/-- One pass through the loop `for (;;)` of `run`: the instruction at `ip` is read and its case
of the `switch` is executed. The first component of the result is `none` when the case ends in
`break`, and then the loop goes on in the state returned; it is the value that `run` returns
when the case ends in `return`. The function `run` is the iteration of this pass. -/
def step (ops : DoubleOps D) (st : State D) : Res (Option InterpretResult × State D) :=
  (READ_BYTE st).bind fun r =>
    let instruction := r.1
    let st1 := r.2
    if instruction = OP_CONSTANT.toByte then
      (READ_CONSTANT st1).bind fun rc => (push rc.2 rc.1).bind fun s => Res.done (none, s)
    else if instruction = OP_NIL.toByte then
      (push st1 NIL_VAL).bind fun s => Res.done (none, s)
    else if instruction = OP_TRUE.toByte then
      (push st1 (BOOL_VAL true)).bind fun s => Res.done (none, s)
    else if instruction = OP_FALSE.toByte then
      (push st1 (BOOL_VAL false)).bind fun s => Res.done (none, s)
    else if instruction = OP_EQUAL.toByte then
      (pop st1).bind fun rb =>
        (pop rb.2).bind fun ra =>
          (push ra.2 (BOOL_VAL (valuesEqual ops ra.1 rb.1))).bind fun s => Res.done (none, s)
    else if instruction = OP_GREATER.toByte then
      (BINARY_OP st1 fun a b => BOOL_VAL (ops.gt a b)).bind fun s => Res.done (none, s)
    else if instruction = OP_LESS.toByte then
      (BINARY_OP st1 fun a b => BOOL_VAL (ops.lt a b)).bind fun s => Res.done (none, s)
    else if instruction = OP_ADD.toByte then
      opAdd ops st1
    else if instruction = OP_SUBTRACT.toByte then
      (BINARY_OP st1 fun a b => NUMBER_VAL (ops.sub a b)).bind fun s => Res.done (none, s)
    else if instruction = OP_MULTIPLY.toByte then
      (BINARY_OP st1 fun a b => NUMBER_VAL (ops.mul a b)).bind fun s => Res.done (none, s)
    else if instruction = OP_DIVIDE.toByte then
      (BINARY_OP st1 fun a b => NUMBER_VAL (ops.div a b)).bind fun s => Res.done (none, s)
    else if instruction = OP_NOT.toByte then
      (pop st1).bind fun rv =>
        (push rv.2 (BOOL_VAL (isFalsey rv.1))).bind fun s => Res.done (none, s)
    else if instruction = OP_NEGATE.toByte then
      (peek st1 0).bind fun v0 =>
        if !IS_NUMBER v0 then
          (runtimeError st1 "Operand must be a number.".toList).bind fun st2 =>
            Res.done (some INTERPRET_RUNTIME_ERROR, st2)
        else
          (pop st1).bind fun rv =>
            (AS_NUMBER rv.1).bind fun n =>
              (push rv.2 (NUMBER_VAL (ops.neg n))).bind fun st2 =>
                (opReturn st2).bind fun res => Res.done (some res.1, res.2)
    else if instruction = OP_RETURN.toByte then
      (opReturn st1).bind fun res => Res.done (some res.1, res.2)
    else Res.done (none, st1)

/-- The states at the head of the loop of `run`: `Reaches ops st s` says that the run that
starts in `st` is in the state `s` after some passes through the loop, none of which
returned. -/
inductive Reaches (ops : DoubleOps D) : State D → State D → Prop where
  | start (s : State D) : Reaches ops s s
  | pass (s s1 s2 : State D) (h : step ops s = Res.done (none, s1))
      (h2 : Reaches ops s1 s2) : Reaches ops s s2

/-- The value of `x op y` for the four arithmetic operators. -/
def arithValue (ops : DoubleOps D) : TokenType → D → D → D
  | TokenType.TOKEN_PLUS, x, y => ops.add x y
  | TokenType.TOKEN_MINUS, x, y => ops.sub x y
  | TokenType.TOKEN_STAR, x, y => ops.mul x y
  | TokenType.TOKEN_SLASH, x, y => ops.div x y
  | _, x, _ => x

end VMachine


/-! ## Sequencing and fuel -/

namespace Res

@[simp]
theorem bind_done {α β : Type} (a : α) (f : α → Res β) : (done a).bind f = f a := rfl

@[simp]
theorem bind_undefinedBehaviour {α β : Type} (f : α → Res β) :
    (undefinedBehaviour : Res α).bind f = undefinedBehaviour := rfl

@[simp]
theorem bind_outOfFuel {α β : Type} (f : α → Res β) :
    (outOfFuel : Res α).bind f = outOfFuel := rfl


theorem le_refl {α : Type} (r : Res α) : r.le r := Or.inr rfl

theorem outOfFuel_le {α : Type} (r : Res α) : (outOfFuel : Res α).le r := Or.inl rfl

theorem le_bind {α β : Type} {r r' : Res α} {f f' : α → Res β} (h : r.le r')
    (hf : ∀ a, (f a).le (f' a)) : (r.bind f).le (r'.bind f') := by
  rcases h with h | h
  · subst h; exact Or.inl rfl
  · subst h
    cases r with
    | done a => exact hf a
    | undefinedBehaviour => exact Or.inr rfl
    | outOfFuel => exact Or.inl rfl

theorem le_done {α : Type} {r r' : Res α} {a : α} (h : r.le r') (hr : r = done a) : r' = done a := by
  rcases h with h | h
  · rw [hr] at h; cases h
  · rw [← h, hr]

theorem le_ite {α : Type} {c : Prop} [Decidable c] {a a' b b' : Res α}
    (h1 : a.le a') (h2 : b.le b') : (if c then a else b).le (if c then a' else b') := by
  split
  · exact h1
  · exact h2

end Res

namespace Scan

/-! ## More fuel does not change the result of the scanner -/

theorem skipComment_le : ∀ n m s, n ≤ m → (skipComment n s).le (skipComment m s) := by
  intro n
  induction n with
  | zero => intro m s _; exact Res.outOfFuel_le _
  | succ n ih =>
    intro m s h
    obtain ⟨m, rfl⟩ : ∃ k, m = k + 1 := ⟨m - 1, by omega⟩
    simp only [skipComment]
    split
    · exact ih m s (by omega)
    · exact Res.le_refl _

theorem skipWhitespace_le : ∀ n m s, n ≤ m → (skipWhitespace n s).le (skipWhitespace m s) := by
  intro n
  induction n with
  | zero => intro m s _; exact Res.outOfFuel_le _
  | succ n ih =>
    intro m s h
    obtain ⟨m, rfl⟩ : ∃ k, m = k + 1 := ⟨m - 1, by omega⟩
    have hnm : n ≤ m := by omega
    simp only [skipWhitespace]
    split
    · exact ih m _ hnm
    · split
      · exact ih m _ hnm
      · split
        · split
          · exact Res.le_bind (skipComment_le n m s hnm) (fun a => ih m a hnm)
          · exact Res.le_refl _
        · exact Res.le_refl _

theorem identifierLoop_le : ∀ n m s, n ≤ m → (identifierLoop n s).le (identifierLoop m s) := by
  intro n
  induction n with
  | zero => intro m s _; exact Res.outOfFuel_le _
  | succ n ih =>
    intro m s h
    obtain ⟨m, rfl⟩ : ∃ k, m = k + 1 := ⟨m - 1, by omega⟩
    simp only [identifierLoop]
    split
    · exact ih m _ (by omega)
    · exact Res.le_refl _

theorem digitLoop_le : ∀ n m s, n ≤ m → (digitLoop n s).le (digitLoop m s) := by
  intro n
  induction n with
  | zero => intro m s _; exact Res.outOfFuel_le _
  | succ n ih =>
    intro m s h
    obtain ⟨m, rfl⟩ : ∃ k, m = k + 1 := ⟨m - 1, by omega⟩
    simp only [digitLoop]
    split
    · exact ih m _ (by omega)
    · exact Res.le_refl _

theorem stringLoop_le : ∀ n m s, n ≤ m → (stringLoop n s).le (stringLoop m s) := by
  intro n
  induction n with
  | zero => intro m s _; exact Res.outOfFuel_le _
  | succ n ih =>
    intro m s h
    obtain ⟨m, rfl⟩ : ∃ k, m = k + 1 := ⟨m - 1, by omega⟩
    simp only [stringLoop]
    split
    · exact ih m _ (by omega)
    · exact Res.le_refl _

theorem string_le (n m : Nat) (s : Scanner) (h : n ≤ m) : (string n s).le (string m s) :=
  Res.le_bind (stringLoop_le n m _ h) (fun _ => Res.le_refl _)

theorem number_le (n m : Nat) (s : Scanner) (h : n ≤ m) : (number n s).le (number m s) :=
  Res.le_bind (digitLoop_le n m _ h) (fun _ =>
    Res.le_ite (Res.le_bind (digitLoop_le n m _ h) (fun _ => Res.le_refl _)) (Res.le_refl _))

theorem identifier_le (n m : Nat) (s : Scanner) (h : n ≤ m) :
    (identifier n s).le (identifier m s) :=
  Res.le_bind (identifierLoop_le n m _ h) (fun _ => Res.le_refl _)

theorem scanSwitch_le (n m : Nat) (s : Scanner) (c : Char) (h : n ≤ m) :
    (scanSwitch n s c).le (scanSwitch m s c) := by
  unfold scanSwitch
  repeat (first | exact Res.le_refl _ | exact string_le n m s h | apply Res.le_ite)

theorem scanLexeme_le (n m : Nat) (s : Scanner) (h : n ≤ m) :
    (scanLexeme n s).le (scanLexeme m s) :=
  Res.le_ite (Res.le_refl _) (Res.le_ite (identifier_le n m _ h)
    (Res.le_ite (number_le n m _ h) (scanSwitch_le n m _ _ h)))

theorem scanToken_le (n m : Nat) (s : Scanner) (h : n ≤ m) :
    (scanToken n s).le (scanToken m s) :=
  Res.le_bind (skipWhitespace_le n m s h) (fun _ => scanLexeme_le n m _ h)

end Scan

namespace Compiler

variable {D : Type}

/-! ## More fuel does not change the result of the compiler -/

theorem advanceLoop_le : ∀ n m (st : State D), n ≤ m →
    (advanceLoop n st).le (advanceLoop m st) := by
  intro n
  induction n with
  | zero => intro m st _; exact Res.outOfFuel_le _
  | succ n ih =>
    intro m st h
    obtain ⟨m, rfl⟩ : ∃ k, m = k + 1 := ⟨m - 1, by omega⟩
    have hnm : n ≤ m := by omega
    simp only [advanceLoop]
    exact Res.le_bind (Scan.scanToken_le n m _ hnm)
      (fun _ => Res.le_ite (Res.le_refl _) (ih m _ hnm))

theorem advance_le (n m : Nat) (st : State D) (h : n ≤ m) :
    (advance n st).le (advance m st) :=
  advanceLoop_le n m _ h

theorem consume_le (n m : Nat) (st : State D) (type : TokenType) (message : List Char)
    (h : n ≤ m) : (consume n st type message).le (consume m st type message) :=
  Res.le_ite (advance_le n m st h) (Res.le_refl _)

theorem parseLe (ops : DoubleOps D) : ∀ n, ParseLe ops n := by
  intro n
  induction n with
  | zero =>
    refine ⟨?_, ?_, ?_, ?_, ?_, ?_⟩ <;> intros <;> left
    · simp [parsePrecedence]
    · simp [infixLoop]
    · simp [callParseFn]
    · simp [binary]
    · simp [grouping]
    · simp [unary]
  | succ n ih =>
    obtain ⟨ihP, ihL, ihC, ihB, ihG, ihU⟩ := ih
    refine ⟨?_, ?_, ?_, ?_, ?_, ?_⟩
    · intro m p st h
      obtain ⟨m, rfl⟩ : ∃ k, m = k + 1 := ⟨m - 1, by omega⟩
      have hnm : n ≤ m := by omega
      simp only [parsePrecedence]
      refine Res.le_bind (advance_le n m st hnm) (fun st1 => ?_)
      cases (getRule st1.parser.previous.type).prefixRule with
      | none => exact Res.le_refl _
      | some fn => exact Res.le_bind (ihC m fn st1 hnm) (fun st2 => ihL m p st2 hnm)
    · intro m p st h
      obtain ⟨m, rfl⟩ : ∃ k, m = k + 1 := ⟨m - 1, by omega⟩
      have hnm : n ≤ m := by omega
      simp only [infixLoop]
      refine Res.le_ite (Res.le_bind (advance_le n m st hnm) (fun st1 => ?_)) (Res.le_refl _)
      cases (getRule st1.parser.previous.type).infixRule with
      | none => exact Res.le_refl _
      | some fn => exact Res.le_bind (ihC m fn st1 hnm) (fun st2 => ihL m p st2 hnm)
    · intro m fn st h
      obtain ⟨m, rfl⟩ : ∃ k, m = k + 1 := ⟨m - 1, by omega⟩
      have hnm : n ≤ m := by omega
      cases fn with
      | grouping => simp only [callParseFn]; exact ihG m st hnm
      | unary => simp only [callParseFn]; exact ihU m st hnm
      | binary => simp only [callParseFn]; exact ihB m st hnm
      | number => simp only [callParseFn]; exact Res.le_refl _
      | string => simp only [callParseFn]; exact Res.le_refl _
      | literal => simp only [callParseFn]; exact Res.le_refl _
    · intro m st h
      obtain ⟨m, rfl⟩ : ∃ k, m = k + 1 := ⟨m - 1, by omega⟩
      have hnm : n ≤ m := by omega
      simp only [binary]
      exact Res.le_bind (ihP m _ st hnm) (fun _ => Res.le_refl _)
    · intro m st h
      obtain ⟨m, rfl⟩ : ∃ k, m = k + 1 := ⟨m - 1, by omega⟩
      have hnm : n ≤ m := by omega
      simp only [grouping]
      exact Res.le_bind (ihP m _ st hnm) (fun _ => consume_le n m _ _ _ hnm)
    · intro m st h
      obtain ⟨m, rfl⟩ : ∃ k, m = k + 1 := ⟨m - 1, by omega⟩
      have hnm : n ≤ m := by omega
      simp only [unary]
      exact Res.le_bind (ihP m _ st hnm) (fun _ => Res.le_refl _)

theorem compile_le (ops : DoubleOps D) (n m : Nat) (source : List Char) (chunk : Chunk D)
    (st : State D) (h : n ≤ m) :
    (compile ops n source chunk st).le (compile ops m source chunk st) :=
  Res.le_bind (advance_le n m _ h) (fun _ =>
    Res.le_bind ((parseLe ops n).1 m _ _ h) (fun _ =>
      Res.le_bind (consume_le n m _ _ _ h) (fun _ => Res.le_refl _)))

end Compiler


namespace VMachine

variable {D : Type}

/-! ## More fuel does not change the result of the VM -/

theorem run_le (ops : DoubleOps D) : ∀ n m (st : State D), n ≤ m →
    (run ops n st).le (run ops m st) := by
  intro n
  induction n with
  | zero => intro m st _; exact Res.outOfFuel_le _
  | succ n ih =>
    intro m st h
    obtain ⟨m, rfl⟩ : ∃ k, m = k + 1 := ⟨m - 1, by omega⟩
    have hnm : n ≤ m := by omega
    have ih' : ∀ st, (run ops n st).le (run ops m st) := fun st => ih m st hnm
    simp only [run]
    refine Res.le_bind (Res.le_refl _) (fun r => ?_)
    repeat' (first
      | exact ih' _
      | exact Res.le_refl _
      | exact Res.le_bind (Res.le_refl _) (fun _ => ih' _)
      | exact Res.le_bind (Res.le_refl _) (fun _ => Res.le_bind (Res.le_refl _) (fun _ => ih' _))
      | exact Res.le_bind (Res.le_refl _) (fun _ => Res.le_bind (Res.le_refl _) (fun _ =>
          Res.le_bind (Res.le_refl _) (fun _ => ih' _)))
      | apply Res.le_ite)
    refine Res.le_bind (Res.le_refl _) (fun ra => ?_)
    cases ra.1 with
    | none => exact ih' _
    | some result => exact Res.le_refl _

theorem interpret_le (ops : DoubleOps D) (n m : Nat) (source : List Char) (st : State D)
    (h : n ≤ m) : (interpret ops n source st).le (interpret ops m source st) :=
  Res.le_bind (Compiler.compile_le ops n m source _ st h) (fun _ =>
    Res.le_ite (Res.le_refl _) (run_le ops n m _ h))

end VMachine


/-! ## Returning with enough fuel -/

theorem Returns.of_le {α : Type} {f : Nat → Res α} {a : α} (n : Nat)
    (hle : ∀ n m, n ≤ m → (f n).le (f m)) (h : f n = Res.done a) : Returns f a :=
  ⟨n, fun m hm => Res.le_done (hle n m hm) h⟩

theorem Returns.const {α : Type} (a : α) : Returns (fun _ => Res.done a) a :=
  ⟨0, fun _ _ => rfl⟩

theorem Returns.bind {α β : Type} {f : Nat → Res α} {g : Nat → α → Res β} {a : α} {b : β}
    (hf : Returns f a) (hg : Returns (fun n => g n a) b) :
    Returns (fun n => (f n).bind (g n)) b := by
  obtain ⟨n1, h1⟩ := hf
  obtain ⟨n2, h2⟩ := hg
  refine ⟨max n1 n2, fun m hm => ?_⟩
  simp only [h1 m (le_trans (le_max_left _ _) hm), Res.bind_done]
  exact h2 m (le_trans (le_max_right _ _) hm)

/-- A function that spends one unit of fuel first. -/
theorem Returns.succ {α : Type} {f : Nat → Res α} {a : α}
    (h : Returns (fun n => f (n + 1)) a) : Returns f a := by
  obtain ⟨n, h⟩ := h
  refine ⟨n + 1, fun m hm => ?_⟩
  obtain ⟨k, rfl⟩ : ∃ k, m = k + 1 := ⟨m - 1, by omega⟩
  exact h k (by omega)

theorem Returns.unique {α : Type} {f : Nat → Res α} {a b : α}
    (ha : Returns f a) (hb : Returns f b) : a = b := by
  obtain ⟨n1, h1⟩ := ha
  obtain ⟨n2, h2⟩ := hb
  have h := h1 (max n1 n2) (le_max_left _ _)
  rw [h2 (max n1 n2) (le_max_right _ _)] at h
  cases h
  rfl

namespace Scan

/-! ## What the scanner returns on numbers, operators and the end of the text -/

theorem isDigit_not_isAlpha {c : Char} (h : isDigit c = true) : isAlpha c = false := by
  simp only [isDigit, Bool.and_eq_true, decide_eq_true_eq] at h
  simp only [isAlpha, Bool.or_eq_false_iff, Bool.and_eq_false_iff, decide_eq_false_iff_not]
  have h1 : (48 : Nat) ≤ c.toNat := h.1
  have h2 : c.toNat ≤ 57 := h.2
  refine ⟨⟨Or.inl ?_, Or.inl ?_⟩, ?_⟩
  · intro h3
    have : (97 : Nat) ≤ c.toNat := h3
    omega
  · intro h3
    have : (65 : Nat) ≤ c.toNat := h3
    omega
  · simp only [beq_eq_false_iff_ne, ne_eq]
    rintro rfl
    revert h2
    decide

theorem isDigit_ne {c d : Char} (h : isDigit c = true) (hd : isDigit d = false) : c ≠ d := by
  rintro rfl
  rw [h] at hd
  cases hd

theorem skipWhitespace_stop (s : Scanner) (h : StopsWhitespace s.current) (n : Nat) :
    skipWhitespace (n + 1) s = Res.done s := by
  obtain ⟨h1, h2, h3, h4, h5⟩ := h
  by_cases hs : deref s.current = '/'
  · have hn : peekNext s ≠ '/' := by
      unfold peekNext
      split
      · decide
      · exact h5 hs
    simp [skipWhitespace, peek, hs, hn]
  · simp [skipWhitespace, peek, h1, h2, h3, h4, hs]

theorem skipWhitespace_spaces (k : Nat) (r : List Char) (h : StopsWhitespace r) :
    ∀ (s : Scanner), s.current = List.replicate k ' ' ++ r →
      skipWhitespace (k + 1) s = Res.done { s with current := r } := by
  induction k with
  | zero =>
    intro s hs
    simp only [List.replicate_zero, List.nil_append] at hs
    rw [skipWhitespace_stop s (hs ▸ h) 0]
    cases s
    simp_all
  | succ k ih =>
    intro s hs
    have hp : peek s = ' ' := by simp [peek, deref, hs, List.replicate_succ]
    rw [skipWhitespace, if_pos (Or.inl hp), ih]
    · simp [advance]
    · simp [advance, hs, List.replicate_succ]

theorem skipWhitespace_returns (k : Nat) (r : List Char) (h : StopsWhitespace r) (s : Scanner)
    (hs : s.current = List.replicate k ' ' ++ r) :
    Returns (fun n => skipWhitespace n s) { s with current := r } :=
  Returns.of_le (k + 1) (fun n m h => skipWhitespace_le n m s h)
    (skipWhitespace_spaces k r h s hs)

/-! ## The comment loop -/

theorem skipComment_loops (s : Scanner) (h1 : peek s ≠ '\n') (h2 : isAtEnd s = false) :
    ∀ fuel, skipComment fuel s = Res.outOfFuel := by
  intro fuel
  induction fuel with
  | zero => rfl
  | succ n ih => simp [skipComment, h1, h2, ih]

theorem skipWhitespace_comment (s : Scanner) (rest : List Char) (h : s.current = '/' :: '/' :: rest) :
    ∀ fuel, skipWhitespace fuel s = Res.outOfFuel := by
  intro fuel
  cases fuel with
  | zero => rfl
  | succ n =>
    have h1 : peek s = '/' := by simp [peek, deref, h]
    have h2 : peekNext s = '/' := by simp [peekNext, isAtEnd, deref, h]
    have h3 : isAtEnd s = false := by simp [isAtEnd, deref, h]
    have h4 : peek s ≠ '\n' := by rw [h1]; decide
    simp [skipWhitespace, h1, h2, skipComment_loops s h4 h3]

theorem scanToken_comment (s : Scanner) (rest : List Char) (h : s.current = '/' :: '/' :: rest) :
    ∀ fuel, scanToken fuel s = Res.outOfFuel := by
  intro fuel
  simp [scanToken, skipWhitespace_comment s rest h]

theorem digitLoop_digits (ds : List Char) (hds : ∀ c ∈ ds, isDigit c = true) (r : List Char)
    (hr : isDigit (deref r) = false) :
    ∀ (s : Scanner), s.current = ds ++ r →
      digitLoop (ds.length + 1) s = Res.done { s with current := r } := by
  induction ds with
  | nil =>
    intro s hs
    simp only [List.nil_append] at hs
    simp only [List.length_nil, digitLoop, peek, hs, hr]
    cases s
    simp_all
  | cons d ds ih =>
    intro s hs
    have hd : isDigit (peek s) = true := by
      simp only [peek, hs, deref, List.cons_append, List.headD_cons]
      exact hds d (List.mem_cons_self _ _)
    rw [List.length_cons, digitLoop, if_pos hd, ih (fun c hc => hds c (List.mem_cons_of_mem _ hc))]
    · simp [advance]
    · simp [advance, hs]

theorem digitLoop_returns (ds : List Char) (hds : ∀ c ∈ ds, isDigit c = true) (r : List Char)
    (hr : isDigit (deref r) = false) (s : Scanner) (hs : s.current = ds ++ r) :
    Returns (fun n => digitLoop n s) { s with current := r } :=
  Returns.of_le (ds.length + 1) (fun n m h => digitLoop_le n m s h)
    (digitLoop_digits ds hds r hr s hs)

theorem number_returns (s : Scanner) (d : Char) (a r : List Char)
    (ha : IsNumberLexeme (d :: a)) (hr : StopsNumber r)
    (hstart : s.start = d :: a ++ r) (hcur : s.current = a ++ r) :
    Returns (fun n => number n s)
      (⟨TokenType.TOKEN_NUMBER, d :: a ++ r, a.length + 1, s.line⟩, ⟨d :: a ++ r, r, s.line⟩) := by
  obtain ⟨ds, fs, hne, hds, hfs, hcase⟩ := ha
  obtain ⟨hr1, hr2⟩ := hr
  cases ds with
  | nil => exact absurd rfl hne
  | cons d' ds =>
    have hds' : ∀ c ∈ ds, isDigit c = true := fun c hc => hds c (List.mem_cons_of_mem _ hc)
    rcases hcase with h | ⟨hfne, h⟩
    · -- no fractional part
      simp only [List.cons.injEq] at h
      obtain ⟨rfl, rfl⟩ := h
      refine Returns.bind (digitLoop_returns a hds' r hr1 s hcur) ?_
      have : ¬ (peek { s with current := r } = '.' ∧ isDigit (peekNext { s with current := r }) = true) := by
        intro h; exact hr2 h.1
      simp only [if_neg this]
      have heq : makeToken { s with current := r } TokenType.TOKEN_NUMBER =
          ⟨TokenType.TOKEN_NUMBER, d :: a ++ r, a.length + 1, s.line⟩ := by
        simp [makeToken, lexemeLength, hstart]
        omega
      rw [heq, hstart]
      exact Returns.const _
    · -- fractional part
      simp only [List.cons_append, List.cons.injEq] at h
      obtain ⟨rfl, rfl⟩ := h
      cases fs with
      | nil => exact absurd rfl hfne
      | cons f fs =>
        have hf : isDigit f = true := hfs f (List.mem_cons_self _ _)
        have hfs' : ∀ c ∈ f :: fs, isDigit c = true := hfs
        have hdot : isDigit (deref ('.' :: (f :: fs) ++ r)) = false := by
          show isDigit '.' = false
          decide
        have hcur' : s.current = ds ++ ('.' :: (f :: fs) ++ r) := by simp [hcur]
        refine Returns.bind (digitLoop_returns ds hds' _ hdot s hcur') ?_
        have hc : (peek { s with current := '.' :: (f :: fs) ++ r } = '.' ∧
            isDigit (peekNext { s with current := '.' :: (f :: fs) ++ r }) = true) := by
          refine ⟨rfl, ?_⟩
          simp [peekNext, isAtEnd, deref, hf]
        simp only [if_pos hc]
        refine Returns.bind (digitLoop_returns (f :: fs) hfs' r hr1 _ (by simp [advance])) ?_
        have heq : makeToken { start := s.start, current := r, line := s.line }
            TokenType.TOKEN_NUMBER =
            ⟨TokenType.TOKEN_NUMBER, d :: (ds ++ '.' :: f :: fs) ++ r,
              (ds ++ '.' :: f :: fs).length + 1, s.line⟩ := by
          simp [makeToken, lexemeLength, hstart]
          omega
        simp only [advance]
        rw [heq, hstart]
        exact Returns.const _

theorem IsNumberLexeme.head {a : List Char} (h : IsNumberLexeme a) :
    ∃ d a', a = d :: a' ∧ isDigit d = true := by
  obtain ⟨ds, fs, hne, hds, _, hcase⟩ := h
  cases ds with
  | nil => exact absurd rfl hne
  | cons d ds =>
    have hd : isDigit d = true := hds d (List.mem_cons_self _ _)
    rcases hcase with h | ⟨_, h⟩
    · exact ⟨d, ds, h, hd⟩
    · exact ⟨d, ds ++ '.' :: fs, by simp [h], hd⟩

theorem isDigit_stopsWhitespace {d : Char} (r : List Char) (hd : isDigit d = true) :
    StopsWhitespace (d :: r) :=
  ⟨isDigit_ne hd (by decide), isDigit_ne hd (by decide), isDigit_ne hd (by decide),
    isDigit_ne hd (by decide), fun h => absurd h (isDigit_ne hd (by decide))⟩

theorem scanLexeme_digit (s : Scanner) (hd : isDigit (deref s.current) = true) (n : Nat) :
    scanLexeme n s = number n (advance s).2 := by
  have h0 : isAtEnd s = false := by
    simp only [isAtEnd, beq_eq_false_iff_ne]
    exact isDigit_ne hd (by decide)
  have h1 : isAlpha (advance s).1 = false := isDigit_not_isAlpha hd
  have h2 : isDigit (advance s).1 = true := hd
  simp only [scanLexeme, h0, h1, h2, if_true, Bool.false_eq_true, if_false]

theorem scanToken_number (s : Scanner) (k : Nat) (a r : List Char) (ha : IsNumberLexeme a)
    (hr : StopsNumber r) (hs : s.current = List.replicate k ' ' ++ (a ++ r)) :
    Returns (fun n => scanToken n s)
      (⟨TokenType.TOKEN_NUMBER, a ++ r, a.length, s.line⟩, ⟨a ++ r, r, s.line⟩) := by
  obtain ⟨d, a', rfl, hd⟩ := ha.head
  refine Returns.bind (skipWhitespace_returns k _ (isDigit_stopsWhitespace _ hd) s hs) ?_
  show Returns (fun n => scanLexeme n ⟨d :: a' ++ r, d :: a' ++ r, s.line⟩) _
  simp only [scanLexeme_digit ⟨d :: a' ++ r, d :: a' ++ r, s.line⟩ hd]
  exact number_returns (advance ⟨d :: a' ++ r, d :: a' ++ r, s.line⟩).2 d a' r ha hr rfl rfl

theorem symbolToken_cases {c : Char} {ty : TokenType} (h : symbolToken c = some ty) :
    c = '(' ∨ c = ')' ∨ c = '{' ∨ c = '}' ∨ c = ';' ∨ c = ',' ∨ c = '.' ∨ c = '-' ∨ c = '+' ∨
      c = '*' := by
  unfold symbolToken at h
  by_contra hc
  simp only [not_or] at hc
  obtain ⟨h1, h2, h3, h4, h5, h6, h7, h8, h9, h10⟩ := hc
  simp [h1, h2, h3, h4, h5, h6, h7, h8, h9, h10] at h

theorem scanToken_symbol (s : Scanner) (k : Nat) (c : Char) (ty : TokenType) (r : List Char)
    (hc : symbolToken c = some ty) (hs : s.current = List.replicate k ' ' ++ c :: r) :
    Returns (fun n => scanToken n s) (⟨ty, c :: r, 1, s.line⟩, ⟨c :: r, r, s.line⟩) := by
  have hsw : StopsWhitespace (c :: r) := by
    rcases symbolToken_cases hc with h | h | h | h | h | h | h | h | h | h <;> subst h <;>
      simp [StopsWhitespace, deref]
  refine Returns.bind (skipWhitespace_returns k _ hsw s hs) ?_
  show Returns (fun n => scanLexeme n ⟨c :: r, c :: r, s.line⟩) _
  have hone : (c :: r).length - r.length = 1 := by simp
  rcases symbolToken_cases hc with h | h | h | h | h | h | h | h | h | h <;> subst h <;>
    cases hc <;>
    simp [scanLexeme, scanSwitch, isAtEnd, deref, advance, makeToken, lexemeLength, hone,
      isAlpha, isDigit] <;>
    exact Returns.const _

theorem scanToken_eof (s : Scanner) (k : Nat) (hs : s.current = List.replicate k ' ') :
    Returns (fun n => scanToken n s) (⟨TokenType.TOKEN_EOF, [], 0, s.line⟩, ⟨[], [], s.line⟩) := by
  have hsw : StopsWhitespace [] :=
    ⟨by decide, by decide, by decide, by decide, fun h => absurd h (by decide)⟩
  refine Returns.bind (skipWhitespace_returns k [] hsw s (by simpa using hs)) ?_
  show Returns (fun n => scanLexeme n ⟨[], [], s.line⟩) _
  simp [scanLexeme, isAtEnd, deref, makeToken, lexemeLength]
  exact Returns.const _

end Scan


namespace Compiler

variable {D : Type}

/-! ## The compiler, one call at a time -/

theorem advance_returns (st : State D) (tok : Token) (sc : Scanner)
    (h : Returns (fun n => Scan.scanToken n st.scanner) (tok, sc))
    (hne : tok.type ≠ TokenType.TOKEN_ERROR) :
    Returns (fun n => advance n st) (shift st tok sc) := by
  apply Returns.succ
  simp only [advance, advanceLoop]
  refine Returns.bind h ?_
  simp only [ne_eq, hne, not_false_eq_true, if_true]
  exact Returns.const _

theorem consume_returns (st : State D) (type : TokenType) (message : List Char) (st1 : State D)
    (hty : st.parser.current.type = type) (h : Returns (fun n => advance n st) st1) :
    Returns (fun n => consume n st type message) st1 := by
  simp only [consume, hty, if_true]
  exact h

theorem parsePrecedence_returns (ops : DoubleOps D) (p : Precedence) (st st1 st2 st3 : State D)
    (fn : ParseFn) (h1 : Returns (fun n => advance n st) st1)
    (hfn : (getRule st1.parser.previous.type).prefixRule = some fn)
    (h2 : Returns (fun n => callParseFn ops n fn st1) st2)
    (h3 : Returns (fun n => infixLoop ops n p st2) st3) :
    Returns (fun n => parsePrecedence ops n p st) st3 := by
  apply Returns.succ
  simp only [parsePrecedence]
  refine Returns.bind h1 ?_
  simp only [hfn]
  exact Returns.bind h2 h3

theorem infixLoop_stop (ops : DoubleOps D) (p : Precedence) (st : State D)
    (h : ¬ p ≤ (getRule st.parser.current.type).precedence) :
    Returns (fun n => infixLoop ops n p st) st := by
  apply Returns.succ
  simp only [infixLoop, h, if_false]
  exact Returns.const _

theorem infixLoop_step (ops : DoubleOps D) (p : Precedence) (st st1 st2 st3 : State D)
    (fn : ParseFn) (hp : p ≤ (getRule st.parser.current.type).precedence)
    (h1 : Returns (fun n => advance n st) st1)
    (hfn : (getRule st1.parser.previous.type).infixRule = some fn)
    (h2 : Returns (fun n => callParseFn ops n fn st1) st2)
    (h3 : Returns (fun n => infixLoop ops n p st2) st3) :
    Returns (fun n => infixLoop ops n p st) st3 := by
  apply Returns.succ
  simp only [infixLoop, hp, if_true]
  refine Returns.bind h1 ?_
  simp only [hfn]
  exact Returns.bind h2 h3

theorem callParseFn_number (ops : DoubleOps D) (st : State D) :
    Returns (fun n => callParseFn ops n ParseFn.number st) (number ops st) := by
  apply Returns.succ
  simp only [callParseFn]
  exact Returns.const _

theorem callParseFn_string (ops : DoubleOps D) (st : State D) :
    Returns (fun n => callParseFn ops n ParseFn.string st) (string st) := by
  apply Returns.succ
  simp only [callParseFn]
  exact Returns.const _

theorem callParseFn_literal (ops : DoubleOps D) (st : State D) :
    Returns (fun n => callParseFn ops n ParseFn.literal st) (literal st) := by
  apply Returns.succ
  simp only [callParseFn]
  exact Returns.const _

theorem callParseFn_binary (ops : DoubleOps D) (st st1 : State D)
    (h : Returns (fun n => parsePrecedence ops n
      ((getRule st.parser.previous.type).precedence + 1) st) st1) :
    Returns (fun n => callParseFn ops n ParseFn.binary st)
      (binaryEmit st1 st.parser.previous.type) := by
  apply Returns.succ
  simp only [callParseFn]
  apply Returns.succ
  simp only [binary]
  exact Returns.bind h (Returns.const _)

theorem callParseFn_unary (ops : DoubleOps D) (st st1 : State D)
    (h : Returns (fun n => parsePrecedence ops n PREC_UNARY st) st1) :
    Returns (fun n => callParseFn ops n ParseFn.unary st)
      (unaryEmit st1 st.parser.previous.type) := by
  apply Returns.succ
  simp only [callParseFn]
  apply Returns.succ
  simp only [unary]
  exact Returns.bind h (Returns.const _)

theorem callParseFn_grouping (ops : DoubleOps D) (st st1 st2 : State D)
    (h1 : Returns (fun n => parsePrecedence ops n PREC_ASSIGNMENT st) st1)
    (h2 : Returns (fun n => consume n st1 TokenType.TOKEN_RIGHT_PAREN
      "Expect ')' after expression.".toList) st2) :
    Returns (fun n => callParseFn ops n ParseFn.grouping st) st2 := by
  apply Returns.succ
  simp only [callParseFn]
  apply Returns.succ
  simp only [grouping]
  exact Returns.bind h1 h2

theorem compile_returns (ops : DoubleOps D) (source : List Char) (chunk : Chunk D)
    (st st1 st2 st3 : State D)
    (h1 : Returns (fun n => advance n (compileStart st source chunk)) st1)
    (h2 : Returns (fun n => parsePrecedence ops n PREC_ASSIGNMENT st1) st2)
    (h3 : Returns (fun n => consume n st2 TokenType.TOKEN_EOF
      "Expect end of expression".toList) st3) :
    Returns (fun n => compile ops n source chunk st)
      (!(endCompiler st3).parser.hadError, endCompiler st3) :=
  Returns.bind h1 (Returns.bind h2 (Returns.bind h3 (Returns.const _)))

end Compiler


namespace Compiler

variable {D : Type}

/-! ## What the emitting functions leave unchanged -/

@[simp]
theorem errorAt_scanner (st : State D) (tok : Token) (msg : List Char) :
    (errorAt st tok msg).scanner = st.scanner := by
  unfold errorAt; split <;> rfl

@[simp]
theorem errorAt_current (st : State D) (tok : Token) (msg : List Char) :
    (errorAt st tok msg).parser.current = st.parser.current := by
  unfold errorAt; split <;> rfl

@[simp]
theorem errorAt_previous (st : State D) (tok : Token) (msg : List Char) :
    (errorAt st tok msg).parser.previous = st.parser.previous := by
  unfold errorAt; split <;> rfl

@[simp]
theorem errorAt_chunk (st : State D) (tok : Token) (msg : List Char) :
    (errorAt st tok msg).chunk = st.chunk := by
  unfold errorAt; split <;> rfl

@[simp]
theorem errorAt_vm (st : State D) (tok : Token) (msg : List Char) :
    (errorAt st tok msg).vm = st.vm := by
  unfold errorAt; split <;> rfl

@[simp]
theorem errorAt_heap (st : State D) (tok : Token) (msg : List Char) :
    (errorAt st tok msg).heap = st.heap := by
  unfold errorAt; split <;> rfl

@[simp]
theorem errorAt_stdout (st : State D) (tok : Token) (msg : List Char) :
    (errorAt st tok msg).stdout = st.stdout := by
  unfold errorAt; split <;> rfl

@[simp]
theorem emitByte_scanner (st : State D) (b : Nat) : (emitByte st b).scanner = st.scanner := rfl

@[simp]
theorem emitByte_parser_eq (st : State D) (b : Nat) : (emitByte st b).parser = st.parser := rfl

@[simp]
theorem emitByte_vm (st : State D) (b : Nat) : (emitByte st b).vm = st.vm := rfl

@[simp]
theorem emitByte_heap (st : State D) (b : Nat) : (emitByte st b).heap = st.heap := rfl

@[simp]
theorem emitByte_stdout (st : State D) (b : Nat) : (emitByte st b).stdout = st.stdout := rfl

@[simp]
theorem emitByte_stderr (st : State D) (b : Nat) : (emitByte st b).stderr = st.stderr := rfl

@[simp]
theorem emitByte_constants (st : State D) (b : Nat) :
    (emitByte st b).chunk.constants = st.chunk.constants := rfl

@[simp]
theorem emitByte_code (st : State D) (b : Nat) :
    (emitByte st b).chunk.code = st.chunk.code ++ [b] := rfl

@[simp]
theorem emitByte_lines (st : State D) (b : Nat) :
    (emitByte st b).chunk.lines = st.chunk.lines ++ [st.parser.previous.line] := rfl

@[simp]
theorem makeConstant_scanner (st : State D) (v : Value D) :
    (makeConstant st v).2.scanner = st.scanner := by
  unfold makeConstant; dsimp only; split <;> simp [error]

@[simp]
theorem makeConstant_current (st : State D) (v : Value D) :
    (makeConstant st v).2.parser.current = st.parser.current := by
  unfold makeConstant; dsimp only; split <;> simp [error]

@[simp]
theorem makeConstant_previous (st : State D) (v : Value D) :
    (makeConstant st v).2.parser.previous = st.parser.previous := by
  unfold makeConstant; dsimp only; split <;> simp [error]

@[simp]
theorem makeConstant_constants (st : State D) (v : Value D) :
    (makeConstant st v).2.chunk.constants = st.chunk.constants ++ [v] := by
  unfold makeConstant; dsimp only; split <;> simp [error, addConstant]

@[simp]
theorem emitConstant_scanner (st : State D) (v : Value D) :
    (emitConstant st v).scanner = st.scanner := by
  simp [emitConstant, emitBytes]

@[simp]
theorem emitConstant_current (st : State D) (v : Value D) :
    (emitConstant st v).parser.current = st.parser.current := by
  simp [emitConstant, emitBytes]

@[simp]
theorem emitConstant_previous (st : State D) (v : Value D) :
    (emitConstant st v).parser.previous = st.parser.previous := by
  simp [emitConstant, emitBytes]

@[simp]
theorem emitConstant_constants (st : State D) (v : Value D) :
    (emitConstant st v).chunk.constants = st.chunk.constants ++ [v] := by
  simp [emitConstant, emitBytes]

@[simp]
theorem number_scanner (ops : DoubleOps D) (st : State D) :
    (number ops st).scanner = st.scanner := by
  simp [number]

@[simp]
theorem number_current (ops : DoubleOps D) (st : State D) :
    (number ops st).parser.current = st.parser.current := by
  simp [number]

@[simp]
theorem number_previous (ops : DoubleOps D) (st : State D) :
    (number ops st).parser.previous = st.parser.previous := by
  simp [number]

@[simp]
theorem binaryEmit_scanner (st : State D) (ty : TokenType) :
    (binaryEmit st ty).scanner = st.scanner := by
  unfold binaryEmit; split <;> rfl

@[simp]
theorem binaryEmit_parser_eq (st : State D) (ty : TokenType) :
    (binaryEmit st ty).parser = st.parser := by
  unfold binaryEmit; split <;> rfl

@[simp]
theorem binaryEmit_constants (st : State D) (ty : TokenType) :
    (binaryEmit st ty).chunk.constants = st.chunk.constants := by
  unfold binaryEmit; split <;> rfl

@[simp]
theorem binaryEmit_stderr (st : State D) (ty : TokenType) :
    (binaryEmit st ty).stderr = st.stderr := by
  unfold binaryEmit; split <;> rfl

@[simp]
theorem unaryEmit_scanner (st : State D) (ty : TokenType) :
    (unaryEmit st ty).scanner = st.scanner := by
  unfold unaryEmit; split <;> rfl

@[simp]
theorem unaryEmit_parser_eq (st : State D) (ty : TokenType) :
    (unaryEmit st ty).parser = st.parser := by
  unfold unaryEmit; split <;> rfl

@[simp]
theorem shift_current (st : State D) (tok : Token) (sc : Scanner) :
    (shift st tok sc).parser.current = tok := rfl

@[simp]
theorem shift_previous (st : State D) (tok : Token) (sc : Scanner) :
    (shift st tok sc).parser.previous = st.parser.current := rfl

@[simp]
theorem shift_scanner (st : State D) (tok : Token) (sc : Scanner) :
    (shift st tok sc).scanner = sc := rfl

@[simp]
theorem shift_hadError (st : State D) (tok : Token) (sc : Scanner) :
    (shift st tok sc).parser.hadError = st.parser.hadError := rfl

@[simp]
theorem shift_panicMode (st : State D) (tok : Token) (sc : Scanner) :
    (shift st tok sc).parser.panicMode = st.parser.panicMode := rfl

@[simp]
theorem shift_chunk (st : State D) (tok : Token) (sc : Scanner) :
    (shift st tok sc).chunk = st.chunk := rfl

@[simp]
theorem shift_stderr (st : State D) (tok : Token) (sc : Scanner) :
    (shift st tok sc).stderr = st.stderr := rfl

/-! ## A chain of number literals joined by `+` -/

theorem stopsNumber_joinPlus (ls : List (List Char)) : Scan.StopsNumber (joinPlus ls) := by
  cases ls with
  | nil => exact ⟨by decide, by decide⟩
  | cons l ls => exact ⟨by simp [joinPlus, Scan.deref, Scan.isDigit], by simp [joinPlus, Scan.deref]⟩

theorem scanToken_lookahead (ln : Nat) (ls : List (List Char)) (s : Scanner)
    (hs : s.current = joinPlus ls) (hln : s.line = ln) :
    Returns (fun n => Scan.scanToken n s) (lookahead ln ls) := by
  subst hln
  cases ls with
  | nil => exact Scan.scanToken_eof s 0 hs
  | cons l ls => exact Scan.scanToken_symbol s 1 '+' _ _ rfl hs

theorem lookahead_prec (ln : Nat) (ls : List (List Char)) :
    (getRule (lookahead ln ls).1.type).precedence ≤ PREC_TERM := by
  cases ls <;> simp [lookahead, getRule, rules, PREC_TERM, PREC_NONE]

theorem lookahead_ne_error (ln : Nat) (ls : List (List Char)) :
    (lookahead ln ls).1.type ≠ TokenType.TOKEN_ERROR := by
  cases ls <;> simp [lookahead]

theorem infixLoop_terms (ops : DoubleOps D) (ln : Nat) :
    ∀ (ls : List (List Char)) (st : State D), (∀ l ∈ ls, Scan.IsNumberLexeme l) →
      st.parser.current = (lookahead ln ls).1 → st.scanner = (lookahead ln ls).2 →
      Returns (fun n => infixLoop ops n PREC_ASSIGNMENT st) (afterTerms ops ln ls st) := by
  intro ls
  induction ls with
  | nil =>
    intro st _ hcur _
    refine infixLoop_stop ops _ st ?_
    rw [hcur]
    simp [lookahead, getRule, rules, PREC_ASSIGNMENT, PREC_NONE]
  | cons l ls ih =>
    intro st hls hcur hsc
    have hl : Scan.IsNumberLexeme l := hls l (List.mem_cons_self _ _)
    -- the number token
    have hnum := Scan.scanToken_number st.scanner 1 l (joinPlus ls) hl (stopsNumber_joinPlus ls)
      (by rw [hsc]; rfl)
    have hadv1 := advance_returns st _ _ hnum (by simp)
    have hline : st.scanner.line = ln := by rw [hsc]; rfl
    rw [hline] at hadv1
    -- the token after it
    have hadv2 : Returns (fun n => advance n
        (shift st ⟨TokenType.TOKEN_NUMBER, l ++ joinPlus ls, l.length, ln⟩
          ⟨l ++ joinPlus ls, joinPlus ls, ln⟩))
        (shift (shift st ⟨TokenType.TOKEN_NUMBER, l ++ joinPlus ls, l.length, ln⟩
          ⟨l ++ joinPlus ls, joinPlus ls, ln⟩) (lookahead ln ls).1 (lookahead ln ls).2) :=
      advance_returns _ (lookahead ln ls).1 (lookahead ln ls).2
        (scanToken_lookahead ln ls _ rfl rfl) (lookahead_ne_error ln ls)
    have hprev : (shift st ⟨TokenType.TOKEN_NUMBER, l ++ joinPlus ls, l.length, ln⟩
        ⟨l ++ joinPlus ls, joinPlus ls, ln⟩).parser.previous.type = TokenType.TOKEN_PLUS := by
      simp [shift, hcur, lookahead]
    have hstop : ¬ (getRule TokenType.TOKEN_PLUS).precedence + 1 ≤
        (getRule (lookahead ln ls).1.type).precedence := by
      cases ls <;> simp [lookahead, getRule, rules, PREC_TERM, PREC_NONE]
    have hpp : Returns (fun n => parsePrecedence ops n
        ((getRule TokenType.TOKEN_PLUS).precedence + 1)
        (shift st ⟨TokenType.TOKEN_NUMBER, l ++ joinPlus ls, l.length, ln⟩
          ⟨l ++ joinPlus ls, joinPlus ls, ln⟩))
        (number ops (shift (shift st ⟨TokenType.TOKEN_NUMBER, l ++ joinPlus ls, l.length, ln⟩
          ⟨l ++ joinPlus ls, joinPlus ls, ln⟩) (lookahead ln ls).1 (lookahead ln ls).2)) :=
      parsePrecedence_returns ops _ _ _ _ _ ParseFn.number hadv2 rfl
        (callParseFn_number ops _) (infixLoop_stop ops _ _ (by simpa using hstop))
    rw [← hprev] at hpp
    have hbin := callParseFn_binary ops _ _ hpp
    rw [hprev] at hbin
    refine infixLoop_step ops _ st _ _ _ ParseFn.binary ?_ hadv1 ?_ hbin ?_
    · rw [hcur]; simp [lookahead, getRule, rules, PREC_ASSIGNMENT, PREC_TERM]
    · rw [hprev]; rfl
    · exact ih _ (fun l' hl' => hls l' (List.mem_cons_of_mem _ hl')) (by simp) (by simp)

theorem number_clean (ops : DoubleOps D) (st : State D)
    (hc : st.chunk.constants.length ≤ 255) :
    (number ops st).parser.hadError = st.parser.hadError ∧
    (number ops st).parser.panicMode = st.parser.panicMode ∧
    (number ops st).stderr = st.stderr := by
  have h : ¬ st.chunk.constants.length > 255 := by omega
  simp [number, emitConstant, makeConstant, addConstant, UINT8_MAX, h, emitBytes, emitByte]

theorem number_error (ops : DoubleOps D) (st : State D)
    (hc : 256 ≤ st.chunk.constants.length) (hp : st.parser.panicMode = false)
    (hty : st.parser.previous.type = TokenType.TOKEN_NUMBER) :
    (number ops st).parser.hadError = true ∧
    (number ops st).parser.panicMode = true ∧
    (number ops st).stderr = st.stderr ++ [Diagnostic.compileError st.parser.previous.line
      (" at '".toList ++ st.parser.previous.start.take st.parser.previous.length ++ "'".toList)
      "Too many constants in one chunk.".toList] := by
  have h : st.chunk.constants.length > 255 := by omega
  simp [number, emitConstant, makeConstant, addConstant, UINT8_MAX, h, emitBytes, emitByte,
    error, errorAt, hp, hty]

theorem afterTerms_constants (ops : DoubleOps D) (ln : Nat) :
    ∀ (ls : List (List Char)) (st : State D),
      (afterTerms ops ln ls st).chunk.constants.length =
        st.chunk.constants.length + ls.length := by
  intro ls
  induction ls with
  | nil => intro st; rfl
  | cons l ls ih =>
    intro st
    rw [afterTerms, ih]
    simp [number]
    omega

theorem afterTerms_current (ops : DoubleOps D) (ln : Nat) :
    ∀ (ls : List (List Char)) (st : State D), st.parser.current = (lookahead ln ls).1 →
      st.scanner = (lookahead ln ls).2 →
      (afterTerms ops ln ls st).parser.current = ⟨TokenType.TOKEN_EOF, [], 0, ln⟩ ∧
      (afterTerms ops ln ls st).scanner = ⟨[], [], ln⟩ := by
  intro ls
  induction ls with
  | nil => intro st h1 h2; exact ⟨h1, h2⟩
  | cons l ls ih =>
    intro st _ _
    rw [afterTerms]
    exact ih _ (by simp) (by simp)

theorem afterTerms_clean (ops : DoubleOps D) (ln : Nat) :
    ∀ (ls : List (List Char)) (st : State D),
      st.chunk.constants.length + ls.length ≤ 256 →
      (afterTerms ops ln ls st).parser.hadError = st.parser.hadError ∧
      (afterTerms ops ln ls st).parser.panicMode = st.parser.panicMode ∧
      (afterTerms ops ln ls st).stderr = st.stderr := by
  intro ls
  induction ls with
  | nil => intro st _; exact ⟨rfl, rfl, rfl⟩
  | cons l ls ih =>
    intro st hc
    simp only [List.length_cons] at hc
    rw [afterTerms]
    obtain ⟨h1, h2, h3⟩ := ih (binaryEmit (number ops (shift (shift st
      ⟨TokenType.TOKEN_NUMBER, l ++ joinPlus ls, l.length, ln⟩
      ⟨l ++ joinPlus ls, joinPlus ls, ln⟩) (lookahead ln ls).1 (lookahead ln ls).2))
      TokenType.TOKEN_PLUS) (by simp [number]; omega)
    obtain ⟨g1, g2, g3⟩ := number_clean ops (shift (shift st
      ⟨TokenType.TOKEN_NUMBER, l ++ joinPlus ls, l.length, ln⟩
      ⟨l ++ joinPlus ls, joinPlus ls, ln⟩) (lookahead ln ls).1 (lookahead ln ls).2)
      (by simp; omega)
    rw [h1, h2, h3]
    simp only [binaryEmit_parser_eq, binaryEmit_stderr, g1, g2, g3]
    simp

theorem afterTerms_error (ops : DoubleOps D) (ln : Nat) :
    ∀ (ls : List (List Char)) (st : State D) (hne : ls ≠ []),
      st.parser.panicMode = false →
      st.chunk.constants.length + ls.length = 257 →
      (afterTerms ops ln ls st).parser.hadError = true ∧
      (afterTerms ops ln ls st).stderr = st.stderr ++ [Diagnostic.compileError ln
        (" at '".toList ++ ls.getLast hne ++ "'".toList)
        "Too many constants in one chunk.".toList] := by
  intro ls
  induction ls with
  | nil => intro st hne; exact absurd rfl hne
  | cons l ls ih =>
    intro st hne hp hc
    simp only [List.length_cons] at hc
    rw [afterTerms]
    cases ls with
    | nil =>
      simp only [List.length_nil] at hc
      obtain ⟨g1, _, g3⟩ := number_error ops (shift (shift st
        ⟨TokenType.TOKEN_NUMBER, l ++ joinPlus [], l.length, ln⟩
        ⟨l ++ joinPlus [], joinPlus [], ln⟩) (lookahead ln []).1 (lookahead ln []).2)
        (by simp; omega) (by simpa using hp) (by simp)
      simp only [afterTerms, binaryEmit_parser_eq, binaryEmit_stderr, g1, g3]
      simp
    | cons l' ls' =>
      obtain ⟨g1, g2, g3⟩ := number_clean ops (shift (shift st
        ⟨TokenType.TOKEN_NUMBER, l ++ joinPlus (l' :: ls'), l.length, ln⟩
        ⟨l ++ joinPlus (l' :: ls'), joinPlus (l' :: ls'), ln⟩) (lookahead ln (l' :: ls')).1
        (lookahead ln (l' :: ls')).2) (by simp at hc ⊢; omega)
      obtain ⟨h1, h3⟩ := ih (binaryEmit (number ops (shift (shift st
        ⟨TokenType.TOKEN_NUMBER, l ++ joinPlus (l' :: ls'), l.length, ln⟩
        ⟨l ++ joinPlus (l' :: ls'), joinPlus (l' :: ls'), ln⟩) (lookahead ln (l' :: ls')).1
        (lookahead ln (l' :: ls')).2)) TokenType.TOKEN_PLUS) (by simp)
        (by simp only [binaryEmit_parser_eq, g2]; simpa using hp)
        (by simp [number] at hc ⊢; omega)
      rw [h1, h3]
      simp only [binaryEmit_stderr, g3]
      simp

theorem compile_chain (ops : DoubleOps D) (st : State D) (chunk : Chunk D) (l0 : List Char)
    (ls : List (List Char)) (h0 : Scan.IsNumberLexeme l0)
    (hls : ∀ l ∈ ls, Scan.IsNumberLexeme l) :
    Returns (fun n => compile ops n (l0 ++ joinPlus ls) chunk st)
      (!(chainState ops st chunk l0 ls).parser.hadError, chainState ops st chunk l0 ls) := by
  have hnum := Scan.scanToken_number (initScanner (l0 ++ joinPlus ls)) 0 l0 (joinPlus ls) h0
    (stopsNumber_joinPlus ls) rfl
  have hadv1 : Returns (fun n => advance n (compileStart st (l0 ++ joinPlus ls) chunk))
      (shift (compileStart st (l0 ++ joinPlus ls) chunk)
        ⟨TokenType.TOKEN_NUMBER, l0 ++ joinPlus ls, l0.length, 1⟩
        ⟨l0 ++ joinPlus ls, joinPlus ls, 1⟩) :=
    advance_returns (compileStart st (l0 ++ joinPlus ls) chunk) _ _ hnum (by simp)
  have hadv2 : Returns (fun n => advance n (shift (compileStart st (l0 ++ joinPlus ls) chunk)
        ⟨TokenType.TOKEN_NUMBER, l0 ++ joinPlus ls, l0.length, 1⟩
        ⟨l0 ++ joinPlus ls, joinPlus ls, 1⟩))
      (shift (shift (compileStart st (l0 ++ joinPlus ls) chunk)
        ⟨TokenType.TOKEN_NUMBER, l0 ++ joinPlus ls, l0.length, 1⟩
        ⟨l0 ++ joinPlus ls, joinPlus ls, 1⟩) (lookahead 1 ls).1 (lookahead 1 ls).2) :=
    advance_returns _ (lookahead 1 ls).1 (lookahead 1 ls).2
      (scanToken_lookahead 1 ls _ rfl rfl) (lookahead_ne_error 1 ls)
  have hloop : Returns (fun n => infixLoop ops n PREC_ASSIGNMENT (chainStart ops st chunk l0 ls))
      (afterTerms ops 1 ls (chainStart ops st chunk l0 ls)) :=
    infixLoop_terms ops 1 ls (chainStart ops st chunk l0 ls) hls
      (by simp [chainStart]) (by simp [chainStart])
  have hpp := parsePrecedence_returns ops PREC_ASSIGNMENT _ _ _ _ ParseFn.number hadv2 rfl
    (callParseFn_number ops _) hloop
  obtain ⟨hcur, hsc⟩ := afterTerms_current ops 1 ls (chainStart ops st chunk l0 ls)
      (by simp [chainStart]) (by simp [chainStart])
  have heof : Returns (fun n => Scan.scanToken n
      (afterTerms ops 1 ls (chainStart ops st chunk l0 ls)).scanner)
      (⟨TokenType.TOKEN_EOF, [], 0, 1⟩, ⟨[], [], 1⟩) := by
    rw [hsc]
    exact Scan.scanToken_eof ⟨[], [], 1⟩ 0 rfl
  have hadv3 := advance_returns _ _ _ heof (by simp)
  have hcons := consume_returns _ TokenType.TOKEN_EOF "Expect end of expression".toList _
    (by rw [hcur]) hadv3
  exact compile_returns ops _ chunk st _ _ _ hadv1 hpp hcons

theorem chainStart_props (ops : DoubleOps D) (st : State D) (l0 : List Char)
    (ls : List (List Char)) :
    (chainStart ops st initChunk l0 ls).chunk.constants.length = 1 ∧
    (chainStart ops st initChunk l0 ls).parser.hadError = false ∧
    (chainStart ops st initChunk l0 ls).parser.panicMode = false ∧
    (chainStart ops st initChunk l0 ls).stderr = st.stderr := by
  obtain ⟨g1, g2, g3⟩ := number_clean ops (shift (shift (compileStart st (l0 ++ joinPlus ls)
    initChunk) ⟨TokenType.TOKEN_NUMBER, l0 ++ joinPlus ls, l0.length, 1⟩
    ⟨l0 ++ joinPlus ls, joinPlus ls, 1⟩) (lookahead 1 ls).1 (lookahead 1 ls).2)
    (by simp [compileStart, initChunk])
  refine ⟨?_, ?_, ?_, ?_⟩
  · simp [chainStart, number, compileStart, initChunk]
  · rw [chainStart, g1]; simp [compileStart]
  · rw [chainStart, g2]; simp [compileStart]
  · rw [chainStart, g3]; simp [compileStart]

theorem chainState_constants (ops : DoubleOps D) (st : State D) (l0 : List Char)
    (ls : List (List Char)) :
    (chainState ops st initChunk l0 ls).chunk.constants.length = ls.length + 1 := by
  have h := afterTerms_constants ops 1 ls (chainStart ops st initChunk l0 ls)
  rw [(chainStart_props ops st l0 ls).1] at h
  simp only [chainState, endCompiler, emitReturn, emitByte_constants, shift_chunk, h]
  omega

theorem chainState_clean (ops : DoubleOps D) (st : State D) (l0 : List Char)
    (ls : List (List Char)) (h : ls.length + 1 ≤ 256) :
    (chainState ops st initChunk l0 ls).parser.hadError = false ∧
    (chainState ops st initChunk l0 ls).stderr = st.stderr := by
  obtain ⟨p1, p2, p3, p4⟩ := chainStart_props ops st l0 ls
  obtain ⟨h1, _, h3⟩ := afterTerms_clean ops 1 ls (chainStart ops st initChunk l0 ls)
    (by rw [p1]; omega)
  simp only [chainState, endCompiler, emitReturn, emitByte_parser_eq, emitByte_stderr,
    shift_hadError, shift_stderr, h1, h3, p2, p4, and_self]

theorem chainState_error (ops : DoubleOps D) (st : State D) (l0 : List Char)
    (ls : List (List Char)) (h : ls.length + 1 = 257) :
    (chainState ops st initChunk l0 ls).parser.hadError = true ∧
    (chainState ops st initChunk l0 ls).stderr = st.stderr ++ [Diagnostic.compileError 1
      (" at '".toList ++ (l0 :: ls).getLast (List.cons_ne_nil _ _) ++ "'".toList)
      "Too many constants in one chunk.".toList] := by
  obtain ⟨p1, p2, p3, p4⟩ := chainStart_props ops st l0 ls
  have hne : ls ≠ [] := by
    intro h0; subst h0; simp at h
  obtain ⟨h1, h3⟩ := afterTerms_error ops 1 ls (chainStart ops st initChunk l0 ls) hne p3
    (by rw [p1]; omega)
  simp only [chainState, endCompiler, emitReturn, emitByte_parser_eq, emitByte_stderr,
    shift_hadError, shift_stderr, h1, h3, p4, List.getLast_cons hne, and_self]

end Compiler


namespace Res

theorem bind_eq_done {α β : Type} {r : Res α} {f : α → Res β} {b : β}
    (h : r.bind f = done b) : ∃ a, r = done a ∧ f a = done b := by
  cases r with
  | done a => exact ⟨a, rfl, h⟩
  | undefinedBehaviour => cases h
  | outOfFuel => cases h

theorem all_done {α : Type} {Q : α → Prop} {a : α} (h : Q a) : (done a).All Q := by
  intro b hb
  cases hb
  exact h

theorem all_ite {α : Type} {Q : α → Prop} {c : Prop} [Decidable c] {a b : Res α}
    (ha : a.All Q) (hb : b.All Q) : (if c then a else b).All Q := by
  split
  · exact ha
  · exact hb

theorem all_ite_cond {α : Type} {Q : α → Prop} {c : Prop} [Decidable c] {a b : Res α}
    (ha : c → a.All Q) (hb : ¬ c → b.All Q) : (if c then a else b).All Q := by
  split
  · next h => exact ha h
  · next h => exact hb h

theorem all_bind {α β : Type} {Q : β → Prop} {r : Res α} {f : α → Res β}
    (h : ∀ a, (f a).All Q) : (r.bind f).All Q := by
  intro b hb
  obtain ⟨a, _, ha⟩ := bind_eq_done hb
  exact h a b ha

end Res

namespace Scan

/-! ## The end-of-input token -/

theorem ite_ne {α : Type} {c : Prop} [Decidable c] {a b x : α} (ha : a ≠ x) (hb : b ≠ x) :
    (if c then a else b) ≠ x := by
  split
  · exact ha
  · exact hb

theorem checkKeyword_ne_eof (s : Scanner) (a b : Nat) (rest : String) (ty : TokenType)
    (h : ty ≠ TokenType.TOKEN_EOF) : checkKeyword s a b rest ty ≠ TokenType.TOKEN_EOF :=
  ite_ne h (by decide)

theorem identifierType_ne_eof (s : Scanner) : identifierType s ≠ TokenType.TOKEN_EOF := by
  unfold identifierType
  dsimp only
  repeat' (first
    | exact checkKeyword_ne_eof _ _ _ _ _ (by decide)
    | (intro h; cases h)
    | apply ite_ne)

theorem makeToken2_ne_eof (s : Scanner) (a b : TokenType) (ha : a ≠ TokenType.TOKEN_EOF)
    (hb : b ≠ TokenType.TOKEN_EOF) : (makeToken2 s a b).1.type ≠ TokenType.TOKEN_EOF := by
  unfold makeToken2
  exact ite_ne ha hb

theorem string_ne_eof (n : Nat) (s : Scanner) :
    (string n s).All (fun r => r.1.type ≠ TokenType.TOKEN_EOF) := by
  unfold string
  refine Res.all_bind (fun s2 => Res.all_ite (Res.all_done ?_) (Res.all_done ?_))
  · simp [errorToken]
  · simp [makeToken]

theorem scanSwitch_ne_eof (n : Nat) (s : Scanner) (c : Char) :
    (scanSwitch n s c).All (fun r => r.1.type ≠ TokenType.TOKEN_EOF) := by
  unfold scanSwitch
  repeat' (first
    | exact string_ne_eof n s
    | exact Res.all_done (makeToken2_ne_eof _ _ _ (by decide) (by decide))
    | exact Res.all_done (by simp [makeToken, errorToken])
    | apply Res.all_ite)

theorem number_ne_eof (n : Nat) (s : Scanner) :
    (number n s).All (fun r => r.1.type ≠ TokenType.TOKEN_EOF) := by
  unfold number
  refine Res.all_bind (fun s2 => Res.all_ite (Res.all_bind (fun s3 => Res.all_done ?_))
    (Res.all_done ?_)) <;> simp [makeToken]

theorem identifier_ne_eof (n : Nat) (s : Scanner) :
    (identifier n s).All (fun r => r.1.type ≠ TokenType.TOKEN_EOF) :=
  Res.all_bind (fun _ => Res.all_done (identifierType_ne_eof _))

/-- The end-of-input token is only produced at the end of the text. -/
theorem scanToken_eof_atEnd (n : Nat) (s : Scanner) :
    (scanToken n s).All (fun r => r.1.type = TokenType.TOKEN_EOF → isAtEnd r.2 = true) := by
  unfold scanToken
  refine Res.all_bind (fun s1 => ?_)
  unfold scanLexeme
  refine Res.all_ite_cond (fun hend => Res.all_done (fun _ => hend))
    (fun _ => Res.all_ite ?_ (Res.all_ite ?_ ?_))
  · exact fun r hr hty => absurd hty (identifier_ne_eof _ _ r hr)
  · exact fun r hr hty => absurd hty (number_ne_eof _ _ r hr)
  · exact fun r hr hty => absurd hty (scanSwitch_ne_eof _ _ _ r hr)

/-- At the end of the text `scanToken` returns the end-of-input token and stays there. -/
theorem scanToken_atEnd (n : Nat) (s : Scanner) (tok : Token) (s' : Scanner)
    (hend : isAtEnd s = true) (h : scanToken n s = Res.done (tok, s')) :
    tok.type = TokenType.TOKEN_EOF ∧ isAtEnd s' = true := by
  have hp : peek s = '\x00' := by simpa [isAtEnd, peek] using hend
  cases n with
  | zero => simp [scanToken, skipWhitespace] at h
  | succ n =>
    have hsk : skipWhitespace (n + 1) s = Res.done s := by
      rw [skipWhitespace]
      simp [hp]
    rw [scanToken, hsk] at h
    have hend' : isAtEnd { s with start := s.current } = true := hend
    simp only [Res.bind_done, scanLexeme, hend', if_true] at h
    cases h
    exact ⟨rfl, hend⟩

end Scan

namespace Compiler

variable {D : Type}

/-! ## Properties of the state kept by the compiler -/

theorem advanceLoop_keeps {P : State D → Prop}
    (hscan : ∀ n (st : State D) tok sc, P st →
      Scan.scanToken n st.scanner = Res.done (tok, sc) →
      P { st with scanner := sc, parser := { st.parser with current := tok } })
    (herr : ∀ (st : State D) tok msg, P st → P (errorAt st tok msg)) :
    ∀ n (st st' : State D), P st → advanceLoop n st = Res.done st' → P st' := by
  intro n
  induction n with
  | zero => intro st st' _ h; simp [advanceLoop] at h
  | succ n ih =>
    intro st st' hst h
    rw [advanceLoop] at h
    obtain ⟨r, hr, h⟩ := Res.bind_eq_done h
    have h1 := hscan n st r.1 r.2 hst hr
    dsimp only at h
    split at h
    · cases h; exact h1
    · exact ih _ _ (herr _ _ _ h1) h

theorem advanceLoop_preserves {P : State D → Prop} (hP : StepsPreserve P) :
    ∀ n (st st' : State D), P st → advanceLoop n st = Res.done st' → P st' :=
  advanceLoop_keeps hP.scan hP.errorAt

theorem advance_preserves {P : State D → Prop} (hP : StepsPreserve P) (n : Nat)
    (st st' : State D) (hst : P st) (h : advance n st = Res.done st') : P st' :=
  advanceLoop_preserves hP n _ st' (hP.previous st hst) h

theorem consume_preserves {P : State D → Prop} (hP : StepsPreserve P) (n : Nat)
    (st st' : State D) (type : TokenType) (msg : List Char) (hst : P st)
    (h : consume n st type msg = Res.done st') : P st' := by
  unfold consume at h
  split at h
  · exact advance_preserves hP n st st' hst h
  · cases h; exact hP.errorAt _ _ _ hst

theorem emitConstant_preserves {P : State D → Prop} (hP : StepsPreserve P) (st : State D)
    (v : Value D) (hst : P st) : P (emitConstant st v) :=
  hP.emitByte _ _ (hP.emitByte _ _ (hP.makeConstant st v hst))

theorem number_preserves {P : State D → Prop} (hP : StepsPreserve P) (ops : DoubleOps D)
    (st : State D) (hst : P st) : P (number ops st) :=
  emitConstant_preserves hP st _ hst

theorem string_preserves {P : State D → Prop} (hP : StepsPreserve P) (st : State D)
    (hst : P st) : P (string st) :=
  emitConstant_preserves hP _ _ (hP.copyString st _ _ hst)

theorem literal_preserves {P : State D → Prop} (hP : StepsPreserve P) (st : State D)
    (hst : P st) : P (literal st) := by
  unfold literal
  split <;> first | exact hP.emitByte _ _ hst | exact hst

theorem binaryEmit_preserves {P : State D → Prop} (hP : StepsPreserve P) (st : State D)
    (ty : TokenType) (hst : P st) : P (binaryEmit st ty) := by
  unfold binaryEmit
  split <;> first
    | exact hP.emitByte _ _ hst
    | exact hP.emitByte _ _ (hP.emitByte _ _ hst)
    | exact hst

theorem unaryEmit_preserves {P : State D → Prop} (hP : StepsPreserve P) (st : State D)
    (ty : TokenType) (hst : P st) : P (unaryEmit st ty) := by
  unfold unaryEmit
  split <;> first | exact hP.emitByte _ _ hst | exact hst

theorem parse_preserves (ops : DoubleOps D) {P : State D → Prop} (hP : StepsPreserve P) :
    ∀ n, ParsePreserves ops P n := by
  intro n
  induction n with
  | zero =>
    refine ⟨?_, ?_, ?_, ?_, ?_, ?_⟩
    · intro p st st' _ h; simp [parsePrecedence] at h
    · intro p st st' _ h; simp [infixLoop] at h
    · intro fn st st' _ h; simp [callParseFn] at h
    · intro st st' _ h; simp [binary] at h
    · intro st st' _ h; simp [grouping] at h
    · intro st st' _ h; simp [unary] at h
  | succ n ih =>
    obtain ⟨ihP, ihL, ihC, ihB, ihG, ihU⟩ := ih
    refine ⟨?_, ?_, ?_, ?_, ?_, ?_⟩
    · intro p st st' hst h
      rw [parsePrecedence] at h
      obtain ⟨st1, h1, h⟩ := Res.bind_eq_done h
      have hst1 := advance_preserves hP n st st1 hst h1
      cases hfn : (getRule st1.parser.previous.type).prefixRule with
      | none =>
        simp only [hfn] at h
        cases h
        exact hP.errorAt _ _ _ hst1
      | some fn =>
        simp only [hfn] at h
        obtain ⟨st2, h2, h⟩ := Res.bind_eq_done h
        exact ihL p st2 st' (ihC fn st1 st2 hst1 h2) h
    · intro p st st' hst h
      rw [infixLoop] at h
      split at h
      · obtain ⟨st1, h1, h⟩ := Res.bind_eq_done h
        have hst1 := advance_preserves hP n st st1 hst h1
        cases hfn : (getRule st1.parser.previous.type).infixRule with
        | none => simp only [hfn] at h; cases h
        | some fn =>
          simp only [hfn] at h
          obtain ⟨st2, h2, h⟩ := Res.bind_eq_done h
          exact ihL p st2 st' (ihC fn st1 st2 hst1 h2) h
      · cases h; exact hst
    · intro fn st st' hst h
      cases fn with
      | grouping => rw [callParseFn] at h; exact ihG st st' hst h
      | unary => rw [callParseFn] at h; exact ihU st st' hst h
      | binary => rw [callParseFn] at h; exact ihB st st' hst h
      | number => rw [callParseFn] at h; cases h; exact number_preserves hP ops st hst
      | string => rw [callParseFn] at h; cases h; exact string_preserves hP st hst
      | literal => rw [callParseFn] at h; cases h; exact literal_preserves hP st hst
    · intro st st' hst h
      rw [binary] at h
      obtain ⟨st1, h1, h⟩ := Res.bind_eq_done h
      cases h
      exact binaryEmit_preserves hP _ _ (ihP _ st st1 hst h1)
    · intro st st' hst h
      rw [grouping] at h
      obtain ⟨st1, h1, h⟩ := Res.bind_eq_done h
      exact consume_preserves hP n st1 st' _ _ (ihP _ st st1 hst h1) h
    · intro st st' hst h
      rw [unary] at h
      obtain ⟨st1, h1, h⟩ := Res.bind_eq_done h
      cases h
      exact unaryEmit_preserves hP _ _ (ihP _ st st1 hst h1)

theorem errorAt_flags (st : State D) (tok : Token) (msg : List Char) :
    ((errorAt st tok msg).parser.panicMode = true ∧ (errorAt st tok msg).parser.hadError = true)
    ∨ (st.parser.panicMode = true ∧ errorAt st tok msg = st) := by
  unfold errorAt
  split
  · next h => exact Or.inr ⟨h, rfl⟩
  · exact Or.inl ⟨rfl, rfl⟩

theorem errorAt_panicInv (st : State D) (tok : Token) (msg : List Char) (h : PanicInv st) :
    PanicInv (errorAt st tok msg) := by
  rcases errorAt_flags st tok msg with ⟨_, h2⟩ | ⟨_, h2⟩
  · exact fun _ => h2
  · rw [h2]; exact h

theorem errorAt_hadError (st : State D) (tok : Token) (msg : List Char) (h : PanicInv st) :
    (errorAt st tok msg).parser.hadError = true := by
  rcases errorAt_flags st tok msg with ⟨_, h2⟩ | ⟨h1, h2⟩
  · exact h2
  · rw [h2]; exact h h1

theorem makeConstant_parser_of_le (st : State D) (v : Value D)
    (h : st.chunk.constants.length ≤ 255) : (makeConstant st v).2.parser = st.parser := by
  have h' : ¬ st.chunk.constants.length > 255 := by omega
  simp [makeConstant, addConstant, UINT8_MAX, h']

theorem stepsPreserve_poolInv : StepsPreserve (PoolInv (D := D)) where
  scan := fun _ _ _ _ h _ => h
  previous := fun _ h => h
  errorAt := fun st tok msg h =>
    ⟨errorAt_panicInv st tok msg h.1, fun hf => by
      rw [errorAt_hadError st tok msg h.1] at hf; cases hf⟩
  emitByte := fun _ _ h => h
  makeConstant := fun st v h => by
    by_cases hc : st.chunk.constants.length ≤ 255
    · refine ⟨?_, fun _ => ?_⟩
      · unfold PanicInv
        rw [makeConstant_parser_of_le st v hc]
        exact h.1
      · rw [makeConstant_constants]
        simp only [List.length_append, List.length_singleton]
        omega
    · have hc' : st.chunk.constants.length > 255 := by omega
      have he : (makeConstant st v).2 =
          error { st with chunk := (addConstant st.chunk v).2 }
            "Too many constants in one chunk.".toList := by
        simp [makeConstant, addConstant, UINT8_MAX, hc']
      have hp : PanicInv ({ st with chunk := (addConstant st.chunk v).2 } : State D) := h.1
      rw [he]
      exact ⟨errorAt_panicInv _ _ _ hp, fun hf => by
        rw [error, errorAt_hadError _ _ _ hp] at hf; cases hf⟩
  copyString := fun _ _ _ h => h

theorem stepsPreserve_eofInv : StepsPreserve (EofInv (D := D)) where
  scan := fun n st tok sc h hs =>
    ⟨h.1, fun hty => Scan.scanToken_eof_atEnd n st.scanner (tok, sc) hs hty⟩
  previous := fun _ h => h
  errorAt := fun st tok msg h =>
    ⟨errorAt_panicInv st tok msg h.1, fun hty => by
      rw [errorAt_current] at hty
      rw [errorAt_scanner]
      exact h.2 hty⟩
  emitByte := fun _ _ h => h
  makeConstant := fun st v h => by
    refine ⟨?_, fun hty => ?_⟩
    · by_cases hc : st.chunk.constants.length ≤ 255
      · unfold PanicInv
        rw [makeConstant_parser_of_le st v hc]
        exact h.1
      · have hc' : st.chunk.constants.length > 255 := by omega
        have he : (makeConstant st v).2 =
            error { st with chunk := (addConstant st.chunk v).2 }
              "Too many constants in one chunk.".toList := by
          simp [makeConstant, addConstant, UINT8_MAX, hc']
        have hp : PanicInv ({ st with chunk := (addConstant st.chunk v).2 } : State D) := h.1
        rw [he]
        exact errorAt_panicInv _ _ _ hp
    · rw [makeConstant_current] at hty
      rw [makeConstant_scanner]
      exact h.2 hty
  copyString := fun _ _ _ h => h

/-- What `compile` does, as an inversion: the four states it goes through. -/
theorem compile_done (ops : DoubleOps D) (n : Nat) (source : List Char) (chunk : Chunk D)
    (st : State D) (b : Bool) (st' : State D)
    (h : compile ops n source chunk st = Res.done (b, st')) :
    ∃ st1 st2 st3, advance n (compileStart st source chunk) = Res.done st1 ∧
      parsePrecedence ops n PREC_ASSIGNMENT st1 = Res.done st2 ∧
      consume n st2 TokenType.TOKEN_EOF "Expect end of expression".toList = Res.done st3 ∧
      st' = endCompiler st3 ∧ b = !st3.parser.hadError := by
  unfold compile at h
  obtain ⟨st1, h1, h⟩ := Res.bind_eq_done h
  obtain ⟨st2, h2, h⟩ := Res.bind_eq_done h
  obtain ⟨st3, h3, h⟩ := Res.bind_eq_done h
  cases h
  exact ⟨st1, st2, st3, h1, h2, h3, rfl, rfl⟩

theorem compile_preserves (ops : DoubleOps D) {P : State D → Prop} (hP : StepsPreserve P)
    (n : Nat) (source : List Char) (chunk : Chunk D) (st : State D) (b : Bool) (st' : State D)
    (h0 : P (compileStart st source chunk))
    (h : compile ops n source chunk st = Res.done (b, st')) : P st' := by
  obtain ⟨st1, st2, st3, h1, h2, h3, rfl, _⟩ := compile_done ops n source chunk st b st' h
  have p1 := advance_preserves hP n _ st1 h0 h1
  have p2 := (parse_preserves ops hP n).1 _ st1 st2 p1 h2
  have p3 := consume_preserves hP n st2 st3 _ _ p2 h3
  exact hP.emitByte _ _ p3

/-- After `advance` the current token is the one just scanned: `EofInv` holds whatever the
current token was before. -/
theorem advance_eofInv (n : Nat) (st st' : State D) (hst : PanicInv st)
    (h : advance n st = Res.done st') : EofInv st' := by
  have key : ∀ n (st st' : State D), PanicInv st → advanceLoop n st = Res.done st' →
      EofInv st' := by
    intro n
    induction n with
    | zero => intro st st' _ h; simp [advanceLoop] at h
    | succ n ih =>
      intro st st' hst h
      rw [advanceLoop] at h
      obtain ⟨r, hr, h⟩ := Res.bind_eq_done h
      dsimp only at h
      split at h
      · cases h
        exact ⟨hst, fun hty => Scan.scanToken_eof_atEnd n st.scanner r hr hty⟩
      · exact ih _ _ (errorAt_panicInv (D := D) _ _ _ (show PanicInv
          ({ st with scanner := r.2, parser := { st.parser with current := r.1 } } : State D)
          from hst)) h
  exact key n _ st' (show PanicInv
    ({ st with parser := { st.parser with previous := st.parser.current } } : State D)
    from hst) h

theorem advance_previous (n : Nat) (st st' : State D) (h : advance n st = Res.done st') :
    st'.parser.previous = st.parser.current :=
  advanceLoop_keeps (P := fun s => s.parser.previous = st.parser.current)
    (fun _ _ _ _ h _ => h)
    (fun s tok msg h => by
      show (errorAt s tok msg).parser.previous = st.parser.current
      rw [errorAt_previous]; exact h) n _ st' rfl h

/-- With the scanner at the end of the text `advance` reads the end-of-input token. -/
theorem advance_atEnd (n : Nat) (st st' : State D) (hend : Scan.isAtEnd st.scanner = true)
    (h : advance n st = Res.done st') :
    st'.parser.current.type = TokenType.TOKEN_EOF ∧ Scan.isAtEnd st'.scanner = true := by
  unfold advance at h
  cases n with
  | zero => simp [advanceLoop] at h
  | succ n =>
    rw [advanceLoop] at h
    obtain ⟨r, hr, h⟩ := Res.bind_eq_done h
    obtain ⟨h1, h2⟩ := Scan.scanToken_atEnd n st.scanner r.1 r.2 hend hr
    have hne : r.1.type ≠ TokenType.TOKEN_ERROR := by rw [h1]; decide
    simp only [ne_eq, hne, not_false_eq_true, if_true] at h
    cases h
    exact ⟨h1, h2⟩

end Compiler


namespace VMachine

variable {D : Type}

/-! ## The VM, one instruction at a time -/

theorem READ_BYTE_eq (st : State D) (b : Nat) (h : st.vm.chunk.code.get? st.vm.ip = some b) :
    READ_BYTE st = Res.done (b, { st with vm := { st.vm with ip := st.vm.ip + 1 } }) := by
  simp only [READ_BYTE, h]

theorem push_eq (st : State D) (v : Value D) (h : st.vm.stack.length < STACK_MAX) :
    push st v = Res.done { st with vm := { st.vm with stack := v :: st.vm.stack } } := by
  simp only [push, h, if_true]

theorem run_constant (ops : DoubleOps D) (n : Nat) (st : State D) (k : Nat) (v : Value D)
    (h1 : st.vm.chunk.code.get? st.vm.ip = some OpCode.OP_CONSTANT.toByte)
    (h2 : st.vm.chunk.code.get? (st.vm.ip + 1) = some k)
    (h3 : st.vm.chunk.constants.get? k = some v)
    (h4 : st.vm.stack.length < STACK_MAX) :
    run ops (n + 1) st = run ops n (stepTo st 2 (v :: st.vm.stack)) := by
  rw [run, READ_BYTE_eq st _ h1]
  simp only [Res.bind_done, if_true, READ_CONSTANT]
  rw [READ_BYTE_eq _ k h2]
  simp only [Res.bind_done, h3]
  simp only [push, h4, if_true, Res.bind_done]
  rfl

theorem BINARY_OP_numbers (st : State D) (f : D → D → Value D) (a b : D)
    (rest : List (Value D)) (hs : st.vm.stack = Value.NUMBER_VAL b :: Value.NUMBER_VAL a :: rest)
    (hlen : st.vm.stack.length ≤ STACK_MAX) :
    BINARY_OP st f = Res.done { st with vm := { st.vm with stack := f a b :: rest } } := by
  have hl : rest.length < STACK_MAX := by
    rw [hs] at hlen
    simp only [List.length_cons] at hlen
    omega
  simp [BINARY_OP, peek, pop, push, hs, IS_NUMBER, AS_NUMBER, hl]

/-- The numeric binary instructions and the functions they apply. -/
theorem run_arith (ops : DoubleOps D) (n : Nat) (st : State D) (a b : D)
    (rest : List (Value D)) (hs : st.vm.stack = Value.NUMBER_VAL b :: Value.NUMBER_VAL a :: rest)
    (hlen : st.vm.stack.length ≤ STACK_MAX) :
    (st.vm.chunk.code.get? st.vm.ip = some OpCode.OP_SUBTRACT.toByte →
      run ops (n + 1) st = run ops n (stepTo st 1 (Value.NUMBER_VAL (ops.sub a b) :: rest))) ∧
    (st.vm.chunk.code.get? st.vm.ip = some OpCode.OP_MULTIPLY.toByte →
      run ops (n + 1) st = run ops n (stepTo st 1 (Value.NUMBER_VAL (ops.mul a b) :: rest))) ∧
    (st.vm.chunk.code.get? st.vm.ip = some OpCode.OP_DIVIDE.toByte →
      run ops (n + 1) st = run ops n (stepTo st 1 (Value.NUMBER_VAL (ops.div a b) :: rest))) ∧
    (st.vm.chunk.code.get? st.vm.ip = some OpCode.OP_ADD.toByte →
      run ops (n + 1) st = run ops n (stepTo st 1 (Value.NUMBER_VAL (ops.add a b) :: rest))) := by
  have hl : rest.length < STACK_MAX := by
    rw [hs] at hlen
    simp only [List.length_cons] at hlen
    omega
  refine ⟨?_, ?_, ?_, ?_⟩
  · intro h
    rw [run, READ_BYTE_eq st _ h]
    simp only [Res.bind_done, OpCode.toByte, OfNat.ofNat_ne_zero, if_false, if_true,
      Nat.reduceEqDiff]
    rw [BINARY_OP_numbers ({ st with vm := { st.vm with ip := st.vm.ip + 1 } }) _ a b rest
      hs hlen]
    rfl
  · intro h
    rw [run, READ_BYTE_eq st _ h]
    simp only [Res.bind_done, OpCode.toByte, OfNat.ofNat_ne_zero, if_false, if_true,
      Nat.reduceEqDiff]
    rw [BINARY_OP_numbers ({ st with vm := { st.vm with ip := st.vm.ip + 1 } }) _ a b rest
      hs hlen]
    rfl
  · intro h
    rw [run, READ_BYTE_eq st _ h]
    simp only [Res.bind_done, OpCode.toByte, OfNat.ofNat_ne_zero, if_false, if_true,
      Nat.reduceEqDiff]
    rw [BINARY_OP_numbers ({ st with vm := { st.vm with ip := st.vm.ip + 1 } }) _ a b rest
      hs hlen]
    rfl
  · intro h
    rw [run, READ_BYTE_eq st _ h]
    simp only [Res.bind_done, OpCode.toByte, OfNat.ofNat_ne_zero, if_false, if_true,
      Nat.reduceEqDiff]
    have hadd : opAdd ops { st with vm := { st.vm with ip := st.vm.ip + 1 } } =
        Res.done (none, stepTo st 1 (Value.NUMBER_VAL (ops.add a b) :: rest)) := by
      simp [opAdd, peek, pop, push, hs, IS_NUMBER, IS_STRING, isObjType, AS_NUMBER, hl, stepTo]
    rw [hadd]
    rfl

theorem run_return_number (ops : DoubleOps D) (n : Nat) (st : State D) (x : D)
    (rest : List (Value D))
    (h : st.vm.chunk.code.get? st.vm.ip = some OpCode.OP_RETURN.toByte)
    (hs : st.vm.stack = Value.NUMBER_VAL x :: rest) :
    run ops (n + 1) st = Res.done (InterpretResult.INTERPRET_OK,
      { stepTo st 1 rest with
        stdout := st.stdout ++ [Printed.number x, Printed.text ['\n']] }) := by
  rw [run, READ_BYTE_eq st _ h]
  simp only [Res.bind_done, OpCode.toByte, OfNat.ofNat_ne_zero, if_false, if_true,
    Nat.reduceEqDiff]
  simp [opReturn, pop, hs, printValue, stepTo]

end VMachine


namespace Compiler

variable {D : Type}

/-! ## Reading one token -/

theorem symbolToken_ne_error {c : Char} {ty : TokenType} (h : Scan.symbolToken c = some ty) :
    ty ≠ TokenType.TOKEN_ERROR := by
  unfold Scan.symbolToken at h
  split_ifs at h <;> cases h <;> decide

theorem advance_number (st : State D) (k : Nat) (a r : List Char)
    (ha : Scan.IsNumberLexeme a) (hr : Scan.StopsNumber r)
    (hs : st.scanner.current = List.replicate k ' ' ++ (a ++ r)) :
    Returns (fun n => advance n st)
      (shift st ⟨TokenType.TOKEN_NUMBER, a ++ r, a.length, st.scanner.line⟩
        ⟨a ++ r, r, st.scanner.line⟩) :=
  advance_returns st _ _ (Scan.scanToken_number st.scanner k a r ha hr hs) (by simp)

theorem advance_symbol (st : State D) (k : Nat) (c : Char) (ty : TokenType) (r : List Char)
    (hc : Scan.symbolToken c = some ty)
    (hs : st.scanner.current = List.replicate k ' ' ++ c :: r) :
    Returns (fun n => advance n st)
      (shift st ⟨ty, c :: r, 1, st.scanner.line⟩ ⟨c :: r, r, st.scanner.line⟩) :=
  advance_returns st _ _ (Scan.scanToken_symbol st.scanner k c ty r hc hs)
    (symbolToken_ne_error hc)

theorem advance_eof (st : State D) (k : Nat) (hs : st.scanner.current = List.replicate k ' ') :
    Returns (fun n => advance n st)
      (shift st ⟨TokenType.TOKEN_EOF, [], 0, st.scanner.line⟩ ⟨[], [], st.scanner.line⟩) :=
  advance_returns st _ _ (Scan.scanToken_eof st.scanner k hs) (by simp)

/-- A number literal as a whole operand: the token after it binds weaker than `p`. -/
theorem parsePrecedence_number (ops : DoubleOps D) (p : Precedence) (st : State D)
    (tok : Token) (sc : Scanner) (hcur : st.parser.current.type = TokenType.TOKEN_NUMBER)
    (hadv : Returns (fun n => advance n st) (shift st tok sc))
    (hstop : ¬ p ≤ (getRule tok.type).precedence) :
    Returns (fun n => parsePrecedence ops n p st) (number ops (shift st tok sc)) :=
  parsePrecedence_returns ops p st _ _ _ ParseFn.number hadv
    (by rw [shift_previous, hcur]; rfl) (callParseFn_number ops _)
    (infixLoop_stop ops p _ (by rw [number_current, shift_current]; exact hstop))

/-! ## More of what the emitting functions leave unchanged -/

@[simp]
theorem shift_vm (st : State D) (tok : Token) (sc : Scanner) : (shift st tok sc).vm = st.vm :=
  rfl

@[simp]
theorem shift_heap (st : State D) (tok : Token) (sc : Scanner) :
    (shift st tok sc).heap = st.heap := rfl

@[simp]
theorem shift_stdout (st : State D) (tok : Token) (sc : Scanner) :
    (shift st tok sc).stdout = st.stdout := rfl

@[simp]
theorem binaryEmit_vm (st : State D) (ty : TokenType) : (binaryEmit st ty).vm = st.vm := by
  unfold binaryEmit; split <;> rfl

@[simp]
theorem binaryEmit_heap (st : State D) (ty : TokenType) :
    (binaryEmit st ty).heap = st.heap := by
  unfold binaryEmit; split <;> rfl

@[simp]
theorem binaryEmit_stdout (st : State D) (ty : TokenType) :
    (binaryEmit st ty).stdout = st.stdout := by
  unfold binaryEmit; split <;> rfl

@[simp]
theorem number_vm (ops : DoubleOps D) (st : State D) : (number ops st).vm = st.vm := by
  simp [number, emitConstant, emitBytes, makeConstant]
  split <;> simp [error]

@[simp]
theorem number_heap (ops : DoubleOps D) (st : State D) : (number ops st).heap = st.heap := by
  simp [number, emitConstant, emitBytes, makeConstant]
  split <;> simp [error]

@[simp]
theorem number_stdout (ops : DoubleOps D) (st : State D) :
    (number ops st).stdout = st.stdout := by
  simp [number, emitConstant, emitBytes, makeConstant]
  split <;> simp [error]

/-- What `number` does while the pool has room: one constant, two bytes. -/
theorem number_of_room (ops : DoubleOps D) (st : State D)
    (h : st.chunk.constants.length ≤ 255) :
    number ops st =
      { st with chunk :=
          ⟨st.chunk.code ++ [OpCode.OP_CONSTANT.toByte, st.chunk.constants.length],
           st.chunk.lines ++ [st.parser.previous.line, st.parser.previous.line],
           st.chunk.constants ++ [Value.NUMBER_VAL (ops.strtod st.parser.previous.start)]⟩ } := by
  have h' : ¬ st.chunk.constants.length > 255 := by omega
  have h'' : st.chunk.constants.length % 256 = st.chunk.constants.length :=
    Nat.mod_eq_of_lt (by omega)
  simp [number, emitConstant, makeConstant, addConstant, UINT8_MAX, h', h'', emitBytes, emitByte,
    writeChunk]

/-! ## The two sources of the precedence example -/

theorem stopsNumber_cons (c : Char) (r : List Char) (h1 : Scan.isDigit c = false)
    (h2 : c ≠ '.') : Scan.StopsNumber (c :: r) := ⟨h1, h2⟩

theorem stopsNumber_nil : Scan.StopsNumber [] := ⟨by decide, by decide⟩

/-- The source `a + b * c`: the state in which `compile` returns. -/
theorem compile_add_mul (ops : DoubleOps D) (st : State D) (a b c : List Char)
    (ha : Scan.IsNumberLexeme a) (hb : Scan.IsNumberLexeme b) (hc : Scan.IsNumberLexeme c) :
    ∃ st', Returns (fun n => compile ops n
        (a ++ ' ' :: '+' :: ' ' :: (b ++ ' ' :: '*' :: ' ' :: c)) initChunk st) (true, st') ∧
      st'.chunk.code = [0, 0, 0, 1, 0, 2, 9, 7, 13] ∧
      st'.chunk.constants =
        [Value.NUMBER_VAL (ops.strtod (a ++ ' ' :: '+' :: ' ' :: (b ++ ' ' :: '*' :: ' ' :: c))),
         Value.NUMBER_VAL (ops.strtod (b ++ ' ' :: '*' :: ' ' :: c)),
         Value.NUMBER_VAL (ops.strtod c)] ∧
      st'.vm = st.vm ∧ st'.heap = st.heap ∧ st'.stdout = st.stdout ∧ st'.stderr = st.stderr := by
  -- the texts that follow the three literals
  let rB : List Char := ' ' :: '*' :: ' ' :: c
  let rA : List Char := ' ' :: '+' :: ' ' :: (b ++ rB)
  have hrA : Scan.StopsNumber rA := stopsNumber_cons _ _ (by decide) (by decide)
  have hrB : Scan.StopsNumber rB := stopsNumber_cons _ _ (by decide) (by decide)
  -- the seven calls of `advance`
  let s0 : State D := compileStart st (a ++ rA) initChunk
  have h1 := advance_number s0 0 a rA ha hrA rfl
  let s1 : State D := shift s0 ⟨TokenType.TOKEN_NUMBER, a ++ rA, a.length, 1⟩ ⟨a ++ rA, rA, 1⟩
  have h2 := advance_symbol s1 1 '+' TokenType.TOKEN_PLUS (' ' :: (b ++ rB)) rfl rfl
  let s2 : State D := shift s1 ⟨TokenType.TOKEN_PLUS, '+' :: ' ' :: (b ++ rB), 1, 1⟩
    ⟨'+' :: ' ' :: (b ++ rB), ' ' :: (b ++ rB), 1⟩
  let s3 : State D := number ops s2
  have h3 := advance_number s3 1 b rB hb hrB (by simp [s3, s2])
  let s4 : State D := shift s3 ⟨TokenType.TOKEN_NUMBER, b ++ rB, b.length, 1⟩ ⟨b ++ rB, rB, 1⟩
  have h4 := advance_symbol s4 1 '*' TokenType.TOKEN_STAR (' ' :: c) rfl rfl
  let s5 : State D := shift s4 ⟨TokenType.TOKEN_STAR, '*' :: ' ' :: c, 1, 1⟩
    ⟨'*' :: ' ' :: c, ' ' :: c, 1⟩
  let s6 : State D := number ops s5
  have h5 := advance_number s6 1 c [] hc stopsNumber_nil (by simp [s6, s5])
  let s7 : State D := shift s6 ⟨TokenType.TOKEN_NUMBER, c, c.length, 1⟩ ⟨c, [], 1⟩
  have h6 := advance_eof s7 0 rfl
  let s8 : State D := shift s7 ⟨TokenType.TOKEN_EOF, [], 0, 1⟩ ⟨[], [], 1⟩
  let s9 : State D := number ops s8
  let s10 : State D := binaryEmit s9 TokenType.TOKEN_STAR
  let s11 : State D := binaryEmit s10 TokenType.TOKEN_PLUS
  have h7 := advance_eof s11 0 (by simp [s11, s10, s9, s8])
  let s12 : State D := shift s11 ⟨TokenType.TOKEN_EOF, [], 0, 1⟩ ⟨[], [], 1⟩
  -- the operand `c` at precedence FACTOR + 1
  have p8 : Returns (fun n => parsePrecedence ops n
      ((getRule s7.parser.previous.type).precedence + 1) s7) s9 :=
    parsePrecedence_number ops _ s7 _ _ rfl (by simpa [s7, s6, s5] using h6)
      (by simp [s7, s6, s5, getRule, rules, PREC_FACTOR, PREC_NONE])
  -- the operand `b * c` at precedence TERM + 1
  have p7 : Returns (fun n => parsePrecedence ops n
      ((getRule s4.parser.previous.type).precedence + 1) s4) s10 :=
    parsePrecedence_returns ops _ s4 s5 s6 s10 ParseFn.number (by simpa [s3, s2] using h4)
      rfl (callParseFn_number ops s5)
      (infixLoop_step ops _ s6 s7 s10 s10 ParseFn.binary
        (by simp [s6, s5, s4, s3, s2, getRule, rules, PREC_FACTOR, PREC_TERM])
        (by simpa [s6, s5] using h5) rfl (callParseFn_binary ops s7 s9 p8)
        (infixLoop_stop ops _ s10
          (by simp [s10, s9, s8, s4, s3, s2, getRule, rules, PREC_NONE, PREC_TERM])))
  -- the whole expression
  have p1 : Returns (fun n => parsePrecedence ops n PREC_ASSIGNMENT s1) s11 :=
    parsePrecedence_returns ops _ s1 s2 s3 s11 ParseFn.number h2 rfl (callParseFn_number ops s2)
      (infixLoop_step ops _ s3 s4 s11 s11 ParseFn.binary
        (by simp [s3, s2, getRule, rules, PREC_ASSIGNMENT, PREC_TERM])
        (by simpa [s3, s2] using h3) rfl (callParseFn_binary ops s4 s10 p7)
        (infixLoop_stop ops _ s11
          (by simp [s11, s10, s9, s8, getRule, rules, PREC_NONE, PREC_ASSIGNMENT])))
  have pc := compile_returns ops (a ++ rA) initChunk st s1 s11 s12 h1 p1
    (consume_returns s11 _ _ s12 (by simp [s11, s10, s9, s8])
      (by simpa [s11, s10, s9, s8] using h7))
  -- the chunk
  have e3 : s3 = { s2 with chunk := ⟨[0, 0], [1, 1],
      [Value.NUMBER_VAL (ops.strtod (a ++ rA))]⟩ } :=
    number_of_room ops s2 (by simp [s2, s1, s0, compileStart, initChunk])
  have e6 : s6 = { s5 with chunk := ⟨[0, 0, 0, 1], [1, 1, 1, 1],
      [Value.NUMBER_VAL (ops.strtod (a ++ rA)), Value.NUMBER_VAL (ops.strtod (b ++ rB))]⟩ } := by
    have := number_of_room ops s5 (by simp [s5, s4, e3])
    simpa [s5, s4, e3, OpCode.toByte] using this
  have e9 : s9 = { s8 with chunk := ⟨[0, 0, 0, 1, 0, 2], [1, 1, 1, 1, 1, 1],
      [Value.NUMBER_VAL (ops.strtod (a ++ rA)), Value.NUMBER_VAL (ops.strtod (b ++ rB)),
       Value.NUMBER_VAL (ops.strtod c)]⟩ } := by
    have := number_of_room ops s8 (by simp [s8, s7, e6])
    simpa [s8, s7, e6, OpCode.toByte] using this
  refine ⟨endCompiler s12, ?_, ?_, ?_, ?_, ?_, ?_, ?_⟩
  · have hh : (endCompiler s12).parser.hadError = false := by
      simp [endCompiler, emitReturn, s12, s11, s10, e9, s8, s7, e6, s5, s4, e3, s2, s1, s0,
        compileStart]
    rw [hh] at pc
    exact pc
  · simp [endCompiler, emitReturn, s12, s11, s10, e9, binaryEmit, emitByte, writeChunk,
      OpCode.toByte]
  · simp [endCompiler, emitReturn, s12, s11, s10, e9, binaryEmit, emitByte, writeChunk]
  · simp [endCompiler, emitReturn, s12, s11, s10, s9, s8, s7, s6, s5, s4, s3, s2, s1, s0,
      compileStart]
  · simp [endCompiler, emitReturn, s12, s11, s10, s9, s8, s7, s6, s5, s4, s3, s2, s1, s0,
      compileStart]
  · simp [endCompiler, emitReturn, s12, s11, s10, s9, s8, s7, s6, s5, s4, s3, s2, s1, s0,
      compileStart]
  · simp [endCompiler, emitReturn, s12, s11, s10, e9, s8, s7, e6, s5, s4, e3, s2, s1, s0,
      compileStart]

/-- The source `(a + b) * c`: the state in which `compile` returns. -/
theorem compile_group_mul (ops : DoubleOps D) (st : State D) (a b c : List Char)
    (ha : Scan.IsNumberLexeme a) (hb : Scan.IsNumberLexeme b) (hc : Scan.IsNumberLexeme c) :
    ∃ st', Returns (fun n => compile ops n
        ('(' :: (a ++ ' ' :: '+' :: ' ' :: (b ++ ')' :: ' ' :: '*' :: ' ' :: c))) initChunk st)
        (true, st') ∧
      st'.chunk.code = [0, 0, 0, 1, 7, 0, 2, 9, 13] ∧
      st'.chunk.constants =
        [Value.NUMBER_VAL
           (ops.strtod (a ++ ' ' :: '+' :: ' ' :: (b ++ ')' :: ' ' :: '*' :: ' ' :: c))),
         Value.NUMBER_VAL (ops.strtod (b ++ ')' :: ' ' :: '*' :: ' ' :: c)),
         Value.NUMBER_VAL (ops.strtod c)] ∧
      st'.vm = st.vm ∧ st'.heap = st.heap ∧ st'.stdout = st.stdout ∧ st'.stderr = st.stderr := by
  let rB : List Char := ')' :: ' ' :: '*' :: ' ' :: c
  let rA : List Char := ' ' :: '+' :: ' ' :: (b ++ rB)
  have hrA : Scan.StopsNumber rA := stopsNumber_cons _ _ (by decide) (by decide)
  have hrB : Scan.StopsNumber rB := stopsNumber_cons _ _ (by decide) (by decide)
  let s0 : State D := compileStart st ('(' :: (a ++ rA)) initChunk
  have h1 := advance_symbol s0 0 '(' TokenType.TOKEN_LEFT_PAREN (a ++ rA) rfl rfl
  let s1 : State D := shift s0 ⟨TokenType.TOKEN_LEFT_PAREN, '(' :: (a ++ rA), 1, 1⟩
    ⟨'(' :: (a ++ rA), a ++ rA, 1⟩
  have h2 := advance_number s1 0 a rA ha hrA rfl
  let s2 : State D := shift s1 ⟨TokenType.TOKEN_NUMBER, a ++ rA, a.length, 1⟩ ⟨a ++ rA, rA, 1⟩
  have h3 := advance_symbol s2 1 '+' TokenType.TOKEN_PLUS (' ' :: (b ++ rB)) rfl rfl
  let s3 : State D := shift s2 ⟨TokenType.TOKEN_PLUS, '+' :: ' ' :: (b ++ rB), 1, 1⟩
    ⟨'+' :: ' ' :: (b ++ rB), ' ' :: (b ++ rB), 1⟩
  let s4 : State D := number ops s3
  have h4 := advance_number s4 1 b rB hb hrB (by simp [s4, s3])
  let s5 : State D := shift s4 ⟨TokenType.TOKEN_NUMBER, b ++ rB, b.length, 1⟩ ⟨b ++ rB, rB, 1⟩
  have h5 := advance_symbol s5 0 ')' TokenType.TOKEN_RIGHT_PAREN (' ' :: '*' :: ' ' :: c)
    rfl rfl
  let s6 : State D := shift s5 ⟨TokenType.TOKEN_RIGHT_PAREN, rB, 1, 1⟩
    ⟨rB, ' ' :: '*' :: ' ' :: c, 1⟩
  let s7 : State D := number ops s6
  let s8 : State D := binaryEmit s7 TokenType.TOKEN_PLUS
  have h6 := advance_symbol s8 1 '*' TokenType.TOKEN_STAR (' ' :: c) rfl
    (by simp [s8, s7, s6])
  let s9 : State D := shift s8 ⟨TokenType.TOKEN_STAR, '*' :: ' ' :: c, 1, 1⟩
    ⟨'*' :: ' ' :: c, ' ' :: c, 1⟩
  have h7 := advance_number s9 1 c [] hc stopsNumber_nil (by simp [s9])
  let s10 : State D := shift s9 ⟨TokenType.TOKEN_NUMBER, c, c.length, 1⟩ ⟨c, [], 1⟩
  have h8 := advance_eof s10 0 rfl
  let s11 : State D := shift s10 ⟨TokenType.TOKEN_EOF, [], 0, 1⟩ ⟨[], [], 1⟩
  let s12 : State D := number ops s11
  let s13 : State D := binaryEmit s12 TokenType.TOKEN_STAR
  have h9 := advance_eof s13 0 (by simp [s13, s12, s11])
  let s14 : State D := shift s13 ⟨TokenType.TOKEN_EOF, [], 0, 1⟩ ⟨[], [], 1⟩
  -- the operand `b` at precedence TERM + 1
  have p5 : Returns (fun n => parsePrecedence ops n
      ((getRule s5.parser.previous.type).precedence + 1) s5) s7 :=
    parsePrecedence_number ops _ s5 _ _ rfl (by simpa [s5, s4, s3] using h5)
      (by simp [s5, s4, s3, getRule, rules, PREC_TERM, PREC_NONE])
  -- the expression between the parentheses
  have p2 : Returns (fun n => parsePrecedence ops n PREC_ASSIGNMENT s2) s8 :=
    parsePrecedence_returns ops _ s2 s3 s4 s8 ParseFn.number h3 rfl (callParseFn_number ops s3)
      (infixLoop_step ops _ s4 s5 s8 s8 ParseFn.binary
        (by simp [s4, s3, getRule, rules, PREC_ASSIGNMENT, PREC_TERM])
        (by simpa [s4, s3] using h4) rfl (callParseFn_binary ops s5 s7 p5)
        (infixLoop_stop ops _ s8
          (by simp [s8, s7, s6, getRule, rules, PREC_NONE, PREC_ASSIGNMENT])))
  have pg : Returns (fun n => callParseFn ops n ParseFn.grouping s2) s9 :=
    callParseFn_grouping ops s2 s8 s9 p2
      (consume_returns s8 _ _ s9 (by simp [s8, s7, s6])
        (by simpa [s9, s8, s7, s6] using h6))
  -- the operand `c` at precedence FACTOR + 1
  have p10 : Returns (fun n => parsePrecedence ops n
      ((getRule s10.parser.previous.type).precedence + 1) s10) s12 :=
    parsePrecedence_number ops _ s10 _ _ rfl (by simpa [s10, s9] using h8)
      (by simp [s10, s9, getRule, rules, PREC_FACTOR, PREC_NONE])
  -- the whole expression
  have p1 : Returns (fun n => parsePrecedence ops n PREC_ASSIGNMENT s1) s13 :=
    parsePrecedence_returns ops _ s1 s2 s9 s13 ParseFn.grouping h2 rfl pg
      (infixLoop_step ops _ s9 s10 s13 s13 ParseFn.binary
        (by simp [s9, getRule, rules, PREC_ASSIGNMENT, PREC_FACTOR])
        (by simpa [s10, s9] using h7) rfl (callParseFn_binary ops s10 s12 p10)
        (infixLoop_stop ops _ s13
          (by simp [s13, s12, s11, getRule, rules, PREC_NONE, PREC_ASSIGNMENT])))
  have pc := compile_returns ops ('(' :: (a ++ rA)) initChunk st s1 s13 s14 h1 p1
    (consume_returns s13 _ _ s14 (by simp [s13, s12, s11])
      (by simpa [s13, s12, s11] using h9))
  -- the chunk
  have e4 : s4 = { s3 with chunk := ⟨[0, 0], [1, 1],
      [Value.NUMBER_VAL (ops.strtod (a ++ rA))]⟩ } :=
    number_of_room ops s3 (by simp [s3, s2, s1, s0, compileStart, initChunk])
  have e7 : s7 = { s6 with chunk := ⟨[0, 0, 0, 1], [1, 1, 1, 1],
      [Value.NUMBER_VAL (ops.strtod (a ++ rA)), Value.NUMBER_VAL (ops.strtod (b ++ rB))]⟩ } := by
    have := number_of_room ops s6 (by simp [s6, s5, e4])
    simpa [s6, s5, e4, OpCode.toByte] using this
  have e12 : s12 = { s11 with chunk := ⟨[0, 0, 0, 1, 7, 0, 2], [1, 1, 1, 1, 1, 1, 1],
      [Value.NUMBER_VAL (ops.strtod (a ++ rA)), Value.NUMBER_VAL (ops.strtod (b ++ rB)),
       Value.NUMBER_VAL (ops.strtod c)]⟩ } := by
    have := number_of_room ops s11 (by simp [s11, s10, s9, s8, e7])
    simpa [s11, s10, s9, s8, e7, OpCode.toByte, binaryEmit, emitByte, writeChunk] using this
  refine ⟨endCompiler s14, ?_, ?_, ?_, ?_, ?_, ?_, ?_⟩
  · have hh : (endCompiler s14).parser.hadError = false := by
      simp [endCompiler, emitReturn, s14, s13, e12, s11, s10, s9, s8, e7, s6, s5, e4, s3, s2, s1,
        s0, compileStart]
    rw [hh] at pc
    exact pc
  · simp [endCompiler, emitReturn, s14, s13, e12, binaryEmit, emitByte, writeChunk,
      OpCode.toByte]
  · simp [endCompiler, emitReturn, s14, s13, e12, binaryEmit, emitByte, writeChunk]
  · simp [endCompiler, emitReturn, s14, s13, s12, s11, s10, s9, s8, s7, s6, s5, s4, s3, s2, s1,
      s0, compileStart]
  · simp [endCompiler, emitReturn, s14, s13, s12, s11, s10, s9, s8, s7, s6, s5, s4, s3, s2, s1,
      s0, compileStart]
  · simp [endCompiler, emitReturn, s14, s13, s12, s11, s10, s9, s8, s7, s6, s5, s4, s3, s2, s1,
      s0, compileStart]
  · simp [endCompiler, emitReturn, s14, s13, e12, s11, s10, s9, s8, e7, s6, s5, e4, s3, s2, s1,
      s0, compileStart]

end Compiler


namespace VMachine

variable {D : Type}

/-! ## Running the two chunks of the precedence example -/

theorem run_add_mul (ops : DoubleOps D) (st : State D) (x y z : D) (lines : List Nat)
    (hcode : st.vm.chunk = ⟨[0, 0, 0, 1, 0, 2, 9, 7, 13], lines,
      [Value.NUMBER_VAL x, Value.NUMBER_VAL y, Value.NUMBER_VAL z]⟩)
    (hip : st.vm.ip = 0) (hstack : st.vm.stack.length + 3 ≤ STACK_MAX) (k : Nat) :
    ∃ st', run ops (k + 6) st = Res.done (InterpretResult.INTERPRET_OK, st') ∧
      st'.stdout = st.stdout ++ [Printed.number (ops.add x (ops.mul y z)),
        Printed.text ['\n']] := by
  have hS : STACK_MAX = 256 := rfl
  rw [run_constant ops (k + 5) st 0 (Value.NUMBER_VAL x) (by simp [hcode, hip, OpCode.toByte])
    (by simp [hcode, hip]) (by simp [hcode]) (by omega)]
  rw [run_constant ops (k + 4) _ 1 (Value.NUMBER_VAL y)
    (by simp [stepTo, hcode, hip, OpCode.toByte]) (by simp [stepTo, hcode, hip])
    (by simp [stepTo, hcode]) (by simp [stepTo]; omega)]
  rw [run_constant ops (k + 3) _ 2 (Value.NUMBER_VAL z)
    (by simp [stepTo, hcode, hip, OpCode.toByte]) (by simp [stepTo, hcode, hip])
    (by simp [stepTo, hcode]) (by simp [stepTo]; omega)]
  rw [(run_arith ops (k + 2) _ y z (Value.NUMBER_VAL x :: st.vm.stack) (by simp [stepTo])
    (by simp [stepTo]; omega)).2.1 (by simp [stepTo, hcode, hip, OpCode.toByte])]
  rw [(run_arith ops (k + 1) _ x (ops.mul y z) st.vm.stack (by simp [stepTo])
    (by simp [stepTo]; omega)).2.2.2 (by simp [stepTo, hcode, hip, OpCode.toByte])]
  rw [run_return_number ops k _ (ops.add x (ops.mul y z)) st.vm.stack
    (by simp [stepTo, hcode, hip, OpCode.toByte]) (by simp [stepTo])]
  exact ⟨_, rfl, by simp [stepTo]⟩

theorem run_group_mul (ops : DoubleOps D) (st : State D) (x y z : D) (lines : List Nat)
    (hcode : st.vm.chunk = ⟨[0, 0, 0, 1, 7, 0, 2, 9, 13], lines,
      [Value.NUMBER_VAL x, Value.NUMBER_VAL y, Value.NUMBER_VAL z]⟩)
    (hip : st.vm.ip = 0) (hstack : st.vm.stack.length + 2 ≤ STACK_MAX) (k : Nat) :
    ∃ st', run ops (k + 6) st = Res.done (InterpretResult.INTERPRET_OK, st') ∧
      st'.stdout = st.stdout ++ [Printed.number (ops.mul (ops.add x y) z),
        Printed.text ['\n']] := by
  have hS : STACK_MAX = 256 := rfl
  rw [run_constant ops (k + 5) st 0 (Value.NUMBER_VAL x) (by simp [hcode, hip, OpCode.toByte])
    (by simp [hcode, hip]) (by simp [hcode]) (by omega)]
  rw [run_constant ops (k + 4) _ 1 (Value.NUMBER_VAL y)
    (by simp [stepTo, hcode, hip, OpCode.toByte]) (by simp [stepTo, hcode, hip])
    (by simp [stepTo, hcode]) (by simp [stepTo]; omega)]
  rw [(run_arith ops (k + 3) _ x y st.vm.stack (by simp [stepTo])
    (by simp [stepTo]; omega)).2.2.2 (by simp [stepTo, hcode, hip, OpCode.toByte])]
  rw [run_constant ops (k + 2) _ 2 (Value.NUMBER_VAL z)
    (by simp [stepTo, hcode, hip, OpCode.toByte]) (by simp [stepTo, hcode, hip])
    (by simp [stepTo, hcode]) (by simp [stepTo]; omega)]
  rw [(run_arith ops (k + 1) _ (ops.add x y) z st.vm.stack (by simp [stepTo])
    (by simp [stepTo]; omega)).2.1 (by simp [stepTo, hcode, hip, OpCode.toByte])]
  rw [run_return_number ops k _ (ops.mul (ops.add x y) z) st.vm.stack
    (by simp [stepTo, hcode, hip, OpCode.toByte]) (by simp [stepTo])]
  exact ⟨_, rfl, by simp [stepTo]⟩

/-- Function `interpret` on a source that compiles: the chunk is handed to the VM and run. -/
theorem interpret_of_compile (ops : DoubleOps D) (source : List Char) (st stc : State D)
    (r : InterpretResult × State D)
    (hc : Returns (fun n => Compiler.compile ops n source initChunk st) (true, stc))
    (hr : Returns (fun n => run ops n
      { stc with vm := { stc.vm with chunk := stc.chunk, ip := 0 } }) r) :
    Returns (fun n => interpret ops n source st) r := by
  refine Returns.bind hc ?_
  simp only [Bool.not_true, Bool.false_eq_true, if_false]
  exact hr

end VMachine


namespace VMachine

variable {D : Type}

/-! ## The two instructions that do not stop where they should -/

/-- After a type error `BINARY_OP` goes on: the stack has been reset, the first pop reads
below the stack array. -/
theorem BINARY_OP_mismatch (st : State D) (f : D → D → Value D) (v0 v1 : Value D)
    (rest : List (Value D)) (hs : st.vm.stack = v0 :: v1 :: rest)
    (h : (IS_NUMBER v0 && IS_NUMBER v1) = false) :
    BINARY_OP st f = Res.undefinedBehaviour := by
  have hm : (if !IS_NUMBER v0 then Res.done true
      else (peek st 1).bind fun v1 => Res.done (!IS_NUMBER v1)) = Res.done true := by
    cases h0 : IS_NUMBER v0
    · rfl
    · rw [h0] at h
      have h1 : IS_NUMBER v1 = false := by simpa using h
      simp [peek, hs, h1]
  have hp : peek st 0 = Res.done v0 := by simp [peek, hs]
  unfold BINARY_OP
  rw [hp]
  simp only [Res.bind_done]
  rw [hm]
  simp only [Res.bind_done, if_true]
  unfold runtimeError
  split
  · rfl
  · split
    · simp [resetStack, pop]
    · rfl

/-- After a successful negation `run` prints the result and returns Ok, whatever follows
`OP_NEGATE` in the chunk. -/
theorem run_negate_number (ops : DoubleOps D) (n : Nat) (st : State D) (x : D)
    (rest : List (Value D))
    (h : st.vm.chunk.code.get? st.vm.ip = some OpCode.OP_NEGATE.toByte)
    (hs : st.vm.stack = Value.NUMBER_VAL x :: rest) (hlen : st.vm.stack.length ≤ STACK_MAX) :
    run ops (n + 1) st = Res.done (InterpretResult.INTERPRET_OK,
      { stepTo st 1 rest with
        stdout := st.stdout ++ [Printed.number (ops.neg x), Printed.text ['\n']] }) := by
  have hl : rest.length < STACK_MAX := by
    rw [hs] at hlen
    simp only [List.length_cons] at hlen
    omega
  rw [run, READ_BYTE_eq st _ h]
  simp only [Res.bind_done, OpCode.toByte, OfNat.ofNat_ne_zero, if_false, if_true,
    Nat.reduceEqDiff]
  simp [peek, pop, push, hs, IS_NUMBER, AS_NUMBER, hl, opReturn, printValue, stepTo]

end VMachine


namespace VMachine

variable {D : Type}

/-- For every state whose next instruction is SUBTRACT, MULTIPLY, DIVIDE, GREATER or LESS and
whose two topmost stack values are not both numbers, `run` does not return: after the report
the instruction pops from the reset stack. -/
theorem run_binary_mismatch (ops : DoubleOps D) (n : Nat) (st : State D) (op : OpCode)
    (v0 v1 : Value D) (rest : List (Value D))
    (hop : op = OpCode.OP_SUBTRACT ∨ op = OpCode.OP_MULTIPLY ∨ op = OpCode.OP_DIVIDE ∨
      op = OpCode.OP_GREATER ∨ op = OpCode.OP_LESS)
    (h : st.vm.chunk.code.get? st.vm.ip = some op.toByte)
    (hs : st.vm.stack = v0 :: v1 :: rest)
    (hnum : (IS_NUMBER v0 && IS_NUMBER v1) = false) :
    run ops (n + 1) st = Res.undefinedBehaviour := by
  have hb : ∀ f, BINARY_OP ({ st with vm := { st.vm with ip := st.vm.ip + 1 } }) f =
      Res.undefinedBehaviour := fun f => BINARY_OP_mismatch _ f v0 v1 rest hs hnum
  rw [run, READ_BYTE_eq st _ h]
  rcases hop with rfl | rfl | rfl | rfl | rfl <;>
    simp only [Res.bind_done, OpCode.toByte, OfNat.ofNat_ne_zero, if_false, if_true,
      Nat.reduceEqDiff, hb, Res.bind_undefinedBehaviour]

end VMachine


namespace Scan

/-! ## The binary operators -/

theorem binaryLexeme_cases {op : TokenType} {lex : List Char} (h : binaryLexeme op = some lex) :
    (op = TokenType.TOKEN_EQUAL_EQUAL ∧ lex = ['=', '=']) ∨
    (op = TokenType.TOKEN_GREATER ∧ lex = ['>']) ∨
    (op = TokenType.TOKEN_GREATER_EQUAL ∧ lex = ['>', '=']) ∨
    (op = TokenType.TOKEN_LESS ∧ lex = ['<']) ∨
    (op = TokenType.TOKEN_LESS_EQUAL ∧ lex = ['<', '=']) ∨
    (op = TokenType.TOKEN_PLUS ∧ lex = ['+']) ∨
    (op = TokenType.TOKEN_MINUS ∧ lex = ['-']) ∨
    (op = TokenType.TOKEN_STAR ∧ lex = ['*']) ∨
    (op = TokenType.TOKEN_SLASH ∧ lex = ['/']) := by
  unfold binaryLexeme at h
  split at h <;> simp_all

/-- A binary operator followed by a blank is scanned as its token. -/
theorem scanToken_binary (s : Scanner) (k : Nat) (op : TokenType) (lex r : List Char)
    (hlex : binaryLexeme op = some lex)
    (hs : s.current = List.replicate k ' ' ++ (lex ++ ' ' :: r)) :
    Returns (fun n => scanToken n s)
      (⟨op, lex ++ ' ' :: r, lex.length, s.line⟩, ⟨lex ++ ' ' :: r, ' ' :: r, s.line⟩) := by
  have hsw : StopsWhitespace (lex ++ ' ' :: r) := by
    cases op <;> simp [binaryLexeme] at hlex <;> subst hlex <;> simp [StopsWhitespace, deref]
  refine Returns.bind (skipWhitespace_returns k _ hsw s hs) ?_
  show Returns (fun n => scanLexeme n ⟨lex ++ ' ' :: r, lex ++ ' ' :: r, s.line⟩) _
  cases op <;> simp [binaryLexeme] at hlex <;> subst hlex <;>
    simp [scanLexeme, scanSwitch, isAtEnd, deref, advance, makeToken, makeToken2, matchChar,
      lexemeLength, isAlpha, isDigit] <;>
    exact Returns.const _

end Scan


namespace Compiler

variable {D : Type}

/-! ## Left associativity -/

theorem binaryLexeme_rule {op : TokenType} {lex : List Char}
    (h : Scan.binaryLexeme op = some lex) :
    (getRule op).infixRule = some ParseFn.binary ∧
    PREC_ASSIGNMENT ≤ (getRule op).precedence ∧ op ≠ TokenType.TOKEN_ERROR := by
  cases op <;> simp [Scan.binaryLexeme] at h <;> exact ⟨rfl, by decide, by decide⟩

theorem binaryEmit_eq_withOpcodes (st : State D) (op : TokenType) (opcodes : List OpCode)
    (h : specBinaryOpcodes op = some opcodes) : binaryEmit st op = withOpcodes st opcodes := by
  unfold specBinaryOpcodes at h
  split at h <;> cases h <;>
    simp [binaryEmit, withOpcodes, emitBytes, emitByte, writeChunk]

theorem advance_binary (st : State D) (k : Nat) (op : TokenType) (lex r : List Char)
    (hlex : Scan.binaryLexeme op = some lex)
    (hs : st.scanner.current = List.replicate k ' ' ++ (lex ++ ' ' :: r)) :
    Returns (fun n => advance n st)
      (shift st ⟨op, lex ++ ' ' :: r, lex.length, st.scanner.line⟩
        ⟨lex ++ ' ' :: r, ' ' :: r, st.scanner.line⟩) :=
  advance_returns st _ _ (Scan.scanToken_binary st.scanner k op lex r hlex hs)
    (binaryLexeme_rule hlex).2.2

/-- Binary operators associate to the left: for number literals `a`, `b`, `c` and operators
`op1`, `op2` of the spec's table where `op2` does not bind tighter than `op1`, the source
`a op1 b op2 c` compiles to the code of `a`, the code of `b`, the opcodes of `op1`, the code of
`c`, the opcodes of `op2`, and `OP_RETURN`. -/
theorem compile_left_assoc (ops : DoubleOps D) (st : State D) (a b c : List Char)
    (op1 op2 : TokenType) (lex1 lex2 : List Char) (oc1 oc2 : List OpCode)
    (ha : Scan.IsNumberLexeme a) (hb : Scan.IsNumberLexeme b) (hc : Scan.IsNumberLexeme c)
    (hl1 : Scan.binaryLexeme op1 = some lex1) (hl2 : Scan.binaryLexeme op2 = some lex2)
    (ho1 : specBinaryOpcodes op1 = some oc1) (ho2 : specBinaryOpcodes op2 = some oc2)
    (hle : (getRule op2).precedence ≤ (getRule op1).precedence) :
    ∃ st', Returns (fun n => compile ops n
        (a ++ ' ' :: (lex1 ++ ' ' :: (b ++ ' ' :: (lex2 ++ ' ' :: c)))) initChunk st)
        (true, st') ∧
      st'.chunk.code = [0, 0, 0, 1] ++ oc1.map OpCode.toByte ++ [0, 2] ++
        oc2.map OpCode.toByte ++ [13] ∧
      st'.stderr = st.stderr := by
  obtain ⟨hi1, hp1, _⟩ := binaryLexeme_rule hl1
  obtain ⟨hi2, hp2, _⟩ := binaryLexeme_rule hl2
  let rB : List Char := ' ' :: (lex2 ++ ' ' :: c)
  let rA : List Char := ' ' :: (lex1 ++ ' ' :: (b ++ rB))
  have hrA : Scan.StopsNumber rA := stopsNumber_cons _ _ (by decide) (by decide)
  have hrB : Scan.StopsNumber rB := stopsNumber_cons _ _ (by decide) (by decide)
  let s0 : State D := compileStart st (a ++ rA) initChunk
  have h1 := advance_number s0 0 a rA ha hrA rfl
  let s1 : State D := shift s0 ⟨TokenType.TOKEN_NUMBER, a ++ rA, a.length, 1⟩ ⟨a ++ rA, rA, 1⟩
  have h2 := advance_binary s1 1 op1 lex1 (b ++ rB) hl1 rfl
  let s2 : State D := shift s1 ⟨op1, lex1 ++ ' ' :: (b ++ rB), lex1.length, 1⟩
    ⟨lex1 ++ ' ' :: (b ++ rB), ' ' :: (b ++ rB), 1⟩
  let s3 : State D := number ops s2
  have h3 := advance_number s3 1 b rB hb hrB (by simp [s3, s2])
  let s4 : State D := shift s3 ⟨TokenType.TOKEN_NUMBER, b ++ rB, b.length, 1⟩ ⟨b ++ rB, rB, 1⟩
  have h4 := advance_binary s4 1 op2 lex2 c hl2 rfl
  let s5 : State D := shift s4 ⟨op2, lex2 ++ ' ' :: c, lex2.length, 1⟩
    ⟨lex2 ++ ' ' :: c, ' ' :: c, 1⟩
  let s6 : State D := number ops s5
  let s7 : State D := binaryEmit s6 op1
  have h5 := advance_number s7 1 c [] hc stopsNumber_nil (by simp [s7, s6, s5])
  let s8 : State D := shift s7 ⟨TokenType.TOKEN_NUMBER, c, c.length, 1⟩ ⟨c, [], 1⟩
  have h6 := advance_eof s8 0 rfl
  let s9 : State D := shift s8 ⟨TokenType.TOKEN_EOF, [], 0, 1⟩ ⟨[], [], 1⟩
  let s10 : State D := number ops s9
  let s11 : State D := binaryEmit s10 op2
  have h7 := advance_eof s11 0 (by simp [s11, s10, s9])
  let s12 : State D := shift s11 ⟨TokenType.TOKEN_EOF, [], 0, 1⟩ ⟨[], [], 1⟩
  have hprev4 : s4.parser.previous.type = op1 := by simp [s4, s3, s2]
  have hprev8 : s8.parser.previous.type = op2 := by simp [s8, s7, s6, s5]
  -- the operand `b` at the precedence of `op1` plus one
  have p4 : Returns (fun n => parsePrecedence ops n
      ((getRule s4.parser.previous.type).precedence + 1) s4) s6 :=
    parsePrecedence_number ops _ s4 _ _ rfl (by simpa [s4, s3, s2] using h4)
      (by rw [hprev4]
          exact fun h => absurd (Nat.le_trans h hle) (Nat.not_succ_le_self _))
  have c4 := callParseFn_binary ops s4 s6 p4
  rw [hprev4] at c4
  -- the operand `c` at the precedence of `op2` plus one
  have p8 : Returns (fun n => parsePrecedence ops n
      ((getRule s8.parser.previous.type).precedence + 1) s8) s10 :=
    parsePrecedence_number ops _ s8 _ _ rfl (by simpa [s8, s7, s6, s5] using h6)
      (by rw [hprev8]; show ¬ _ + 1 ≤ (getRule TokenType.TOKEN_EOF).precedence
          simp [getRule, rules, PREC_NONE])
  have c8 := callParseFn_binary ops s8 s10 p8
  rw [hprev8] at c8
  -- the whole expression
  have p1 : Returns (fun n => parsePrecedence ops n PREC_ASSIGNMENT s1) s11 :=
    parsePrecedence_returns ops _ s1 s2 s3 s11 ParseFn.number h2 rfl (callParseFn_number ops s2)
      (infixLoop_step ops _ s3 s4 s7 s11 ParseFn.binary (by simpa [s3, s2] using hp1)
        (by simpa [s3, s2] using h3) (by rw [hprev4]; exact hi1) c4
        (infixLoop_step ops _ s7 s8 s11 s11 ParseFn.binary (by simpa [s7, s6, s5] using hp2)
          (by simpa [s7, s6, s5] using h5) (by rw [hprev8]; exact hi2) c8
          (infixLoop_stop ops _ s11
            (by simp [s11, s10, s9, getRule, rules, PREC_NONE, PREC_ASSIGNMENT]))))
  have pc := compile_returns ops (a ++ rA) initChunk st s1 s11 s12 h1 p1
    (consume_returns s11 _ _ s12 (by simp [s11, s10, s9])
      (by simpa [s11, s10, s9] using h7))
  -- the chunk
  have e3 : s3 = { s2 with chunk := ⟨[0, 0], [1, 1],
      [Value.NUMBER_VAL (ops.strtod (a ++ rA))]⟩ } :=
    number_of_room ops s2 (by simp [s2, s1, s0, compileStart, initChunk])
  have e6 : s6 = { s5 with chunk := ⟨[0, 0, 0, 1], [1, 1, 1, 1],
      [Value.NUMBER_VAL (ops.strtod (a ++ rA)), Value.NUMBER_VAL (ops.strtod (b ++ rB))]⟩ } := by
    have := number_of_room ops s5 (by simp [s5, s4, e3])
    simpa [s5, s4, e3, OpCode.toByte] using this
  have e7 : s7 = withOpcodes s6 oc1 := binaryEmit_eq_withOpcodes s6 op1 oc1 ho1
  have e10 : s10.chunk.code = [0, 0, 0, 1] ++ oc1.map OpCode.toByte ++ [0, 2] ∧
      s10.parser.hadError = false ∧ s10.stderr = st.stderr := by
    have := number_of_room ops s9 (by simp [s9, s8, e7, withOpcodes, e6])
    simp only [s10, this]
    simp [s9, s8, e7, withOpcodes, e6, OpCode.toByte, s5, s4, e3, s2, s1, s0, compileStart]
  have e11 : s11 = withOpcodes s10 oc2 := binaryEmit_eq_withOpcodes s10 op2 oc2 ho2
  refine ⟨endCompiler s12, ?_, ?_, ?_⟩
  · have hh : (endCompiler s12).parser.hadError = false := by
      simp [endCompiler, emitReturn, s12, e11, withOpcodes, e10.2.1]
    rw [hh] at pc
    exact pc
  · simp [endCompiler, emitReturn, s12, e11, withOpcodes, e10.1, OpCode.toByte]
  · simp [endCompiler, emitReturn, s12, e11, withOpcodes, e10.2.2]

end Compiler


namespace Scan

/-! ## The operator that is not compiled -/

/-- The operator `!=` followed by a blank is scanned as `TOKEN_BANG_EQUAL`. -/
theorem scanToken_bang_equal (s : Scanner) (k : Nat) (r : List Char)
    (hs : s.current = List.replicate k ' ' ++ ('!' :: '=' :: ' ' :: r)) :
    Returns (fun n => scanToken n s)
      (⟨TokenType.TOKEN_BANG_EQUAL, '!' :: '=' :: ' ' :: r, 2, s.line⟩,
       ⟨'!' :: '=' :: ' ' :: r, ' ' :: r, s.line⟩) := by
  have hsw : StopsWhitespace ('!' :: '=' :: ' ' :: r) := by simp [StopsWhitespace, deref]
  refine Returns.bind (skipWhitespace_returns k _ hsw s hs) ?_
  show Returns (fun n => scanLexeme n ⟨'!' :: '=' :: ' ' :: r, '!' :: '=' :: ' ' :: r, s.line⟩) _
  simp [scanLexeme, scanSwitch, isAtEnd, deref, advance, makeToken, makeToken2, matchChar,
    lexemeLength, isAlpha, isDigit]
  exact Returns.const _

end Scan

namespace Compiler

variable {D : Type}

/-- The operator `!=` is never compiled: for number literals `a` and `b` the source `a != b`
makes `compile` return false with the report "Expect end of expression" at `!=`; the chunk
holds the constant `a` and `OP_RETURN`. -/
theorem compile_bang_equal (ops : DoubleOps D) (st : State D) (a b : List Char)
    (ha : Scan.IsNumberLexeme a) :
    ∃ st', Returns (fun n => compile ops n (a ++ ' ' :: '!' :: '=' :: ' ' :: b) initChunk st)
        (false, st') ∧
      st'.chunk.code = [0, 0, 13] ∧
      st'.stderr = st.stderr ++ [Diagnostic.compileError 1 " at '!='".toList
        "Expect end of expression".toList] := by
  let rA : List Char := ' ' :: '!' :: '=' :: ' ' :: b
  have hrA : Scan.StopsNumber rA := stopsNumber_cons _ _ (by decide) (by decide)
  let s0 : State D := compileStart st (a ++ rA) initChunk
  have h1 := advance_number s0 0 a rA ha hrA rfl
  let s1 : State D := shift s0 ⟨TokenType.TOKEN_NUMBER, a ++ rA, a.length, 1⟩ ⟨a ++ rA, rA, 1⟩
  have h2 : Returns (fun n => advance n s1)
      (shift s1 ⟨TokenType.TOKEN_BANG_EQUAL, '!' :: '=' :: ' ' :: b, 2, 1⟩
        ⟨'!' :: '=' :: ' ' :: b, ' ' :: b, 1⟩) :=
    advance_returns s1 _ _ (Scan.scanToken_bang_equal s1.scanner 1 b rfl) (by simp)
  let s2 : State D := shift s1 ⟨TokenType.TOKEN_BANG_EQUAL, '!' :: '=' :: ' ' :: b, 2, 1⟩
    ⟨'!' :: '=' :: ' ' :: b, ' ' :: b, 1⟩
  let s3 : State D := number ops s2
  have p1 : Returns (fun n => parsePrecedence ops n PREC_ASSIGNMENT s1) s3 :=
    parsePrecedence_number ops _ s1 _ _ rfl h2
      (by simp [getRule, rules, PREC_ASSIGNMENT, PREC_NONE])
  have e3 : s3 = { s2 with chunk := ⟨[0, 0], [1, 1],
      [Value.NUMBER_VAL (ops.strtod (a ++ rA))]⟩ } :=
    number_of_room ops s2 (by simp [s2, s1, s0, compileStart, initChunk])
  have pcons : Returns (fun n => consume n s3 TokenType.TOKEN_EOF
      "Expect end of expression".toList)
      (errorAtCurrent s3 "Expect end of expression".toList) := by
    have hty : ¬ s3.parser.current.type = TokenType.TOKEN_EOF := by simp [s3, s2]
    simp only [consume, hty, if_false]
    exact Returns.const _
  have pc := compile_returns ops (a ++ rA) initChunk st s1 s3 _ h1 p1 pcons
  refine ⟨endCompiler (errorAtCurrent s3 "Expect end of expression".toList), ?_, ?_, ?_⟩
  · have hh : (endCompiler (errorAtCurrent s3 "Expect end of expression".toList)).parser.hadError
        = true := by
      simp [endCompiler, emitReturn, errorAtCurrent, errorAt, e3, s2, s1, s0, compileStart]
    rw [hh] at pc
    exact pc
  · simp [endCompiler, emitReturn, errorAtCurrent, e3, OpCode.toByte]
  · simp [endCompiler, emitReturn, errorAtCurrent, errorAt, e3, s2, s1, s0, compileStart]

end Compiler


namespace Scan

/-! ## String literals without a closing quote -/

theorem stringLoop_unterminated : ∀ (t : List Char) (s : Scanner), s.current = t →
    '"' ∉ t → '\x00' ∉ t →
    stringLoop (t.length + 1) s = Res.done ⟨s.start, [], s.line + t.count '\n'⟩ := by
  intro t
  induction t with
  | nil =>
    intro s hs _ _
    have hp : isAtEnd s = true := by simp [isAtEnd, deref, hs]
    simp only [List.length_nil, stringLoop, hp, not_true_eq_false, and_false, if_false]
    cases s
    simp_all
  | cons c t ih =>
    intro s hs hq h0
    have hc1 : c ≠ '"' := fun h => hq (by simp [h])
    have hc2 : c ≠ '\x00' := fun h => h0 (by simp [h])
    have hp : peek s = c := by simp [peek, deref, hs]
    have he : isAtEnd s = false := by simp [isAtEnd, deref, hs, hc2]
    rw [List.length_cons, stringLoop, if_pos ⟨by rw [hp]; exact hc1, by simp [he]⟩]
    dsimp only
    rw [ih _ (by split <;> simp [advance, hs]) (fun h => hq (List.mem_cons_of_mem _ h))
      (fun h => h0 (List.mem_cons_of_mem _ h))]
    by_cases hn : c = '\n'
    · subst hn
      simp [advance, hp, List.count_cons]
      omega
    · simp [advance, hp, hn, List.count_cons]

/-- A quote that is not closed before the end of the text: the token is the error token
"Unterminated string" on the line where the text ends, and the scanner is at the end. -/
theorem scanToken_unterminated (s : Scanner) (k : Nat) (t : List Char)
    (hs : s.current = List.replicate k ' ' ++ '"' :: t) (hq : '"' ∉ t) (h0 : '\x00' ∉ t) :
    Returns (fun n => scanToken n s)
      (⟨TokenType.TOKEN_ERROR, "Unterminated string".toList, 19, s.line + t.count '\n'⟩,
       ⟨'"' :: t, [], s.line + t.count '\n'⟩) := by
  have hsw : StopsWhitespace ('"' :: t) := by simp [StopsWhitespace, deref]
  refine Returns.bind (skipWhitespace_returns k _ hsw s hs) ?_
  show Returns (fun n => scanLexeme n ⟨'"' :: t, '"' :: t, s.line⟩) _
  have hstr : Returns (fun n => string n ⟨'"' :: t, t, s.line⟩)
      (⟨TokenType.TOKEN_ERROR, "Unterminated string".toList, 19, s.line + t.count '\n'⟩,
       ⟨'"' :: t, [], s.line + t.count '\n'⟩) := by
    refine Returns.bind (Returns.of_le (t.length + 1) (fun n m h => stringLoop_le n m _ h)
      (stringLoop_unterminated t ⟨'"' :: t, t, s.line⟩ rfl hq h0)) ?_
    simp only [isAtEnd, deref, List.headD_nil, beq_self_eq_true, if_true, errorToken]
    exact Returns.const _
  simp only [scanLexeme, scanSwitch, isAtEnd, deref, advance, isAlpha, isDigit,
    List.headD_cons, List.tail_cons]
  simpa using hstr

end Scan

namespace VMachine

variable {D : Type}

/-! ## NOT and the two other cases of ADD -/

theorem isFalsey_iff (v : Value D) :
    isFalsey v = true ↔ v = Value.NIL_VAL ∨ v = Value.BOOL_VAL false := by
  cases v with
  | BOOL_VAL b => cases b <;> simp [isFalsey, IS_NIL, IS_BOOL, AS_BOOL]
  | NIL_VAL => simp [isFalsey, IS_NIL]
  | NUMBER_VAL x => simp [isFalsey, IS_NIL, IS_BOOL]
  | OBJ_VAL a => simp [isFalsey, IS_NIL, IS_BOOL]

theorem run_not (ops : DoubleOps D) (n : Nat) (st : State D) (v : Value D)
    (rest : List (Value D))
    (h : st.vm.chunk.code.get? st.vm.ip = some OpCode.OP_NOT.toByte)
    (hs : st.vm.stack = v :: rest) (hlen : st.vm.stack.length ≤ STACK_MAX) :
    run ops (n + 1) st = run ops n (stepTo st 1 (Value.BOOL_VAL (isFalsey v) :: rest)) := by
  have hl : rest.length < STACK_MAX := by
    rw [hs] at hlen
    simp only [List.length_cons] at hlen
    omega
  rw [run, READ_BYTE_eq st _ h]
  simp only [Res.bind_done, OpCode.toByte, OfNat.ofNat_ne_zero, if_false, if_true,
    Nat.reduceEqDiff]
  simp only [pop, hs, Res.bind_done, push, hl, if_true]
  rfl

theorem take_concat (a b : List Char) (k l : Nat) (ha : k ≤ a.length) (hb : l ≤ b.length) :
    (a.take k ++ b.take l ++ ['\x00']).take (k + l) = a.take k ++ b.take l := by
  have h1 : (a.take k ++ b.take l).length = k + l := by
    simp [List.length_take, Nat.min_eq_left ha, Nat.min_eq_left hb]
  rw [List.take_append_of_le_length (by omega), ← h1, List.take_length]

theorem concatenate_strings (st : State D) (ia ib : Nat) (a b : ObjString)
    (rest : List (Value D)) (hs : st.vm.stack = Value.OBJ_VAL ib :: Value.OBJ_VAL ia :: rest)
    (ha : st.heap.get? ia = some a) (hb : st.heap.get? ib = some b)
    (hla : a.length ≤ a.chars.length) (hlb : b.length ≤ b.chars.length)
    (hlen : st.vm.stack.length ≤ STACK_MAX) :
    concatenate st = Res.done
      { afterConcatenate st a b rest with vm := { (afterConcatenate st a b rest).vm with
          ip := st.vm.ip } } := by
  have hl : rest.length < STACK_MAX := by
    rw [hs] at hlen
    simp only [List.length_cons] at hlen
    omega
  simp only [concatenate, pop, hs, Res.bind_done, AS_STRING, ha, hb, takeString, allocateString,
    push, hl, if_true, take_concat _ _ _ _ hla hlb]
  rfl

/-- With two strings on top of the stack `OP_ADD` concatenates them and the run goes on. -/
theorem run_add_strings (ops : DoubleOps D) (n : Nat) (st : State D) (ia ib : Nat)
    (a b : ObjString) (rest : List (Value D))
    (h : st.vm.chunk.code.get? st.vm.ip = some OpCode.OP_ADD.toByte)
    (hs : st.vm.stack = Value.OBJ_VAL ib :: Value.OBJ_VAL ia :: rest)
    (ha : st.heap.get? ia = some a) (hb : st.heap.get? ib = some b)
    (hla : a.length ≤ a.chars.length) (hlb : b.length ≤ b.chars.length)
    (hlen : st.vm.stack.length ≤ STACK_MAX) :
    run ops (n + 1) st = run ops n (afterConcatenate st a b rest) := by
  rw [run, READ_BYTE_eq st _ h]
  simp only [Res.bind_done, OpCode.toByte, OfNat.ofNat_ne_zero, if_false, if_true,
    Nat.reduceEqDiff]
  have hta : a.type = ObjType.OBJ_STRING := by cases a.type; rfl
  have htb : b.type = ObjType.OBJ_STRING := by cases b.type; rfl
  have hadd : opAdd ops { st with vm := { st.vm with ip := st.vm.ip + 1 } } =
      Res.done (none, afterConcatenate st a b rest) := by
    have hc := concatenate_strings ({ st with vm := { st.vm with ip := st.vm.ip + 1 } })
      ia ib a b rest hs ha hb hla hlb hlen
    have ha2 : st.heap[ia]? = some a := by simpa using ha
    have hb2 : st.heap[ib]? = some b := by simpa using hb
    simp only [opAdd, hc]
    simp [peek, hs, IS_STRING, isObjType, ha2, hb2, hta, htb, afterConcatenate]
  rw [hadd]
  rfl

/-- With operands that are neither two strings nor two numbers `OP_ADD` reports the error,
empties the stack and ends the run. -/
theorem run_add_mismatch (ops : DoubleOps D) (n : Nat) (st : State D) (v0 v1 : Value D)
    (rest : List (Value D)) (line : Nat)
    (h : st.vm.chunk.code.get? st.vm.ip = some OpCode.OP_ADD.toByte)
    (hline : st.vm.chunk.lines.get? st.vm.ip = some line)
    (hs : st.vm.stack = v0 :: v1 :: rest)
    (hvalid : ∀ a, v0 = Value.OBJ_VAL a → a < st.heap.length)
    (hstr : (IS_OBJ v0 && IS_OBJ v1) = false)
    (hnum : (IS_NUMBER v0 && IS_NUMBER v1) = false) :
    run ops (n + 1) st = Res.done (InterpretResult.INTERPRET_RUNTIME_ERROR,
      { stepTo st 1 [] with
        stderr := st.stderr ++ [Diagnostic.runtimeError
          "Operands must be two numbers or two strings.".toList line] }) := by
  rw [run, READ_BYTE_eq st _ h]
  simp only [Res.bind_done, OpCode.toByte, OfNat.ofNat_ne_zero, if_false, if_true,
    Nat.reduceEqDiff]
  have hline2 : st.vm.chunk.lines[st.vm.ip]? = some line := by simpa using hline
  have hadd : opAdd ops { st with vm := { st.vm with ip := st.vm.ip + 1 } } =
      Res.done (some InterpretResult.INTERPRET_RUNTIME_ERROR,
        { stepTo st 1 [] with
          stderr := st.stderr ++ [Diagnostic.runtimeError
            "Operands must be two numbers or two strings.".toList line] }) := by
    cases v0 with
    | OBJ_VAL a =>
      obtain ⟨o, ho⟩ : ∃ o, st.heap[a]? = some o := by
        have := hvalid a rfl
        exact ⟨st.heap[a], List.getElem?_eq_getElem this⟩
      cases v1 <;> first
        | (simp [IS_OBJ] at hstr; done)
        | simp [opAdd, peek, hs, IS_STRING, isObjType, ho, IS_NUMBER, runtimeError, hline2,
            resetStack, stepTo]
    | BOOL_VAL b =>
      simp [opAdd, peek, hs, IS_STRING, isObjType, IS_NUMBER, runtimeError, hline2,
        resetStack, stepTo]
    | NIL_VAL =>
      simp [opAdd, peek, hs, IS_STRING, isObjType, IS_NUMBER, runtimeError, hline2,
        resetStack, stepTo]
    | NUMBER_VAL x =>
      cases v1 <;> first
        | (simp [IS_NUMBER] at hnum; done)
        | simp [opAdd, peek, hs, IS_STRING, isObjType, IS_NUMBER, runtimeError, hline2,
            resetStack, stepTo]
  rw [hadd]
  rfl

end VMachine


namespace Res

theorem all_bind_of {α β : Type} {Q : β → Prop} {R : α → Prop} {r : Res α} {f : α → Res β}
    (hr : r.All R) (h : ∀ a, R a → (f a).All Q) : (r.bind f).All Q := by
  intro b hb
  obtain ⟨a, ha, hfa⟩ := bind_eq_done hb
  exact h a (hr a ha) b hfa

theorem all_mono {α : Type} {Q R : α → Prop} {r : Res α} (hr : r.All R)
    (h : ∀ a, R a → Q a) : r.All Q :=
  fun a ha => h a (hr a ha)

theorem all_undefinedBehaviour {α : Type} {Q : α → Prop} :
    (undefinedBehaviour : Res α).All Q := by
  intro a ha
  cases ha

theorem all_outOfFuel {α : Type} {Q : α → Prop} : (outOfFuel : Res α).All Q := by
  intro a ha
  cases ha

end Res

namespace VMachine

variable {D : Type}

/-! ## Properties of the state kept by the instructions -/

theorem READ_BYTE_keeps {P : State D → Prop} (hP : VmStepsPreserve P) (st : State D)
    (hst : P st) : (READ_BYTE st).All (fun r => P r.2) := by
  unfold READ_BYTE
  split
  · exact Res.all_done (hP.vm st _ _ _ hst)
  · exact Res.all_undefinedBehaviour

theorem READ_CONSTANT_keeps {P : State D → Prop} (hP : VmStepsPreserve P) (st : State D)
    (hst : P st) : (READ_CONSTANT st).All (fun r => P r.2) := by
  unfold READ_CONSTANT
  refine Res.all_bind_of (READ_BYTE_keeps hP st hst) (fun r hr => ?_)
  split
  · exact Res.all_done hr
  · exact Res.all_undefinedBehaviour

theorem push_keeps {P : State D → Prop} (hP : VmStepsPreserve P) (st : State D)
    (v : Value D) (hst : P st) : (push st v).All P := by
  unfold push
  split
  · exact Res.all_done (hP.vm st _ _ _ hst)
  · exact Res.all_undefinedBehaviour

theorem pop_keeps {P : State D → Prop} (hP : VmStepsPreserve P) (st : State D)
    (hst : P st) : (pop st).All (fun r => P r.2) := by
  unfold pop
  split
  · exact Res.all_done (hP.vm st _ _ _ hst)
  · exact Res.all_undefinedBehaviour

theorem runtimeError_keeps {P : State D → Prop} (hP : VmStepsPreserve P) (st : State D)
    (msg : List Char) (hst : P st) : (runtimeError st msg).All P := by
  unfold runtimeError
  split
  · exact Res.all_undefinedBehaviour
  · split
    · exact Res.all_done (hP.vm _ _ _ _ (hP.stderr st _ hst))
    · exact Res.all_undefinedBehaviour

theorem BINARY_OP_keeps {P : State D → Prop} (hP : VmStepsPreserve P) (st : State D)
    (f : D → D → Value D) (hst : P st) : (BINARY_OP st f).All P := by
  unfold BINARY_OP
  refine Res.all_bind (fun v0 => Res.all_bind (fun mismatch => ?_))
  refine Res.all_bind_of (R := P) ?_ (fun st1 h1 => ?_)
  · split
    · exact runtimeError_keeps hP st _ hst
    · exact Res.all_done hst
  · refine Res.all_bind_of (pop_keeps hP st1 h1) (fun rb hb => Res.all_bind (fun b => ?_))
    refine Res.all_bind_of (pop_keeps hP rb.2 hb) (fun ra ha => Res.all_bind (fun a => ?_))
    exact push_keeps hP ra.2 _ ha

theorem concatenate_keeps {P : State D → Prop} (hP : VmStepsPreserve P) (st : State D)
    (hst : P st) : (concatenate st).All P := by
  unfold concatenate
  refine Res.all_bind_of (pop_keeps hP st hst) (fun rb hb => Res.all_bind (fun b => ?_))
  refine Res.all_bind_of (pop_keeps hP rb.2 hb) (fun ra ha => Res.all_bind (fun a => ?_))
  exact push_keeps hP _ _ (hP.takeString ra.2 _ _ ha)

theorem opAdd_keeps {P : State D → Prop} (hP : VmStepsPreserve P) (ops : DoubleOps D)
    (st : State D) (hst : P st) :
    (opAdd ops st).All (fun r =>
      P r.2 ∧ (r.1 = none ∨ r.1 = some InterpretResult.INTERPRET_RUNTIME_ERROR)) := by
  unfold opAdd
  refine Res.all_bind (fun v0 => Res.all_bind (fun s0 => Res.all_bind (fun both => ?_)))
  split
  · exact Res.all_bind_of (concatenate_keeps hP st hst)
      (fun st1 h1 => Res.all_done ⟨h1, Or.inl rfl⟩)
  · refine Res.all_bind (fun bothNumbers => ?_)
    split
    · refine Res.all_bind_of (pop_keeps hP st hst) (fun rb hb => Res.all_bind (fun b => ?_))
      refine Res.all_bind_of (pop_keeps hP rb.2 hb) (fun ra ha => Res.all_bind (fun a => ?_))
      exact Res.all_bind_of (push_keeps hP ra.2 _ ha)
        (fun st1 h1 => Res.all_done ⟨h1, Or.inl rfl⟩)
    · exact Res.all_bind_of (runtimeError_keeps hP st _ hst)
        (fun st1 h1 => Res.all_done ⟨h1, Or.inr rfl⟩)

/-- How `run` can return: from the body of `case OP_RETURN`, entered in a state that has the
property, or with the runtime-error result in a state that has the property. -/
theorem run_keeps {P : State D → Prop} (hP : VmStepsPreserve P) (ops : DoubleOps D) :
    ∀ n (st : State D), P st → (run ops n st).All (fun r =>
      (∃ s, P s ∧ opReturn s = Res.done r) ∨
      (r.1 = InterpretResult.INTERPRET_RUNTIME_ERROR ∧ P r.2)) := by
  intro n
  induction n with
  | zero => intro st _; exact Res.all_outOfFuel
  | succ n ih =>
    intro st hst
    rw [run]
    refine Res.all_bind_of (READ_BYTE_keeps hP st hst) (fun r hr => ?_)
    dsimp only
    have hpush : ∀ (s : State D) v, P s → ((push s v).bind (run ops n)).All (fun r =>
        (∃ s, P s ∧ opReturn s = Res.done r) ∨
        (r.1 = InterpretResult.INTERPRET_RUNTIME_ERROR ∧ P r.2)) :=
      fun s v hs => Res.all_bind_of (push_keeps hP s v hs) (fun s1 h1 => ih s1 h1)
    have hbin : ∀ f, ((BINARY_OP r.2 f).bind (run ops n)).All (fun r =>
        (∃ s, P s ∧ opReturn s = Res.done r) ∨
        (r.1 = InterpretResult.INTERPRET_RUNTIME_ERROR ∧ P r.2)) :=
      fun f => Res.all_bind_of (BINARY_OP_keeps hP r.2 f hr) (fun s1 h1 => ih s1 h1)
    have hret : ∀ (s : State D), P s → (opReturn s).All (fun r =>
        (∃ s, P s ∧ opReturn s = Res.done r) ∨
        (r.1 = InterpretResult.INTERPRET_RUNTIME_ERROR ∧ P r.2)) :=
      fun s hs r hr => Or.inl ⟨s, hs, hr⟩
    repeat' (first
      | exact hpush _ _ hr
      | exact hbin _
      | exact hret _ hr
      | exact ih _ hr
      | apply Res.all_ite)
    · exact Res.all_bind_of (READ_CONSTANT_keeps hP r.2 hr) (fun rc hrc => hpush _ _ hrc)
    · refine Res.all_bind_of (pop_keeps hP r.2 hr) (fun rb hb => ?_)
      exact Res.all_bind_of (pop_keeps hP rb.2 hb) (fun ra ha => hpush _ _ ha)
    · refine Res.all_bind_of (opAdd_keeps hP ops r.2 hr) (fun ra ha => ?_)
      rcases ha with ⟨ha1, ha2 | ha2⟩
      · rw [ha2]; exact ih _ ha1
      · rw [ha2]; exact Res.all_done (Or.inr ⟨rfl, ha1⟩)
    · exact Res.all_bind_of (pop_keeps hP r.2 hr) (fun rv hv => hpush _ _ hv)
    · refine Res.all_bind (fun v0 => Res.all_ite ?_ ?_)
      · exact Res.all_bind_of (runtimeError_keeps hP r.2 _ hr)
          (fun st2 h2 => Res.all_done (Or.inr ⟨rfl, h2⟩))
      · refine Res.all_bind_of (pop_keeps hP r.2 hr) (fun rv hv => Res.all_bind (fun x => ?_))
        exact Res.all_bind_of (push_keeps hP rv.2 _ hv) (fun st2 h2 => hret st2 h2)

end VMachine


namespace VMachine

variable {D : Type}

/-! ## How a run ends -/

theorem printValue_done (st st' : State D) (v : Value D) (h : printValue st v = Res.done st') :
    ∃ p, st' = { st with stdout := st.stdout ++ [p] } := by
  cases v with
  | BOOL_VAL b => simp only [printValue] at h; cases h; exact ⟨_, rfl⟩
  | NIL_VAL => simp only [printValue] at h; cases h; exact ⟨_, rfl⟩
  | NUMBER_VAL x => simp only [printValue] at h; cases h; exact ⟨_, rfl⟩
  | OBJ_VAL a =>
    simp only [printValue, printObject] at h
    split at h
    · cases h; exact ⟨_, rfl⟩
    · cases h

/-- The body of `case OP_RETURN`: pops one value, prints it and a line break, returns Ok. -/
theorem opReturn_done (s : State D) (r : InterpretResult × State D)
    (h : opReturn s = Res.done r) :
    r.1 = InterpretResult.INTERPRET_OK ∧
    ∃ v s1 s2 p, pop s = Res.done (v, s1) ∧ printValue s1 v = Res.done s2 ∧
      s2.stdout = s.stdout ++ [p] ∧
      r.2 = { s2 with stdout := s2.stdout ++ [Printed.text ['\n']] } := by
  unfold opReturn at h
  obtain ⟨rv, hpop, h⟩ := Res.bind_eq_done h
  obtain ⟨s2, hprint, h⟩ := Res.bind_eq_done h
  cases h
  obtain ⟨p, hp⟩ := printValue_done _ _ _ hprint
  refine ⟨rfl, rv.1, rv.2, s2, p, hpop, hprint, ?_, rfl⟩
  have hs : rv.2.stdout = s.stdout := by
    unfold pop at hpop
    split at hpop
    · cases hpop; rfl
    · cases hpop
  rw [hp, ← hs]

theorem vmStepsPreserve_true : VmStepsPreserve (fun _ : State D => True) where
  vm := fun _ _ _ _ _ => trivial
  stderr := fun _ _ _ => trivial
  takeString := fun _ _ _ _ => trivial

theorem vmStepsPreserve_stdout (out : List (Printed D)) :
    VmStepsPreserve (fun s : State D => s.stdout = out) where
  vm := fun _ _ _ _ h => h
  stderr := fun _ _ h => h
  takeString := fun _ _ _ h => h

/-- The function `run` returns Ok or the runtime-error result. -/
theorem run_result (ops : DoubleOps D) (n : Nat) (st : State D)
    (r : InterpretResult × State D) (h : run ops n st = Res.done r) :
    r.1 = InterpretResult.INTERPRET_OK ∨ r.1 = InterpretResult.INTERPRET_RUNTIME_ERROR := by
  rcases run_keeps vmStepsPreserve_true ops n st trivial r h with ⟨s, _, hs⟩ | ⟨h1, _⟩
  · exact Or.inl (opReturn_done s r hs).1
  · exact Or.inr h1

end VMachine

namespace Compiler

variable {D : Type}

/-! ## More properties of the state kept by the compiler -/

theorem makeConstant_cases (st : State D) (v : Value D) :
    (makeConstant st v).2 = { st with chunk := (addConstant st.chunk v).2 } ∨
    (makeConstant st v).2 = errorAt { st with chunk := (addConstant st.chunk v).2 }
      st.parser.previous "Too many constants in one chunk.".toList := by
  unfold makeConstant
  dsimp only
  split
  · exact Or.inr rfl
  · exact Or.inl rfl

/-- A property that does not depend on the scanner, the two tokens of the parser and the
chunk, and is kept by `errorAt` and `copyString`, is kept by every step of the compiler. -/
theorem stepsPreserve_of {P : State D → Prop}
    (htok : ∀ (st : State D) sc cur prev, P st →
      P { st with scanner := sc, parser := ⟨cur, prev, st.parser.hadError, st.parser.panicMode⟩ })
    (hchunk : ∀ (st : State D) c, P st → P { st with chunk := c })
    (herr : ∀ (st : State D) tok msg, P st → P (errorAt st tok msg))
    (hcopy : ∀ (st : State D) chars length, P st → P (copyString st chars length).2) :
    StepsPreserve P where
  scan := fun _ st tok sc h _ => htok st sc tok st.parser.previous h
  previous := fun st h => htok st st.scanner st.parser.current st.parser.current h
  errorAt := herr
  emitByte := fun st _ h => hchunk st _ h
  makeConstant := fun st v h => by
    rcases makeConstant_cases st v with he | he
    · rw [he]; exact hchunk st _ h
    · rw [he]; exact herr _ _ _ (hchunk st _ h)
  copyString := hcopy

theorem errorAt_reportInv (base : List Diagnostic) (st : State D) (tok : Token)
    (msg : List Char) (h : ReportInv base st) : ReportInv base (errorAt st tok msg) := by
  unfold errorAt
  split
  · exact h
  · next hp =>
    obtain ⟨h1, h2⟩ := h
    rcases h2 with ⟨_, h3⟩ | ⟨h3, _⟩
    · exact ⟨rfl, Or.inr ⟨rfl, _, by rw [h3]⟩⟩
    · rw [h1, h3] at hp
      exact absurd rfl hp

theorem stepsPreserve_reportInv (base : List Diagnostic) :
    StepsPreserve (ReportInv (D := D) base) :=
  stepsPreserve_of (fun _ _ _ _ h => h) (fun _ _ h => h) (errorAt_reportInv base)
    (fun _ _ _ h => h)

theorem stepsPreserve_sameRun (st0 : State D) : StepsPreserve (SameRun st0) :=
  stepsPreserve_of (fun _ _ _ _ h => h) (fun _ _ h => h)
    (fun st tok msg h => by
      unfold SameRun
      rw [errorAt_vm, errorAt_stdout]
      exact h)
    (fun _ _ _ h => h)

/-- One call of `compile` reports at most one diagnostic, and returns false exactly when it
reported one. -/
theorem compile_reports (ops : DoubleOps D) (n : Nat) (source : List Char) (chunk : Chunk D)
    (st : State D) (b : Bool) (st' : State D)
    (h : compile ops n source chunk st = Res.done (b, st')) :
    (b = true ∧ st'.stderr = st.stderr) ∨ (b = false ∧ ∃ d, st'.stderr = st.stderr ++ [d]) := by
  have p0 : ReportInv st.stderr (compileStart st source chunk) := ⟨rfl, Or.inl ⟨rfl, rfl⟩⟩
  have p := compile_preserves ops (stepsPreserve_reportInv st.stderr) n source chunk st b st'
    p0 h
  obtain ⟨st1, st2, st3, _, _, _, rfl, hb⟩ := compile_done ops n source chunk st b st' h
  rcases p.2 with ⟨h1, h2⟩ | ⟨h1, h2⟩
  · have h1' : st3.parser.hadError = false := h1
    exact Or.inl ⟨by rw [hb, h1']; rfl, h2⟩
  · have h1' : st3.parser.hadError = true := h1
    exact Or.inr ⟨by rw [hb, h1']; rfl, h2⟩

theorem compile_sameRun (ops : DoubleOps D) (n : Nat) (source : List Char) (chunk : Chunk D)
    (st : State D) (b : Bool) (st' : State D)
    (h : compile ops n source chunk st = Res.done (b, st')) : SameRun st st' :=
  compile_preserves ops (stepsPreserve_sameRun st) n source chunk st b st'
    ⟨rfl, rfl, rfl, rfl⟩ h

end Compiler


variable {D : Type}

/-! ## The object registry -/

theorem registryFrom_append (heap ext : Heap) : ∀ (n : Nat) (x : Option Nat),
    (∀ a ∈ registryFrom heap n x, a < heap.length) →
    registryFrom (heap ++ ext) n x = registryFrom heap n x := by
  intro n
  induction n with
  | zero => intro x _; rfl
  | succ n ih =>
    intro x hx
    cases x with
    | none => rfl
    | some a =>
      have ha : a < heap.length := hx a (by simp [registryFrom])
      have hget : (heap ++ ext).get? a = heap.get? a := by
        simp [List.getElem?_append_left ha]
      simp only [registryFrom, hget]
      cases ho : heap.get? a with
      | none => rfl
      | some o =>
        simp only [List.cons.injEq, true_and]
        refine ih o.next (fun b hb => hx b ?_)
        rw [registryFrom, ho]
        exact List.mem_cons_of_mem _ hb

theorem registry_mem (st : State D) (h : RegistryInv st) (a : Nat) (ha : a < st.heap.length) :
    a ∈ registry st := by
  rw [h, List.mem_reverse, List.mem_range]
  exact ha

/-- An allocation links the new object in front of the registry. -/
theorem allocateString_registry (st : State D) (chars : List Char) (length : Nat)
    (h : RegistryInv st) :
    (allocateString st chars length).1 = st.heap.length ∧
    registry (allocateString st chars length).2 = st.heap.length :: registry st ∧
    RegistryInv (allocateString st chars length).2 ∧
    List.IsPrefix st.heap (allocateString st chars length).2.heap := by
  have hreg : registry (allocateString st chars length).2 = st.heap.length :: registry st := by
    have hlt : ∀ a ∈ registryFrom st.heap st.heap.length st.vm.objects, a < st.heap.length := by
      intro a ha
      have : a ∈ registry st := ha
      rw [h, List.mem_reverse, List.mem_range] at this
      exact this
    simp only [registry, allocateString, List.length_append, List.length_singleton,
      registryFrom]
    rw [List.get?_eq_getElem?, List.getElem?_concat_length]
    simp only [List.cons.injEq, true_and]
    exact registryFrom_append st.heap _ _ _ hlt
  refine ⟨rfl, hreg, ?_, ⟨_, rfl⟩⟩
  unfold RegistryInv
  rw [hreg, h]
  simp [allocateString, List.range_succ]

theorem registryInv_start (st : State D) (h : st.heap = []) :
    RegistryInv (VMachine.initVM st) := by
  simp [RegistryInv, registry, VMachine.initVM, VMachine.resetStack, h, registryFrom]

/-- The registry is complete and the heap has only grown since it was `heap0`. -/
theorem vmStepsPreserve_registry (heap0 : Heap) :
    VMachine.VmStepsPreserve
      (fun s : State D => RegistryInv s ∧ List.IsPrefix heap0 s.heap) where
  vm := fun _ _ _ _ h => h
  stderr := fun _ _ h => h
  takeString := fun st chars length h =>
    ⟨(allocateString_registry st chars length h.1).2.2.1,
      List.IsPrefix.trans h.2 (allocateString_registry st chars length h.1).2.2.2⟩

theorem stepsPreserve_registry (heap0 : Heap) :
    Compiler.StepsPreserve
      (fun s : State D => RegistryInv s ∧ List.IsPrefix heap0 s.heap) :=
  Compiler.stepsPreserve_of (fun _ _ _ _ h => h) (fun _ _ h => h)
    (fun st tok msg h => by
      unfold RegistryInv registry
      rw [Compiler.errorAt_vm, Compiler.errorAt_heap]
      exact h)
    (fun st chars length h =>
      ⟨(allocateString_registry st _ length h.1).2.2.1,
        List.IsPrefix.trans h.2 (allocateString_registry st _ length h.1).2.2.2⟩)

theorem compile_registry (ops : DoubleOps D) (n : Nat) (source : List Char) (chunk : Chunk D)
    (st : State D) (b : Bool) (st' : State D) (hst : RegistryInv st)
    (h : Compiler.compile ops n source chunk st = Res.done (b, st')) :
    RegistryInv st' ∧ List.IsPrefix st.heap st'.heap :=
  Compiler.compile_preserves ops (stepsPreserve_registry st.heap) n source chunk st b st'
    ⟨hst, List.prefix_refl _⟩ h

theorem run_registry (ops : DoubleOps D) (n : Nat) (st : State D)
    (r : InterpretResult × State D) (hst : RegistryInv st)
    (h : VMachine.run ops n st = Res.done r) :
    RegistryInv r.2 ∧ List.IsPrefix st.heap r.2.heap := by
  rcases VMachine.run_keeps (vmStepsPreserve_registry st.heap) ops n st
    ⟨hst, List.prefix_refl _⟩ r h with ⟨s, hs, hret⟩ | ⟨_, hr⟩
  · obtain ⟨_, v, s1, s2, p, hpop, hprint, _, hr2⟩ := VMachine.opReturn_done s r hret
    obtain ⟨q, hq⟩ := VMachine.printValue_done _ _ _ hprint
    have h1 : s1.heap = s.heap ∧ s1.vm.objects = s.vm.objects := by
      unfold VMachine.pop at hpop
      split at hpop
      · cases hpop; exact ⟨rfl, rfl⟩
      · cases hpop
    have h2 : r.2.heap = s.heap ∧ r.2.vm.objects = s.vm.objects := by
      rw [hr2, hq]; exact h1
    unfold RegistryInv registry
    rw [h2.1, h2.2]
    exact hs
  · exact hr

theorem interpret_registry (ops : DoubleOps D) (n : Nat) (source : List Char) (st : State D)
    (r : InterpretResult × State D) (hst : RegistryInv st)
    (h : VMachine.interpret ops n source st = Res.done r) :
    RegistryInv r.2 ∧ List.IsPrefix st.heap r.2.heap := by
  unfold VMachine.interpret at h
  obtain ⟨rc, hc, h⟩ := Res.bind_eq_done h
  obtain ⟨hc1, hc2⟩ := compile_registry ops n source initChunk st rc.1 rc.2 hst hc
  split at h
  · cases h; exact ⟨hc1, hc2⟩
  · obtain ⟨h1, h2⟩ := run_registry ops n _ r (show RegistryInv
      ({ rc.2 with vm := { rc.2.vm with chunk := rc.2.chunk, ip := 0 } } : State D) from hc1) h
    exact ⟨h1, List.IsPrefix.trans hc2 h2⟩


namespace Scan

/-! ## What the scanner does not depend on -/

theorem skipComment_start : ∀ (n : Nat) (s : Scanner) (x : List Char),
    skipComment n { s with start := x } =
      (skipComment n s).bind fun r => Res.done { r with start := x } := by
  intro n
  induction n with
  | zero => intro s x; rfl
  | succ n ih =>
    intro s x
    rw [skipComment, skipComment]
    have h1 : peek { s with start := x } = peek s := rfl
    have h2 : isAtEnd { s with start := x } = isAtEnd s := rfl
    rw [h1, h2]
    split
    · exact ih s x
    · rfl

theorem skipWhitespace_start : ∀ (n : Nat) (s : Scanner) (x : List Char),
    skipWhitespace n { s with start := x } =
      (skipWhitespace n s).bind fun r => Res.done { r with start := x } := by
  intro n
  induction n with
  | zero => intro s x; rfl
  | succ n ih =>
    intro s x
    rw [skipWhitespace, skipWhitespace]
    have h1 : peek { s with start := x } = peek s := rfl
    have h2 : peekNext { s with start := x } = peekNext s := rfl
    simp only [h1, h2]
    split
    · exact ih (advance s).2 x
    · split
      · exact ih (advance { s with line := s.line + 1 }).2 x
      · split
        · split
          · rw [skipComment_start]
            cases skipComment n s with
            | done r => exact ih r x
            | undefinedBehaviour => rfl
            | outOfFuel => rfl
          · rfl
        · rfl

/-- The result of `scanToken` does not depend on `scanner.start`. -/
theorem scanToken_start (n : Nat) (s : Scanner) (x : List Char) :
    scanToken n { s with start := x } = scanToken n s := by
  rw [scanToken, scanToken, skipWhitespace_start]
  cases skipWhitespace n s with
  | done r => rfl
  | undefinedBehaviour => rfl
  | outOfFuel => rfl

/-- At the end of the text `scanToken` returns the end-of-input token. -/
theorem scanToken_end (s : Scanner) (hend : isAtEnd s = true) :
    Returns (fun n => scanToken n s)
      (makeToken { s with start := s.current } TokenType.TOKEN_EOF,
       { s with start := s.current }) := by
  have hp : peek s = '\x00' := by simpa [isAtEnd, peek] using hend
  apply Returns.succ
  have hsk : ∀ n, skipWhitespace (n + 1) s = Res.done s := by
    intro n
    rw [skipWhitespace]
    simp [hp]
  have hend2 : isAtEnd { s with start := s.current } = true := hend
  simp only [scanToken, hsk, Res.bind_done, scanLexeme, hend2, if_true]
  exact Returns.const _

end Scan

namespace Compiler

variable {D : Type}

/-! ## What `advance` and `parsePrecedence` do not depend on -/

theorem errorAt_withPrevious (st : State D) (x tok : Token) (msg : List Char) :
    errorAt (withPrevious st x) tok msg = withPrevious (errorAt st tok msg) x := by
  unfold errorAt withPrevious
  dsimp only
  split <;> rfl

theorem advanceLoop_withPrevious : ∀ (n : Nat) (st : State D) (x : Token),
    advanceLoop n (withPrevious st x) =
      (advanceLoop n st).bind fun s => Res.done (withPrevious s x) := by
  intro n
  induction n with
  | zero => intro st x; rfl
  | succ n ih =>
    intro st x
    rw [advanceLoop, advanceLoop]
    have hs : (withPrevious st x).scanner = st.scanner := rfl
    rw [hs]
    cases Scan.scanToken n st.scanner with
    | undefinedBehaviour => rfl
    | outOfFuel => rfl
    | done r =>
      simp only [Res.bind_done]
      split
      · rfl
      · exact (congrArg (advanceLoop n) (errorAt_withPrevious
          ({ st with scanner := r.2, parser := { st.parser with current := r.1 } }) x r.1
          r.1.start)).trans (ih _ x)

theorem advanceLoop_reposition (n : Nat) (st : State D) (start : List Char) (cur : Token) :
    advanceLoop n { st with scanner := { st.scanner with start := start },
                            parser := { st.parser with current := cur } } =
      advanceLoop n st := by
  cases n with
  | zero => rfl
  | succ n =>
    rw [advanceLoop, advanceLoop]
    have hs : Scan.scanToken n ({ st.scanner with start := start } : Scanner) =
        Scan.scanToken n st.scanner := Scan.scanToken_start n st.scanner start
    simp only [hs]

/-- The function `advance` reads neither `scanner.start` nor the two tokens of the parser:
with them replaced it runs as before and leaves the old current token as the previous one. -/
theorem advance_reposition (n : Nat) (st : State D) (start : List Char) (cur prev : Token) :
    advance n { st with scanner := { st.scanner with start := start },
                        parser := ⟨cur, prev, st.parser.hadError, st.parser.panicMode⟩ } =
      (advance n st).bind fun s => Res.done (withPrevious s cur) := by
  unfold advance
  have h := advanceLoop_withPrevious n
    ({ st with scanner := { st.scanner with start := start },
               parser := ⟨cur, st.parser.current, st.parser.hadError, st.parser.panicMode⟩ })
    cur
  have h2 := advanceLoop_reposition n
    ({ st with parser := { st.parser with previous := st.parser.current } }) start cur
  exact h.trans (congrArg (fun r => Res.bind r fun s => Res.done (withPrevious s cur)) h2)

theorem parsePrecedence_withPrevious (ops : DoubleOps D) (n : Nat) (p : Precedence)
    (st : State D) (x : Token) :
    parsePrecedence ops n p (withPrevious st x) = parsePrecedence ops n p st := by
  cases n with
  | zero => rw [parsePrecedence, parsePrecedence]
  | succ n =>
    rw [parsePrecedence, parsePrecedence]
    rfl

/-- With the scanner at the end of the text `advance` reads the end-of-input token. -/
theorem advance_end (st : State D) (hend : Scan.isAtEnd st.scanner = true) :
    Returns (fun n => advance n st)
      (shift st (Scan.makeToken { st.scanner with start := st.scanner.current }
        TokenType.TOKEN_EOF) { st.scanner with start := st.scanner.current }) :=
  advance_returns st _ _ (Scan.scanToken_end st.scanner hend) (by simp [Scan.makeToken])

theorem advance_chunk (n : Nat) (st st' : State D) (h : advance n st = Res.done st') :
    st'.chunk = st.chunk :=
  advanceLoop_keeps (P := fun s => s.chunk = st.chunk)
    (fun _ _ _ _ h _ => h)
    (fun s tok msg h => by
      show (errorAt s tok msg).chunk = st.chunk
      rw [errorAt_chunk]; exact h) n
    ({ st with parser := { st.parser with previous := st.parser.current } }) st' rfl h

theorem stepsPreserve_hadError :
    StepsPreserve (fun s : State D => s.parser.hadError = true) :=
  stepsPreserve_of (fun _ _ _ _ h => h) (fun _ _ h => h)
    (fun st tok msg h => by
      rcases errorAt_flags st tok msg with ⟨_, h2⟩ | ⟨_, h2⟩
      · exact h2
      · rw [h2]; exact h)
    (fun _ _ _ h => h)

end Compiler


theorem Returns.congr {α : Type} {f g : Nat → Res α} {a : α} (h : ∀ n, f n = g n)
    (hg : Returns g a) : Returns f a := by
  obtain ⟨n, hn⟩ := hg
  exact ⟨n, fun m hm => (h m).trans (hn m hm)⟩

namespace Compiler

variable {D : Type}

/-! ## Reporting an error -/

/-- Outside panic mode `errorAt` appends one diagnostic and sets both flags. -/
theorem errorAt_report (st : State D) (tok : Token) (msg : List Char)
    (h : st.parser.panicMode = false) :
    errorAt st tok msg =
      { st with parser := { st.parser with panicMode := true, hadError := true },
                stderr := st.stderr ++
                  [Diagnostic.compileError tok.line (errorLocation tok) msg] } := by
  simp [errorAt, h, errorLocation]

/-- In panic mode `errorAt` does nothing. -/
theorem errorAt_panic (st : State D) (tok : Token) (msg : List Char)
    (h : st.parser.panicMode = true) : errorAt st tok msg = st := by
  simp [errorAt, h]

theorem parsePrecedence_unhandled (ops : DoubleOps D) (n : Nat) (p : Precedence)
    (st st1 : State D) (h1 : advance n st = Res.done st1)
    (hfn : (getRule st1.parser.previous.type).prefixRule = none) :
    parsePrecedence ops (n + 1) p st = Res.done (error st1 "Expect expression.".toList) := by
  rw [parsePrecedence, h1]
  simp only [Res.bind_done, hfn]

/-! ## A group that is not closed -/

/-- If `e` compiles, the source `(e` does not: the one diagnostic reported is
"Expect ')' after expression." at the end. -/
theorem compile_unclosed (ops : DoubleOps D) (n : Nat) (e : List Char) (chunk : Chunk D)
    (st st' : State D) (h : compile ops n e chunk st = Res.done (true, st')) :
    ∃ st'' line, Returns (fun m => compile ops m ('(' :: e) chunk st) (false, st'') ∧
      st''.stderr = st.stderr ++ [Diagnostic.compileError line " at end".toList
        "Expect ')' after expression.".toList] := by
  obtain ⟨s1, s2, s3, h1, h2, h3, _, hb⟩ := compile_done ops n e chunk st true st' h
  have p0 : PanicInv (compileStart st e chunk) := by
    intro hp; simp [compileStart] at hp
  have p1 : EofInv s1 := advance_eofInv n _ s1 p0 h1
  have p2 : EofInv s2 := (parse_preserves ops stepsPreserve_eofInv n).1 _ s1 s2 p1 h2
  have q2 : ReportInv st.stderr s2 :=
    (parse_preserves ops (stepsPreserve_reportInv st.stderr) n).1 _ s1 s2
      (advance_preserves (stepsPreserve_reportInv st.stderr) n (compileStart st e chunk) s1
        ⟨rfl, Or.inl ⟨rfl, rfl⟩⟩ h1) h2
  have hclean3 : s3.parser.hadError = false := by
    cases hh : s3.parser.hadError
    · rfl
    · rw [hh] at hb; cases hb
  have hty : s2.parser.current.type = TokenType.TOKEN_EOF := by
    by_contra hne
    rw [consume, if_neg hne] at h3
    cases h3
    rw [errorAtCurrent, errorAt_hadError _ _ _ p2.1] at hclean3
    cases hclean3
  have h3' : advance n s2 = Res.done s3 := by
    rw [consume, if_pos hty] at h3
    exact h3
  have hclean : s2.parser.hadError = false := by
    cases hh : s2.parser.hadError
    · rfl
    · have := advance_preserves stepsPreserve_hadError n s2 s3 hh h3'
      rw [hclean3] at this
      cases this
  have hpanic : s2.parser.panicMode = false := by rw [q2.1]; exact hclean
  have herr : s2.stderr = st.stderr := by
    rcases q2.2 with ⟨_, h⟩ | ⟨h, _⟩
    · exact h
    · rw [hclean] at h; cases h
  have hend : Scan.isAtEnd s2.scanner = true := p2.2 hty
  have R1 : Returns (fun m => advance m (compileStart st e chunk)) s1 :=
    Returns.of_le n (fun a b hab => advance_le a b _ hab) h1
  have R2 : Returns (fun m => parsePrecedence ops m PREC_ASSIGNMENT s1) s2 :=
    Returns.of_le n (fun a b hab => (parseLe ops a).1 b _ _ hab) h2
  let tokLP : Token := ⟨TokenType.TOKEN_LEFT_PAREN, '(' :: e, 1, 1⟩
  let t1 : State D := shift (compileStart st ('(' :: e) chunk) tokLP ⟨'(' :: e, e, 1⟩
  let msg : List Char := "Expect ')' after expression.".toList
  let s2e : State D := errorAtCurrent s2 msg
  have A : Returns (fun m => advance m (compileStart st ('(' :: e) chunk)) t1 :=
    advance_symbol (compileStart st ('(' :: e) chunk) 0 '(' TokenType.TOKEN_LEFT_PAREN e rfl rfl
  have B : Returns (fun m => advance m t1) (withPrevious s1 tokLP) :=
    Returns.congr
      (fun m => advance_reposition m (compileStart st e chunk) ('(' :: e) tokLP
        st.parser.current)
      (Returns.bind R1 (Returns.const _))
  have C1 : Returns (fun m => parsePrecedence ops m PREC_ASSIGNMENT (withPrevious s1 tokLP))
      s2 :=
    Returns.congr (fun m => parsePrecedence_withPrevious ops m _ s1 tokLP) R2
  have C2 : Returns (fun m => consume m s2 TokenType.TOKEN_RIGHT_PAREN msg) s2e := by
    have hne : s2.parser.current.type ≠ TokenType.TOKEN_RIGHT_PAREN := by rw [hty]; decide
    simp only [consume, hne, if_false]
    exact Returns.const _
  have hcur : s2e.parser.current = s2.parser.current := errorAt_current _ _ _
  have Dstop : Returns (fun m => infixLoop ops m PREC_ASSIGNMENT s2e) s2e :=
    infixLoop_stop ops _ _ (by rw [hcur, hty]; decide)
  have E : Returns (fun m => parsePrecedence ops m PREC_ASSIGNMENT t1) s2e :=
    parsePrecedence_returns ops _ t1 _ _ _ ParseFn.grouping B rfl
      (callParseFn_grouping ops _ _ _ C1 C2) Dstop
  have hend2 : Scan.isAtEnd s2e.scanner = true := by
    rw [show s2e.scanner = s2.scanner from errorAt_scanner _ _ _]; exact hend
  have F := consume_returns s2e TokenType.TOKEN_EOF "Expect end of expression".toList _
    (by rw [hcur, hty]) (advance_end s2e hend2)
  have G := compile_returns ops ('(' :: e) chunk st t1 s2e _ A E F
  have hs2e : s2e = { s2 with
      parser := { s2.parser with panicMode := true, hadError := true },
      stderr := s2.stderr ++ [Diagnostic.compileError s2.parser.current.line
        (errorLocation s2.parser.current) msg] } := errorAt_report s2 _ msg hpanic
  have hflag : s2e.parser.hadError = true := by rw [hs2e]
  have hloc : errorLocation s2.parser.current = " at end".toList := by
    simp [errorLocation, hty]
  refine ⟨endCompiler (shift s2e
    (Scan.makeToken { s2e.scanner with start := s2e.scanner.current } TokenType.TOKEN_EOF)
    { s2e.scanner with start := s2e.scanner.current }), s2.parser.current.line, ?_, ?_⟩
  · have hfalse : (!(endCompiler (shift s2e
        (Scan.makeToken { s2e.scanner with start := s2e.scanner.current } TokenType.TOKEN_EOF)
        { s2e.scanner with start := s2e.scanner.current })).parser.hadError) = false := by
      show (!s2e.parser.hadError) = false
      rw [hflag]; rfl
    rw [hfalse] at G
    exact G
  · show s2e.stderr = _
    rw [hs2e, ← herr, ← hloc]

end Compiler


open Compiler VMachine

/-! ## Closed examples -/

theorem Res.bind_done_eq {α β : Type} {r : Res α} {f : α → β} {b : β}
    (h : r.bind (fun a => Res.done (f a)) = Res.done b) : ∃ a, r = Res.done a ∧ f a = b := by
  obtain ⟨a, ha, hf⟩ := Res.bind_eq_done h
  cases hf
  exact ⟨a, ha, rfl⟩

theorem interpret_foo_bar :
    (interpret exampleOps 50 "\"foo\" + \"bar\"".toList (startState Int)).bind
        (fun r => Res.done (r.1, r.2.stdout)) =
      Res.done (InterpretResult.INTERPRET_OK,
        [Printed.text "foobar".toList, Printed.text ['\n']]) := by
  decide!

theorem interpret_number_plus_string :
    (interpret exampleOps 50 "1 + \"a\"".toList (startState Int)).bind
        (fun r => Res.done (r.1, r.2.stdout, r.2.vm.stack, r.2.stderr)) =
      Res.done (InterpretResult.INTERPRET_RUNTIME_ERROR, [], [],
        [Diagnostic.runtimeError "Operands must be two numbers or two strings.".toList 1]) := by
  decide!

theorem interpret_not_zero :
    (interpret exampleOps 50 "!0".toList (startState Int)).bind
        (fun r => Res.done (r.1, r.2.stdout)) =
      Res.done (InterpretResult.INTERPRET_OK,
        [Printed.text "false".toList, Printed.text ['\n']]) := by
  decide!

theorem interpret_not_empty_string :
    (interpret exampleOps 50 "!\"\"".toList (startState Int)).bind
        (fun r => Res.done (r.1, r.2.stdout)) =
      Res.done (InterpretResult.INTERPRET_OK,
        [Printed.text "false".toList, Printed.text ['\n']]) := by
  decide!

theorem interpret_not_nil :
    (interpret exampleOps 50 "!nil".toList (startState Int)).bind
        (fun r => Res.done (r.1, r.2.stdout)) =
      Res.done (InterpretResult.INTERPRET_OK,
        [Printed.text "true".toList, Printed.text ['\n']]) := by
  decide!

theorem compile_open_paren :
    (compile exampleOps 50 "(".toList initChunk (startState Int)).bind
        (fun r => Res.done (r.1, r.2.stderr, r.2.chunk.code)) =
      Res.done (false,
        [Diagnostic.compileError 1 " at end".toList "Expect expression.".toList], [13]) := by
  decide!

theorem compile_number_one :
    (compile exampleOps 50 "1".toList initChunk (startState Int)).bind
        (fun r => Res.done r.1) = Res.done true := by
  decide!

theorem compile_stray_paren :
    (compile exampleOps 50 ") 1 2 3".toList initChunk (startState Int)).bind
        (fun r => Res.done r.1) = Res.done false := by
  decide!

theorem interpret_registry_example :
    (interpret exampleOps 50 "\"foo\" + \"bar\"".toList (startState Int)).bind
        (fun r => Res.done (registry r.2)) = Res.done [2, 1, 0] := by
  decide!


namespace Res

theorem defined_done {α : Type} (a : α) : (done a).Defined := by
  intro h
  cases h

theorem defined_outOfFuel {α : Type} : (outOfFuel : Res α).Defined := by
  intro h
  cases h

theorem defined_bind {α β : Type} {r : Res α} {f : α → Res β} (hr : r.Defined)
    (hf : ∀ a, (f a).Defined) : (r.bind f).Defined := by
  cases r with
  | done a => exact hf a
  | undefinedBehaviour => exact absurd rfl hr
  | outOfFuel => exact defined_outOfFuel

theorem defined_ite {α : Type} {c : Prop} [Decidable c] {a b : Res α}
    (ha : a.Defined) (hb : b.Defined) : (if c then a else b).Defined := by
  split
  · exact ha
  · exact hb

end Res

namespace Scan

/-! ## The scanner has no undefined behaviour -/

theorem skipComment_defined : ∀ n s, (skipComment n s).Defined := by
  intro n
  induction n with
  | zero => intro s; exact Res.defined_outOfFuel
  | succ n ih =>
    intro s
    rw [skipComment]
    exact Res.defined_ite (ih s) (Res.defined_done _)

theorem skipWhitespace_defined : ∀ n s, (skipWhitespace n s).Defined := by
  intro n
  induction n with
  | zero => intro s; exact Res.defined_outOfFuel
  | succ n ih =>
    intro s
    rw [skipWhitespace]
    repeat' (first
      | exact ih _
      | exact Res.defined_done _
      | exact Res.defined_bind (skipComment_defined n s) (fun r => ih r)
      | apply Res.defined_ite)

theorem identifierLoop_defined : ∀ n s, (identifierLoop n s).Defined := by
  intro n
  induction n with
  | zero => intro s; exact Res.defined_outOfFuel
  | succ n ih =>
    intro s
    rw [identifierLoop]
    exact Res.defined_ite (ih _) (Res.defined_done _)

theorem digitLoop_defined : ∀ n s, (digitLoop n s).Defined := by
  intro n
  induction n with
  | zero => intro s; exact Res.defined_outOfFuel
  | succ n ih =>
    intro s
    rw [digitLoop]
    exact Res.defined_ite (ih _) (Res.defined_done _)

theorem stringLoop_defined : ∀ n s, (stringLoop n s).Defined := by
  intro n
  induction n with
  | zero => intro s; exact Res.defined_outOfFuel
  | succ n ih =>
    intro s
    rw [stringLoop]
    exact Res.defined_ite (ih _) (Res.defined_done _)

theorem scanToken_defined (n : Nat) (s : Scanner) : (scanToken n s).Defined := by
  unfold scanToken
  refine Res.defined_bind (skipWhitespace_defined n s) (fun s1 => ?_)
  unfold scanLexeme
  refine Res.defined_ite (Res.defined_done _) (Res.defined_ite ?_ (Res.defined_ite ?_ ?_))
  · exact Res.defined_bind (identifierLoop_defined _ _) (fun _ => Res.defined_done _)
  · unfold number
    exact Res.defined_bind (digitLoop_defined _ _) (fun _ =>
      Res.defined_ite (Res.defined_bind (digitLoop_defined _ _) (fun _ => Res.defined_done _))
        (Res.defined_done _))
  · unfold scanSwitch
    repeat' (first
      | exact Res.defined_done _
      | exact Res.defined_bind (stringLoop_defined _ _) (fun _ =>
          Res.defined_ite (Res.defined_done _) (Res.defined_done _))
      | apply Res.defined_ite)

end Scan

namespace Compiler

variable {D : Type}

/-! ## No call of a NULL handler -/

/-- A rule with a precedence of `PREC_ASSIGNMENT` or higher has `binary` as infix handler. -/
theorem rules_infix_handler (ty : TokenType) (h : PREC_ASSIGNMENT ≤ (getRule ty).precedence) :
    (getRule ty).infixRule = some ParseFn.binary := by
  cases ty <;> first | rfl | (exact absurd h (by decide))

theorem advanceLoop_defined : ∀ n (st : State D), (advanceLoop n st).Defined := by
  intro n
  induction n with
  | zero => intro st; exact Res.defined_outOfFuel
  | succ n ih =>
    intro st
    rw [advanceLoop]
    exact Res.defined_bind (Scan.scanToken_defined n st.scanner) (fun r =>
      Res.defined_ite (Res.defined_done _) (ih _))

theorem advance_defined (n : Nat) (st : State D) : (advance n st).Defined :=
  advanceLoop_defined n _

theorem consume_defined (n : Nat) (st : State D) (ty : TokenType) (msg : List Char) :
    (consume n st ty msg).Defined :=
  Res.defined_ite (advance_defined n st) (Res.defined_done _)

theorem parseDefined (ops : DoubleOps D) : ∀ n, ParseDefined ops n := by
  intro n
  induction n with
  | zero =>
    refine ⟨?_, ?_, ?_, ?_, ?_, ?_⟩
    · intro p st _; rw [parsePrecedence]; exact Res.defined_outOfFuel
    · intro p st _; rw [infixLoop]; exact Res.defined_outOfFuel
    · intro fn st; rw [callParseFn]; exact Res.defined_outOfFuel
    · intro st; rw [binary]; exact Res.defined_outOfFuel
    · intro st; rw [grouping]; exact Res.defined_outOfFuel
    · intro st; rw [unary]; exact Res.defined_outOfFuel
  | succ n ih =>
    obtain ⟨ihP, ihL, ihC, ihB, ihG, ihU⟩ := ih
    refine ⟨?_, ?_, ?_, ?_, ?_, ?_⟩
    · intro p st hp
      rw [parsePrecedence]
      refine Res.defined_bind (advance_defined n st) (fun st1 => ?_)
      cases (getRule st1.parser.previous.type).prefixRule with
      | none => exact Res.defined_done _
      | some fn => exact Res.defined_bind (ihC fn st1) (fun st2 => ihL p st2 hp)
    · intro p st hp
      rw [infixLoop]
      split
      · next hle =>
        have hcur := rules_infix_handler st.parser.current.type (Nat.le_trans hp hle)
        intro hub
        cases hadv : advance n st with
        | undefinedBehaviour => exact advance_defined n st hadv
        | outOfFuel => rw [hadv] at hub; cases hub
        | done st1 =>
          rw [hadv] at hub
          have hprev : st1.parser.previous = st.parser.current := advance_previous n st st1 hadv
          simp only [Res.bind_done, hprev, hcur] at hub
          exact Res.defined_bind (ihC ParseFn.binary st1) (fun st2 => ihL p st2 hp) hub
      · exact Res.defined_done _
    · intro fn st
      cases fn with
      | grouping => rw [callParseFn]; exact ihG st
      | unary => rw [callParseFn]; exact ihU st
      | binary => rw [callParseFn]; exact ihB st
      | number => rw [callParseFn]; exact Res.defined_done _
      | string => rw [callParseFn]; exact Res.defined_done _
      | literal => rw [callParseFn]; exact Res.defined_done _
    · intro st
      rw [binary]
      exact Res.defined_bind (ihP _ st (Nat.le_add_left _ _)) (fun _ => Res.defined_done _)
    · intro st
      rw [grouping]
      exact Res.defined_bind (ihP _ st (Nat.le_refl _)) (fun st1 => consume_defined n st1 _ _)
    · intro st
      rw [unary]
      exact Res.defined_bind (ihP _ st (by decide)) (fun _ => Res.defined_done _)

theorem compile_defined (ops : DoubleOps D) (n : Nat) (source : List Char) (chunk : Chunk D)
    (st : State D) : (compile ops n source chunk st).Defined := by
  unfold compile
  exact Res.defined_bind (advance_defined n _) (fun st1 =>
    Res.defined_bind ((parseDefined ops n).1 _ st1 (Nat.le_refl _)) (fun st2 =>
      Res.defined_bind (consume_defined n st2 _ _) (fun _ => Res.defined_done _)))

/-! ## The line table -/

theorem stepsPreserve_linesInv : StepsPreserve (LinesInv (D := D)) where
  scan := fun _ _ _ _ h _ => h
  previous := fun _ h => h
  errorAt := fun st tok msg h => by
    unfold LinesInv
    rw [errorAt_chunk]
    exact h
  emitByte := fun st b h => by
    unfold LinesInv at h ⊢
    simp [emitByte, writeChunk, h]
  makeConstant := fun st v h => by
    unfold LinesInv at h ⊢
    rcases makeConstant_cases st v with he | he
    · rw [he]; exact h
    · rw [he, errorAt_chunk]; exact h
  copyString := fun _ _ _ h => h

end Compiler


namespace Scan

/-! ## Keywords -/

theorem checkKeyword_eq (s : Scanner) (lexeme : List Char) (h : s.start = lexeme ++ s.current)
    (a b : Nat) (rest : String) (ty : TokenType) (hb : rest.toList.length = b) :
    checkKeyword s a b rest ty =
      if lexeme.length = a + b ∧ lexeme.drop a = rest.toList then ty
      else TokenType.TOKEN_IDENTIFIER := by
  have hlen : lexemeLength s = lexeme.length := by simp [lexemeLength, h]
  unfold checkKeyword
  rw [hlen]
  by_cases hl : lexeme.length = a + b
  · have hd : (s.start.drop a).take b = lexeme.drop a := by
      have h1 : (lexeme.drop a).length = b := by simp [hl]
      rw [h, List.drop_append_of_le_length (by omega),
        List.take_append_of_le_length (by omega), ← h1, List.take_length]
    simp only [hl, hd, true_and]
  · simp only [hl, false_and, if_false]

theorem length_and_eq {l t : List Char} {n : Nat} (h : t.length = n) :
    (l.length = n ∧ l = t) = (l = t) := by
  apply propext
  constructor
  · exact fun hh => hh.2
  · intro hh; subst hh; exact ⟨h, rfl⟩

theorem identifierType_eq (s : Scanner) (lexeme : List Char)
    (h : s.start = lexeme ++ s.current) : identifierType s = keywordKind lexeme := by
  have hlen : lexemeLength s = lexeme.length := by simp [lexemeLength, h]
  have k1 := checkKeyword_eq s lexeme h 1 2 "nd" TokenType.TOKEN_AND rfl
  have k2 := checkKeyword_eq s lexeme h 1 4 "lass" TokenType.TOKEN_CLASS rfl
  have k3 := checkKeyword_eq s lexeme h 1 3 "lse" TokenType.TOKEN_ELSE rfl
  have k4 := checkKeyword_eq s lexeme h 2 3 "lse" TokenType.TOKEN_FALSE rfl
  have k5 := checkKeyword_eq s lexeme h 2 1 "r" TokenType.TOKEN_FOR rfl
  have k6 := checkKeyword_eq s lexeme h 2 1 "n" TokenType.TOKEN_FUN rfl
  have k7 := checkKeyword_eq s lexeme h 1 1 "f" TokenType.TOKEN_IF rfl
  have k8 := checkKeyword_eq s lexeme h 1 2 "il" TokenType.TOKEN_NIL rfl
  have k9 := checkKeyword_eq s lexeme h 1 1 "r" TokenType.TOKEN_OR rfl
  have k10 := checkKeyword_eq s lexeme h 1 4 "rint" TokenType.TOKEN_PRINT rfl
  have k11 := checkKeyword_eq s lexeme h 1 5 "eturn" TokenType.TOKEN_RETURN rfl
  have k12 := checkKeyword_eq s lexeme h 1 4 "uper" TokenType.TOKEN_SUPER rfl
  have k13 := checkKeyword_eq s lexeme h 2 2 "is" TokenType.TOKEN_THIS rfl
  have k14 := checkKeyword_eq s lexeme h 2 2 "ue" TokenType.TOKEN_TRUE rfl
  have k15 := checkKeyword_eq s lexeme h 1 2 "ar" TokenType.TOKEN_VAR rfl
  have k16 := checkKeyword_eq s lexeme h 1 4 "hile" TokenType.TOKEN_WHILE rfl
  unfold identifierType
  simp only [k1, k2, k3, k4, k5, k6, k7, k8, k9, k10, k11, k12, k13, k14, k15, k16, hlen]
  clear k1 k2 k3 k4 k5 k6 k7 k8 k9 k10 k11 k12 k13 k14 k15 k16 hlen
  cases lexeme with
  | nil => simp [keywordKind]
  | cons c0 l1 =>
    have hc0 : deref s.start = c0 := by simp [deref, h]
    have hc1 : ∀ c1 l2, l1 = c1 :: l2 → deref (s.start.drop 1) = c1 := by
      intro c1 l2 hl; simp [deref, h, hl]
    rw [hc0]
    generalize deref (s.start.drop 1) = d at hc1
    clear hc0 h
    by_cases h1 : c0 = 'a'
    · subst h1; simp [keywordKind, length_and_eq]
    by_cases h2 : c0 = 'c'
    · subst h2; simp [keywordKind, length_and_eq]
    by_cases h3 : c0 = 'e'
    · subst h3; simp [keywordKind, length_and_eq]
    by_cases h4 : c0 = 'f'
    · subst h4
      cases l1 with
      | nil => simp [keywordKind]
      | cons c1 l2 =>
        have hd := hc1 c1 l2 rfl
        subst hd
        by_cases g1 : d = 'a'
        · subst g1; simp [keywordKind, length_and_eq]
        by_cases g2 : d = 'o'
        · subst g2; simp [keywordKind, length_and_eq]
        by_cases g3 : d = 'u'
        · subst g3; simp [keywordKind, length_and_eq]
        simp [keywordKind, g1, g2, g3]
    by_cases h5 : c0 = 'i'
    · subst h5; simp [keywordKind, length_and_eq]
    by_cases h6 : c0 = 'n'
    · subst h6; simp [keywordKind, length_and_eq]
    by_cases h7 : c0 = 'o'
    · subst h7; simp [keywordKind, length_and_eq]
    by_cases h8 : c0 = 'p'
    · subst h8; simp [keywordKind, length_and_eq]
    by_cases h9 : c0 = 'r'
    · subst h9; simp [keywordKind, length_and_eq]
    by_cases h10 : c0 = 's'
    · subst h10; simp [keywordKind, length_and_eq]
    by_cases h11 : c0 = 't'
    · subst h11
      cases l1 with
      | nil => simp [keywordKind]
      | cons c1 l2 =>
        have hd := hc1 c1 l2 rfl
        subst hd
        by_cases g1 : d = 'h'
        · subst g1; simp [keywordKind, length_and_eq]
        by_cases g2 : d = 'r'
        · subst g2; simp [keywordKind, length_and_eq]
        simp [keywordKind, g1, g2]
    by_cases h12 : c0 = 'v'
    · subst h12; simp [keywordKind, length_and_eq]
    by_cases h13 : c0 = 'w'
    · subst h13; simp [keywordKind, length_and_eq]
    simp [keywordKind, h1, h2, h3, h4, h5, h6, h7, h8, h9, h10, h11, h12, h13]

theorem isAlpha_ne {c d : Char} (h : isAlpha c = true) (hd : isAlpha d = false) : c ≠ d := by
  rintro rfl
  rw [h] at hd
  cases hd

theorem identifierLoop_word (w : List Char)
    (hw : ∀ c ∈ w, (isAlpha c || isDigit c) = true) (r : List Char)
    (hr : (isAlpha (deref r) || isDigit (deref r)) = false) :
    ∀ (s : Scanner), s.current = w ++ r →
      identifierLoop (w.length + 1) s = Res.done { s with current := r } := by
  induction w with
  | nil =>
    intro s hs
    simp only [List.nil_append] at hs
    simp only [List.length_nil, identifierLoop, peek, hs, hr]
    cases s
    simp_all
  | cons d w ih =>
    intro s hs
    have hd : (isAlpha (peek s) || isDigit (peek s)) = true := by
      simp only [peek, hs, deref, List.cons_append, List.headD_cons]
      exact hw d (List.mem_cons_self _ _)
    rw [List.length_cons, identifierLoop, if_pos hd,
      ih (fun c hc => hw c (List.mem_cons_of_mem _ hc))]
    · simp [advance]
    · simp [advance, hs]

/-- A word is scanned as the keyword whose text it is, or as an identifier. -/
theorem scanToken_word (s : Scanner) (k : Nat) (c : Char) (w r : List Char)
    (hc : isAlpha c = true) (hw : ∀ x ∈ w, (isAlpha x || isDigit x) = true)
    (hr : (isAlpha (deref r) || isDigit (deref r)) = false)
    (hs : s.current = List.replicate k ' ' ++ c :: (w ++ r)) :
    Returns (fun n => scanToken n s)
      (⟨keywordKind (c :: w), c :: (w ++ r), w.length + 1, s.line⟩,
       ⟨c :: (w ++ r), r, s.line⟩) := by
  have hsw : StopsWhitespace (c :: (w ++ r)) :=
    ⟨isAlpha_ne hc (by decide), isAlpha_ne hc (by decide), isAlpha_ne hc (by decide),
      isAlpha_ne hc (by decide), fun h => absurd h (isAlpha_ne hc (by decide))⟩
  refine Returns.bind (skipWhitespace_returns k _ hsw s hs) ?_
  show Returns (fun n => scanLexeme n ⟨c :: (w ++ r), c :: (w ++ r), s.line⟩) _
  have h0 : isAtEnd ⟨c :: (w ++ r), c :: (w ++ r), s.line⟩ = false := by
    simp only [isAtEnd, deref, List.headD_cons, beq_eq_false_iff_ne]
    exact isAlpha_ne hc (by decide)
  have h1 : isAlpha (advance ⟨c :: (w ++ r), c :: (w ++ r), s.line⟩).1 = true := hc
  simp only [scanLexeme, h0, h1, if_true, Bool.false_eq_true, if_false]
  refine Returns.bind (Returns.of_le (w.length + 1) (fun n m h => identifierLoop_le n m _ h)
    (identifierLoop_word w hw r hr (advance ⟨c :: (w ++ r), c :: (w ++ r), s.line⟩).2 rfl)) ?_
  have hty : identifierType ⟨c :: (w ++ r), r, s.line⟩ = keywordKind (c :: w) :=
    identifierType_eq ⟨c :: (w ++ r), r, s.line⟩ (c :: w) (by simp)
  have hlen : lexemeLength ⟨c :: (w ++ r), r, s.line⟩ = w.length + 1 := by
    simp [lexemeLength]
    omega
  simp only [makeToken, advance, hty, hlen]
  exact Returns.const _

end Scan


namespace Scan

/-! ## The operator `!` -/

theorem scanToken_bang (s : Scanner) (k : Nat) (r : List Char) (hr : deref r ≠ '=')
    (hs : s.current = List.replicate k ' ' ++ '!' :: r) :
    Returns (fun n => scanToken n s)
      (⟨TokenType.TOKEN_BANG, '!' :: r, 1, s.line⟩, ⟨'!' :: r, r, s.line⟩) := by
  have hsw : StopsWhitespace ('!' :: r) := by simp [StopsWhitespace, deref]
  refine Returns.bind (skipWhitespace_returns k _ hsw s hs) ?_
  show Returns (fun n => scanLexeme n ⟨'!' :: r, '!' :: r, s.line⟩) _
  have hone : ('!' :: r).length - r.length = 1 := by simp
  have hm : matchChar ⟨'!' :: r, r, s.line⟩ '=' = (false, ⟨'!' :: r, r, s.line⟩) := by
    unfold matchChar
    split
    · rfl
    · simp [hr]
  simp [scanLexeme, scanSwitch, isAtEnd, deref, advance, makeToken, makeToken2, hm,
    lexemeLength, hone, isAlpha, isDigit]
  exact Returns.const _

end Scan

namespace Compiler

variable {D : Type}

open Value

/-! ## String constants -/

theorem copyString_literal (st : State D) (mid rest : List Char) :
    copyString st (('"' :: (mid ++ '"' :: rest)).drop 1) (mid.length + 2 - 2) =
      (st.heap.length,
       { st with
         heap := st.heap ++ [⟨ObjType.OBJ_STRING, st.vm.objects, mid.length, mid ++ ['\x00']⟩],
         vm := { st.vm with objects := some st.heap.length } }) := by
  have h1 : (mid ++ '"' :: rest).take mid.length = mid := List.take_left' rfl
  have h2 : (mid ++ ['\x00']).take mid.length = mid := List.take_left' rfl
  simp [copyString, takeString, allocateString, h1, h2]

theorem emitConstant_room (st : State D) (v : Value D) (h : st.chunk.constants.length ≤ 255) :
    emitConstant st v =
      { st with chunk := ⟨st.chunk.code ++ [OpCode.OP_CONSTANT.toByte, st.chunk.constants.length],
          st.chunk.lines ++ [st.parser.previous.line, st.parser.previous.line],
          st.chunk.constants ++ [v]⟩ } := by
  have h' : ¬ st.chunk.constants.length > 255 := by omega
  have hm : st.chunk.constants.length % 256 = st.chunk.constants.length := Nat.mod_eq_of_lt (by omega)
  simp [emitConstant, makeConstant, addConstant, UINT8_MAX, h', emitBytes, emitByte, writeChunk, hm]

theorem emitConstant_full (st : State D) (v : Value D) (h : 255 < st.chunk.constants.length) :
    emitConstant st v =
      emitBytes (error { st with chunk := (addConstant st.chunk v).2 }
        "Too many constants in one chunk.".toList) OpCode.OP_CONSTANT.toByte 0 := by
  have h' : st.chunk.constants.length > 255 := h
  simp [emitConstant, makeConstant, addConstant, UINT8_MAX, h']


/-! ## Unary operators -/

/-- Every token with an infix handler binds weaker than a unary operator. -/
theorem rules_below_unary (ty : TokenType) (h : (getRule ty).infixRule ≠ none) :
    (getRule ty).precedence < PREC_UNARY := by
  cases ty <;> first | (exact absurd rfl h) | decide

theorem unary_eq (ops : DoubleOps D) (n : Nat) (st st1 : State D)
    (h : parsePrecedence ops n PREC_UNARY st = Res.done st1) :
    unary ops (n + 1) st = Res.done (unaryEmit st1 st.parser.previous.type) := by
  rw [unary, h]
  rfl

/-- A unary operator in front of a number literal `a`, then a binary operator of the spec's
table and a number literal `b`: the code is that of `a`, the opcode of the unary operator,
the code of `b`, the opcodes of the binary operator, and `OP_RETURN`. -/
theorem compile_unary_binary (ops : DoubleOps D) (st : State D) (cu : Char) (u : TokenType)
    (ub : Nat) (a b : List Char) (op : TokenType) (lex : List Char) (oc : List OpCode)
    (ha : Scan.IsNumberLexeme a) (hb : Scan.IsNumberLexeme b)
    (hl : Scan.binaryLexeme op = some lex) (ho : specBinaryOpcodes op = some oc)
    (hadv : ∀ (s : State D) (r : List Char), s.scanner.current = cu :: r →
      Scan.deref r ≠ '=' →
      Returns (fun n => advance n s)
        (shift s ⟨u, cu :: r, 1, s.scanner.line⟩ ⟨cu :: r, r, s.scanner.line⟩))
    (hpre : (getRule u).prefixRule = some ParseFn.unary)
    (hemit : ∀ s : State D, unaryEmit s u = emitByte s ub) :
    ∃ st', Returns (fun n => compile ops n (cu :: (a ++ ' ' :: (lex ++ ' ' :: b))) initChunk st)
        (true, st') ∧
      st'.chunk.code = [0, 0, ub, 0, 1] ++ oc.map OpCode.toByte ++ [13] ∧
      st'.stderr = st.stderr := by
  obtain ⟨hi, hp, hne⟩ := binaryLexeme_rule hl
  have hlow : (getRule op).precedence < PREC_UNARY :=
    rules_below_unary op (by rw [hi]; exact fun h => by cases h)
  let rA : List Char := ' ' :: (lex ++ ' ' :: b)
  have hrA : Scan.StopsNumber rA := stopsNumber_cons _ _ (by decide) (by decide)
  obtain ⟨d, a', hda, hd⟩ := ha.head
  let s0 : State D := compileStart st (cu :: (a ++ rA)) initChunk
  have h1 := hadv s0 (a ++ rA) rfl
    (by rw [hda]; exact Scan.isDigit_ne hd (by decide))
  let s1 : State D := shift s0 ⟨u, cu :: (a ++ rA), 1, 1⟩ ⟨cu :: (a ++ rA), a ++ rA, 1⟩
  have h2 := advance_number s1 0 a rA ha hrA rfl
  let s2 : State D := shift s1 ⟨TokenType.TOKEN_NUMBER, a ++ rA, a.length, 1⟩ ⟨a ++ rA, rA, 1⟩
  have h3 := advance_binary s2 1 op lex b hl rfl
  let s3 : State D := shift s2 ⟨op, lex ++ ' ' :: b, lex.length, 1⟩
    ⟨lex ++ ' ' :: b, ' ' :: b, 1⟩
  let s4 : State D := number ops s3
  let s5 : State D := emitByte s4 ub
  have h5 := advance_number s5 1 b [] hb stopsNumber_nil (by simp [s5, s4, s3])
  let s6 : State D := shift s5 ⟨TokenType.TOKEN_NUMBER, b, b.length, 1⟩ ⟨b, [], 1⟩
  have h6 := advance_eof s6 0 rfl
  let s7 : State D := shift s6 ⟨TokenType.TOKEN_EOF, [], 0, 1⟩ ⟨[], [], 1⟩
  let s8 : State D := number ops s7
  let s9 : State D := binaryEmit s8 op
  have h9 := advance_eof s9 0 (by simp [s9, s8, s7])
  let s10 : State D := shift s9 ⟨TokenType.TOKEN_EOF, [], 0, 1⟩ ⟨[], [], 1⟩
  have hprev2 : s2.parser.previous.type = u := by simp [s2, s1]
  have hprev6 : s6.parser.previous.type = op := by simp [s6, s5, s4, s3, emitByte]
  -- the operand of the unary operator
  have p2 : Returns (fun n => parsePrecedence ops n PREC_UNARY s2) s4 :=
    parsePrecedence_number ops _ s2 _ _ rfl h3
      (fun h => absurd (Nat.lt_of_lt_of_le hlow h) (Nat.lt_irrefl _))
  have c2 := callParseFn_unary ops s2 s4 p2
  rw [hprev2, hemit] at c2
  -- the right operand of the binary operator
  have p6 : Returns (fun n => parsePrecedence ops n
      ((getRule s6.parser.previous.type).precedence + 1) s6) s8 :=
    parsePrecedence_number ops _ s6 _ _ rfl (by simpa [s6, s5, s4, s3] using h6)
      (by simp [getRule, rules, PREC_NONE])
  have c6 := callParseFn_binary ops s6 s8 p6
  rw [hprev6] at c6
  have p1 : Returns (fun n => parsePrecedence ops n PREC_ASSIGNMENT s1) s9 :=
    parsePrecedence_returns ops _ s1 s2 s5 s9 ParseFn.unary h2 (by rw [hprev2]; exact hpre) c2
      (infixLoop_step ops _ s5 s6 s9 s9 ParseFn.binary
        (by simpa [s5, s4, s3, emitByte] using hp)
        (by simpa [s5, s4, s3] using h5) (by rw [hprev6]; exact hi) c6
        (infixLoop_stop ops _ s9
          (by simp [s9, s8, s7, getRule, rules, PREC_NONE, PREC_ASSIGNMENT])))
  have pc := compile_returns ops (cu :: (a ++ rA)) initChunk st s1 s9 s10 h1 p1
    (consume_returns s9 _ _ s10 (by simp [s9, s8, s7])
      (by simpa [s9, s8, s7] using h9))
  have e4 : s4 = { s3 with chunk := ⟨[0, 0], [1, 1],
      [Value.NUMBER_VAL (ops.strtod (a ++ rA))]⟩ } :=
    number_of_room ops s3 (by simp [s3, s2, s1, s0, compileStart, initChunk])
  have e8 : s8.chunk.code = [0, 0, ub, 0, 1] ∧ s8.parser.hadError = false ∧
      s8.stderr = st.stderr := by
    have := number_of_room ops s7 (by simp [s7, s6, s5, emitByte, writeChunk, e4])
    simp only [s8, this]
    simp [s7, s6, s5, emitByte, writeChunk, e4, OpCode.toByte, s3, s2, s1, s0, compileStart]
  have e9 : s9 = withOpcodes s8 oc := binaryEmit_eq_withOpcodes s8 op oc ho
  refine ⟨endCompiler s10, ?_, ?_, ?_⟩
  · have hh : (endCompiler s10).parser.hadError = false := by
      simp [endCompiler, emitReturn, s10, e9, withOpcodes, e8.2.1]
    rw [hh] at pc
    exact pc
  · simp [endCompiler, emitReturn, s10, e9, withOpcodes, e8.1, OpCode.toByte]
  · simp [endCompiler, emitReturn, s10, e9, withOpcodes, e8.2.2]

theorem compile_negate_binary (ops : DoubleOps D) (st : State D) (a b : List Char)
    (op : TokenType) (lex : List Char) (oc : List OpCode)
    (ha : Scan.IsNumberLexeme a) (hb : Scan.IsNumberLexeme b)
    (hl : Scan.binaryLexeme op = some lex) (ho : specBinaryOpcodes op = some oc) :
    ∃ st', Returns (fun n => compile ops n ('-' :: (a ++ ' ' :: (lex ++ ' ' :: b))) initChunk st)
        (true, st') ∧
      st'.chunk.code = [0, 0, 12, 0, 1] ++ oc.map OpCode.toByte ++ [13] ∧
      st'.stderr = st.stderr :=
  compile_unary_binary ops st '-' TokenType.TOKEN_MINUS 12 a b op lex oc ha hb hl ho
    (fun s r hs _ => advance_symbol s 0 '-' TokenType.TOKEN_MINUS r rfl hs) rfl (fun _ => rfl)

theorem compile_not_binary (ops : DoubleOps D) (st : State D) (a b : List Char)
    (op : TokenType) (lex : List Char) (oc : List OpCode)
    (ha : Scan.IsNumberLexeme a) (hb : Scan.IsNumberLexeme b)
    (hl : Scan.binaryLexeme op = some lex) (ho : specBinaryOpcodes op = some oc) :
    ∃ st', Returns (fun n => compile ops n ('!' :: (a ++ ' ' :: (lex ++ ' ' :: b))) initChunk st)
        (true, st') ∧
      st'.chunk.code = [0, 0, 11, 0, 1] ++ oc.map OpCode.toByte ++ [13] ∧
      st'.stderr = st.stderr :=
  compile_unary_binary ops st '!' TokenType.TOKEN_BANG 11 a b op lex oc ha hb hl ho
    (fun s r hs hr => advance_returns s _ _ (Scan.scanToken_bang s.scanner 0 r hr hs)
      (by simp))
    rfl (fun _ => rfl)

end Compiler


/-! ## The code of an expression -/

theorem stackWalkFrom_exprCode {n : Nat} {w : List Nat} {k : Nat} (h : ExprCode n w k) :
    ∀ (rest : List Nat) (depth : Nat),
      stackWalkFrom (w ++ rest) false depth = stackWalkFrom rest false (depth + 1) := by
  induction h with
  | constant n hn =>
    intro rest depth
    simp [stackWalkFrom, OpCode.toByte]
  | literal n b hb =>
    intro rest depth
    rcases hb with hb | hb | hb <;> subst hb <;> simp [stackWalkFrom, OpCode.toByte]
  | unary n w k b hw hb ih =>
    intro rest depth
    rw [List.append_assoc, ih]
    rcases hb with hb | hb <;> subst hb <;> simp [stackWalkFrom, OpCode.toByte]
  | binary n w1 k1 w2 k2 b h1 h2 hb ih1 ih2 =>
    intro rest depth
    rw [List.append_assoc, List.append_assoc, ih1, ih2]
    obtain ⟨hb1, hb2⟩ := hb
    simp only [OpCode.toByte] at hb1 hb2
    have c1 : b ≠ 0 := by omega
    have c2 : ¬ (b = 1 ∨ b = 2 ∨ b = 3) := by omega
    have c3 : ¬ (b = 11 ∨ b = 12) := by omega
    simp [stackWalkFrom, OpCode.toByte, c1, c2, c3, hb1, hb2]

namespace Compiler

variable {D : Type}

/-! ## What an accepted source compiles to -/

theorem stepsPreserve_panicInv : StepsPreserve (PanicInv (D := D)) :=
  stepsPreserve_of (fun _ _ _ _ h => h) (fun _ _ h => h) errorAt_panicInv (fun _ _ _ h => h)

theorem clean_before {s s' : State D} (hkeep : s.parser.hadError = true →
    s'.parser.hadError = true) (h : s'.parser.hadError = false) :
    s.parser.hadError = false := by
  cases hs : s.parser.hadError
  · rfl
  · rw [hkeep hs] at h
    cases h

theorem consume_chunk (n : Nat) (st st' : State D) (ty : TokenType) (msg : List Char)
    (h : consume n st ty msg = Res.done st') : st'.chunk = st.chunk := by
  unfold consume at h
  split at h
  · exact advance_chunk n st st' h
  · cases h
    exact errorAt_chunk _ _ _

theorem emitConstant_clean (st : State D) (v : Value D) (hinv : PanicInv st)
    (h : (emitConstant st v).parser.hadError = false) : EmitsExpr st (emitConstant st v) := by
  by_cases hc : st.chunk.constants.length ≤ 255
  · rw [emitConstant_room st v hc]
    exact ⟨_, 1, rfl, by simp, ExprCode.constant _ hc⟩
  · rw [emitConstant_full st v (by omega)] at h
    have hp : PanicInv ({ st with chunk := (addConstant st.chunk v).2 } : State D) := hinv
    have := errorAt_hadError ({ st with chunk := (addConstant st.chunk v).2 } : State D)
      st.parser.previous "Too many constants in one chunk.".toList hp
    rw [show (emitBytes (error { st with chunk := (addConstant st.chunk v).2 }
      "Too many constants in one chunk.".toList) OpCode.OP_CONSTANT.toByte 0).parser.hadError =
      (errorAt ({ st with chunk := (addConstant st.chunk v).2 } : State D) st.parser.previous
        "Too many constants in one chunk.".toList).parser.hadError from rfl, this] at h
    cases h

theorem emitByte_unary (st0 st : State D) (b : Nat)
    (hb : b = OpCode.OP_NOT.toByte ∨ b = OpCode.OP_NEGATE.toByte) (h : EmitsExpr st0 st) :
    EmitsExpr st0 (emitByte st b) := by
  obtain ⟨w, k, h1, h2, h3⟩ := h
  exact ⟨w ++ [b], k, by rw [emitByte_code, h1, List.append_assoc], h2,
    ExprCode.unary _ w k b h3 hb⟩

theorem literal_emits (st : State D)
    (h : (getRule st.parser.previous.type).prefixRule = some ParseFn.literal) :
    EmitsExpr st (literal st) := by
  unfold literal
  cases hty : st.parser.previous.type <;> rw [hty] at h <;>
    first
    | (exact absurd h (by decide))
    | exact ⟨_, 0, rfl, rfl, ExprCode.literal _ _ (by simp [OpCode.toByte])⟩

theorem unaryEmit_emits (st0 st : State D) (ty : TokenType)
    (h : (getRule ty).prefixRule = some ParseFn.unary) (he : EmitsExpr st0 st) :
    EmitsExpr st0 (unaryEmit st ty) := by
  cases ty <;> first
    | (exact absurd h (by decide))
    | exact emitByte_unary st0 st _ (by simp [OpCode.toByte]) he

theorem emitByte_binary (base : List Nat) (n : Nat) (st st1 : State D) (b : Nat)
    (hb : OpCode.OP_EQUAL.toByte ≤ b ∧ b ≤ OpCode.OP_DIVIDE.toByte)
    (h : HoldsExpr base n st) (h1 : EmitsExpr st st1) : HoldsExpr base n (emitByte st1 b) := by
  obtain ⟨w, k, g1, g2, g3⟩ := h
  obtain ⟨w2, k2, e1, e2, e3⟩ := h1
  refine ⟨w ++ w2 ++ [b], k + k2, ?_, ?_, ExprCode.binary n w k w2 k2 b g3 (g2 ▸ e3) hb⟩
  · rw [emitByte_code, e1, g1]
    simp
  · rw [emitByte_constants, e2, g2]
    omega

theorem emitByte_not (base : List Nat) (n : Nat) (st : State D) (h : HoldsExpr base n st) :
    HoldsExpr base n (emitByte st OpCode.OP_NOT.toByte) := by
  obtain ⟨w, k, g1, g2, g3⟩ := h
  exact ⟨w ++ [OpCode.OP_NOT.toByte], k, by rw [emitByte_code, g1, List.append_assoc], g2,
    ExprCode.unary _ w k _ g3 (Or.inl rfl)⟩

theorem binaryEmit_emits (base : List Nat) (n : Nat) (st st1 : State D) (ty : TokenType)
    (hty : (getRule ty).infixRule = some ParseFn.binary)
    (h : HoldsExpr base n st) (h1 : EmitsExpr st st1) :
    HoldsExpr base n (binaryEmit st1 ty) := by
  cases ty <;> first
    | (exact absurd hty (by decide))
    | exact emitByte_binary base n st st1 _ (by simp [OpCode.toByte]) h h1
    | exact emitByte_not base n _
        (emitByte_binary base n st st1 _ (by simp [OpCode.toByte]) h h1)

theorem holdsExpr_of_chunk (base : List Nat) (n : Nat) (st st' : State D)
    (hc : st'.chunk = st.chunk) (h : HoldsExpr base n st) : HoldsExpr base n st' := by
  unfold HoldsExpr
  rw [hc]
  exact h

theorem rules_infix_binary (ty : TokenType) (fn : ParseFn)
    (h : (getRule ty).infixRule = some fn) : fn = ParseFn.binary := by
  cases ty <;> cases h <;> rfl

theorem rules_not_binary (ty : TokenType) :
    (getRule ty).prefixRule ≠ some ParseFn.binary := by
  cases ty <;> decide

theorem parseEmits (ops : DoubleOps D) : ∀ m, ParseEmits ops m := by
  intro m
  induction m with
  | zero =>
    refine ⟨?_, ?_, ?_, ?_, ?_, ?_, ?_⟩
    · intro p st st' _ h; simp [parsePrecedence] at h
    · intro p st st' _ _ _ h; simp [infixLoop] at h
    · intro fn st st' _ h; simp [callParseFn] at h
    · intro st st' _ _ _ h; simp [binary] at h
    · intro st st' _ _ _ h; simp [callParseFn] at h
    · intro st st' _ h; simp [grouping] at h
    · intro st st' _ h; simp [unary] at h
  | succ m ih =>
    obtain ⟨ihP, ihL, ihC, ihB, ihI, ihG, ihU⟩ := ih
    obtain ⟨_, keepL, _, _, _, _⟩ := parse_preserves ops (stepsPreserve_hadError (D := D)) m
    obtain ⟨invP, _, invC, _, _, _⟩ := parse_preserves ops (stepsPreserve_panicInv (D := D)) m
    refine ⟨?_, ?_, ?_, ?_, ?_, ?_, ?_⟩
    · -- parsePrecedence
      intro p st st' hinv h hclean
      rw [parsePrecedence] at h
      obtain ⟨st1, h1, h⟩ := Res.bind_eq_done h
      have hinv1 : PanicInv st1 := advance_preserves stepsPreserve_panicInv m st st1 hinv h1
      have hch1 : st1.chunk = st.chunk := advance_chunk m st st1 h1
      cases hfn : (getRule st1.parser.previous.type).prefixRule with
      | none =>
        simp only [hfn] at h
        cases h
        rw [error, errorAt_hadError _ _ _ hinv1] at hclean
        cases hclean
      | some fn =>
        simp only [hfn] at h
        obtain ⟨st2, h2, h⟩ := Res.bind_eq_done h
        have hclean2 := clean_before (keepL p st2 st' · h) hclean
        have e2 : EmitsExpr st1 st2 := ihC fn st1 st2 hinv1 h2 hclean2 hfn
        have := ihL p st2 st' st1.chunk.code st1.chunk.constants.length
          (invC fn st1 st2 hinv1 h2) h hclean e2
        unfold EmitsExpr
        rw [← hch1]
        exact this
    · -- the infix loop
      intro p st st' base n hinv h hclean hold
      rw [infixLoop] at h
      split at h
      · obtain ⟨st1, h1, h⟩ := Res.bind_eq_done h
        have hinv1 : PanicInv st1 := advance_preserves stepsPreserve_panicInv m st st1 hinv h1
        have hch1 : st1.chunk = st.chunk := advance_chunk m st st1 h1
        cases hfn : (getRule st1.parser.previous.type).infixRule with
        | none => simp only [hfn] at h; cases h
        | some fn =>
          have hb := rules_infix_binary _ fn hfn
          subst hb
          simp only [hfn] at h
          obtain ⟨st2, h2, h3⟩ := Res.bind_eq_done h
          have h := h3
          have hclean2 := clean_before (keepL p st2 st' · h) hclean
          exact ihL p st2 st' base n (invC _ st1 st2 hinv1 h2) h hclean
            (ihI st1 st2 base n hinv1 h2 hclean2 hfn
              (holdsExpr_of_chunk base n st st1 hch1 hold))
      · cases h; exact hold
    · -- a prefix handler
      intro fn st st' hinv h hclean hfn
      cases fn with
      | grouping => rw [callParseFn] at h; exact ihG st st' hinv h hclean
      | unary => rw [callParseFn] at h; exact ihU st st' hinv h hclean hfn
      | binary => exact absurd hfn (rules_not_binary _)
      | number =>
        rw [callParseFn] at h
        cases h
        exact emitConstant_clean st _ hinv hclean
      | string =>
        rw [callParseFn] at h
        cases h
        exact emitConstant_clean
          (copyString st (st.parser.previous.start.drop 1) (st.parser.previous.length - 2)).2
          _ hinv hclean
      | literal =>
        rw [callParseFn] at h
        cases h
        exact literal_emits st hfn
    · -- binary
      intro st st' base n hinv h hclean hfn hold
      rw [binary] at h
      obtain ⟨st1, h1, h⟩ := Res.bind_eq_done h
      cases h
      have hclean1 : st1.parser.hadError = false := by
        rw [binaryEmit_parser_eq] at hclean; exact hclean
      exact binaryEmit_emits base n st st1 _ hfn hold (ihP _ st st1 hinv h1 hclean1)
    · -- the infix handler
      intro st st' base n hinv h hclean hfn hold
      rw [callParseFn] at h
      exact ihB st st' base n hinv h hclean hfn hold
    · -- grouping
      intro st st' hinv h hclean
      rw [grouping] at h
      obtain ⟨st1, h1, h⟩ := Res.bind_eq_done h
      have hclean1 := clean_before
        (consume_preserves stepsPreserve_hadError m st1 st' _ _ · h) hclean
      have e1 := ihP _ st st1 hinv h1 hclean1
      have hch := consume_chunk m st1 st' _ _ h
      unfold EmitsExpr
      rw [hch]
      exact e1
    · -- unary
      intro st st' hinv h hclean hfn
      rw [unary] at h
      obtain ⟨st1, h1, h⟩ := Res.bind_eq_done h
      cases h
      have hclean1 : st1.parser.hadError = false := by
        rw [unaryEmit_parser_eq] at hclean; exact hclean
      exact unaryEmit_emits st st1 _ hfn (ihP _ st st1 hinv h1 hclean1)

/-- An accepted source compiles to the code of one expression followed by `OP_RETURN`. -/
theorem compile_exprCode (ops : DoubleOps D) (n : Nat) (source : List Char) (chunk : Chunk D)
    (st st' : State D) (h : compile ops n source chunk st = Res.done (true, st')) :
    ∃ w k, st'.chunk.code = chunk.code ++ w ++ [OpCode.OP_RETURN.toByte] ∧
      st'.chunk.constants.length = chunk.constants.length + k ∧
      ExprCode chunk.constants.length w k := by
  obtain ⟨s1, s2, s3, h1, h2, h3, rfl, hb⟩ := compile_done ops n source chunk st true st' h
  have p0 : PanicInv (compileStart st source chunk) := by
    intro hp; simp [compileStart] at hp
  have p1 : PanicInv s1 := advance_preserves stepsPreserve_panicInv n _ s1 p0 h1
  have hclean3 : s3.parser.hadError = false := by
    cases hh : s3.parser.hadError
    · rfl
    · rw [hh] at hb; cases hb
  have hclean2 := clean_before
    (consume_preserves stepsPreserve_hadError n s2 s3 _ _ · h3) hclean3
  obtain ⟨w, k, e1, e2, e3⟩ := (parseEmits ops n).1 _ s1 s2 p1 h2 hclean2
  have c1 : s1.chunk = chunk := advance_chunk n _ s1 h1
  have c3 : s3.chunk = s2.chunk := consume_chunk n s2 s3 _ _ h3
  rw [c1] at e1 e2 e3
  refine ⟨w, k, ?_, ?_, e3⟩
  · show (endCompiler s3).chunk.code = _
    simp [endCompiler, emitReturn, c3, e1]
  · show (endCompiler s3).chunk.constants.length = _
    simp [endCompiler, emitReturn, c3, e2]

end Compiler


namespace Scan

/-! ## Scanning a text with a closing parenthesis appended -/

theorem deref_close (l : List Char) (h : l ≠ []) : deref (l ++ [')']) = deref l := by
  cases l with
  | nil => exact absurd rfl h
  | cons c r => rfl

theorem skipWhitespace_close : ∀ n s s1, skipWhitespace n s = Res.done s1 →
    skipWhitespace n (closeScanner s) = Res.done (closeScanner s1) := by
  intro n
  induction n with
  | zero => intro s s1 h; simp [skipWhitespace] at h
  | succ n ih =>
    intro s s1 h
    obtain ⟨st, cur, line⟩ := s
    cases cur with
    | nil =>
      simp [skipWhitespace, peek, deref, closeScanner] at h ⊢
      subst h; simp
    | cons c r =>
      simp only [skipWhitespace, peek, deref, closeScanner, List.cons_append, List.headD_cons,
        advance, List.tail_cons] at h ⊢
      by_cases h1 : c = ' ' ∨ c = '\r' ∨ c = '\t'
      · rw [if_pos h1] at h ⊢; exact ih _ _ h
      · rw [if_neg h1] at h ⊢
        by_cases h2 : c = '\n'
        · rw [if_pos h2] at h ⊢; exact ih _ _ h
        · rw [if_neg h2] at h ⊢
          by_cases h3 : c = '/'
          · rw [if_pos h3] at h ⊢
            subst h3
            have hn : peekNext ⟨st, '/' :: r, line⟩ = deref r := by
              simp [peekNext, isAtEnd, deref]
            have hn2 : peekNext ⟨st ++ [')'], '/' :: (r ++ [')']), line⟩ = deref (r ++ [')']) := by
              simp [peekNext, isAtEnd, deref]
            rw [hn] at h
            rw [hn2]
            by_cases h4 : deref r = '/'
            · rw [if_pos h4] at h
              rw [skipComment_loops _ (by simp [peek, deref]) (by simp [isAtEnd, deref])] at h
              simp [Res.bind] at h
            · rw [if_neg h4] at h
              have h5 : ¬ deref (r ++ [')']) = '/' := by
                cases r with
                | nil => simp [deref]
                | cons a b => simpa [deref] using h4
              rw [if_neg h5]
              cases h; rfl
          · rw [if_neg h3] at h ⊢; cases h; rfl

theorem identifierLoop_close : ∀ n s s1, identifierLoop n s = Res.done s1 →
    identifierLoop n (closeScanner s) = Res.done (closeScanner s1) ∧ s1.start = s.start ∧
      ∃ w, s.current = w ++ s1.current := by
  intro n
  induction n with
  | zero => intro s s1 h; simp [identifierLoop] at h
  | succ n ih =>
    intro s s1 h
    obtain ⟨st, cur, line⟩ := s
    cases cur with
    | nil =>
      simp [identifierLoop, peek, deref, closeScanner, isAlpha, isDigit] at h ⊢
      subst h; simp
    | cons c r =>
      simp only [identifierLoop, peek, deref, closeScanner, List.cons_append, List.headD_cons,
        advance, List.tail_cons] at h ⊢
      by_cases h1 : (isAlpha c || isDigit c) = true
      · rw [if_pos h1] at h ⊢
        obtain ⟨h2, h3, w, h4⟩ := ih _ _ h
        exact ⟨h2, h3, c :: w, by simp at h4; simp [h4]⟩
      · rw [if_neg h1] at h ⊢
        cases h
        exact ⟨rfl, rfl, [], rfl⟩

theorem digitLoop_close : ∀ n s s1, digitLoop n s = Res.done s1 →
    digitLoop n (closeScanner s) = Res.done (closeScanner s1) := by
  intro n
  induction n with
  | zero => intro s s1 h; simp [digitLoop] at h
  | succ n ih =>
    intro s s1 h
    obtain ⟨st, cur, line⟩ := s
    cases cur with
    | nil =>
      simp [digitLoop, peek, deref, closeScanner, isDigit] at h ⊢
      subst h; simp
    | cons c r =>
      simp only [digitLoop, peek, deref, closeScanner, List.cons_append, List.headD_cons,
        advance, List.tail_cons] at h ⊢
      by_cases h1 : isDigit c = true
      · rw [if_pos h1] at h ⊢
        exact ih _ _ h
      · rw [if_neg h1] at h ⊢
        cases h
        rfl

theorem stringLoop_close : ∀ n s s1, stringLoop n s = Res.done s1 → s1.current ≠ [] →
    stringLoop n (closeScanner s) = Res.done (closeScanner s1) := by
  intro n
  induction n with
  | zero => intro s s1 h; simp [stringLoop] at h
  | succ n ih =>
    intro s s1 h hne
    obtain ⟨st, cur, line⟩ := s
    cases cur with
    | nil =>
      simp [stringLoop, peek, deref, isAtEnd] at h
      subst h
      exact absurd rfl hne
    | cons c r =>
      simp only [stringLoop, peek, deref, closeScanner, List.cons_append, List.headD_cons,
        advance, List.tail_cons, isAtEnd] at h ⊢
      by_cases h1 : c ≠ '"' ∧ ¬ (c == '\x00') = true
      · rw [if_pos h1] at h ⊢
        by_cases h2 : c = '\n'
        · simp only [h2, if_true, List.tail_cons] at h ⊢
          exact ih _ _ h hne
        · simp only [h2, if_false, List.tail_cons] at h ⊢
          exact ih _ _ h hne
      · rw [if_neg h1] at h ⊢
        cases h
        rfl

theorem makeToken_close (s : Scanner) (ty : TokenType) :
    makeToken (closeScanner s) ty = closeToken (makeToken s ty) := by
  have h : (s.start ++ [')']).length - (s.current ++ [')']).length =
      s.start.length - s.current.length := by
    rw [List.length_append, List.length_append]
    exact Nat.add_sub_add_right _ _ _
  show Token.mk ty (s.start ++ [')']) ((s.start ++ [')']).length - (s.current ++ [')']).length)
    s.line = Token.mk ty (s.start ++ [')']) (s.start.length - s.current.length) s.line
  rw [h]

theorem identifier_close (n : Nat) (s : Scanner) (tok : Token) (s1 : Scanner) (lexeme : List Char)
    (hs : s.start = lexeme ++ s.current) (h : identifier n s = Res.done (tok, s1)) :
    identifier n (closeScanner s) = Res.done (closeToken tok, closeScanner s1) ∧
      tok.type ≠ TokenType.TOKEN_EOF := by
  rw [identifier] at h
  obtain ⟨s2, h2, h3⟩ := Res.bind_eq_done h
  obtain ⟨h4, h5, w, h6⟩ := identifierLoop_close n s s2 h2
  have h7 : s2.start = (lexeme ++ w) ++ s2.current := by
    rw [h5, hs, h6, List.append_assoc]
  have h8 : (closeScanner s2).start = (lexeme ++ w) ++ (closeScanner s2).current := by
    simp [closeScanner, h7]
  have h9 := identifierType_eq s2 _ h7
  have h10 := identifierType_eq (closeScanner s2) _ h8
  cases h3
  constructor
  · rw [identifier, h4]
    simp only [Res.bind]
    rw [makeToken_close, h10, h9]
  · exact identifierType_ne_eof _

theorem number_close (n : Nat) (s : Scanner) (tok : Token) (s1 : Scanner)
    (h : number n s = Res.done (tok, s1)) :
    number n (closeScanner s) = Res.done (closeToken tok, closeScanner s1) ∧
      tok.type ≠ TokenType.TOKEN_EOF := by
  rw [number] at h
  obtain ⟨s2, h2, h3⟩ := Res.bind_eq_done h
  have h4 := digitLoop_close n s s2 h2
  rw [number, h4]
  simp only [Res.bind]
  have hc : (peek (closeScanner s2) = '.' ∧ isDigit (peekNext (closeScanner s2)) = true) ↔
      (peek s2 = '.' ∧ isDigit (peekNext s2) = true) := by
    obtain ⟨st, cur, line⟩ := s2
    cases cur with
    | nil => simp [peek, peekNext, deref, closeScanner, isAtEnd, isDigit]
    | cons c r =>
      cases r with
      | nil =>
        by_cases hc : c = '.'
        · subst hc; simp [peek, peekNext, deref, closeScanner, isAtEnd, isDigit]
        · simp [peek, peekNext, deref, closeScanner, isAtEnd, hc]
      | cons a b => simp [peek, peekNext, deref, closeScanner, isAtEnd]
  by_cases h5 : peek s2 = '.' ∧ isDigit (peekNext s2) = true
  · rw [if_pos h5] at h3
    rw [if_pos (hc.2 h5)]
    obtain ⟨s3, h6, h7⟩ := Res.bind_eq_done h3
    have hadv : (advance (closeScanner s2)).2 = closeScanner (advance s2).2 := by
      obtain ⟨st, cur, line⟩ := s2
      cases cur with
      | nil => simp [peek, deref] at h5
      | cons c r => rfl
    rw [hadv, digitLoop_close n _ s3 h6]
    cases h7
    simp only [Res.bind]
    rw [makeToken_close]
    exact ⟨rfl, by simp [makeToken]⟩
  · rw [if_neg h5] at h3
    rw [if_neg (fun hx => h5 (hc.1 hx))]
    cases h3
    rw [makeToken_close]
    exact ⟨rfl, by simp [makeToken]⟩

theorem string_close (n : Nat) (s : Scanner) (tok : Token) (s1 : Scanner)
    (h : string n s = Res.done (tok, s1)) (hne : tok.type ≠ TokenType.TOKEN_ERROR) :
    string n (closeScanner s) = Res.done (closeToken tok, closeScanner s1) ∧
      tok.type ≠ TokenType.TOKEN_EOF := by
  rw [string] at h
  obtain ⟨s2, h2, h3⟩ := Res.bind_eq_done h
  by_cases h4 : isAtEnd s2 = true
  · rw [if_pos h4] at h3
    cases h3
    exact absurd rfl hne
  · rw [if_neg h4] at h3
    have h5 : s2.current ≠ [] := by
      intro h6
      apply h4
      simp [isAtEnd, deref, h6]
    have h6 := stringLoop_close n s s2 h2 h5
    have h7 : isAtEnd (closeScanner s2) = isAtEnd s2 := by
      simp only [isAtEnd, closeScanner]
      rw [deref_close _ h5]
    have hadv : (advance (closeScanner s2)).2 = closeScanner (advance s2).2 := by
      obtain ⟨st, cur, line⟩ := s2
      cases cur with
      | nil => exact absurd rfl h5
      | cons c r => rfl
    rw [string, h6]
    simp only [Res.bind]
    rw [h7, if_neg h4]
    cases h3
    rw [hadv, makeToken_close]
    exact ⟨rfl, by simp [makeToken]⟩

theorem matchChar_close (s : Scanner) :
    matchChar (closeScanner s) '=' = ((matchChar s '=').1, closeScanner (matchChar s '=').2) := by
  obtain ⟨st, cur, line⟩ := s
  cases cur with
  | nil => simp [matchChar, isAtEnd, deref, closeScanner]
  | cons a r =>
    simp only [matchChar, isAtEnd, deref, closeScanner, List.cons_append, List.headD_cons,
      List.tail_cons]
    split_ifs <;> rfl

theorem makeToken2_close (s : Scanner) (a b : TokenType) :
    makeToken2 (closeScanner s) a b =
      (closeToken (makeToken2 s a b).1, closeScanner (makeToken2 s a b).2) := by
  simp only [makeToken2, matchChar_close, makeToken_close]

theorem makeToken2_type (s : Scanner) (a b x : TokenType) (ha : a ≠ x) (hb : b ≠ x) :
    (makeToken2 s a b).1.type ≠ x := by
  simp only [makeToken2, makeToken]
  exact ite_ne ha hb

theorem close_ite {c : Prop} [Decidable c] {a b a1 b1 : Res (Token × Scanner)}
    (ha : a.All (fun r => r.1.type ≠ TokenType.TOKEN_ERROR →
      a1 = Res.done (closeToken r.1, closeScanner r.2)))
    (hb : b.All (fun r => r.1.type ≠ TokenType.TOKEN_ERROR →
      b1 = Res.done (closeToken r.1, closeScanner r.2))) :
    (if c then a else b).All (fun r => r.1.type ≠ TokenType.TOKEN_ERROR →
      (if c then a1 else b1) = Res.done (closeToken r.1, closeScanner r.2)) := by
  split
  · exact ha
  · exact hb

theorem scanSwitch_close (n : Nat) (s : Scanner) (c : Char) :
    (scanSwitch n s c).All (fun r => r.1.type ≠ TokenType.TOKEN_ERROR →
      scanSwitch n (closeScanner s) c = Res.done (closeToken r.1, closeScanner r.2)) := by
  unfold scanSwitch
  repeat' (first
    | exact fun r hr hne => (string_close n s r.1 r.2 hr hne).1
    | exact Res.all_done (fun _ => by rw [makeToken_close])
    | exact Res.all_done (fun _ => by rw [makeToken2_close])
    | exact Res.all_done (fun h => absurd rfl h)
    | apply close_ite)

/-! ## The scanner only moves forward -/

theorem skipComment_same : ∀ n s s1, skipComment n s = Res.done s1 → s1 = s := by
  intro n
  induction n with
  | zero => intro s s1 h; simp [skipComment] at h
  | succ n ih =>
    intro s s1 h
    rw [skipComment] at h
    split at h
    · exact ih s s1 h
    · cases h; rfl

theorem skipWhitespace_suffix : ∀ n s s1, skipWhitespace n s = Res.done s1 →
    s1.current <:+ s.current := by
  intro n
  induction n with
  | zero => intro s s1 h; simp [skipWhitespace] at h
  | succ n ih =>
    intro s s1 h
    simp only [skipWhitespace] at h
    split at h
    · exact (ih _ _ h).trans (List.tail_suffix _)
    · split at h
      · exact (ih _ _ h).trans (List.tail_suffix _)
      · split at h
        · split at h
          · obtain ⟨s2, h2, h3⟩ := Res.bind_eq_done h
            rw [skipComment_same n s s2 h2] at h3
            exact ih _ _ h3
          · cases h; exact List.suffix_refl _
        · cases h; exact List.suffix_refl _

theorem identifierLoop_suffix : ∀ n s s1, identifierLoop n s = Res.done s1 →
    s1.current <:+ s.current := by
  intro n
  induction n with
  | zero => intro s s1 h; simp [identifierLoop] at h
  | succ n ih =>
    intro s s1 h
    simp only [identifierLoop] at h
    split at h
    · exact (ih _ _ h).trans (List.tail_suffix _)
    · cases h; exact List.suffix_refl _

theorem digitLoop_suffix : ∀ n s s1, digitLoop n s = Res.done s1 →
    s1.current <:+ s.current := by
  intro n
  induction n with
  | zero => intro s s1 h; simp [digitLoop] at h
  | succ n ih =>
    intro s s1 h
    simp only [digitLoop] at h
    split at h
    · exact (ih _ _ h).trans (List.tail_suffix _)
    · cases h; exact List.suffix_refl _

theorem stringLoop_suffix : ∀ n s s1, stringLoop n s = Res.done s1 →
    s1.current <:+ s.current := by
  intro n
  induction n with
  | zero => intro s s1 h; simp [stringLoop] at h
  | succ n ih =>
    intro s s1 h
    simp only [stringLoop] at h
    split at h
    · refine (ih _ _ h).trans ?_
      split
      · exact List.tail_suffix _
      · exact List.tail_suffix _
    · cases h; exact List.suffix_refl _

theorem matchChar_suffix (s : Scanner) (c : Char) : (matchChar s c).2.current <:+ s.current := by
  simp only [matchChar]
  split
  · exact List.suffix_refl _
  · split
    · exact List.suffix_refl _
    · exact List.tail_suffix _

theorem string_suffix (n : Nat) (s : Scanner) :
    (string n s).All (fun r => r.2.current <:+ s.current) := by
  intro r h
  rw [string] at h
  obtain ⟨s2, h2, h3⟩ := Res.bind_eq_done h
  have h4 := stringLoop_suffix n s s2 h2
  split at h3
  · cases h3; exact h4
  · cases h3; exact (List.tail_suffix _).trans h4

theorem scanSwitch_suffix (n : Nat) (s : Scanner) (c : Char) :
    (scanSwitch n s c).All (fun r => r.2.current <:+ s.current) := by
  unfold scanSwitch
  repeat' (first
    | exact string_suffix n s
    | exact Res.all_done (List.suffix_refl _)
    | exact Res.all_done (matchChar_suffix _ _)
    | apply Res.all_ite)

theorem scanToken_suffix (n : Nat) (s : Scanner) (r : Token × Scanner)
    (h : scanToken n s = Res.done r) : r.2.current <:+ s.current := by
  rw [scanToken] at h
  obtain ⟨s1, h1, h2⟩ := Res.bind_eq_done h
  refine List.IsSuffix.trans ?_ (skipWhitespace_suffix n s s1 h1)
  have ht : (advance { s1 with start := s1.current }).2.current <:+ s1.current :=
    List.tail_suffix _
  rw [scanLexeme] at h2
  split at h2
  · cases h2; exact List.suffix_refl _
  · split at h2
    · rw [identifier] at h2
      obtain ⟨s2, h3, h4⟩ := Res.bind_eq_done h2
      cases h4
      exact (identifierLoop_suffix n _ s2 h3).trans ht
    · split at h2
      · rw [number] at h2
        obtain ⟨s2, h3, h4⟩ := Res.bind_eq_done h2
        have h5 := (digitLoop_suffix n _ s2 h3).trans ht
        split at h4
        · obtain ⟨s3, h6, h7⟩ := Res.bind_eq_done h4
          cases h7
          exact ((digitLoop_suffix n _ s3 h6).trans (List.tail_suffix _)).trans h5
        · cases h4; exact h5
      · exact (scanSwitch_suffix n _ _ r h2).trans ht

theorem scanToken_terminator (n : Nat) (s : Scanner) (r : Token × Scanner)
    (h : scanToken n s = Res.done r) (hs : '\x00' ∉ s.current) : '\x00' ∉ r.2.current :=
  fun hx => hs ((scanToken_suffix n s r h).subset hx)

/-! ## One token of the longer text -/

theorem scanLexeme_close (n : Nat) (s : Scanner) (tok : Token) (s1 : Scanner)
    (h : scanLexeme n s = Res.done (tok, s1)) (hst : s.start = s.current)
    (hs : '\x00' ∉ s.current) (hne : tok.type ≠ TokenType.TOKEN_ERROR) :
    (tok.type ≠ TokenType.TOKEN_EOF →
      scanLexeme n (closeScanner s) = Res.done (closeToken tok, closeScanner s1)) ∧
    (tok.type = TokenType.TOKEN_EOF →
      scanLexeme n (closeScanner s) =
        Res.done (⟨TokenType.TOKEN_RIGHT_PAREN, [')'], 1, tok.line⟩, ⟨[')'], [], s1.line⟩)) := by
  obtain ⟨st, cur, line⟩ := s
  simp only at hst hs
  subst hst
  cases st with
  | nil =>
    simp only [scanLexeme, isAtEnd, deref, List.headD_nil, beq_self_eq_true, if_true] at h
    cases h
    constructor
    · intro hx; exact absurd rfl hx
    · intro _
      simp [scanLexeme, closeScanner, isAtEnd, deref, advance, isAlpha, isDigit, scanSwitch,
        makeToken, lexemeLength]
  | cons c r =>
    have hc : c ≠ '\x00' := fun hx => hs (by simp [hx])
    have hend : isAtEnd ⟨c :: r, c :: r, line⟩ = false := by simp [isAtEnd, deref, hc]
    have hend2 : isAtEnd (closeScanner ⟨c :: r, c :: r, line⟩) = false := by
      simp [isAtEnd, deref, closeScanner, hc]
    have hadv : advance (closeScanner ⟨c :: r, c :: r, line⟩) =
        (c, closeScanner ⟨c :: r, r, line⟩) := rfl
    have hadv2 : advance (⟨c :: r, c :: r, line⟩ : Scanner) = (c, ⟨c :: r, r, line⟩) := rfl
    rw [scanLexeme, hend, hadv2] at h
    rw [scanLexeme, hend2, hadv]
    simp only [Bool.false_eq_true, if_false] at h ⊢
    have key : scanLexeme n (closeScanner ⟨c :: r, c :: r, line⟩) =
        Res.done (closeToken tok, closeScanner s1) ∧ tok.type ≠ TokenType.TOKEN_EOF := by
      rw [scanLexeme, hend2, hadv]
      simp only [Bool.false_eq_true, if_false]
      by_cases h1 : isAlpha c = true
      · rw [if_pos h1] at h ⊢
        exact identifier_close n _ tok s1 [c] rfl h
      · rw [if_neg h1] at h ⊢
        by_cases h2 : isDigit c = true
        · rw [if_pos h2] at h ⊢
          exact number_close n _ tok s1 h
        · rw [if_neg h2] at h ⊢
          exact ⟨scanSwitch_close n _ c (tok, s1) h hne, scanSwitch_ne_eof n _ c (tok, s1) h⟩
    rw [scanLexeme, hend2, hadv] at key
    simp only [Bool.false_eq_true, if_false] at key
    exact ⟨fun _ => key.1, fun hx => absurd hx key.2⟩

/-- What `scanToken` returns on the longer text: the same token, or the closing parenthesis
where the shorter text ends. -/
theorem scanToken_close (n : Nat) (s : Scanner) (tok : Token) (s1 : Scanner)
    (h : scanToken n s = Res.done (tok, s1)) (hs : '\x00' ∉ s.current)
    (hne : tok.type ≠ TokenType.TOKEN_ERROR) :
    (tok.type ≠ TokenType.TOKEN_EOF →
      scanToken n (closeScanner s) = Res.done (closeToken tok, closeScanner s1)) ∧
    (tok.type = TokenType.TOKEN_EOF →
      scanToken n (closeScanner s) =
        Res.done (⟨TokenType.TOKEN_RIGHT_PAREN, [')'], 1, tok.line⟩, ⟨[')'], [], s1.line⟩)) := by
  rw [scanToken] at h
  obtain ⟨s2, h2, h3⟩ := Res.bind_eq_done h
  have h4 := skipWhitespace_close n s s2 h2
  have h5 : '\x00' ∉ s2.current := fun hx => hs ((skipWhitespace_suffix n s s2 h2).subset hx)
  have h6 := scanLexeme_close n { s2 with start := s2.current } tok s1 h3 rfl h5 hne
  rw [scanToken, h4]
  exact h6

end Scan


namespace Scan

/-! ## The lexeme of a token lies within the text -/

theorem makeToken_within (s : Scanner) (ty : TokenType) :
    (makeToken s ty).length ≤ (makeToken s ty).start.length :=
  Nat.sub_le _ _

theorem errorToken_within (s : Scanner) (msg : String) :
    (errorToken s msg).length ≤ (errorToken s msg).start.length :=
  le_of_eq rfl

theorem scanSwitch_within (n : Nat) (s : Scanner) (c : Char) :
    (scanSwitch n s c).All (fun r => r.1.length ≤ r.1.start.length) := by
  unfold scanSwitch
  repeat' (first
    | exact Res.all_bind (fun _ => Res.all_ite (Res.all_done (errorToken_within _ _))
        (Res.all_done (makeToken_within _ _)))
    | exact Res.all_done (makeToken_within _ _)
    | exact Res.all_done (errorToken_within _ _)
    | apply Res.all_ite)

theorem scanToken_within (n : Nat) (s : Scanner) :
    (scanToken n s).All (fun r => r.1.length ≤ r.1.start.length) := by
  unfold scanToken
  refine Res.all_bind (fun s1 => ?_)
  unfold scanLexeme
  refine Res.all_ite (Res.all_done (makeToken_within _ _))
    (Res.all_ite ?_ (Res.all_ite ?_ (scanSwitch_within _ _ _)))
  · exact Res.all_bind (fun _ => Res.all_done (makeToken_within _ _))
  · unfold number
    exact Res.all_bind (fun _ => Res.all_ite
      (Res.all_bind (fun _ => Res.all_done (makeToken_within _ _)))
      (Res.all_done (makeToken_within _ _)))

/-! ## A number token starts with a digit -/

theorem checkKeyword_ne_number (s : Scanner) (a b : Nat) (rest : String) (ty : TokenType)
    (h : ty ≠ TokenType.TOKEN_NUMBER) : checkKeyword s a b rest ty ≠ TokenType.TOKEN_NUMBER :=
  ite_ne h (by decide)

theorem identifierType_ne_number (s : Scanner) :
    identifierType s ≠ TokenType.TOKEN_NUMBER := by
  unfold identifierType
  dsimp only
  repeat' (first
    | exact checkKeyword_ne_number _ _ _ _ _ (by decide)
    | (intro h; cases h)
    | apply ite_ne)

theorem scanSwitch_ne_number (n : Nat) (s : Scanner) (c : Char) :
    (scanSwitch n s c).All (fun r => r.1.type ≠ TokenType.TOKEN_NUMBER) := by
  unfold scanSwitch
  repeat' (first
    | exact Res.all_bind (fun _ => Res.all_ite (Res.all_done (by simp [errorToken]))
        (Res.all_done (by simp [makeToken])))
    | exact Res.all_done (makeToken2_type _ _ _ _ (by decide) (by decide))
    | exact Res.all_done (by simp [makeToken, errorToken])
    | apply Res.all_ite)

theorem digitLoop_start : ∀ n s s1, digitLoop n s = Res.done s1 → s1.start = s.start := by
  intro n
  induction n with
  | zero => intro s s1 h; simp [digitLoop] at h
  | succ n ih =>
    intro s s1 h
    simp only [digitLoop] at h
    split at h
    · exact ih (advance s).2 s1 h
    · cases h; rfl

theorem number_start (n : Nat) (s : Scanner) :
    (number n s).All (fun r => r.1.start = s.start) := by
  intro r h
  rw [number] at h
  obtain ⟨s2, h2, h3⟩ := Res.bind_eq_done h
  have h4 := digitLoop_start n s s2 h2
  split at h3
  · obtain ⟨s3, h5, h6⟩ := Res.bind_eq_done h3
    cases h6
    exact (digitLoop_start n _ s3 h5).trans h4
  · cases h3; exact h4

theorem scanToken_digit (n : Nat) (s : Scanner) :
    (scanToken n s).All (fun r => r.1.type = TokenType.TOKEN_NUMBER →
      isDigit (deref r.1.start) = true) := by
  unfold scanToken
  refine Res.all_bind (fun s1 => ?_)
  unfold scanLexeme
  refine Res.all_ite (Res.all_done (fun h => by cases h))
    (Res.all_ite ?_ (Res.all_ite_cond ?_ (fun _ => ?_)))
  · exact Res.all_bind (fun _ => Res.all_done (fun h => absurd h (identifierType_ne_number _)))
  · intro hd r hr _
    rw [number_start n _ r hr]
    exact hd
  · exact fun r hr hty => absurd hty (scanSwitch_ne_number _ _ _ r hr)

end Scan

namespace Compiler

variable {D : Type}

open Scan

/-! ## Compiling a text with a closing parenthesis appended -/

theorem stepsPreserve_closeInv : StepsPreserve (CloseInv (D := D)) where
  scan := fun n st tok sc h hs =>
    ⟨h.1, Scan.scanToken_terminator n st.scanner (tok, sc) hs h.2.1,
      Scan.scanToken_within n st.scanner (tok, sc) hs, h.2.2.2.1,
      Scan.scanToken_digit n st.scanner (tok, sc) hs, h.2.2.2.2.2⟩
  previous := fun _ h => ⟨h.1, h.2.1, h.2.2.1, h.2.2.1, h.2.2.2.2.1, h.2.2.2.2.1⟩
  errorAt := fun st tok msg h => by
    refine ⟨errorAt_panicInv st tok msg h.1, ?_, ?_, ?_, ?_, ?_⟩
    · rw [errorAt_scanner]; exact h.2.1
    · rw [errorAt_current]; exact h.2.2.1
    · rw [errorAt_previous]; exact h.2.2.2.1
    · rw [errorAt_current]; exact h.2.2.2.2.1
    · rw [errorAt_previous]; exact h.2.2.2.2.2
  emitByte := fun _ _ h => h
  makeConstant := fun st v h => by
    rcases makeConstant_cases st v with h2 | h2
    · rw [h2]; exact h
    · rw [h2]
      have h3 : CloseInv ({ st with chunk := (addConstant st.chunk v).2 } : State D) := h
      refine ⟨errorAt_panicInv _ _ _ h3.1, ?_, ?_, ?_, ?_, ?_⟩
      · rw [errorAt_scanner]; exact h.2.1
      · rw [errorAt_current]; exact h.2.2.1
      · rw [errorAt_previous]; exact h.2.2.2.1
      · rw [errorAt_current]; exact h.2.2.2.2.1
      · rw [errorAt_previous]; exact h.2.2.2.2.2
  copyString := fun _ _ _ h => h

theorem advanceLoop_clean : ∀ n (st st' : State D), PanicInv st →
    advanceLoop n st = Res.done st' → st'.parser.hadError = false →
    ∃ m tok sc, n = m + 1 ∧ Scan.scanToken m st.scanner = Res.done (tok, sc) ∧
      tok.type ≠ TokenType.TOKEN_ERROR ∧
      st' = { st with scanner := sc, parser := { st.parser with current := tok } } := by
  intro n st st' hinv h hclean
  cases n with
  | zero => simp [advanceLoop] at h
  | succ m =>
    rw [advanceLoop] at h
    obtain ⟨r, hr, h2⟩ := Res.bind_eq_done h
    obtain ⟨tok, sc⟩ := r
    dsimp only at h2
    by_cases hne : tok.type ≠ TokenType.TOKEN_ERROR
    · rw [if_pos hne] at h2
      cases h2
      exact ⟨m, tok, sc, rfl, hr, hne, rfl⟩
    · rw [if_neg hne] at h2
      have hp : PanicInv
          ({ st with scanner := sc, parser := { st.parser with current := tok } } : State D) :=
        hinv
      have he := errorAt_hadError _ tok tok.start hp
      have := advanceLoop_preserves stepsPreserve_hadError m _ st' he h2
      rw [hclean] at this
      cases this

theorem advance_close (n : Nat) (st st' : State D) (hinv : PanicInv st)
    (hs : '\x00' ∉ st.scanner.current)
    (hty : st.parser.current.type ≠ TokenType.TOKEN_EOF)
    (h : advance n st = Res.done st') (hclean : st'.parser.hadError = false) :
    advance n (closeState st) = Res.done (closeState st') := by
  unfold advance at h
  obtain ⟨m, tok, sc, rfl, hscan, hne, rfl⟩ := advanceLoop_clean n
    ({ st with parser := { st.parser with previous := st.parser.current } }) st' hinv h hclean
  have hscan : Scan.scanToken m st.scanner = Res.done (tok, sc) := hscan
  have hsc := Scan.scanToken_close m st.scanner tok sc hscan hs hne
  unfold advance
  rw [advanceLoop]
  have hX : (closeState st).scanner = closeScanner st.scanner := by
    simp [closeState, hty]
  simp only [hX]
  by_cases hE : tok.type = TokenType.TOKEN_EOF
  · rw [hsc.2 hE]
    simp [Res.bind, closeState, hty, hE]
  · rw [hsc.1 hE]
    have hne2 : (closeToken tok).type ≠ TokenType.TOKEN_ERROR := hne
    simp [Res.bind, closeState, hty, hE, hne2]

theorem take_drop_close (l : List Char) (k : Nat) (h : k ≤ l.length) :
    ((l ++ [')']).drop 1).take (k - 2) = (l.drop 1).take (k - 2) := by
  cases l with
  | nil =>
    have : k = 0 := by simpa using h
    subst this
    rfl
  | cons a r =>
    have h2 : k - 2 ≤ r.length := by
      simp only [List.length_cons] at h
      omega
    simp only [List.cons_append, List.drop_succ_cons, List.drop_zero]
    exact List.take_append_of_le_length h2

theorem emitConstant_close (st : State D) (v : Value D) (hinv : PanicInv st)
    (hclean : (emitConstant st v).parser.hadError = false) :
    emitConstant (closeState st) v = closeState (emitConstant st v) := by
  by_cases hc : st.chunk.constants.length ≤ 255
  · rw [emitConstant_room st v hc, emitConstant_room (closeState st) v hc]
    rfl
  · rw [emitConstant_full st v (by omega)] at hclean
    have hp : PanicInv ({ st with chunk := (addConstant st.chunk v).2 } : State D) := hinv
    have := errorAt_hadError ({ st with chunk := (addConstant st.chunk v).2 } : State D)
      st.parser.previous "Too many constants in one chunk.".toList hp
    rw [show (emitBytes (error { st with chunk := (addConstant st.chunk v).2 }
      "Too many constants in one chunk.".toList) OpCode.OP_CONSTANT.toByte 0).parser.hadError =
      (errorAt ({ st with chunk := (addConstant st.chunk v).2 } : State D) st.parser.previous
        "Too many constants in one chunk.".toList).parser.hadError from rfl, this] at hclean
    cases hclean

theorem numberFn_close (ops : DoubleOps D)
    (hstrtod : ∀ t, isDigit (deref t) = true → ops.strtod (t ++ [')']) = ops.strtod t)
    (st : State D) (hinv : PanicInv st)
    (hd : isDigit (deref st.parser.previous.start) = true)
    (hclean : (number ops st).parser.hadError = false) :
    number ops (closeState st) = closeState (number ops st) := by
  unfold number at hclean ⊢
  have h : (closeState st).parser.previous.start = st.parser.previous.start ++ [')'] := rfl
  simp only [h, hstrtod _ hd]
  exact emitConstant_close st _ hinv hclean

theorem stringFn_close (st : State D) (hinv : CloseInv st)
    (hclean : (string st).parser.hadError = false) :
    string (closeState st) = closeState (string st) := by
  unfold string at hclean ⊢
  have h : (closeState st).parser.previous.start = st.parser.previous.start ++ [')'] := rfl
  have h2 : (closeState st).parser.previous.length = st.parser.previous.length := rfl
  simp only [h, h2]
  have h3 : copyString (closeState st) ((st.parser.previous.start ++ [')']).drop 1)
      (st.parser.previous.length - 2) =
      ((copyString st (st.parser.previous.start.drop 1) (st.parser.previous.length - 2)).1,
       closeState (copyString st (st.parser.previous.start.drop 1)
         (st.parser.previous.length - 2)).2) := by
    simp only [copyString, takeString, allocateString,
      take_drop_close _ _ hinv.2.2.2.1]
    rfl
  rw [h3]
  exact emitConstant_close _ _ hinv.1 hclean

theorem literal_close (st : State D) : literal (closeState st) = closeState (literal st) := by
  unfold literal
  have h : (closeState st).parser.previous.type = st.parser.previous.type := rfl
  rw [h]
  cases st.parser.previous.type <;> rfl

theorem unaryEmit_close (st : State D) (ty : TokenType) :
    unaryEmit (closeState st) ty = closeState (unaryEmit st ty) := by
  cases ty <;> rfl

theorem binaryEmit_close (st : State D) (ty : TokenType) :
    binaryEmit (closeState st) ty = closeState (binaryEmit st ty) := by
  cases ty <;> rfl

theorem closeState_precedence (st : State D) :
    (getRule (closeState st).parser.current.type).precedence =
      (getRule st.parser.current.type).precedence := by
  by_cases hE : st.parser.current.type = TokenType.TOKEN_EOF
  · simp [closeState, hE, getRule, rules]
  · simp [closeState, hE, closeToken]

theorem consume_close (n : Nat) (st st' : State D) (msg : List Char) (hinv : CloseInv st)
    (h : consume n st TokenType.TOKEN_RIGHT_PAREN msg = Res.done st')
    (hclean : st'.parser.hadError = false) :
    consume n (closeState st) TokenType.TOKEN_RIGHT_PAREN msg = Res.done (closeState st') := by
  unfold consume at h ⊢
  by_cases hty : st.parser.current.type = TokenType.TOKEN_RIGHT_PAREN
  · rw [if_pos hty] at h
    have hE : st.parser.current.type ≠ TokenType.TOKEN_EOF := by rw [hty]; decide
    have hty2 : (closeState st).parser.current.type = TokenType.TOKEN_RIGHT_PAREN := by
      simp [closeState, hE, closeToken, hty]
    rw [if_pos hty2]
    exact advance_close n st st' hinv.1 hinv.2.1 hE h hclean
  · rw [if_neg hty] at h
    cases h
    rw [errorAtCurrent, errorAt_hadError _ _ _ hinv.1] at hclean
    cases hclean

theorem rules_number (ty : TokenType)
    (h : (getRule ty).prefixRule = some ParseFn.number ∨
      (getRule ty).infixRule = some ParseFn.number) : ty = TokenType.TOKEN_NUMBER := by
  cases ty <;> first | rfl | (rcases h with h | h <;> cases h)

theorem parseCloses (ops : DoubleOps D)
    (hstrtod : ∀ t, isDigit (deref t) = true → ops.strtod (t ++ [')']) = ops.strtod t) :
    ∀ m, ParseCloses ops m := by
  intro m
  induction m with
  | zero =>
    refine ⟨?_, ?_, ?_, ?_, ?_, ?_⟩
    · intro p st st' _ h; simp [parsePrecedence] at h
    · intro p st st' _ h; simp [infixLoop] at h
    · intro fn st st' _ h; simp [callParseFn] at h
    · intro st st' _ h; simp [binary] at h
    · intro st st' _ h; simp [grouping] at h
    · intro st st' _ h; simp [unary] at h
  | succ m ih =>
    obtain ⟨ihP, ihL, ihC, ihB, ihG, ihU⟩ := ih
    obtain ⟨_, keepL, keepC, _, _, _⟩ := parse_preserves ops (stepsPreserve_hadError (D := D)) m
    obtain ⟨invP, _, invC, _, _, _⟩ := parse_preserves ops (stepsPreserve_closeInv (D := D)) m
    refine ⟨?_, ?_, ?_, ?_, ?_, ?_⟩
    · -- parsePrecedence
      intro p st st' hinv h hclean
      rw [parsePrecedence] at h
      obtain ⟨st1, h1, h⟩ := Res.bind_eq_done h
      have hinv1 : CloseInv st1 := advance_preserves stepsPreserve_closeInv m st st1 hinv h1
      have hprev : st1.parser.previous = st.parser.current := advance_previous m st st1 h1
      cases hfn : (getRule st1.parser.previous.type).prefixRule with
      | none =>
        simp only [hfn] at h
        cases h
        rw [error, errorAt_hadError _ _ _ hinv1.1] at hclean
        cases hclean
      | some fn =>
        simp only [hfn] at h
        obtain ⟨st2, h2, h⟩ := Res.bind_eq_done h
        have hclean2 := clean_before (keepL p st2 st' · h) hclean
        have hclean1 := clean_before (keepC fn st1 st2 · h2) hclean2
        have hE : st.parser.current.type ≠ TokenType.TOKEN_EOF := by
          intro hE
          rw [hprev, hE] at hfn
          cases hfn
        have hfn2 : (getRule (closeState st1).parser.previous.type).prefixRule = some fn := hfn
        rw [parsePrecedence, advance_close m st st1 hinv.1 hinv.2.1 hE h1 hclean1]
        simp only [Res.bind, hfn2]
        rw [ihC fn st1 st2 hinv1 h2 hclean2 (Or.inl hfn)]
        exact ihL p st2 st' (invC fn st1 st2 hinv1 h2) h hclean
    · -- the infix loop
      intro p st st' hinv h hclean
      rw [infixLoop] at h
      rw [infixLoop, closeState_precedence]
      split at h
      · next hp =>
        rw [if_pos hp]
        obtain ⟨st1, h1, h⟩ := Res.bind_eq_done h
        have hinv1 : CloseInv st1 := advance_preserves stepsPreserve_closeInv m st st1 hinv h1
        have hprev : st1.parser.previous = st.parser.current := advance_previous m st st1 h1
        cases hfn : (getRule st1.parser.previous.type).infixRule with
        | none => simp only [hfn] at h; cases h
        | some fn =>
          simp only [hfn] at h
          obtain ⟨st2, h2, h3⟩ := Res.bind_eq_done h
          have hclean2 := clean_before (keepL p st2 st' · h3) hclean
          have hclean1 := clean_before (keepC fn st1 st2 · h2) hclean2
          have hE : st.parser.current.type ≠ TokenType.TOKEN_EOF := by
            intro hE
            rw [hprev, hE] at hfn
            cases hfn
          have hfn2 : (getRule (closeState st1).parser.previous.type).infixRule = some fn := hfn
          rw [advance_close m st st1 hinv.1 hinv.2.1 hE h1 hclean1]
          simp only [Res.bind, hfn2]
          rw [ihC fn st1 st2 hinv1 h2 hclean2 (Or.inr hfn)]
          exact ihL p st2 st' (invC fn st1 st2 hinv1 h2) h3 hclean
      · next hp =>
        rw [if_neg hp]
        cases h
        rfl
    · -- a handler
      intro fn st st' hinv h hclean hfn
      cases fn with
      | grouping => exact ihG st st' hinv h hclean
      | unary => exact ihU st st' hinv h hclean
      | binary => exact ihB st st' hinv h hclean
      | number =>
        simp only [callParseFn] at h ⊢
        cases h
        rw [numberFn_close ops hstrtod st hinv.1 (hinv.2.2.2.2.2 (rules_number _ hfn)) hclean]
      | string =>
        simp only [callParseFn] at h ⊢
        cases h
        rw [stringFn_close st hinv hclean]
      | literal =>
        simp only [callParseFn] at h ⊢
        cases h
        rw [literal_close]
    · -- binary
      intro st st' hinv h hclean
      rw [binary] at h
      obtain ⟨st1, h1, h⟩ := Res.bind_eq_done h
      cases h
      have hclean1 : st1.parser.hadError = false := by
        rw [binaryEmit_parser_eq] at hclean
        exact hclean
      have hty : (closeState st).parser.previous.type = st.parser.previous.type := rfl
      rw [binary]
      simp only [hty]
      rw [ihP _ st st1 hinv h1 hclean1]
      simp only [Res.bind, binaryEmit_close]
    · -- grouping
      intro st st' hinv h hclean
      rw [grouping] at h
      obtain ⟨st1, h1, h⟩ := Res.bind_eq_done h
      have hinv1 : CloseInv st1 := invP _ st st1 hinv h1
      have hclean1 := clean_before
        (consume_preserves stepsPreserve_hadError m st1 st' _ _ · h) hclean
      rw [grouping, ihP _ st st1 hinv h1 hclean1]
      exact consume_close m st1 st' _ hinv1 h hclean
    · -- unary
      intro st st' hinv h hclean
      rw [unary] at h
      obtain ⟨st1, h1, h⟩ := Res.bind_eq_done h
      cases h
      have hclean1 : st1.parser.hadError = false := by
        rw [unaryEmit_parser_eq] at hclean
        exact hclean
      have hty : (closeState st).parser.previous.type = st.parser.previous.type := rfl
      rw [unary]
      simp only [hty]
      rw [ihP _ st st1 hinv h1 hclean1]
      simp only [Res.bind, unaryEmit_close]

end Compiler


namespace Compiler

variable {D : Type}

open Scan

/-! ## Parentheses around an accepted source -/

/-- An accepted source `e` in parentheses is accepted, with the instruction bytes, the
constants and the heap of `e`. -/
theorem compile_grouping (ops : DoubleOps D)
    (hstrtod : ∀ t, isDigit (deref t) = true → ops.strtod (t ++ [')']) = ops.strtod t)
    (n : Nat) (e : List Char)
    (chunk : Chunk D) (st st' : State D) (hnul : '\x00' ∉ e)
    (h : compile ops n e chunk st = Res.done (true, st')) :
    ∃ st'', Returns (fun m => compile ops m ('(' :: (e ++ [')'])) chunk st) (true, st'') ∧
      st''.chunk.code = st'.chunk.code ∧ st''.chunk.constants = st'.chunk.constants ∧
      st''.heap = st'.heap := by
  obtain ⟨s1, s2, s3, h1, h2, h3, hst', hb⟩ := compile_done ops n e chunk st true st' h
  have p0 : PanicInv (compileStart st e chunk) := by
    intro hp; simp [compileStart] at hp
  have p1 : EofInv s1 := advance_eofInv n _ s1 p0 h1
  have p2 : EofInv s2 := (parse_preserves ops stepsPreserve_eofInv n).1 _ s1 s2 p1 h2
  have hclean3 : s3.parser.hadError = false := by
    cases hh : s3.parser.hadError
    · rfl
    · rw [hh] at hb; cases hb
  have hty : s2.parser.current.type = TokenType.TOKEN_EOF := by
    by_contra hne
    rw [consume, if_neg hne] at h3
    cases h3
    rw [errorAtCurrent, errorAt_hadError _ _ _ p2.1] at hclean3
    cases hclean3
  have h3' : advance n s2 = Res.done s3 := by
    rw [consume, if_pos hty] at h3
    exact h3
  have hclean2 : s2.parser.hadError = false :=
    clean_before (advance_preserves stepsPreserve_hadError n s2 s3 · h3') hclean3
  have hclean1 : s1.parser.hadError = false :=
    clean_before ((parse_preserves ops stepsPreserve_hadError n).1 _ s1 s2 · h2) hclean2
  let src : List Char := '(' :: (e ++ [')'])
  let tokX : Token := ⟨TokenType.TOKEN_LEFT_PAREN, '(' :: e, 1, 1⟩
  let tokLP : Token := ⟨TokenType.TOKEN_LEFT_PAREN, src, 1, 1⟩
  let u0 : State D :=
    { compileStart st e chunk with
      scanner := { (compileStart st e chunk).scanner with start := e },
      parser := ⟨tokX, tokX, (compileStart st e chunk).parser.hadError,
        (compileStart st e chunk).parser.panicMode⟩ }
  let u1 : State D := withPrevious s1 tokX
  have hu0 : advance n u0 = Res.done u1 := by
    show advance n { compileStart st e chunk with
      scanner := { (compileStart st e chunk).scanner with start := e },
      parser := ⟨tokX, tokX, (compileStart st e chunk).parser.hadError,
        (compileStart st e chunk).parser.panicMode⟩ } = _
    rw [advance_reposition, h1]
    rfl
  have q0 : CloseInv u0 := by
    refine ⟨?_, hnul, ?_, ?_, ?_, ?_⟩
    · intro hp; simp [u0, compileStart] at hp
    · show 1 ≤ ('(' :: e).length
      simp
    · show 1 ≤ ('(' :: e).length
      simp
    · intro hx; cases hx
    · intro hx; cases hx
  have q1 : CloseInv u1 := advance_preserves stepsPreserve_closeInv n u0 u1 q0 hu0
  have hc0 : advance n (closeState u0) = Res.done (closeState u1) :=
    advance_close n u0 u1 q0.1 hnul (by simp [u0, tokX]) hu0 hclean1
  have hu2 : parsePrecedence ops n PREC_ASSIGNMENT u1 = Res.done s2 := by
    rw [parsePrecedence_withPrevious]; exact h2
  have hc1 : parsePrecedence ops n PREC_ASSIGNMENT (closeState u1) = Res.done (closeState s2) :=
    (parseCloses ops hstrtod n).1 _ u1 s2 q1 hu2 hclean2
  let t1 : State D := shift (compileStart st src chunk) tokLP ⟨src, e ++ [')'], 1⟩
  have A : Returns (fun m => advance m (compileStart st src chunk)) t1 :=
    advance_symbol (compileStart st src chunk) 0 '(' TokenType.TOKEN_LEFT_PAREN (e ++ [')'])
      rfl rfl
  have R0 : Returns (fun m => advance m (closeState u0)) (closeState u1) :=
    Returns.of_le n (fun a b hab => advance_le a b _ hab) hc0
  have B : Returns (fun m => advance m t1) (withPrevious (closeState u1) tokLP) :=
    Returns.congr
      (fun m => advance_reposition m (closeState u0) src tokLP st.parser.current)
      (Returns.bind R0 (Returns.const _))
  have C1 : Returns (fun m => parsePrecedence ops m PREC_ASSIGNMENT
      (withPrevious (closeState u1) tokLP)) (closeState s2) :=
    Returns.congr (fun m => parsePrecedence_withPrevious ops m _ (closeState u1) tokLP)
      (Returns.of_le n (fun a b hab => (parseLe ops a).1 b _ _ hab) hc1)
  have hcur2 : (closeState s2).parser.current.type = TokenType.TOKEN_RIGHT_PAREN := by
    simp [closeState, hty]
  have hsc2 : (closeState s2).scanner = ⟨[')'], [], s2.scanner.line⟩ := by
    simp [closeState, hty]
  have hend2 : Scan.isAtEnd (closeState s2).scanner = true := by
    rw [hsc2]; rfl
  let t3 : State D := shift (closeState s2)
    (Scan.makeToken { (closeState s2).scanner with start := (closeState s2).scanner.current }
      TokenType.TOKEN_EOF)
    { (closeState s2).scanner with start := (closeState s2).scanner.current }
  let t4 : State D := shift t3
    (Scan.makeToken { t3.scanner with start := t3.scanner.current } TokenType.TOKEN_EOF)
    { t3.scanner with start := t3.scanner.current }
  have C2 : Returns (fun m => consume m (closeState s2) TokenType.TOKEN_RIGHT_PAREN
      "Expect ')' after expression.".toList) t3 :=
    consume_returns (closeState s2) TokenType.TOKEN_RIGHT_PAREN
      "Expect ')' after expression.".toList _ hcur2 (advance_end (closeState s2) hend2)
  have Dstop : Returns (fun m => infixLoop ops m PREC_ASSIGNMENT t3) t3 :=
    infixLoop_stop ops PREC_ASSIGNMENT t3
      (by show ¬ PREC_ASSIGNMENT ≤ (getRule TokenType.TOKEN_EOF).precedence; decide)
  have E : Returns (fun m => parsePrecedence ops m PREC_ASSIGNMENT t1) t3 :=
    parsePrecedence_returns ops _ t1 _ _ _ ParseFn.grouping B rfl
      (callParseFn_grouping ops _ _ _ C1 C2) Dstop
  have hend3 : Scan.isAtEnd t3.scanner = true := by
    show Scan.isAtEnd { (closeState s2).scanner with
      start := (closeState s2).scanner.current } = true
    rw [hsc2]; rfl
  have F : Returns (fun m => consume m t3 TokenType.TOKEN_EOF
      "Expect end of expression".toList) t4 :=
    consume_returns t3 TokenType.TOKEN_EOF "Expect end of expression".toList _ rfl
      (advance_end t3 hend3)
  have G := compile_returns ops src chunk st t1 t3 t4 A E F
  have hch3 : s3.chunk = s2.chunk := advance_chunk n s2 s3 h3'
  have hheap : s3.heap = s2.heap :=
    advanceLoop_keeps (P := fun s : State D => s.heap = s2.heap)
      (fun _ _ _ _ h _ => h)
      (fun s tok msg h => by
        have h4 : (errorAt s tok msg).heap = s.heap := by
          unfold errorAt; split <;> rfl
        show (errorAt s tok msg).heap = s2.heap
        rw [h4]; exact h) n
      ({ s2 with parser := { s2.parser with previous := s2.parser.current } }) s3 rfl h3'
  refine ⟨endCompiler t4, ?_, ?_, ?_, ?_⟩
  · have hflag : ∀ x : State D, x.parser.hadError = false →
        (!(endCompiler x).parser.hadError, endCompiler x) = (true, endCompiler x) := by
      intro x hx
      show (!x.parser.hadError, endCompiler x) = _
      rw [hx]; rfl
    rw [hflag t4 hclean2] at G
    exact G
  · rw [hst']
    show s2.chunk.code ++ [OpCode.OP_RETURN.toByte] = s3.chunk.code ++ [OpCode.OP_RETURN.toByte]
    rw [hch3]
  · rw [hst']
    show s2.chunk.constants = s3.chunk.constants
    rw [hch3]
  · rw [hst']
    show s2.heap = s3.heap
    rw [hheap]

end Compiler


open Compiler VMachine

/-! ## The example arithmetic -/

theorem takeWhile_close (t : List Char) :
    (t ++ [')']).takeWhile Scan.isDigit = t.takeWhile Scan.isDigit := by
  induction t with
  | nil => rfl
  | cons c r ih =>
    simp only [List.cons_append, List.takeWhile_cons]
    split
    · rw [ih]
    · rfl

theorem exampleOps_strtod_close (t : List Char) :
    exampleOps.strtod (t ++ [')']) = exampleOps.strtod t := by
  show Int.ofNat (((t ++ [')']).takeWhile Scan.isDigit).foldl _ 0) =
    Int.ofNat ((t.takeWhile Scan.isDigit).foldl _ 0)
  rw [takeWhile_close]

namespace Scan

/-! ## Keywords -/

theorem keywordKind_iff (lexeme : List Char) :
    ∀ kw ∈ keywordTable, keywordKind lexeme = kw.2 ↔ lexeme = kw.1 := by
  intro kw hkw
  simp only [keywordTable, List.mem_cons, List.mem_singleton, List.not_mem_nil, or_false] at hkw
  constructor
  · intro h
    by_contra hne
    revert h
    unfold keywordKind
    rcases hkw with rfl | rfl | rfl | rfl | rfl | rfl | rfl | rfl | rfl | rfl | rfl | rfl |
      rfl | rfl | rfl | rfl <;>
    · rw [if_neg hne]
      repeat (refine ite_ne (by decide) ?_)
      decide
  · intro h
    subst h
    rcases hkw with rfl | rfl | rfl | rfl | rfl | rfl | rfl | rfl | rfl | rfl | rfl | rfl |
      rfl | rfl | rfl | rfl <;> decide!

theorem keywordKind_other (lexeme : List Char) (h : ∀ kw ∈ keywordTable, lexeme ≠ kw.1) :
    keywordKind lexeme = TokenType.TOKEN_IDENTIFIER := by
  unfold keywordKind
  rw [if_neg (h ("and".toList, TokenType.TOKEN_AND) (by simp [keywordTable])),
    if_neg (h ("class".toList, TokenType.TOKEN_CLASS) (by simp [keywordTable])),
    if_neg (h ("else".toList, TokenType.TOKEN_ELSE) (by simp [keywordTable])),
    if_neg (h ("false".toList, TokenType.TOKEN_FALSE) (by simp [keywordTable])),
    if_neg (h ("for".toList, TokenType.TOKEN_FOR) (by simp [keywordTable])),
    if_neg (h ("fun".toList, TokenType.TOKEN_FUN) (by simp [keywordTable])),
    if_neg (h ("if".toList, TokenType.TOKEN_IF) (by simp [keywordTable])),
    if_neg (h ("nil".toList, TokenType.TOKEN_NIL) (by simp [keywordTable])),
    if_neg (h ("or".toList, TokenType.TOKEN_OR) (by simp [keywordTable])),
    if_neg (h ("print".toList, TokenType.TOKEN_PRINT) (by simp [keywordTable])),
    if_neg (h ("return".toList, TokenType.TOKEN_RETURN) (by simp [keywordTable])),
    if_neg (h ("super".toList, TokenType.TOKEN_SUPER) (by simp [keywordTable])),
    if_neg (h ("this".toList, TokenType.TOKEN_THIS) (by simp [keywordTable])),
    if_neg (h ("true".toList, TokenType.TOKEN_TRUE) (by simp [keywordTable])),
    if_neg (h ("var".toList, TokenType.TOKEN_VAR) (by simp [keywordTable])),
    if_neg (h ("while".toList, TokenType.TOKEN_WHILE) (by simp [keywordTable]))]

theorem identifierType_examples :
    identifierType ⟨"fals".toList, [], 1⟩ = TokenType.TOKEN_IDENTIFIER ∧
    identifierType ⟨"falsey".toList, [], 1⟩ = TokenType.TOKEN_IDENTIFIER ∧
    identifierType ⟨"t".toList, [], 1⟩ = TokenType.TOKEN_IDENTIFIER ∧
    identifierType ⟨"f".toList, [], 1⟩ = TokenType.TOKEN_IDENTIFIER ∧
    identifierType ⟨"false".toList, [], 1⟩ = TokenType.TOKEN_FALSE := by
  decide!

end Scan

namespace Compiler

variable {D : Type}

/-! ## String literals -/

theorem string_literal (st : State D) (mid rest : List Char)
    (hstart : st.parser.previous.start = '"' :: (mid ++ '"' :: rest))
    (hlen : st.parser.previous.length = mid.length + 2) :
    string st = emitConstant
      { st with
        heap := st.heap ++ [⟨ObjType.OBJ_STRING, st.vm.objects, mid.length, mid ++ ['\x00']⟩],
        vm := { st.vm with objects := some st.heap.length } }
      (Value.OBJ_VAL st.heap.length) := by
  unfold string
  rw [hstart, hlen, copyString_literal]

theorem emitConstant_heap (st : State D) (v : Value D) :
    (emitConstant st v).heap = st.heap ∧
      (emitConstant st v).chunk.constants = st.chunk.constants ++ [v] := by
  by_cases hc : st.chunk.constants.length ≤ 255
  · rw [emitConstant_room st v hc]
    exact ⟨rfl, rfl⟩
  · rw [emitConstant_full st v (by omega)]
    have h1 : (error ({ st with chunk := (addConstant st.chunk v).2 } : State D)
        "Too many constants in one chunk.".toList).heap = st.heap := by
      unfold error errorAt; split <;> rfl
    have h2 : (error ({ st with chunk := (addConstant st.chunk v).2 } : State D)
        "Too many constants in one chunk.".toList).chunk = (addConstant st.chunk v).2 :=
      errorAt_chunk _ _ _
    exact ⟨h1, by
      show (error ({ st with chunk := (addConstant st.chunk v).2 } : State D)
        "Too many constants in one chunk.".toList).chunk.constants = _
      rw [h2]; rfl⟩

theorem emitConstant_full_code (st : State D) (v : Value D)
    (h : 255 < st.chunk.constants.length) :
    (emitConstant st v).chunk.code = st.chunk.code ++ [OpCode.OP_CONSTANT.toByte, 0] := by
  rw [emitConstant_full st v h]
  have h2 : (error ({ st with chunk := (addConstant st.chunk v).2 } : State D)
      "Too many constants in one chunk.".toList).chunk = (addConstant st.chunk v).2 :=
    errorAt_chunk _ _ _
  show ((error ({ st with chunk := (addConstant st.chunk v).2 } : State D)
      "Too many constants in one chunk.".toList).chunk.code ++ [OpCode.OP_CONSTANT.toByte]) ++
      [0] = _
  rw [h2]
  simp [addConstant]

/-! ## The stack effect and the operands of compiled code -/

theorem compile_balanced (ops : DoubleOps D) (n : Nat) (source : List Char) (st st' : State D)
    (h : compile ops n source initChunk st = Res.done (true, st')) :
    stackWalk st'.chunk.code = some 1 := by
  obtain ⟨w, k, h1, _, h3⟩ := compile_exprCode ops n source initChunk st st' h
  rw [h1]
  show stackWalkFrom (([] ++ w) ++ [OpCode.OP_RETURN.toByte]) false 0 = some 1
  rw [List.nil_append, stackWalkFrom_exprCode h3]
  rfl

theorem parsePrecedence_negateExample :
    (parsePrecedence exampleOps 5 PREC_UNARY negateExample).bind
        (fun s => Res.done (s.chunk.code, s.chunk.constants)) =
      Res.done ([0, 0], [Value.NUMBER_VAL 1]) := by
  decide!

theorem compile_one_plus_two :
    (compile exampleOps 50 "1 + 2".toList initChunk (startState Int)).bind
        (fun r => Res.done (r.1, r.2.chunk.code, r.2.chunk.constants)) =
      Res.done (true, [0, 0, 0, 1, 7, 13], [Value.NUMBER_VAL 1, Value.NUMBER_VAL 2]) := by
  decide!

end Compiler


namespace Res

theorem bind_assoc {α β γ : Type} (r : Res α) (f : α → Res β) (g : β → Res γ) :
    (r.bind f).bind g = r.bind (fun a => (f a).bind g) := by
  cases r <;> rfl

theorem ite_bind {α β : Type} (c : Prop) [Decidable c] (a b : Res α) (f : α → Res β) :
    (if c then a else b).bind f = if c then a.bind f else b.bind f := by
  split <;> rfl

theorem bind_pair_eta {α β : Type} (r : Res (α × β)) :
    (r.bind fun a => done (a.1, a.2)) = r := by
  cases r <;> rfl

end Res

namespace VMachine

variable {D : Type}

/-! ## The loop of `run`, one pass at a time -/

/-- The function `run` is the iteration of `step`. -/
theorem run_step (ops : DoubleOps D) (n : Nat) (st : State D) :
    run ops (n + 1) st = (step ops st).bind (fun r =>
      match r.1 with
      | some result => Res.done (result, r.2)
      | none => run ops n r.2) := by
  rw [run, step, Res.bind_assoc]
  congr 1
  funext r
  simp only [Res.ite_bind, Res.bind_assoc, Res.bind_done, Res.bind_pair_eta] <;> rfl

theorem run_reaches (ops : DoubleOps D) : ∀ n (st : State D) (r : InterpretResult × State D),
    run ops n st = Res.done r →
    ∃ s, Reaches ops st s ∧ step ops s = Res.done (some r.1, r.2) := by
  intro n
  induction n with
  | zero => intro st r h; simp [run] at h
  | succ n ih =>
    intro st r h
    rw [run_step] at h
    obtain ⟨x, hx, h⟩ := Res.bind_eq_done h
    obtain ⟨o, s1⟩ := x
    cases o with
    | some result =>
      cases h
      exact ⟨st, Reaches.start st, hx⟩
    | none =>
      obtain ⟨s, hs, hstep⟩ := ih s1 r h
      exact ⟨s, Reaches.pass st s1 s hx hs, hstep⟩

theorem all_none {α : Type} {r : Res α} {f : α → State D}
    {Q : Option InterpretResult × State D → Prop} :
    (r.bind fun a => Res.done ((none : Option InterpretResult), f a)).All
      (fun x => x.1 = some InterpretResult.INTERPRET_OK → Q x) := by
  intro x hx
  obtain ⟨a, _, ha⟩ := Res.bind_eq_done hx
  cases ha
  intro h
  cases h

/-- How a pass of the loop returns the Ok result: through the body of `case OP_RETURN`,
entered after `OP_RETURN` was read, or after `OP_NEGATE` was read and the negated number
pushed. -/
theorem step_ok (ops : DoubleOps D) (s st' : State D)
    (h : step ops s = Res.done (some InterpretResult.INTERPRET_OK, st')) :
    ∃ r sr, READ_BYTE s = Res.done r ∧
      opReturn sr = Res.done (InterpretResult.INTERPRET_OK, st') ∧
      ((r.1 = OpCode.OP_RETURN.toByte ∧ sr = r.2) ∨
       (r.1 = OpCode.OP_NEGATE.toByte ∧ ∃ rv x, pop r.2 = Res.done rv ∧
          AS_NUMBER rv.1 = Res.done x ∧
          push rv.2 (Value.NUMBER_VAL (ops.neg x)) = Res.done sr)) := by
  unfold step at h
  obtain ⟨r, hr, h⟩ := Res.bind_eq_done h
  refine ⟨r, ?_⟩
  dsimp only at h
  have key : ∀ x : Option InterpretResult × State D,
      (if r.1 = OpCode.OP_CONSTANT.toByte then
        (READ_CONSTANT r.2).bind fun rc => (push rc.2 rc.1).bind fun s => Res.done (none, s)
      else if r.1 = OpCode.OP_NIL.toByte then
        (push r.2 Value.NIL_VAL).bind fun s => Res.done (none, s)
      else if r.1 = OpCode.OP_TRUE.toByte then
        (push r.2 (Value.BOOL_VAL true)).bind fun s => Res.done (none, s)
      else if r.1 = OpCode.OP_FALSE.toByte then
        (push r.2 (Value.BOOL_VAL false)).bind fun s => Res.done (none, s)
      else if r.1 = OpCode.OP_EQUAL.toByte then
        (pop r.2).bind fun rb =>
          (pop rb.2).bind fun ra =>
            (push ra.2 (Value.BOOL_VAL (valuesEqual ops ra.1 rb.1))).bind fun s =>
              Res.done (none, s)
      else if r.1 = OpCode.OP_GREATER.toByte then
        (BINARY_OP r.2 fun a b => Value.BOOL_VAL (ops.gt a b)).bind fun s => Res.done (none, s)
      else if r.1 = OpCode.OP_LESS.toByte then
        (BINARY_OP r.2 fun a b => Value.BOOL_VAL (ops.lt a b)).bind fun s => Res.done (none, s)
      else if r.1 = OpCode.OP_ADD.toByte then
        opAdd ops r.2
      else if r.1 = OpCode.OP_SUBTRACT.toByte then
        (BINARY_OP r.2 fun a b => Value.NUMBER_VAL (ops.sub a b)).bind fun s =>
          Res.done (none, s)
      else if r.1 = OpCode.OP_MULTIPLY.toByte then
        (BINARY_OP r.2 fun a b => Value.NUMBER_VAL (ops.mul a b)).bind fun s =>
          Res.done (none, s)
      else if r.1 = OpCode.OP_DIVIDE.toByte then
        (BINARY_OP r.2 fun a b => Value.NUMBER_VAL (ops.div a b)).bind fun s =>
          Res.done (none, s)
      else if r.1 = OpCode.OP_NOT.toByte then
        (pop r.2).bind fun rv =>
          (push rv.2 (Value.BOOL_VAL (isFalsey rv.1))).bind fun s => Res.done (none, s)
      else if r.1 = OpCode.OP_NEGATE.toByte then
        (peek r.2 0).bind fun v0 =>
          if !IS_NUMBER v0 then
            (runtimeError r.2 "Operand must be a number.".toList).bind fun st2 =>
              Res.done (some InterpretResult.INTERPRET_RUNTIME_ERROR, st2)
          else
            (pop r.2).bind fun rv =>
              (AS_NUMBER rv.1).bind fun n =>
                (push rv.2 (Value.NUMBER_VAL (ops.neg n))).bind fun st2 =>
                  (opReturn st2).bind fun res => Res.done (some res.1, res.2)
      else if r.1 = OpCode.OP_RETURN.toByte then
        (opReturn r.2).bind fun res => Res.done (some res.1, res.2)
      else Res.done (none, r.2)) = Res.done x →
      x.1 = some InterpretResult.INTERPRET_OK →
      ∃ sr, READ_BYTE s = Res.done r ∧
        opReturn sr = Res.done (InterpretResult.INTERPRET_OK, x.2) ∧
        ((r.1 = OpCode.OP_RETURN.toByte ∧ sr = r.2) ∨
         (r.1 = OpCode.OP_NEGATE.toByte ∧ ∃ rv x, pop r.2 = Res.done rv ∧
            AS_NUMBER rv.1 = Res.done x ∧
            push rv.2 (Value.NUMBER_VAL (ops.neg x)) = Res.done sr)) := by
    have hnone2 : ∀ {α β : Type} (r1 : Res α) (g : α → Res β) (f : α → β → State D),
        (r1.bind fun a => (g a).bind fun b =>
          Res.done ((none : Option InterpretResult), f a b)).All
          (fun x => x.1 = some InterpretResult.INTERPRET_OK → ∃ sr,
            READ_BYTE s = Res.done r ∧
            opReturn sr = Res.done (InterpretResult.INTERPRET_OK, x.2) ∧
            ((r.1 = OpCode.OP_RETURN.toByte ∧ sr = r.2) ∨
             (r.1 = OpCode.OP_NEGATE.toByte ∧ ∃ rv x, pop r.2 = Res.done rv ∧
                AS_NUMBER rv.1 = Res.done x ∧
                push rv.2 (Value.NUMBER_VAL (ops.neg x)) = Res.done sr))) :=
      fun r1 g f => Res.all_bind (fun a => all_none)
    refine Res.all_ite (hnone2 _ _ _) (Res.all_ite all_none (Res.all_ite all_none
      (Res.all_ite all_none (Res.all_ite ?_ (Res.all_ite all_none (Res.all_ite all_none
      (Res.all_ite ?_ (Res.all_ite all_none (Res.all_ite all_none (Res.all_ite all_none
      (Res.all_ite (hnone2 _ _ _) (Res.all_ite_cond ?_ (fun _ => Res.all_ite_cond ?_
        (fun _ => ?_))))))))))))))
    · exact Res.all_bind (fun rb => hnone2 _ _ _)
    · intro x hx hok
      have hadd := opAdd_keeps vmStepsPreserve_true ops r.2 trivial x hx
      rcases hadd.2 with h1 | h1 <;> rw [h1] at hok <;> cases hok
    · intro hneg
      refine Res.all_bind (fun v0 => Res.all_ite ?_ ?_)
      · intro x hx hok
        obtain ⟨a, _, ha⟩ := Res.bind_eq_done hx
        cases ha
        cases hok
      · intro x hx _
        obtain ⟨rv, hrv, hx⟩ := Res.bind_eq_done hx
        obtain ⟨y, hy, hx⟩ := Res.bind_eq_done hx
        obtain ⟨sr, hsr, hx⟩ := Res.bind_eq_done hx
        obtain ⟨res, hres, hx⟩ := Res.bind_eq_done hx
        cases hx
        have hok := (opReturn_done sr res hres).1
        refine ⟨sr, hr, ?_, Or.inr ⟨hneg, rv, y, hrv, hy, hsr⟩⟩
        rw [hres, ← hok]
    · intro hret x hx _
      obtain ⟨res, hres, hx⟩ := Res.bind_eq_done hx
      cases hx
      have hok := (opReturn_done r.2 res hres).1
      refine ⟨r.2, hr, ?_, Or.inl ⟨hret, rfl⟩⟩
      rw [hres, ← hok]
    · intro x hx hok
      cases hx
      cases hok
  obtain ⟨sr, h1, h2, h3⟩ := key _ h rfl
  exact ⟨sr, h1, h2, h3⟩

theorem pop_stack (s s1 : State D) (v : Value D) (h : pop s = Res.done (v, s1)) :
    s.vm.stack = v :: s1.vm.stack := by
  unfold pop at h
  split at h
  · next value rest hs =>
    cases h
    exact hs
  · cases h

/-- How `run` returns the Ok result: the run reaches a state `s` at the head of the loop, the
pass that starts there enters the body of `case OP_RETURN` in the state `sr`, with standard
output as at the start of the run, and there the value on top of the stack is popped and
printed, and a line break is printed. -/
theorem run_ok_returns (ops : DoubleOps D) (n : Nat) (st st' : State D)
    (h : run ops n st = Res.done (InterpretResult.INTERPRET_OK, st')) :
    ∃ s r sr v s1 s2 p,
      Reaches ops st s ∧ step ops s = Res.done (some InterpretResult.INTERPRET_OK, st') ∧
      READ_BYTE s = Res.done r ∧
      ((r.1 = OpCode.OP_RETURN.toByte ∧ sr = r.2) ∨
       (r.1 = OpCode.OP_NEGATE.toByte ∧ ∃ rv x, pop r.2 = Res.done rv ∧
          AS_NUMBER rv.1 = Res.done x ∧
          push rv.2 (Value.NUMBER_VAL (ops.neg x)) = Res.done sr)) ∧
      sr.stdout = st.stdout ∧ sr.vm.stack = v :: st'.vm.stack ∧
      pop sr = Res.done (v, s1) ∧ printValue s1 v = Res.done s2 ∧
      s2.stdout = st.stdout ++ [p] ∧
      st' = { s2 with stdout := s2.stdout ++ [Printed.text ['\n']] } ∧
      st'.stdout = st.stdout ++ [p, Printed.text ['\n']] ∧
      st'.vm.stack = s1.vm.stack := by
  obtain ⟨s, hreach, hstep⟩ := run_reaches ops n st _ h
  obtain ⟨r, sr, hr, hret, hcase⟩ := step_ok ops s st' hstep
  obtain ⟨_, v, s1, s2, p, hpop, hprint, hout, hst'⟩ := opReturn_done sr _ hret
  have hst2 : st' = { s2 with stdout := s2.stdout ++ [Printed.text ['\n']] } := hst'
  obtain ⟨q, hq⟩ := printValue_done _ _ _ hprint
  have hstack : st'.vm.stack = s1.vm.stack := by rw [hst2, hq]
  have e1 : st'.stdout = sr.stdout ++ [p, Printed.text ['\n']] := by
    rw [hst2]
    show s2.stdout ++ [Printed.text ['\n']] = _
    rw [hout]
    simp
  have hsame : sr.stdout = st.stdout := by
    rcases run_keeps (vmStepsPreserve_stdout st.stdout) ops n st rfl _ h with
      ⟨so, hso, hreto⟩ | ⟨h1, _⟩
    · obtain ⟨_, vo, s1o, s2o, po, _, _, houto, hsto⟩ := opReturn_done so _ hreto
      have hso' : so.stdout = st.stdout := hso
      have hsto2 : st' = { s2o with stdout := s2o.stdout ++ [Printed.text ['\n']] } := hsto
      have e2 : st'.stdout = st.stdout ++ [po, Printed.text ['\n']] := by
        rw [hsto2]
        show s2o.stdout ++ [Printed.text ['\n']] = _
        rw [houto, hso']
        simp
      rw [e1] at e2
      exact (List.append_inj' e2 rfl).1
    · cases h1
  refine ⟨s, r, sr, v, s1, s2, p, hreach, hstep, hr, hcase, hsame, ?_, hpop, hprint, ?_, hst2,
    ?_, hstack⟩
  · rw [hstack]
    exact pop_stack sr s1 v hpop
  · rw [hout, hsame]
  · rw [e1, hsame]

end VMachine


namespace Compiler

variable {D : Type}

/-! ## Two binary operators of different precedence -/

/-- For number literals `a`, `b`, `c` and operators `op1`, `op2` of the spec's table where
`op2` binds tighter than `op1`, the source `a op1 b op2 c` compiles to the code of `a`, of `b`
and of `c`, the opcodes of `op2`, the opcodes of `op1`, and `OP_RETURN`. -/
theorem compile_tighter_right (ops : DoubleOps D) (st : State D) (a b c : List Char)
    (op1 op2 : TokenType) (lex1 lex2 : List Char) (oc1 oc2 : List OpCode)
    (ha : Scan.IsNumberLexeme a) (hb : Scan.IsNumberLexeme b) (hc : Scan.IsNumberLexeme c)
    (hl1 : Scan.binaryLexeme op1 = some lex1) (hl2 : Scan.binaryLexeme op2 = some lex2)
    (ho1 : specBinaryOpcodes op1 = some oc1) (ho2 : specBinaryOpcodes op2 = some oc2)
    (hlt : (getRule op1).precedence < (getRule op2).precedence) :
    ∃ st', Returns (fun n => compile ops n
        (a ++ ' ' :: (lex1 ++ ' ' :: (b ++ ' ' :: (lex2 ++ ' ' :: c)))) initChunk st)
        (true, st') ∧
      st'.chunk.code = [0, 0, 0, 1, 0, 2] ++ oc2.map OpCode.toByte ++
        oc1.map OpCode.toByte ++ [13] ∧
      st'.chunk.constants =
        [Value.NUMBER_VAL (ops.strtod
           (a ++ ' ' :: (lex1 ++ ' ' :: (b ++ ' ' :: (lex2 ++ ' ' :: c))))),
         Value.NUMBER_VAL (ops.strtod (b ++ ' ' :: (lex2 ++ ' ' :: c))),
         Value.NUMBER_VAL (ops.strtod c)] ∧
      st'.vm = st.vm ∧ st'.heap = st.heap ∧ st'.stdout = st.stdout ∧ st'.stderr = st.stderr := by
  obtain ⟨hi1, hp1, _⟩ := binaryLexeme_rule hl1
  obtain ⟨hi2, hp2, _⟩ := binaryLexeme_rule hl2
  let rB : List Char := ' ' :: (lex2 ++ ' ' :: c)
  let rA : List Char := ' ' :: (lex1 ++ ' ' :: (b ++ rB))
  have hrA : Scan.StopsNumber rA := stopsNumber_cons _ _ (by decide) (by decide)
  have hrB : Scan.StopsNumber rB := stopsNumber_cons _ _ (by decide) (by decide)
  let s0 : State D := compileStart st (a ++ rA) initChunk
  have h1 := advance_number s0 0 a rA ha hrA rfl
  let s1 : State D := shift s0 ⟨TokenType.TOKEN_NUMBER, a ++ rA, a.length, 1⟩ ⟨a ++ rA, rA, 1⟩
  have h2 := advance_binary s1 1 op1 lex1 (b ++ rB) hl1 rfl
  let s2 : State D := shift s1 ⟨op1, lex1 ++ ' ' :: (b ++ rB), lex1.length, 1⟩
    ⟨lex1 ++ ' ' :: (b ++ rB), ' ' :: (b ++ rB), 1⟩
  let s3 : State D := number ops s2
  have h3 := advance_number s3 1 b rB hb hrB (by simp [s3, s2])
  let s4 : State D := shift s3 ⟨TokenType.TOKEN_NUMBER, b ++ rB, b.length, 1⟩ ⟨b ++ rB, rB, 1⟩
  have h4 := advance_binary s4 1 op2 lex2 c hl2 rfl
  let s5 : State D := shift s4 ⟨op2, lex2 ++ ' ' :: c, lex2.length, 1⟩
    ⟨lex2 ++ ' ' :: c, ' ' :: c, 1⟩
  let s6 : State D := number ops s5
  have h5 := advance_number s6 1 c [] hc stopsNumber_nil (by simp [s6, s5])
  let s7 : State D := shift s6 ⟨TokenType.TOKEN_NUMBER, c, c.length, 1⟩ ⟨c, [], 1⟩
  have h6 := advance_eof s7 0 rfl
  let s8 : State D := shift s7 ⟨TokenType.TOKEN_EOF, [], 0, 1⟩ ⟨[], [], 1⟩
  let s9 : State D := number ops s8
  let s10 : State D := binaryEmit s9 op2
  let s11 : State D := binaryEmit s10 op1
  have h7 := advance_eof s11 0 (by simp [s11, s10, s9, s8])
  let s12 : State D := shift s11 ⟨TokenType.TOKEN_EOF, [], 0, 1⟩ ⟨[], [], 1⟩
  have hprev4 : s4.parser.previous.type = op1 := by simp [s4, s3, s2]
  have hprev7 : s7.parser.previous.type = op2 := by simp [s7, s6, s5]
  have hcur6 : s6.parser.current.type = op2 := by simp [s6, s5]
  have hcur10 : s10.parser.current.type = TokenType.TOKEN_EOF := by simp [s10, s9, s8]
  have hcur11 : s11.parser.current.type = TokenType.TOKEN_EOF := by simp [s11, s10, s9, s8]
  -- the operand `c` at the precedence of `op2` plus one
  have p8 : Returns (fun n => parsePrecedence ops n
      ((getRule s7.parser.previous.type).precedence + 1) s7) s9 :=
    parsePrecedence_number ops _ s7 _ _ rfl (by simpa [s7, s6, s5] using h6)
      (by rw [hprev7]; show ¬ _ + 1 ≤ (getRule TokenType.TOKEN_EOF).precedence
          simp [getRule, rules, PREC_NONE])
  have c7 := callParseFn_binary ops s7 s9 p8
  rw [hprev7] at c7
  -- the operand `b op2 c` at the precedence of `op1` plus one
  have p7 : Returns (fun n => parsePrecedence ops n
      ((getRule s4.parser.previous.type).precedence + 1) s4) s10 :=
    parsePrecedence_returns ops _ s4 s5 s6 s10 ParseFn.number (by simpa [s4, s3, s2] using h4)
      rfl (callParseFn_number ops s5)
      (infixLoop_step ops _ s6 s7 s10 s10 ParseFn.binary
        (by rw [hprev4, hcur6]; exact hlt)
        (by simpa [s6, s5] using h5) (by rw [hprev7]; exact hi2) c7
        (infixLoop_stop ops _ s10
          (by rw [hcur10]; exact Nat.not_succ_le_zero _)))
  have c4 := callParseFn_binary ops s4 s10 p7
  rw [hprev4] at c4
  -- the whole expression
  have p1 : Returns (fun n => parsePrecedence ops n PREC_ASSIGNMENT s1) s11 :=
    parsePrecedence_returns ops _ s1 s2 s3 s11 ParseFn.number h2 rfl (callParseFn_number ops s2)
      (infixLoop_step ops _ s3 s4 s11 s11 ParseFn.binary (by simpa [s3, s2] using hp1)
        (by simpa [s3, s2] using h3) (by rw [hprev4]; exact hi1) c4
        (infixLoop_stop ops _ s11
          (by rw [hcur11]; decide)))
  have pc := compile_returns ops (a ++ rA) initChunk st s1 s11 s12 h1 p1
    (consume_returns s11 _ _ s12 hcur11 (by simpa [s11, s10, s9, s8] using h7))
  -- the chunk
  have e3 : s3 = { s2 with chunk := ⟨[0, 0], [1, 1],
      [Value.NUMBER_VAL (ops.strtod (a ++ rA))]⟩ } :=
    number_of_room ops s2 (by simp [s2, s1, s0, compileStart, initChunk])
  have e6 : s6 = { s5 with chunk := ⟨[0, 0, 0, 1], [1, 1, 1, 1],
      [Value.NUMBER_VAL (ops.strtod (a ++ rA)), Value.NUMBER_VAL (ops.strtod (b ++ rB))]⟩ } := by
    have := number_of_room ops s5 (by simp [s5, s4, e3])
    simpa [s5, s4, e3, OpCode.toByte] using this
  have e9 : s9 = { s8 with chunk := ⟨[0, 0, 0, 1, 0, 2], [1, 1, 1, 1, 1, 1],
      [Value.NUMBER_VAL (ops.strtod (a ++ rA)), Value.NUMBER_VAL (ops.strtod (b ++ rB)),
       Value.NUMBER_VAL (ops.strtod c)]⟩ } := by
    have := number_of_room ops s8 (by simp [s8, s7, e6])
    simpa [s8, s7, e6, OpCode.toByte] using this
  have e10 : s10 = withOpcodes s9 oc2 := binaryEmit_eq_withOpcodes s9 op2 oc2 ho2
  have e11 : s11 = withOpcodes s10 oc1 := binaryEmit_eq_withOpcodes s10 op1 oc1 ho1
  refine ⟨endCompiler s12, ?_, ?_, ?_, ?_, ?_, ?_, ?_⟩
  · have hh : (endCompiler s12).parser.hadError = false := by
      simp [endCompiler, emitReturn, s12, e11, e10, withOpcodes, e9, s8, s7, e6, s5, s4, e3, s2,
        s1, s0, compileStart]
    rw [hh] at pc
    exact pc
  · simp [endCompiler, emitReturn, s12, e11, e10, withOpcodes, e9, emitByte, writeChunk,
      OpCode.toByte]
  · simp [endCompiler, emitReturn, s12, e11, e10, withOpcodes, e9, emitByte, writeChunk, rA, rB]
  · simp [endCompiler, emitReturn, s12, e11, e10, withOpcodes, e9, s8, s7, e6, s5, s4, e3, s2,
      s1, s0, compileStart]
  · simp [endCompiler, emitReturn, s12, e11, e10, withOpcodes, e9, s8, s7, e6, s5, s4, e3, s2,
      s1, s0, compileStart]
  · simp [endCompiler, emitReturn, s12, e11, e10, withOpcodes, e9, s8, s7, e6, s5, s4, e3, s2,
      s1, s0, compileStart]
  · simp [endCompiler, emitReturn, s12, e11, e10, withOpcodes, e9, s8, s7, e6, s5, s4, e3, s2,
      s1, s0, compileStart]

/-- For number literals `a`, `b`, `c` and operators `op1`, `op2` of the spec's table, the
source `(a op1 b) op2 c` compiles to the code of `a` and of `b`, the opcodes of `op1`, the code
of `c`, the opcodes of `op2`, and `OP_RETURN`. -/
theorem compile_group_left (ops : DoubleOps D) (st : State D) (a b c : List Char)
    (op1 op2 : TokenType) (lex1 lex2 : List Char) (oc1 oc2 : List OpCode)
    (ha : Scan.IsNumberLexeme a) (hb : Scan.IsNumberLexeme b) (hc : Scan.IsNumberLexeme c)
    (hl1 : Scan.binaryLexeme op1 = some lex1) (hl2 : Scan.binaryLexeme op2 = some lex2)
    (ho1 : specBinaryOpcodes op1 = some oc1) (ho2 : specBinaryOpcodes op2 = some oc2) :
    ∃ st', Returns (fun n => compile ops n
        ('(' :: (a ++ ' ' :: (lex1 ++ ' ' :: (b ++ ')' :: ' ' :: (lex2 ++ ' ' :: c)))))
        initChunk st) (true, st') ∧
      st'.chunk.code = [0, 0, 0, 1] ++ oc1.map OpCode.toByte ++ [0, 2] ++
        oc2.map OpCode.toByte ++ [13] ∧
      st'.chunk.constants =
        [Value.NUMBER_VAL (ops.strtod
           (a ++ ' ' :: (lex1 ++ ' ' :: (b ++ ')' :: ' ' :: (lex2 ++ ' ' :: c))))),
         Value.NUMBER_VAL (ops.strtod (b ++ ')' :: ' ' :: (lex2 ++ ' ' :: c))),
         Value.NUMBER_VAL (ops.strtod c)] ∧
      st'.vm = st.vm ∧ st'.heap = st.heap ∧ st'.stdout = st.stdout ∧ st'.stderr = st.stderr := by
  obtain ⟨hi1, hp1, _⟩ := binaryLexeme_rule hl1
  obtain ⟨hi2, hp2, _⟩ := binaryLexeme_rule hl2
  let rB : List Char := ')' :: ' ' :: (lex2 ++ ' ' :: c)
  let rA : List Char := ' ' :: (lex1 ++ ' ' :: (b ++ rB))
  have hrA : Scan.StopsNumber rA := stopsNumber_cons _ _ (by decide) (by decide)
  have hrB : Scan.StopsNumber rB := stopsNumber_cons _ _ (by decide) (by decide)
  let s0 : State D := compileStart st ('(' :: (a ++ rA)) initChunk
  have h1 := advance_symbol s0 0 '(' TokenType.TOKEN_LEFT_PAREN (a ++ rA) rfl rfl
  let s1 : State D := shift s0 ⟨TokenType.TOKEN_LEFT_PAREN, '(' :: (a ++ rA), 1, 1⟩
    ⟨'(' :: (a ++ rA), a ++ rA, 1⟩
  have h2 := advance_number s1 0 a rA ha hrA rfl
  let s2 : State D := shift s1 ⟨TokenType.TOKEN_NUMBER, a ++ rA, a.length, 1⟩ ⟨a ++ rA, rA, 1⟩
  have h3 := advance_binary s2 1 op1 lex1 (b ++ rB) hl1 rfl
  let s3 : State D := shift s2 ⟨op1, lex1 ++ ' ' :: (b ++ rB), lex1.length, 1⟩
    ⟨lex1 ++ ' ' :: (b ++ rB), ' ' :: (b ++ rB), 1⟩
  let s4 : State D := number ops s3
  have h4 := advance_number s4 1 b rB hb hrB (by simp [s4, s3])
  let s5 : State D := shift s4 ⟨TokenType.TOKEN_NUMBER, b ++ rB, b.length, 1⟩ ⟨b ++ rB, rB, 1⟩
  have h5 := advance_symbol s5 0 ')' TokenType.TOKEN_RIGHT_PAREN (' ' :: (lex2 ++ ' ' :: c))
    rfl rfl
  let s6 : State D := shift s5 ⟨TokenType.TOKEN_RIGHT_PAREN, rB, 1, 1⟩
    ⟨rB, ' ' :: (lex2 ++ ' ' :: c), 1⟩
  let s7 : State D := number ops s6
  let s8 : State D := binaryEmit s7 op1
  have h6 := advance_binary s8 1 op2 lex2 c hl2 (by simp [s8, s7, s6])
  let s9 : State D := shift s8 ⟨op2, lex2 ++ ' ' :: c, lex2.length, 1⟩
    ⟨lex2 ++ ' ' :: c, ' ' :: c, 1⟩
  have h7 := advance_number s9 1 c [] hc stopsNumber_nil (by simp [s9])
  let s10 : State D := shift s9 ⟨TokenType.TOKEN_NUMBER, c, c.length, 1⟩ ⟨c, [], 1⟩
  have h8 := advance_eof s10 0 rfl
  let s11 : State D := shift s10 ⟨TokenType.TOKEN_EOF, [], 0, 1⟩ ⟨[], [], 1⟩
  let s12 : State D := number ops s11
  let s13 : State D := binaryEmit s12 op2
  have h9 := advance_eof s13 0 (by simp [s13, s12, s11])
  let s14 : State D := shift s13 ⟨TokenType.TOKEN_EOF, [], 0, 1⟩ ⟨[], [], 1⟩
  have hprev5 : s5.parser.previous.type = op1 := by simp [s5, s4, s3]
  have hprev10 : s10.parser.previous.type = op2 := by simp [s10, s9]
  have hcur8 : s8.parser.current.type = TokenType.TOKEN_RIGHT_PAREN := by simp [s8, s7, s6]
  have hcur13 : s13.parser.current.type = TokenType.TOKEN_EOF := by simp [s13, s12, s11]
  have hline8 : s8.scanner.line = 1 := by simp [s8, s7, s6]
  -- the operand `b` at the precedence of `op1` plus one
  have p5 : Returns (fun n => parsePrecedence ops n
      ((getRule s5.parser.previous.type).precedence + 1) s5) s7 :=
    parsePrecedence_number ops _ s5 _ _ rfl (by simpa [s5, s4, s3] using h5)
      (by show ¬ _ ≤ (getRule TokenType.TOKEN_RIGHT_PAREN).precedence
          exact Nat.not_succ_le_zero _)
  have c5 := callParseFn_binary ops s5 s7 p5
  rw [hprev5] at c5
  -- the expression between the parentheses
  have p2 : Returns (fun n => parsePrecedence ops n PREC_ASSIGNMENT s2) s8 :=
    parsePrecedence_returns ops _ s2 s3 s4 s8 ParseFn.number h3 rfl (callParseFn_number ops s3)
      (infixLoop_step ops _ s4 s5 s8 s8 ParseFn.binary (by simpa [s4, s3] using hp1)
        (by simpa [s4, s3] using h4) (by rw [hprev5]; exact hi1) c5
        (infixLoop_stop ops _ s8 (by rw [hcur8]; decide)))
  have pg : Returns (fun n => callParseFn ops n ParseFn.grouping s2) s9 :=
    callParseFn_grouping ops s2 s8 s9 p2
      (consume_returns s8 _ _ s9 hcur8 (by simpa [s9, hline8] using h6))
  -- the operand `c` at the precedence of `op2` plus one
  have p10 : Returns (fun n => parsePrecedence ops n
      ((getRule s10.parser.previous.type).precedence + 1) s10) s12 :=
    parsePrecedence_number ops _ s10 _ _ rfl (by simpa [s10, s9] using h8)
      (by show ¬ _ ≤ (getRule TokenType.TOKEN_EOF).precedence
          exact Nat.not_succ_le_zero _)
  have c10 := callParseFn_binary ops s10 s12 p10
  rw [hprev10] at c10
  -- the whole expression
  have p1 : Returns (fun n => parsePrecedence ops n PREC_ASSIGNMENT s1) s13 :=
    parsePrecedence_returns ops _ s1 s2 s9 s13 ParseFn.grouping h2 rfl pg
      (infixLoop_step ops _ s9 s10 s13 s13 ParseFn.binary (by simpa [s9] using hp2)
        (by simpa [s10, s9] using h7) (by rw [hprev10]; exact hi2) c10
        (infixLoop_stop ops _ s13 (by rw [hcur13]; decide)))
  have pc := compile_returns ops ('(' :: (a ++ rA)) initChunk st s1 s13 s14 h1 p1
    (consume_returns s13 _ _ s14 hcur13 (by simpa [s13, s12, s11] using h9))
  -- the chunk
  have e4 : s4 = { s3 with chunk := ⟨[0, 0], [1, 1],
      [Value.NUMBER_VAL (ops.strtod (a ++ rA))]⟩ } :=
    number_of_room ops s3 (by simp [s3, s2, s1, s0, compileStart, initChunk])
  have e7 : s7 = { s6 with chunk := ⟨[0, 0, 0, 1], [1, 1, 1, 1],
      [Value.NUMBER_VAL (ops.strtod (a ++ rA)), Value.NUMBER_VAL (ops.strtod (b ++ rB))]⟩ } := by
    have := number_of_room ops s6 (by simp [s6, s5, e4])
    simpa [s6, s5, e4, OpCode.toByte] using this
  have e8 : s8 = withOpcodes s7 oc1 := binaryEmit_eq_withOpcodes s7 op1 oc1 ho1
  have e12 : s12.chunk.code = [0, 0, 0, 1] ++ oc1.map OpCode.toByte ++ [0, 2] ∧
      s12.chunk.constants =
        [Value.NUMBER_VAL (ops.strtod (a ++ rA)), Value.NUMBER_VAL (ops.strtod (b ++ rB)),
         Value.NUMBER_VAL (ops.strtod c)] ∧
      s12.parser.hadError = false ∧ s12.vm = st.vm ∧ s12.heap = st.heap ∧
      s12.stdout = st.stdout ∧ s12.stderr = st.stderr := by
    have := number_of_room ops s11 (by simp [s11, s10, s9, e8, withOpcodes, e7])
    simp only [s12, this]
    simp [s11, s10, s9, e8, withOpcodes, e7, OpCode.toByte, s6, s5, e4, s3, s2, s1, s0,
      compileStart]
  have e13 : s13 = withOpcodes s12 oc2 := binaryEmit_eq_withOpcodes s12 op2 oc2 ho2
  refine ⟨endCompiler s14, ?_, ?_, ?_, ?_, ?_, ?_, ?_⟩
  · have hh : (endCompiler s14).parser.hadError = false := by
      simp [endCompiler, emitReturn, s14, e13, withOpcodes, e12.2.2.1]
    rw [hh] at pc
    exact pc
  · simp [endCompiler, emitReturn, s14, e13, withOpcodes, e12.1, OpCode.toByte]
  · simp [endCompiler, emitReturn, s14, e13, withOpcodes, e12.2.1, rA, rB]
  · simp [endCompiler, emitReturn, s14, e13, withOpcodes, e12.2.2.2.1]
  · simp [endCompiler, emitReturn, s14, e13, withOpcodes, e12.2.2.2.2.1]
  · simp [endCompiler, emitReturn, s14, e13, withOpcodes, e12.2.2.2.2.2.1]
  · simp [endCompiler, emitReturn, s14, e13, withOpcodes, e12.2.2.2.2.2.2]

end Compiler

namespace Compiler

variable {D : Type}

/-! ## A constant that does not fit -/

theorem emitConstant_full_report (st : State D) (v : Value D)
    (h : 255 < st.chunk.constants.length) (hp : st.parser.panicMode = false) :
    (emitConstant st v).stderr = st.stderr ++
        [Diagnostic.compileError st.parser.previous.line
          (errorLocation st.parser.previous) "Too many constants in one chunk.".toList] ∧
      (emitConstant st v).parser.hadError = true ∧
      (emitConstant st v).parser.panicMode = true := by
  rw [emitConstant_full st v h]
  have he := errorAt_report ({ st with chunk := (addConstant st.chunk v).2 } : State D)
    st.parser.previous "Too many constants in one chunk.".toList hp
  have hb : ∀ s : State D, (emitBytes s OpCode.OP_CONSTANT.toByte 0).stderr = s.stderr ∧
      (emitBytes s OpCode.OP_CONSTANT.toByte 0).parser = s.parser := fun _ => ⟨rfl, rfl⟩
  rw [(hb _).1, (hb _).2]
  show (errorAt ({ st with chunk := (addConstant st.chunk v).2 } : State D)
      st.parser.previous "Too many constants in one chunk.".toList).stderr = _ ∧
    (errorAt ({ st with chunk := (addConstant st.chunk v).2 } : State D)
      st.parser.previous "Too many constants in one chunk.".toList).parser.hadError = true ∧
    (errorAt ({ st with chunk := (addConstant st.chunk v).2 } : State D)
      st.parser.previous "Too many constants in one chunk.".toList).parser.panicMode = true
  rw [he]
  exact ⟨rfl, rfl, rfl⟩

theorem emitConstant_full_silent (st : State D) (v : Value D)
    (h : 255 < st.chunk.constants.length) (hp : st.parser.panicMode = true) :
    (emitConstant st v).stderr = st.stderr ∧ (emitConstant st v).parser = st.parser := by
  rw [emitConstant_full st v h]
  have he := errorAt_panic ({ st with chunk := (addConstant st.chunk v).2 } : State D)
    st.parser.previous "Too many constants in one chunk.".toList hp
  have hb : ∀ s : State D, (emitBytes s OpCode.OP_CONSTANT.toByte 0).stderr = s.stderr ∧
      (emitBytes s OpCode.OP_CONSTANT.toByte 0).parser = s.parser := fun _ => ⟨rfl, rfl⟩
  rw [(hb _).1, (hb _).2]
  show (errorAt ({ st with chunk := (addConstant st.chunk v).2 } : State D)
      st.parser.previous "Too many constants in one chunk.".toList).stderr = _ ∧
    (errorAt ({ st with chunk := (addConstant st.chunk v).2 } : State D)
      st.parser.previous "Too many constants in one chunk.".toList).parser = _
  rw [he]
  exact ⟨rfl, rfl⟩

end Compiler

namespace VMachine

variable {D : Type}

/-! ## Running the code of two arithmetic operators -/

/-- The instruction of an arithmetic operator applies `arithValue` to the two numbers on top
of the stack. -/
theorem run_arith_token (ops : DoubleOps D) (n : Nat) (st : State D) (a b : D)
    (rest : List (Value D)) (op : TokenType) (oc : OpCode)
    (hs : st.vm.stack = Value.NUMBER_VAL b :: Value.NUMBER_VAL a :: rest)
    (hlen : st.vm.stack.length ≤ STACK_MAX)
    (hop : op = TokenType.TOKEN_PLUS ∨ op = TokenType.TOKEN_MINUS ∨
      op = TokenType.TOKEN_STAR ∨ op = TokenType.TOKEN_SLASH)
    (hoc : Compiler.specBinaryOpcodes op = some [oc])
    (hget : st.vm.chunk.code.get? st.vm.ip = some oc.toByte) :
    run ops (n + 1) st =
      run ops n (stepTo st 1 (Value.NUMBER_VAL (arithValue ops op a b) :: rest)) := by
  obtain ⟨h1, h2, h3, h4⟩ := run_arith ops n st a b rest hs hlen
  rcases hop with rfl | rfl | rfl | rfl <;>
    simp only [Compiler.specBinaryOpcodes, Option.some.injEq, List.cons.injEq, and_true] at hoc <;>
    subst hoc
  · exact h4 hget
  · exact h1 hget
  · exact h2 hget
  · exact h3 hget

theorem run_tighter_right (ops : DoubleOps D) (st : State D) (x y z : D) (lines : List Nat)
    (op1 op2 : TokenType) (oc1 oc2 : OpCode)
    (hop1 : op1 = TokenType.TOKEN_PLUS ∨ op1 = TokenType.TOKEN_MINUS ∨
      op1 = TokenType.TOKEN_STAR ∨ op1 = TokenType.TOKEN_SLASH)
    (hop2 : op2 = TokenType.TOKEN_PLUS ∨ op2 = TokenType.TOKEN_MINUS ∨
      op2 = TokenType.TOKEN_STAR ∨ op2 = TokenType.TOKEN_SLASH)
    (hoc1 : Compiler.specBinaryOpcodes op1 = some [oc1])
    (hoc2 : Compiler.specBinaryOpcodes op2 = some [oc2])
    (hcode : st.vm.chunk = ⟨[0, 0, 0, 1, 0, 2, oc2.toByte, oc1.toByte, 13], lines,
      [Value.NUMBER_VAL x, Value.NUMBER_VAL y, Value.NUMBER_VAL z]⟩)
    (hip : st.vm.ip = 0) (hstack : st.vm.stack.length + 3 ≤ STACK_MAX) (k : Nat) :
    ∃ st', run ops (k + 6) st = Res.done (InterpretResult.INTERPRET_OK, st') ∧
      st'.stdout = st.stdout ++
        [Printed.number (arithValue ops op1 x (arithValue ops op2 y z)),
         Printed.text ['\n']] := by
  have hS : STACK_MAX = 256 := rfl
  rw [run_constant ops (k + 5) st 0 (Value.NUMBER_VAL x) (by simp [hcode, hip, OpCode.toByte])
    (by simp [hcode, hip]) (by simp [hcode]) (by omega)]
  rw [run_constant ops (k + 4) _ 1 (Value.NUMBER_VAL y)
    (by simp [stepTo, hcode, hip, OpCode.toByte]) (by simp [stepTo, hcode, hip])
    (by simp [stepTo, hcode]) (by simp [stepTo]; omega)]
  rw [run_constant ops (k + 3) _ 2 (Value.NUMBER_VAL z)
    (by simp [stepTo, hcode, hip, OpCode.toByte]) (by simp [stepTo, hcode, hip])
    (by simp [stepTo, hcode]) (by simp [stepTo]; omega)]
  rw [run_arith_token ops (k + 2) _ y z (Value.NUMBER_VAL x :: st.vm.stack) op2 oc2
    (by simp [stepTo]) (by simp [stepTo]; omega) hop2 hoc2 (by simp [stepTo, hcode, hip])]
  rw [run_arith_token ops (k + 1) _ x (arithValue ops op2 y z) st.vm.stack op1 oc1
    (by simp [stepTo]) (by simp [stepTo]; omega) hop1 hoc1 (by simp [stepTo, hcode, hip])]
  rw [run_return_number ops k _ (arithValue ops op1 x (arithValue ops op2 y z)) st.vm.stack
    (by simp [stepTo, hcode, hip, OpCode.toByte]) (by simp [stepTo])]
  exact ⟨_, rfl, by simp [stepTo]⟩

theorem run_group_left (ops : DoubleOps D) (st : State D) (x y z : D) (lines : List Nat)
    (op1 op2 : TokenType) (oc1 oc2 : OpCode)
    (hop1 : op1 = TokenType.TOKEN_PLUS ∨ op1 = TokenType.TOKEN_MINUS ∨
      op1 = TokenType.TOKEN_STAR ∨ op1 = TokenType.TOKEN_SLASH)
    (hop2 : op2 = TokenType.TOKEN_PLUS ∨ op2 = TokenType.TOKEN_MINUS ∨
      op2 = TokenType.TOKEN_STAR ∨ op2 = TokenType.TOKEN_SLASH)
    (hoc1 : Compiler.specBinaryOpcodes op1 = some [oc1])
    (hoc2 : Compiler.specBinaryOpcodes op2 = some [oc2])
    (hcode : st.vm.chunk = ⟨[0, 0, 0, 1, oc1.toByte, 0, 2, oc2.toByte, 13], lines,
      [Value.NUMBER_VAL x, Value.NUMBER_VAL y, Value.NUMBER_VAL z]⟩)
    (hip : st.vm.ip = 0) (hstack : st.vm.stack.length + 2 ≤ STACK_MAX) (k : Nat) :
    ∃ st', run ops (k + 6) st = Res.done (InterpretResult.INTERPRET_OK, st') ∧
      st'.stdout = st.stdout ++
        [Printed.number (arithValue ops op2 (arithValue ops op1 x y) z),
         Printed.text ['\n']] := by
  have hS : STACK_MAX = 256 := rfl
  rw [run_constant ops (k + 5) st 0 (Value.NUMBER_VAL x) (by simp [hcode, hip, OpCode.toByte])
    (by simp [hcode, hip]) (by simp [hcode]) (by omega)]
  rw [run_constant ops (k + 4) _ 1 (Value.NUMBER_VAL y)
    (by simp [stepTo, hcode, hip, OpCode.toByte]) (by simp [stepTo, hcode, hip])
    (by simp [stepTo, hcode]) (by simp [stepTo]; omega)]
  rw [run_arith_token ops (k + 3) _ x y st.vm.stack op1 oc1
    (by simp [stepTo]) (by simp [stepTo]; omega) hop1 hoc1 (by simp [stepTo, hcode, hip])]
  rw [run_constant ops (k + 2) _ 2 (Value.NUMBER_VAL z)
    (by simp [stepTo, hcode, hip, OpCode.toByte]) (by simp [stepTo, hcode, hip])
    (by simp [stepTo, hcode]) (by simp [stepTo]; omega)]
  rw [run_arith_token ops (k + 1) _ (arithValue ops op1 x y) z st.vm.stack op2 oc2
    (by simp [stepTo]) (by simp [stepTo]; omega) hop2 hoc2 (by simp [stepTo, hcode, hip])]
  rw [run_return_number ops k _ (arithValue ops op2 (arithValue ops op1 x y) z) st.vm.stack
    (by simp [stepTo, hcode, hip, OpCode.toByte]) (by simp [stepTo])]
  exact ⟨_, rfl, by simp [stepTo]⟩

end VMachine


open Compiler VMachine

/-! ## The claims -/

/-- C1: multiplication and division bind tighter than addition and subtraction, and grouping
overrides that. For all number literals `a`, `b`, `c` (the value of a literal is `strtod`
applied where the literal starts in the source), every additive operator `op1` (`+` or `-`),
every multiplicative operator `op2` (`*` or `/`) and every state with room for three values on
the stack, `interpret` of `a op1 b op2 c` returns Ok and prints the value `a op1 (b op2 c)`, and
`interpret` of `(a op1 b) op2 c` returns Ok and prints `(a op1 b) op2 c`; with enough fuel
`interpret` returns. -/
theorem precedence_mul_over_add (D : Type) (ops : DoubleOps D) (st : State D)
    (a b c : List Char) (ha : Scan.IsNumberLexeme a) (hb : Scan.IsNumberLexeme b)
    (hc : Scan.IsNumberLexeme c) (hstack : st.vm.stack.length + 3 ≤ STACK_MAX)
    (op1 op2 : TokenType) (lex1 lex2 : List Char)
    (h1 : op1 = TokenType.TOKEN_PLUS ∨ op1 = TokenType.TOKEN_MINUS)
    (h2 : op2 = TokenType.TOKEN_STAR ∨ op2 = TokenType.TOKEN_SLASH)
    (hl1 : Scan.binaryLexeme op1 = some lex1) (hl2 : Scan.binaryLexeme op2 = some lex2) :
    (∃ n, ∀ m, n ≤ m → ∃ st',
      interpret ops m (a ++ ' ' :: (lex1 ++ ' ' :: (b ++ ' ' :: (lex2 ++ ' ' :: c)))) st =
        Res.done (InterpretResult.INTERPRET_OK, st') ∧
      st'.stdout = st.stdout ++
        [Printed.number (arithValue ops op1
          (ops.strtod (a ++ ' ' :: (lex1 ++ ' ' :: (b ++ ' ' :: (lex2 ++ ' ' :: c)))))
          (arithValue ops op2 (ops.strtod (b ++ ' ' :: (lex2 ++ ' ' :: c))) (ops.strtod c))),
         Printed.text ['\n']]) ∧
    (∃ n, ∀ m, n ≤ m → ∃ st',
      interpret ops m
          ('(' :: (a ++ ' ' :: (lex1 ++ ' ' :: (b ++ ')' :: ' ' :: (lex2 ++ ' ' :: c))))) st =
        Res.done (InterpretResult.INTERPRET_OK, st') ∧
      st'.stdout = st.stdout ++
        [Printed.number (arithValue ops op2
          (arithValue ops op1
            (ops.strtod (a ++ ' ' :: (lex1 ++ ' ' :: (b ++ ')' :: ' ' :: (lex2 ++ ' ' :: c)))))
            (ops.strtod (b ++ ')' :: ' ' :: (lex2 ++ ' ' :: c))))
          (ops.strtod c)),
         Printed.text ['\n']]) := by
  obtain ⟨oc1, ho1⟩ : ∃ oc1, specBinaryOpcodes op1 = some [oc1] := by
    rcases h1 with rfl | rfl <;> exact ⟨_, rfl⟩
  obtain ⟨oc2, ho2⟩ : ∃ oc2, specBinaryOpcodes op2 = some [oc2] := by
    rcases h2 with rfl | rfl <;> exact ⟨_, rfl⟩
  have hlt : (getRule op1).precedence < (getRule op2).precedence := by
    rcases h1 with rfl | rfl <;> rcases h2 with rfl | rfl <;> decide
  have hop1 : op1 = TokenType.TOKEN_PLUS ∨ op1 = TokenType.TOKEN_MINUS ∨
      op1 = TokenType.TOKEN_STAR ∨ op1 = TokenType.TOKEN_SLASH := by
    rcases h1 with h | h
    · exact Or.inl h
    · exact Or.inr (Or.inl h)
  have hop2 : op2 = TokenType.TOKEN_PLUS ∨ op2 = TokenType.TOKEN_MINUS ∨
      op2 = TokenType.TOKEN_STAR ∨ op2 = TokenType.TOKEN_SLASH := by
    rcases h2 with h | h
    · exact Or.inr (Or.inr (Or.inl h))
    · exact Or.inr (Or.inr (Or.inr h))
  constructor
  · obtain ⟨stc, hcomp, hcode, hconst, hvm, _, hout, _⟩ :=
      compile_tighter_right ops st a b c op1 op2 lex1 lex2 [oc1] [oc2] ha hb hc hl1 hl2 ho1 ho2
        hlt
    have hcode2 : stc.chunk.code = [0, 0, 0, 1, 0, 2, oc2.toByte, oc1.toByte, 13] := by
      simpa using hcode
    obtain ⟨st', hrun, hst'⟩ := run_tighter_right ops
      { stc with vm := { stc.vm with chunk := stc.chunk, ip := 0 } } _ _ _ stc.chunk.lines
      op1 op2 oc1 oc2 hop1 hop2 ho1 ho2
      (by rw [← hcode2, ← hconst]) rfl (by simpa [hvm] using hstack) 0
    obtain ⟨n, hn⟩ := interpret_of_compile ops _ st stc _ hcomp
      (Returns.of_le 6 (fun n m h => run_le ops n m _ h) hrun)
    exact ⟨n, fun m hm => ⟨st', hn m hm, by rw [hst']; simp [hout]⟩⟩
  · obtain ⟨stc, hcomp, hcode, hconst, hvm, _, hout, _⟩ :=
      compile_group_left ops st a b c op1 op2 lex1 lex2 [oc1] [oc2] ha hb hc hl1 hl2 ho1 ho2
    have hcode2 : stc.chunk.code = [0, 0, 0, 1, oc1.toByte, 0, 2, oc2.toByte, 13] := by
      simpa using hcode
    obtain ⟨st', hrun, hst'⟩ := run_group_left ops
      { stc with vm := { stc.vm with chunk := stc.chunk, ip := 0 } } _ _ _ stc.chunk.lines
      op1 op2 oc1 oc2 hop1 hop2 ho1 ho2
      (by rw [← hcode2, ← hconst]) rfl (by simp [hvm]; omega) 0
    obtain ⟨n, hn⟩ := interpret_of_compile ops _ st stc _ hcomp
      (Returns.of_le 6 (fun n m h => run_le ops n m _ h) hrun)
    exact ⟨n, fun m hm => ⟨st', hn m hm, by rw [hst']; simp [hout]⟩⟩

/-- Witness of `precedence_mul_over_add`: `1 + 2 * 3` prints 7 and `(1 + 2) * 3` prints 9,
`8 - 6 / 2` prints 5 and `(8 - 6) / 2` prints 1 (in the integer arithmetic of
`exampleOps`). -/
theorem precedence_mul_over_add_witness :
    ((∃ n, ∀ m, n ≤ m → ∃ st',
      interpret exampleOps m "1 + 2 * 3".toList (startState Int) =
        Res.done (InterpretResult.INTERPRET_OK, st') ∧
      st'.stdout = [Printed.number 7, Printed.text ['\n']]) ∧
    (∃ n, ∀ m, n ≤ m → ∃ st',
      interpret exampleOps m "(1 + 2) * 3".toList (startState Int) =
        Res.done (InterpretResult.INTERPRET_OK, st') ∧
      st'.stdout = [Printed.number 9, Printed.text ['\n']])) ∧
    ((∃ n, ∀ m, n ≤ m → ∃ st',
      interpret exampleOps m "8 - 6 / 2".toList (startState Int) =
        Res.done (InterpretResult.INTERPRET_OK, st') ∧
      st'.stdout = [Printed.number 5, Printed.text ['\n']]) ∧
    (∃ n, ∀ m, n ≤ m → ∃ st',
      interpret exampleOps m "(8 - 6) / 2".toList (startState Int) =
        Res.done (InterpretResult.INTERPRET_OK, st') ∧
      st'.stdout = [Printed.number 1, Printed.text ['\n']])) := by
  have h1 : ∀ c : Char, Scan.isDigit c = true → Scan.IsNumberLexeme [c] :=
    fun c hc => ⟨[c], [], by simp, by simpa using hc, by simp, Or.inl rfl⟩
  exact ⟨precedence_mul_over_add Int exampleOps (startState Int) "1".toList "2".toList
      "3".toList (h1 '1' (by decide)) (h1 '2' (by decide)) (h1 '3' (by decide)) (by decide)
      TokenType.TOKEN_PLUS TokenType.TOKEN_STAR ['+'] ['*'] (Or.inl rfl) (Or.inl rfl) rfl rfl,
    precedence_mul_over_add Int exampleOps (startState Int) "8".toList "6".toList
      "2".toList (h1 '8' (by decide)) (h1 '6' (by decide)) (h1 '2' (by decide)) (by decide)
      TokenType.TOKEN_MINUS TokenType.TOKEN_SLASH ['-'] ['/'] (Or.inr rfl) (Or.inr rfl) rfl rfl⟩

/-- C2 (as the code behaves): `interpret` of `-1 + 2` returns Ok after printing -1. The run
ends in the body of `OP_RETURN` right after `OP_NEGATE`, with `ip` at offset 3 of the 7 bytes
of the chunk: the constant `2` and `OP_ADD` are never executed. -/
theorem negate_ends_the_run :
    (interpret exampleOps 50 "-1 + 2".toList (startState Int)).bind
        (fun r => Res.done (r.1, r.2.stdout, r.2.vm.ip, r.2.vm.chunk.code)) =
      Res.done (InterpretResult.INTERPRET_OK, [Printed.number (-1), Printed.text ['\n']], 3,
        [0, 0, 12, 0, 1, 7, 13]) := by
  decide!

/-- C3 (as the code behaves): the source `1 != 2` does not compile. The rule of `!=` has
precedence `PREC_NONE`, so the infix loop stops in front of it; `compile` returns false, reports
"Expect end of expression" at `!=`, and the chunk holds the constant `1` and `OP_RETURN` only,
not `OP_EQUAL`, `OP_NOT`. -/
theorem bang_equal_is_not_compiled :
    (compile exampleOps 50 "1 != 2".toList initChunk (startState Int)).bind
        (fun r => Res.done (r.1, r.2.chunk.code, r.2.stderr)) =
      Res.done (false, [0, 0, 13],
        [Diagnostic.compileError 1 " at '!='".toList "Expect end of expression".toList]) := by
  decide!

/-- C4 (as the code behaves): `interpret` of `nil - 1` does not return the runtime-error
result. `OP_SUBTRACT` reports the error and resets the stack, and then pops its two operands
from the empty stack, which is outside the stack array. -/
theorem subtract_type_error_does_not_return :
    interpret exampleOps 50 "nil - 1".toList (startState Int) = Res.undefinedBehaviour := by
  decide!

/-- C5 (counterexample): after compiling 257 number literals joined by `+` the constant pool
holds 257 entries. -/
theorem pool_holds_257_entries :
    ∃ n st', compile exampleOps n ("1".toList ++ joinPlus (List.replicate 256 "1".toList))
        initChunk (startState Int) = Res.done (false, st') ∧
      st'.chunk.constants.length = 257 := by
  have h1 : Scan.IsNumberLexeme "1".toList :=
    ⟨['1'], [], by simp, by simp [Scan.isDigit], by simp, Or.inl rfl⟩
  have key : ∀ k, k = 256 → ∃ n st',
      compile exampleOps n ("1".toList ++ joinPlus (List.replicate k "1".toList))
        initChunk (startState Int) = Res.done (false, st') ∧
      st'.chunk.constants.length = k + 1 := by
    intro k hk
    obtain ⟨n, hn⟩ := compile_chain exampleOps (startState Int) initChunk "1".toList
      (List.replicate k "1".toList) h1
      (fun l hl => by rw [List.eq_of_mem_replicate hl]; exact h1)
    have hc := chainState_constants exampleOps (startState Int) "1".toList
      (List.replicate k "1".toList)
    rw [List.length_replicate] at hc
    refine ⟨n, _, ?_, hc⟩
    have h := hn n (le_refl n)
    dsimp only at h
    rw [h, (chainState_error exampleOps (startState Int) "1".toList
      (List.replicate k "1".toList) (by rw [List.length_replicate, hk])).1]
    rfl
  exact key 256 rfl

/-- C5 (amended): for every source text, when `compile` (called on an empty chunk, as
`interpret` does) returns true, the constant pool holds at most 256 entries. -/
theorem pool_bound_of_success (D : Type) (ops : DoubleOps D) (n : Nat) (source : List Char)
    (st st' : State D) (h : compile ops n source initChunk st = Res.done (true, st')) :
    st'.chunk.constants.length ≤ 256 := by
  have p0 : PoolInv (compileStart st source initChunk) :=
    ⟨fun hp => by simp [compileStart] at hp, fun _ => by simp [compileStart, initChunk]⟩
  have p := compile_preserves ops stepsPreserve_poolInv n source initChunk st true st' p0 h
  obtain ⟨st1, st2, st3, _, _, _, rfl, hb⟩ := compile_done ops n source initChunk st true st' h
  refine p.2 ?_
  show st3.parser.hadError = false
  cases hh : st3.parser.hadError
  · rfl
  · rw [hh] at hb; cases hb

/-- Witness of `pool_bound_of_success`: the source `1` compiles and its pool has one entry. -/
theorem pool_bound_of_success_witness :
    ∃ n st', compile exampleOps n "1".toList initChunk (startState Int) = Res.done (true, st') ∧
      st'.chunk.constants.length ≤ 256 := by
  have h1 : Scan.IsNumberLexeme "1".toList :=
    ⟨['1'], [], by simp, by simp [Scan.isDigit], by simp, Or.inl rfl⟩
  obtain ⟨n, hn⟩ := compile_chain exampleOps (startState Int) initChunk "1".toList [] h1
    (fun l hl => by simp at hl)
  have h : compile exampleOps n "1".toList initChunk (startState Int) =
      Res.done (true, chainState exampleOps (startState Int) initChunk "1".toList []) := by
    have := hn n (le_refl n)
    dsimp only at this
    rw [(chainState_clean exampleOps (startState Int) "1".toList [] (by simp)).1] at this
    simpa [joinPlus] using this
  exact ⟨n, _, h, pool_bound_of_success Int exampleOps n "1".toList (startState Int) _ h⟩

/-- C6: an expression of 256 number literals joined by `+` compiles (`compile` returns true and
reports nothing); with 257 literals `compile` returns false and the one diagnostic reported is
"Too many constants in one chunk." at the 257th literal. With enough fuel `compile` returns in
both cases. -/
theorem constant_pool_boundary (D : Type) (ops : DoubleOps D) (st : State D) (l0 : List Char)
    (ls : List (List Char)) (h0 : Scan.IsNumberLexeme l0)
    (hls : ∀ l ∈ ls, Scan.IsNumberLexeme l) :
    (ls.length + 1 = 256 → ∃ n, ∀ m, n ≤ m → ∃ st',
      compile ops m (l0 ++ joinPlus ls) initChunk st = Res.done (true, st') ∧
      st'.stderr = st.stderr) ∧
    (ls.length + 1 = 257 → ∃ n, ∀ m, n ≤ m → ∃ st',
      compile ops m (l0 ++ joinPlus ls) initChunk st = Res.done (false, st') ∧
      st'.stderr = st.stderr ++ [Diagnostic.compileError 1
        (" at '".toList ++ (l0 :: ls).getLast (List.cons_ne_nil _ _) ++ "'".toList)
        "Too many constants in one chunk.".toList]) := by
  obtain ⟨n, hn⟩ := compile_chain ops st initChunk l0 ls h0 hls
  constructor
  · intro hlen
    obtain ⟨c1, c2⟩ := chainState_clean ops st l0 ls (by omega)
    refine ⟨n, fun m hm => ⟨_, ?_, c2⟩⟩
    have h := hn m hm
    dsimp only at h
    rw [h, c1]
    rfl
  · intro hlen
    obtain ⟨c1, c2⟩ := chainState_error ops st l0 ls hlen
    refine ⟨n, fun m hm => ⟨_, ?_, c2⟩⟩
    have h := hn m hm
    dsimp only at h
    rw [h, c1]
    rfl

/-- Witness of `constant_pool_boundary`: 256 and 257 copies of the literal `1`. -/
theorem constant_pool_boundary_witness :
    Scan.IsNumberLexeme "1".toList ∧
    (∃ n, ∀ m, n ≤ m → ∃ st',
      compile exampleOps m ("1".toList ++ joinPlus (List.replicate 255 "1".toList)) initChunk
        (startState Int) = Res.done (true, st') ∧ st'.stderr = []) ∧
    (∃ n, ∀ m, n ≤ m → ∃ st',
      compile exampleOps m ("1".toList ++ joinPlus (List.replicate 256 "1".toList)) initChunk
        (startState Int) = Res.done (false, st') ∧
      st'.stderr = [Diagnostic.compileError 1 " at '1'".toList
        "Too many constants in one chunk.".toList]) := by
  have h1 : Scan.IsNumberLexeme "1".toList :=
    ⟨['1'], [], by simp, by simp [Scan.isDigit], by simp, Or.inl rfl⟩
  have hall : ∀ k, ∀ l ∈ List.replicate k "1".toList, Scan.IsNumberLexeme l :=
    fun k l hl => by rw [List.eq_of_mem_replicate hl]; exact h1
  have hlast : ∀ (k : Nat) (x : List Char) (h : x :: List.replicate k x ≠ []),
      (x :: List.replicate k x).getLast h = x := by
    intro k x h
    have hm := List.getLast_mem h
    rcases List.mem_cons.mp hm with hx | hx
    · exact hx
    · exact List.eq_of_mem_replicate hx
  refine ⟨h1, ?_, ?_⟩
  · exact (constant_pool_boundary Int exampleOps (startState Int) "1".toList
      (List.replicate 255 "1".toList) h1 (hall 255)).1 (by rw [List.length_replicate])
  · have h := (constant_pool_boundary Int exampleOps (startState Int) "1".toList
      (List.replicate 256 "1".toList) h1 (hall 256)).2 (by rw [List.length_replicate])
    rw [hlast] at h
    exact h

/-- C7 (counterexample): for the source `) 1 2 3` `compile` returns (false) while the current
token is the number `1` and the text ` 2 3` has not been scanned. -/
theorem compile_returns_before_end_of_input :
    (compile exampleOps 50 ") 1 2 3".toList initChunk (startState Int)).bind
        (fun r => Res.done (r.1, r.2.parser.previous.type, r.2.parser.current.type,
          r.2.scanner.current)) =
      Res.done (false, TokenType.TOKEN_RIGHT_PAREN, TokenType.TOKEN_NUMBER, " 2 3".toList) := by
  decide!

/-- C7 (amended): whenever `compile` returns true, every token of the source has been scanned:
the scanner is at the end of the text and both the current and the previous token of the parser
are the end-of-input token. -/
theorem compile_success_reaches_end_of_input (D : Type) (ops : DoubleOps D) (n : Nat)
    (source : List Char) (chunk : Chunk D) (st st' : State D)
    (h : compile ops n source chunk st = Res.done (true, st')) :
    st'.parser.current.type = TokenType.TOKEN_EOF ∧
    st'.parser.previous.type = TokenType.TOKEN_EOF ∧
    Scan.isAtEnd st'.scanner = true := by
  obtain ⟨st1, st2, st3, h1, h2, h3, rfl, hb⟩ := compile_done ops n source chunk st true st' h
  have p0 : PanicInv (compileStart st source chunk) := by
    intro hp; simp [compileStart] at hp
  have p1 : EofInv st1 := advance_eofInv n _ st1 p0 h1
  have p2 : EofInv st2 := (parse_preserves ops stepsPreserve_eofInv n).1 _ st1 st2 p1 h2
  unfold consume at h3
  split at h3
  · next hty =>
    obtain ⟨g1, g2⟩ := advance_atEnd n st2 st3 (p2.2 hty) h3
    have g3 := advance_previous n st2 st3 h3
    refine ⟨g1, ?_, g2⟩
    show st3.parser.previous.type = TokenType.TOKEN_EOF
    rw [g3, hty]
  · cases h3
    rw [errorAtCurrent, errorAt_hadError _ _ _ p2.1] at hb
    cases hb

/-- Witness of `compile_success_reaches_end_of_input`: the source `1`. -/
theorem compile_success_reaches_end_of_input_witness :
    ∃ n st', compile exampleOps n "1".toList initChunk (startState Int) = Res.done (true, st') ∧
      st'.parser.current.type = TokenType.TOKEN_EOF ∧
      st'.parser.previous.type = TokenType.TOKEN_EOF ∧
      Scan.isAtEnd st'.scanner = true := by
  have h1 : Scan.IsNumberLexeme "1".toList :=
    ⟨['1'], [], by simp, by simp [Scan.isDigit], by simp, Or.inl rfl⟩
  obtain ⟨n, hn⟩ := compile_chain exampleOps (startState Int) initChunk "1".toList [] h1
    (fun l hl => by simp at hl)
  have h : compile exampleOps n "1".toList initChunk (startState Int) =
      Res.done (true, chainState exampleOps (startState Int) initChunk "1".toList []) := by
    have := hn n (le_refl n)
    dsimp only at this
    rw [(chainState_clean exampleOps (startState Int) "1".toList [] (by simp)).1] at this
    simpa [joinPlus] using this
  exact ⟨n, _, h, compile_success_reaches_end_of_input Int exampleOps n "1".toList initChunk
    (startState Int) _ h⟩

/-- C8 (as the code behaves): on a source that starts with a line comment `scanToken` never
returns, whatever the fuel: the comment loop of `skipWhitespace` does not advance. -/
theorem comment_is_never_skipped :
    ∀ fuel, Scan.scanToken fuel (initScanner "// c\n1".toList) = Res.outOfFuel :=
  fun fuel => Scan.scanToken_comment _ " c\n1".toList rfl fuel

/-- C9 (as the code behaves): the source `1 == 2 != 3`, two operators of the equality level,
does not compile: the infix loop stops in front of `!=`, whose rule has precedence `PREC_NONE`;
the chunk holds the code of `1 == 2` and `OP_RETURN`. -/
theorem equality_chain_is_not_compiled :
    (compile exampleOps 50 "1 == 2 != 3".toList initChunk (startState Int)).bind
        (fun r => Res.done (r.1, r.2.chunk.code, r.2.stderr)) =
      Res.done (false, [0, 0, 0, 1, 4, 13],
        [Diagnostic.compileError 1 " at '!='".toList "Expect end of expression".toList]) := by
  decide!

/-- C10: entered with one of the operator tokens `==`, `>`, `>=`, `<`, `<=`, `+`, `-`, `*`, `/`
as previous token, `binary` compiles the right operand at the precedence of the operator plus
one and then appends exactly the opcodes of the spec's table for that operator, each with the
line of the previous token; nothing else of the state changes. -/
theorem binary_emits_table_opcodes (D : Type) (ops : DoubleOps D) (n : Nat) (st st1 : State D)
    (opcodes : List OpCode)
    (hspec : specBinaryOpcodes st.parser.previous.type = some opcodes)
    (h : parsePrecedence ops n ((getRule st.parser.previous.type).precedence + 1) st =
      Res.done st1) :
    binary ops (n + 1) st = Res.done (withOpcodes st1 opcodes) := by
  rw [binary, h]
  simp only [Res.bind_done]
  unfold specBinaryOpcodes at hspec
  split at hspec <;> cases hspec <;>
    simp [binaryEmit, withOpcodes, emitBytes, emitByte, writeChunk, *]

/-- Witness of `binary_emits_table_opcodes`: entered after the `+` of `1 + 2`, `binary` compiles
the operand `2` and appends `OP_ADD`. -/
theorem binary_emits_table_opcodes_witness :
    binary exampleOps 6 binaryEntryExample =
      Res.done (withOpcodes binaryOperandExample [OpCode.OP_ADD]) :=
  binary_emits_table_opcodes Int exampleOps 5 binaryEntryExample binaryOperandExample
    [OpCode.OP_ADD] rfl (by decide!)


open Compiler VMachine

/-- C11: `OP_ADD` on two strings concatenates in operand order. In every state whose next
instruction is `OP_ADD` and whose two topmost stack values are the strings `a` (below) and `b`
(top), the instruction pops both and pushes one new string; its length is
`a.length + b.length`, its characters are those of `a` followed by those of `b`, the rest of
the stack is unchanged and the run goes on with the next instruction. In particular
`"foo" + "bar"` prints foobar. -/
theorem add_concatenates_strings (D : Type) (ops : DoubleOps D) (n : Nat) (st : State D)
    (ia ib : Nat) (a b : ObjString) (rest : List (Value D))
    (h : st.vm.chunk.code.get? st.vm.ip = some OpCode.OP_ADD.toByte)
    (hs : st.vm.stack = Value.OBJ_VAL ib :: Value.OBJ_VAL ia :: rest)
    (ha : st.heap.get? ia = some a) (hb : st.heap.get? ib = some b)
    (hla : a.length ≤ a.chars.length) (hlb : b.length ≤ b.chars.length)
    (hlen : st.vm.stack.length ≤ STACK_MAX) :
    (run ops (n + 1) st = run ops n (afterConcatenate st a b rest) ∧
     (afterConcatenate st a b rest).vm.stack = Value.OBJ_VAL st.heap.length :: rest ∧
     (afterConcatenate st a b rest).vm.ip = st.vm.ip + 1 ∧
     ∃ o, (afterConcatenate st a b rest).heap.get? st.heap.length = some o ∧
       o.length = a.length + b.length ∧
       o.chars.take o.length = a.chars.take a.length ++ b.chars.take b.length ∧
       o.chars = a.chars.take a.length ++ b.chars.take b.length ++ ['\x00']) ∧
    (interpret exampleOps 50 "\"foo\" + \"bar\"".toList (startState Int)).bind
        (fun r => Res.done (r.1, r.2.stdout)) =
      Res.done (InterpretResult.INTERPRET_OK,
        [Printed.text "foobar".toList, Printed.text ['\n']]) := by
  refine ⟨⟨run_add_strings ops n st ia ib a b rest h hs ha hb hla hlb hlen, rfl, rfl,
    ⟨ObjType.OBJ_STRING, st.vm.objects, a.length + b.length,
      a.chars.take a.length ++ b.chars.take b.length ++ ['\x00']⟩,
    ?_, rfl, ?_, rfl⟩, interpret_foo_bar⟩
  · simp [afterConcatenate]
  · have h1 : (a.chars.take a.length ++ b.chars.take b.length).length =
        a.length + b.length := by
      simp [List.length_take, Nat.min_eq_left hla, Nat.min_eq_left hlb]
    show (a.chars.take a.length ++ b.chars.take b.length ++ ['\x00']).take
      (a.length + b.length) = _
    rw [List.take_append_of_le_length (by omega), ← h1, List.take_length]

/-- Witness of `add_concatenates_strings`: the strings `foo` and `bar` on the stack. -/
theorem add_concatenates_strings_witness :
    run exampleOps 2 concatExample =
      run exampleOps 1 (afterConcatenate concatExample
        ⟨ObjType.OBJ_STRING, none, 3, "foo\x00".toList⟩
        ⟨ObjType.OBJ_STRING, some 0, 3, "bar\x00".toList⟩ []) :=
  (add_concatenates_strings Int exampleOps 1 concatExample 0 1 _ _ [] rfl rfl rfl rfl
    (by decide) (by decide) (by decide)).1.1

/-- C12: `OP_ADD` with operands that are neither two strings nor two numbers is a runtime
error that ends the run. Every object is a string (`ObjType` has one member), so the operands
are mismatched when they are not both objects and not both numbers. In every such state the
instruction reports "Operands must be two numbers or two strings." with the line of the
instruction, empties the stack, and `run` returns the runtime-error result without printing
on standard output. In particular `interpret` of `1 + "a"` returns the runtime-error result
with no standard output. -/
theorem add_mismatch_is_runtime_error (D : Type) (ops : DoubleOps D) (n : Nat) (st : State D)
    (v0 v1 : Value D) (rest : List (Value D)) (line : Nat)
    (h : st.vm.chunk.code.get? st.vm.ip = some OpCode.OP_ADD.toByte)
    (hline : st.vm.chunk.lines.get? st.vm.ip = some line)
    (hs : st.vm.stack = v0 :: v1 :: rest)
    (hvalid : ∀ a, v0 = Value.OBJ_VAL a → a < st.heap.length)
    (hstr : (IS_OBJ v0 && IS_OBJ v1) = false)
    (hnum : (IS_NUMBER v0 && IS_NUMBER v1) = false) :
    (∃ st', run ops (n + 1) st = Res.done (InterpretResult.INTERPRET_RUNTIME_ERROR, st') ∧
      st'.stderr = st.stderr ++
        [Diagnostic.runtimeError "Operands must be two numbers or two strings.".toList line] ∧
      st'.vm.stack = [] ∧ st'.stdout = st.stdout) ∧
    (interpret exampleOps 50 "1 + \"a\"".toList (startState Int)).bind
        (fun r => Res.done (r.1, r.2.stdout, r.2.vm.stack, r.2.stderr)) =
      Res.done (InterpretResult.INTERPRET_RUNTIME_ERROR, [], [],
        [Diagnostic.runtimeError "Operands must be two numbers or two strings.".toList 1]) :=
  ⟨⟨_, run_add_mismatch ops n st v0 v1 rest line h hline hs hvalid hstr hnum, rfl, rfl, rfl⟩,
    interpret_number_plus_string⟩

/-- Witness of `add_mismatch_is_runtime_error`: the number `1` below the string `a`. -/
theorem add_mismatch_is_runtime_error_witness :
    ∃ st', run exampleOps 1 mismatchExample =
        Res.done (InterpretResult.INTERPRET_RUNTIME_ERROR, st') ∧
      st'.stderr = [Diagnostic.runtimeError
        "Operands must be two numbers or two strings.".toList 1] ∧
      st'.vm.stack = [] ∧ st'.stdout = [] :=
  (add_mismatch_is_runtime_error Int exampleOps 0 mismatchExample (Value.OBJ_VAL 0)
    (Value.NUMBER_VAL 1) [] 1 rfl rfl rfl
    (fun a ha => by cases ha; decide) rfl rfl).1

/-- C13: the falsey rule. A value is falsey exactly when it is nil or the boolean false, so
every number and every string is truthy; `OP_NOT` pops one value `v` and pushes the boolean
`isFalsey v`, and the run goes on. `!0` prints false, `!""` prints false, `!nil` prints
true. -/
theorem falsey_rule (D : Type) (ops : DoubleOps D) (n : Nat) (st : State D) (v : Value D)
    (rest : List (Value D))
    (h : st.vm.chunk.code.get? st.vm.ip = some OpCode.OP_NOT.toByte)
    (hs : st.vm.stack = v :: rest) (hlen : st.vm.stack.length ≤ STACK_MAX) :
    (∀ w : Value D, isFalsey w = true ↔ w = Value.NIL_VAL ∨ w = Value.BOOL_VAL false) ∧
    (∀ x : D, isFalsey (Value.NUMBER_VAL x) = false) ∧
    (∀ a : Nat, isFalsey (Value.OBJ_VAL a : Value D) = false) ∧
    run ops (n + 1) st = run ops n (stepTo st 1 (Value.BOOL_VAL (isFalsey v) :: rest)) ∧
    (interpret exampleOps 50 "!0".toList (startState Int)).bind
        (fun r => Res.done (r.1, r.2.stdout)) =
      Res.done (InterpretResult.INTERPRET_OK,
        [Printed.text "false".toList, Printed.text ['\n']]) ∧
    (interpret exampleOps 50 "!\"\"".toList (startState Int)).bind
        (fun r => Res.done (r.1, r.2.stdout)) =
      Res.done (InterpretResult.INTERPRET_OK,
        [Printed.text "false".toList, Printed.text ['\n']]) ∧
    (interpret exampleOps 50 "!nil".toList (startState Int)).bind
        (fun r => Res.done (r.1, r.2.stdout)) =
      Res.done (InterpretResult.INTERPRET_OK,
        [Printed.text "true".toList, Printed.text ['\n']]) :=
  ⟨isFalsey_iff, fun _ => rfl, fun _ => rfl, run_not ops n st v rest h hs hlen,
    interpret_not_zero, interpret_not_empty_string, interpret_not_nil⟩

/-- Witness of `falsey_rule`: `OP_NOT` applied to the number `0` pushes false. -/
theorem falsey_rule_witness :
    run exampleOps 2 notExample =
      run exampleOps 1 (stepTo notExample 1 [Value.BOOL_VAL false]) :=
  (falsey_rule Int exampleOps 1 notExample (Value.NUMBER_VAL 0) [] rfl rfl
    (by decide)).2.2.2.1

/-- C14: only the first compile error of a compilation is surfaced. Whenever `compile`
returns, it has appended at most one diagnostic to the error stream; it returns false exactly
when it appended one and true exactly when it appended none. Once panic mode is set `errorAt`
returns the state unchanged: nothing is printed and no parser state changes. -/
theorem only_first_compile_error (D : Type) (ops : DoubleOps D) (n : Nat) (source : List Char)
    (chunk : Chunk D) (st : State D) (b : Bool) (st' : State D)
    (h : compile ops n source chunk st = Res.done (b, st')) :
    (∃ ds, st'.stderr = st.stderr ++ ds ∧ ds.length ≤ 1 ∧
      (b = false ↔ ds.length = 1) ∧ (b = true ↔ ds.length = 0)) ∧
    (∀ (s : State D) tok msg, s.parser.panicMode = true → errorAt s tok msg = s) := by
  refine ⟨?_, errorAt_panic⟩
  rcases compile_reports ops n source chunk st b st' h with ⟨hb, hs⟩ | ⟨hb, d, hs⟩
  · exact ⟨[], by rw [hs, List.append_nil], by simp, by simp [hb], by simp [hb]⟩
  · exact ⟨[d], hs, by simp, by simp [hb], by simp [hb]⟩

/-- Witness of `only_first_compile_error`: for the source `) 1 2 3` `compile` returns false
after one diagnostic. -/
theorem only_first_compile_error_witness :
    ∃ st', compile exampleOps 50 ") 1 2 3".toList initChunk (startState Int) =
        Res.done (false, st') ∧
      ∃ ds, st'.stderr = ds ∧ ds.length ≤ 1 ∧ (false = false ↔ ds.length = 1) := by
  obtain ⟨⟨b, st'⟩, hc, hb⟩ := Res.bind_done_eq compile_stray_paren
  cases hb
  obtain ⟨ds, h1, h2, h3, _⟩ := (only_first_compile_error Int exampleOps 50 ") 1 2 3".toList
    initChunk (startState Int) false st' hc).1
  exact ⟨st', hc, ds, by simpa [startState] using h1, h2, h3⟩

/-- C17: a compile error prevents execution. When `compile` returns false, `interpret` returns
the compile-error result in the very state `compile` left: `run` is not entered, the chunk and
`ip` of the VM, the value stack and standard output are as before the call. And `interpret`
returns the compile-error result only when `compile` returned false. -/
theorem compile_error_prevents_execution (D : Type) (ops : DoubleOps D) (n : Nat)
    (source : List Char) (st : State D) :
    (∀ stc, compile ops n source initChunk st = Res.done (false, stc) →
      interpret ops n source st = Res.done (InterpretResult.INTERPRET_COMPILE_ERROR, stc) ∧
      stc.vm.chunk = st.vm.chunk ∧ stc.vm.ip = st.vm.ip ∧ stc.vm.stack = st.vm.stack ∧
      stc.stdout = st.stdout) ∧
    (∀ r st', interpret ops n source st = Res.done (r, st') →
      (r = InterpretResult.INTERPRET_COMPILE_ERROR ↔
        compile ops n source initChunk st = Res.done (false, st'))) := by
  have hfwd : ∀ stc, compile ops n source initChunk st = Res.done (false, stc) →
      interpret ops n source st = Res.done (InterpretResult.INTERPRET_COMPILE_ERROR, stc) := by
    intro stc hc
    simp [interpret, hc]
  refine ⟨fun stc hc => ⟨hfwd stc hc, compile_sameRun ops n source initChunk st false stc hc⟩,
    fun r st' hi => ⟨fun hr => ?_, fun hc => ?_⟩⟩
  · have hi2 := hi
    unfold interpret at hi2
    obtain ⟨⟨b, stc⟩, hc, hrest⟩ := Res.bind_eq_done hi2
    cases b with
    | false =>
      simp only [Bool.not_false, if_true] at hrest
      cases hrest
      exact hc
    | true =>
      simp only [Bool.not_true, Bool.false_eq_true, if_false] at hrest
      rcases run_result ops n _ (r, st') hrest with h1 | h1
      · rw [hr] at h1; cases h1
      · rw [hr] at h1; cases h1
  · have h2 := hfwd st' hc
    rw [hi] at h2
    cases h2
    rfl

/-- Witness of `compile_error_prevents_execution`: the source `) 1 2 3`. -/
theorem compile_error_prevents_execution_witness :
    ∃ stc, compile exampleOps 50 ") 1 2 3".toList initChunk (startState Int) =
        Res.done (false, stc) ∧
      interpret exampleOps 50 ") 1 2 3".toList (startState Int) =
        Res.done (InterpretResult.INTERPRET_COMPILE_ERROR, stc) ∧
      stc.vm.stack = [] ∧ stc.stdout = [] := by
  obtain ⟨⟨b, stc⟩, hc, hb⟩ := Res.bind_done_eq compile_stray_paren
  cases hb
  obtain ⟨h1, _, _, h2, h3⟩ := (compile_error_prevents_execution Int exampleOps 50
    ") 1 2 3".toList (startState Int)).1 stc hc
  exact ⟨stc, hc, h1, h2, h3⟩

/-- C18: on Ok exactly one line is printed, and the value printed is the one popped when the
run ended. Whenever `run` returns the Ok result in the state `st'`, the run has reached, by
passes through its loop that did not return, a state `s` at the head of the loop whose pass
returns Ok in `st'`. That pass read `OP_RETURN`, or read `OP_NEGATE` and pushed the negated
number, and entered the body of `case OP_RETURN` in the state `sr`, with standard output as at
the start of the run. There the value `v` on top of the stack of `sr` was popped, `printValue`
printed it as the one item `p`, and a line break followed: standard output received exactly
`p` and the line break, and the stack is that of `sr` without `v`. -/
theorem run_ok_prints_one_line (D : Type) (ops : DoubleOps D) (n : Nat) (st st' : State D)
    (h : run ops n st = Res.done (InterpretResult.INTERPRET_OK, st')) :
    ∃ s r sr v s1 s2 p,
      Reaches ops st s ∧ step ops s = Res.done (some InterpretResult.INTERPRET_OK, st') ∧
      READ_BYTE s = Res.done r ∧
      ((r.1 = OpCode.OP_RETURN.toByte ∧ sr = r.2) ∨
       (r.1 = OpCode.OP_NEGATE.toByte ∧ ∃ rv x, pop r.2 = Res.done rv ∧
          AS_NUMBER rv.1 = Res.done x ∧
          push rv.2 (Value.NUMBER_VAL (ops.neg x)) = Res.done sr)) ∧
      sr.stdout = st.stdout ∧ sr.vm.stack = v :: st'.vm.stack ∧
      pop sr = Res.done (v, s1) ∧ printValue s1 v = Res.done s2 ∧
      s2.stdout = st.stdout ++ [p] ∧
      st' = { s2 with stdout := s2.stdout ++ [Printed.text ['\n']] } ∧
      st'.stdout = st.stdout ++ [p, Printed.text ['\n']] ∧
      st'.vm.stack = s1.vm.stack ∧
      (∀ k (s0 : State D), run ops (k + 1) s0 = (step ops s0).bind (fun x =>
        match x.1 with
        | some result => Res.done (result, x.2)
        | none => run ops k x.2)) := by
  obtain ⟨s, r, sr, v, s1, s2, p, g1, g2, g3, g4, g5, g6, g7, g8, g9, g10, g11, g12⟩ :=
    run_ok_returns ops n st st' h
  exact ⟨s, r, sr, v, s1, s2, p, g1, g2, g3, g4, g5, g6, g7, g8, g9, g10, g11, g12,
    run_step ops⟩

/-- Witness of `run_ok_prints_one_line`: `OP_RETURN` with the number `7` on the stack; the
value popped and printed is that number. -/
theorem run_ok_prints_one_line_witness :
    ∃ st', run exampleOps 1 returnExample = Res.done (InterpretResult.INTERPRET_OK, st') ∧
      ∃ (sr : State Int) (v : Value Int) (p : Printed Int), sr.vm.stack = v :: st'.vm.stack ∧
        st'.stdout = [p, Printed.text ['\n']] := by
  have hrun := run_return_number exampleOps 0 returnExample 7 [] rfl rfl
  obtain ⟨s, r, sr, v, s1, s2, p, _, _, _, _, _, hstack, _, _, _, _, hout, _⟩ :=
    run_ok_prints_one_line Int exampleOps 1 returnExample _ hrun
  exact ⟨_, hrun, sr, v, p, hstack, hout⟩

/-- C19: the object registry. The registry is the list that starts at `vm.objects`; it holds
every object allocated so far (`RegistryInv`). That holds after `initVM` on an empty heap;
`takeString` and `copyString` link the object they create, whose address they return, in
front of the registry; `compile`, `run` and `interpret` keep it and only extend the heap; and
under it every address of the heap is in the registry. -/
theorem registry_holds_every_object (D : Type) (ops : DoubleOps D) :
    (∀ st : State D, st.heap = [] → RegistryInv (initVM st)) ∧
    (∀ (st : State D) chars length, RegistryInv st →
      (takeString st chars length).1 = st.heap.length ∧
      registry (takeString st chars length).2 = st.heap.length :: registry st ∧
      RegistryInv (takeString st chars length).2 ∧
      (copyString st chars length).1 = st.heap.length ∧
      registry (copyString st chars length).2 = st.heap.length :: registry st ∧
      RegistryInv (copyString st chars length).2) ∧
    (∀ n source chunk (st : State D) b st', RegistryInv st →
      compile ops n source chunk st = Res.done (b, st') →
      RegistryInv st' ∧ List.IsPrefix st.heap st'.heap) ∧
    (∀ n (st : State D) r, RegistryInv st → run ops n st = Res.done r →
      RegistryInv r.2 ∧ List.IsPrefix st.heap r.2.heap) ∧
    (∀ n source (st : State D) r, RegistryInv st → interpret ops n source st = Res.done r →
      RegistryInv r.2 ∧ List.IsPrefix st.heap r.2.heap) ∧
    (∀ st : State D, RegistryInv st → ∀ a, a < st.heap.length → a ∈ registry st) := by
  refine ⟨registryInv_start, fun st chars length hst => ?_,
    fun n source chunk st b st' hst h => compile_registry ops n source chunk st b st' hst h,
    fun n st r hst h => run_registry ops n st r hst h,
    fun n source st r hst h => interpret_registry ops n source st r hst h,
    registry_mem⟩
  obtain ⟨h1, h2, h3, _⟩ := allocateString_registry st chars length hst
  obtain ⟨h4, h5, h6, _⟩ := allocateString_registry st (chars.take length ++ ['\x00']) length
    hst
  exact ⟨h1, h2, h3, h4, h5, h6⟩

/-- Witness of `registry_holds_every_object`: after `interpret` of `"foo" + "bar"` in the
start state the registry holds the three strings, the concatenation first. -/
theorem registry_holds_every_object_witness :
    ∃ r, interpret exampleOps 50 "\"foo\" + \"bar\"".toList (startState Int) = Res.done r ∧
      RegistryInv r.2 ∧ registry r.2 = [2, 1, 0] := by
  obtain ⟨r, hr, hreg⟩ := Res.bind_done_eq interpret_registry_example
  have h0 : RegistryInv (startState Int) := rfl
  exact ⟨r, hr, ((registry_holds_every_object Int exampleOps).2.2.2.2.1 50 _ _ r h0 hr).1,
    hreg⟩

/-- C20: an unterminated string literal yields an error token and scanning continues. With
the scanner in front of a quote that is followed by no other quote (`t` is the rest of the
text), `scanToken` returns the error token whose text is "Unterminated string", on the line
where the text ends, and the next call of `scanToken` returns the end-of-input token. -/
theorem unterminated_string_is_error_token (s : Scanner) (k : Nat) (t : List Char)
    (hs : s.current = List.replicate k ' ' ++ '"' :: t) (hq : '"' ∉ t) (h0 : '\x00' ∉ t) :
    ∃ s1 s2,
      (∃ n, ∀ m, n ≤ m → Scan.scanToken m s =
        Res.done (⟨TokenType.TOKEN_ERROR, "Unterminated string".toList, 19,
          s.line + t.count '\n'⟩, s1)) ∧
      (∃ n, ∀ m, n ≤ m → Scan.scanToken m s1 =
        Res.done (⟨TokenType.TOKEN_EOF, [], 0, s.line + t.count '\n'⟩, s2)) :=
  ⟨_, _, Scan.scanToken_unterminated s k t hs hq h0,
    Scan.scanToken_eof ⟨'"' :: t, [], s.line + t.count '\n'⟩ 0 rfl⟩

/-- Witness of `unterminated_string_is_error_token`: the source `"ab`, a line break, `c`. -/
theorem unterminated_string_is_error_token_witness :
    ∃ s1 s2,
      (∃ n, ∀ m, n ≤ m → Scan.scanToken m (initScanner "\"ab\nc".toList) =
        Res.done (⟨TokenType.TOKEN_ERROR, "Unterminated string".toList, 19, 2⟩, s1)) ∧
      (∃ n, ∀ m, n ≤ m → Scan.scanToken m s1 =
        Res.done (⟨TokenType.TOKEN_EOF, [], 0, 2⟩, s2)) :=
  unterminated_string_is_error_token (initScanner "\"ab\nc".toList) 0 "ab\nc".toList rfl
    (by decide) (by decide)

/-- C15 (counterexample): compiling `@`. The scan error "Unexpected character." is reported
first and sets panic mode; then `parsePrecedence` advances onto the end-of-input token, whose
rule has no prefix handler, and "Expect expression." is not reported: the error stream is the
same before and after `parsePrecedence`. -/
theorem expect_expression_is_silent_in_panic_mode :
    (advance 50 (compileStart (startState Int) "@".toList initChunk)).bind (fun s1 =>
      (parsePrecedence exampleOps 50 PREC_ASSIGNMENT s1).bind (fun s2 =>
        Res.done (s2.parser.previous.type, (getRule s2.parser.previous.type).prefixRule,
          s1.stderr, s2.stderr))) =
      Res.done (TokenType.TOKEN_EOF, none,
        [Diagnostic.compileError 1 [] "Unexpected character.".toList],
        [Diagnostic.compileError 1 [] "Unexpected character.".toList]) := by
  decide!

/-- C15 (amended): a token without a prefix handler where an expression must start. When
`parsePrecedence` has advanced onto a token whose rule has no prefix handler, it returns at
once through `error` with "Expect expression.": the chunk is unchanged, the error flag is set,
and unless the parser was already in panic mode the diagnostic "Expect expression." at that
token is appended to the error stream (in panic mode nothing is appended). The error flag
stays set in every parsing function and in `consume`, and `compile` returns false exactly when
it is set at the end. Compiling `(` reports "Expect expression." at the end and returns
false. -/
theorem missing_prefix_is_compile_error (D : Type) (ops : DoubleOps D) (n : Nat)
    (p : Precedence) (st st1 : State D) (hinv : PanicInv st)
    (h1 : advance n st = Res.done st1)
    (hfn : (getRule st1.parser.previous.type).prefixRule = none) :
    parsePrecedence ops (n + 1) p st = Res.done (error st1 "Expect expression.".toList) ∧
    (error st1 "Expect expression.".toList).chunk = st.chunk ∧
    (error st1 "Expect expression.".toList).parser.hadError = true ∧
    (st1.parser.panicMode = false →
      (error st1 "Expect expression.".toList).stderr = st1.stderr ++
        [Diagnostic.compileError st1.parser.previous.line
          (errorLocation st1.parser.previous) "Expect expression.".toList]) ∧
    (st1.parser.panicMode = true →
      (error st1 "Expect expression.".toList).stderr = st1.stderr) ∧
    (∀ m, ParsePreserves ops (fun s => s.parser.hadError = true) m) ∧
    (∀ m (s s' : State D) ty msg, s.parser.hadError = true →
      consume m s ty msg = Res.done s' → s'.parser.hadError = true) ∧
    (∀ m source chunk (s0 : State D) b s', compile ops m source chunk s0 = Res.done (b, s') →
      (b = false ↔ s'.parser.hadError = true)) ∧
    (compile exampleOps 50 "(".toList initChunk (startState Int)).bind
        (fun r => Res.done (r.1, r.2.stderr, r.2.chunk.code)) =
      Res.done (false,
        [Diagnostic.compileError 1 " at end".toList "Expect expression.".toList], [13]) := by
  have hinv1 : PanicInv st1 :=
    advance_preserves (stepsPreserve_of (fun _ _ _ _ h => h) (fun _ _ h => h)
      errorAt_panicInv (fun _ _ _ h => h)) n st st1 hinv h1
  refine ⟨parsePrecedence_unhandled ops n p st st1 h1 hfn, ?_, ?_, ?_, ?_,
    parse_preserves ops stepsPreserve_hadError,
    fun m s s' ty msg hs hc => consume_preserves stepsPreserve_hadError m s s' ty msg hs hc,
    ?_, compile_open_paren⟩
  · rw [error, errorAt_chunk]
    exact advance_chunk n st st1 h1
  · exact errorAt_hadError _ _ _ hinv1
  · intro hp
    rw [error, errorAt_report st1 _ _ hp]
  · intro hp
    rw [error, errorAt_panic st1 _ _ hp]
  · intro m source chunk s0 b s' hc
    obtain ⟨_, _, s3, _, _, _, rfl, hb⟩ := compile_done ops m source chunk s0 b s' hc
    show b = false ↔ s3.parser.hadError = true
    rw [hb]
    cases s3.parser.hadError <;> simp

/-- Witness of `missing_prefix_is_compile_error`: with the end-of-input token as current
token and the scanner at the end of the text, `parsePrecedence` advances onto that token. -/
theorem missing_prefix_is_compile_error_witness :
    ∃ st1, advance 5 (shift (startState Int) ⟨TokenType.TOKEN_EOF, [], 0, 1⟩ ⟨[], [], 1⟩) =
        Res.done st1 ∧
      parsePrecedence exampleOps 6 PREC_ASSIGNMENT
        (shift (startState Int) ⟨TokenType.TOKEN_EOF, [], 0, 1⟩ ⟨[], [], 1⟩) =
        Res.done (error st1 "Expect expression.".toList) ∧
      (error st1 "Expect expression.".toList).chunk = (startState Int).chunk ∧
      (error st1 "Expect expression.".toList).parser.hadError = true := by
  have hadv : (advance 5 (shift (startState Int) ⟨TokenType.TOKEN_EOF, [], 0, 1⟩
      ⟨[], [], 1⟩)).bind
      (fun s => Res.done (getRule s.parser.previous.type).prefixRule) = Res.done none := by
    decide!
  obtain ⟨st1, h1, hfn⟩ := Res.bind_done_eq hadv
  obtain ⟨g1, g2, g3, _⟩ := missing_prefix_is_compile_error Int exampleOps 5 PREC_ASSIGNMENT
    (shift (startState Int) ⟨TokenType.TOKEN_EOF, [], 0, 1⟩ ⟨[], [], 1⟩) st1
    (fun hp => by cases hp) h1 hfn
  exact ⟨st1, h1, g1, g2, g3⟩

/-- C16: a missing closing parenthesis is reported as such. For every source `e` for which
`compile` returns true, `compile` of `(` followed by `e` returns false (with enough fuel it
returns), and what it appends to the error stream is the one diagnostic
"Expect ')' after expression." at the end of the input. -/
theorem missing_close_paren_is_reported (D : Type) (ops : DoubleOps D) (n : Nat)
    (e : List Char) (chunk : Chunk D) (st st' : State D)
    (h : compile ops n e chunk st = Res.done (true, st')) :
    ∃ st'' line,
      (∃ k, ∀ m, k ≤ m → compile ops m ('(' :: e) chunk st = Res.done (false, st'')) ∧
      st''.stderr = st.stderr ++ [Diagnostic.compileError line " at end".toList
        "Expect ')' after expression.".toList] :=
  compile_unclosed ops n e chunk st st' h

/-- Witness of `missing_close_paren_is_reported`: the source `1` compiles, `(1` does not. -/
theorem missing_close_paren_is_reported_witness :
    ∃ st'' line,
      (∃ k, ∀ m, k ≤ m → compile exampleOps m "(1".toList initChunk (startState Int) =
        Res.done (false, st'')) ∧
      st''.stderr = [Diagnostic.compileError line " at end".toList
        "Expect ')' after expression.".toList] := by
  obtain ⟨⟨b, st'⟩, hc, hb⟩ := Res.bind_done_eq compile_number_one
  cases hb
  exact missing_close_paren_is_reported Int exampleOps 50 "1".toList initChunk (startState Int)
    st' hc


open Compiler VMachine

/-- C21 (counterexample): a string literal when the pool is full. With 256 constants in the
pool and the string token `"a"` as previous token, `string` stores the new string constant at
index 256, reports "Too many constants in one chunk." and emits `OP_CONSTANT` with the
operand 0, which is the index of another constant, the number 1. -/
theorem string_operand_is_zero_when_pool_is_full :
    (string poolFullExample).chunk.code = [OpCode.OP_CONSTANT.toByte, 0] ∧
    (string poolFullExample).chunk.constants.get? 256 = some (Value.OBJ_VAL 0) ∧
    (string poolFullExample).chunk.constants.get? 0 = some (Value.NUMBER_VAL 1) ∧
    (string poolFullExample).heap = [⟨ObjType.OBJ_STRING, none, 1, ['a', '\x00']⟩] ∧
    (string poolFullExample).stderr =
      [Diagnostic.compileError 1 " at '\"a\"'".toList
        "Too many constants in one chunk.".toList] := by
  decide!

/-- C21 (amended): a string literal compiles to a constant with the quotes trimmed. When the
previous token is a string token whose lexeme is a quote, the characters `mid` and a quote,
`string` allocates one string of length `mid.length` with the characters `mid` and a
terminator after them, and appends it to the constant pool. When the pool held at most 255
constants, `OP_CONSTANT` is emitted with the index of that constant and nothing else changes.
When it held more, the operand emitted is 0; outside panic mode the error "Too many constants
in one chunk." is then reported at the string token and both error flags are set, in panic
mode nothing is reported. -/
theorem string_literal_is_trimmed_constant (D : Type) (st : State D) (mid rest : List Char)
    (hstart : st.parser.previous.start = '"' :: (mid ++ '"' :: rest))
    (hlen : st.parser.previous.length = mid.length + 2) :
    (string st).heap =
      st.heap ++ [⟨ObjType.OBJ_STRING, st.vm.objects, mid.length, mid ++ ['\x00']⟩] ∧
    (string st).chunk.constants = st.chunk.constants ++ [Value.OBJ_VAL st.heap.length] ∧
    (st.chunk.constants.length ≤ 255 →
      (string st).chunk.code =
        st.chunk.code ++ [OpCode.OP_CONSTANT.toByte, st.chunk.constants.length] ∧
      (string st).chunk.constants.get? st.chunk.constants.length =
        some (Value.OBJ_VAL st.heap.length) ∧
      (string st).parser = st.parser ∧ (string st).stderr = st.stderr) ∧
    (255 < st.chunk.constants.length →
      (string st).chunk.code = st.chunk.code ++ [OpCode.OP_CONSTANT.toByte, 0] ∧
      (st.parser.panicMode = false →
        (string st).stderr = st.stderr ++
          [Diagnostic.compileError st.parser.previous.line
            (errorLocation st.parser.previous) "Too many constants in one chunk.".toList] ∧
        (string st).parser.hadError = true ∧ (string st).parser.panicMode = true) ∧
      (st.parser.panicMode = true →
        (string st).stderr = st.stderr ∧ (string st).parser = st.parser)) := by
  rw [string_literal st mid rest hstart hlen]
  refine ⟨(emitConstant_heap _ _).1, (emitConstant_heap _ _).2, ?_, ?_⟩
  · intro h
    have hr := emitConstant_room
      ({ st with
         heap := st.heap ++ [⟨ObjType.OBJ_STRING, st.vm.objects, mid.length, mid ++ ['\x00']⟩],
         vm := { st.vm with objects := some st.heap.length } } : State D)
      (Value.OBJ_VAL st.heap.length) h
    rw [hr]
    refine ⟨rfl, ?_, rfl, rfl⟩
    show (st.chunk.constants ++ [Value.OBJ_VAL st.heap.length]).get? st.chunk.constants.length =
      some (Value.OBJ_VAL st.heap.length)
    rw [List.get?_eq_getElem?, List.getElem?_concat_length]
  · intro h
    refine ⟨emitConstant_full_code _ _ h, ?_, ?_⟩
    · intro hp
      exact emitConstant_full_report _ _ h hp
    · intro hp
      exact emitConstant_full_silent _ _ h hp

/-- Witness of `string_literal_is_trimmed_constant`: the string token `"a"` and an empty
pool. -/
theorem string_literal_is_trimmed_constant_witness :
    (string stringExample).heap = [⟨ObjType.OBJ_STRING, none, 1, ['a', '\x00']⟩] ∧
    (string stringExample).chunk.constants = [Value.OBJ_VAL 0] ∧
    (string stringExample).chunk.code = [OpCode.OP_CONSTANT.toByte, 0] := by
  obtain ⟨h1, h2, h3, _⟩ :=
    string_literal_is_trimmed_constant Int stringExample ['a'] [] rfl rfl
  exact ⟨h1, h2, (h3 (by decide)).1⟩

/-- C22: unary operators emit the operand first and bind tighter than every binary operator.
`unary` parses its operand with `parsePrecedence` at `PREC_UNARY` and then emits `OP_NEGATE`
for a minus sign and `OP_NOT` for a bang: the code is the code of the operand followed by that
opcode, the constants are those of the operand. Every token with an infix handler has a
precedence below `PREC_UNARY`, so the operand ends in front of a binary operator. For number
literals `a` and `b`, `-a + b` compiles to the code of `a`, `OP_NEGATE`, the code of `b`,
`OP_ADD`, and `!a == b` to the code of `a`, `OP_NOT`, the code of `b`, `OP_EQUAL`. -/
theorem unary_emits_operand_first (D : Type) (ops : DoubleOps D) (n : Nat) (st st1 : State D)
    (h : parsePrecedence ops n PREC_UNARY st = Res.done st1) :
    (st.parser.previous.type = TokenType.TOKEN_MINUS →
      ∃ st2, unary ops (n + 1) st = Res.done st2 ∧
        st2.chunk.code = st1.chunk.code ++ [OpCode.OP_NEGATE.toByte] ∧
        st2.chunk.constants = st1.chunk.constants) ∧
    (st.parser.previous.type = TokenType.TOKEN_BANG →
      ∃ st2, unary ops (n + 1) st = Res.done st2 ∧
        st2.chunk.code = st1.chunk.code ++ [OpCode.OP_NOT.toByte] ∧
        st2.chunk.constants = st1.chunk.constants) ∧
    (∀ ty, (getRule ty).infixRule ≠ none → (getRule ty).precedence < PREC_UNARY) ∧
    (∀ (s : State D) (a b : List Char), Scan.IsNumberLexeme a → Scan.IsNumberLexeme b →
      (∃ s', (∃ k, ∀ m, k ≤ m →
          compile ops m ('-' :: (a ++ ' ' :: '+' :: ' ' :: b)) initChunk s =
            Res.done (true, s')) ∧
        s'.chunk.code = [OpCode.OP_CONSTANT.toByte, 0, OpCode.OP_NEGATE.toByte,
          OpCode.OP_CONSTANT.toByte, 1, OpCode.OP_ADD.toByte, OpCode.OP_RETURN.toByte]) ∧
      (∃ s', (∃ k, ∀ m, k ≤ m →
          compile ops m ('!' :: (a ++ ' ' :: '=' :: '=' :: ' ' :: b)) initChunk s =
            Res.done (true, s')) ∧
        s'.chunk.code = [OpCode.OP_CONSTANT.toByte, 0, OpCode.OP_NOT.toByte,
          OpCode.OP_CONSTANT.toByte, 1, OpCode.OP_EQUAL.toByte, OpCode.OP_RETURN.toByte])) := by
  have hu := unary_eq ops n st st1 h
  refine ⟨?_, ?_, rules_below_unary, ?_⟩
  · intro hty
    rw [hty] at hu
    exact ⟨_, hu, rfl, rfl⟩
  · intro hty
    rw [hty] at hu
    exact ⟨_, hu, rfl, rfl⟩
  · intro s a b ha hb
    obtain ⟨s1, h1, h2, _⟩ := compile_negate_binary ops s a b TokenType.TOKEN_PLUS
      ['+'] [OpCode.OP_ADD] ha hb rfl rfl
    obtain ⟨s2, h3, h4, _⟩ := compile_not_binary ops s a b TokenType.TOKEN_EQUAL_EQUAL
      ['=', '='] [OpCode.OP_EQUAL] ha hb rfl rfl
    exact ⟨⟨s1, h1, h2⟩, ⟨s2, h3, h4⟩⟩

/-- Witness of `unary_emits_operand_first`: `unary` called for the source `-1`. -/
theorem unary_emits_operand_first_witness :
    ∃ st2, unary exampleOps 6 negateExample = Res.done st2 ∧
      st2.chunk.code = [OpCode.OP_CONSTANT.toByte, 0, OpCode.OP_NEGATE.toByte] ∧
      st2.chunk.constants = [Value.NUMBER_VAL 1] := by
  obtain ⟨st1, h1, h2⟩ := Res.bind_done_eq parsePrecedence_negateExample
  obtain ⟨st2, g1, g2, g3⟩ :=
    (unary_emits_operand_first Int exampleOps 5 negateExample st1 h1).1 rfl
  refine ⟨st2, g1, ?_, ?_⟩
  · rw [g2, (Prod.mk.inj h2).1]; rfl
  · rw [g3, (Prod.mk.inj h2).2]

/-- C23: grouping emits no bytecode of its own. `grouping` parses an expression and consumes
the closing parenthesis, and the chunk it leaves is the chunk of the expression. For every
source text `e` that `compile` accepts, `compile` accepts `(e)` and produces the same
instruction bytes, the same constant pool and the same heap. The text of a C string holds no
terminator, and `strtod` reads the number at the start of a text that begins with a digit, so
that a closing parenthesis appended to the text does not change its result. -/
theorem grouping_emits_no_bytecode (D : Type) (ops : DoubleOps D)
    (hstrtod : ∀ t, Scan.isDigit (Scan.deref t) = true →
      ops.strtod (t ++ [')']) = ops.strtod t)
    (n : Nat) (e : List Char) (chunk : Chunk D) (st st' : State D) (hnul : '\x00' ∉ e)
    (h : compile ops n e chunk st = Res.done (true, st')) :
    (∃ st'', (∃ k, ∀ m, k ≤ m →
        compile ops m ('(' :: (e ++ [')'])) chunk st = Res.done (true, st'')) ∧
      st''.chunk.code = st'.chunk.code ∧ st''.chunk.constants = st'.chunk.constants ∧
      st''.heap = st'.heap) ∧
    (∀ m (s s1 s2 : State D), parsePrecedence ops m PREC_ASSIGNMENT s = Res.done s1 →
      consume m s1 TokenType.TOKEN_RIGHT_PAREN "Expect ')' after expression.".toList =
        Res.done s2 →
      grouping ops (m + 1) s = Res.done s2 ∧ s2.chunk = s1.chunk) := by
  refine ⟨compile_grouping ops hstrtod n e chunk st st' hnul h, ?_⟩
  intro m s s1 s2 h1 h2
  refine ⟨?_, consume_chunk m s1 s2 _ _ h2⟩
  rw [grouping, h1]
  exact h2

/-- Witness of `grouping_emits_no_bytecode`: the sources `1 + 2` and `(1 + 2)`. -/
theorem grouping_emits_no_bytecode_witness :
    ∃ st'', (∃ k, ∀ m, k ≤ m →
        compile exampleOps m "(1 + 2)".toList initChunk (startState Int) =
          Res.done (true, st'')) ∧
      st''.chunk.code = [0, 0, 0, 1, 7, 13] ∧
      st''.chunk.constants = [Value.NUMBER_VAL 1, Value.NUMBER_VAL 2] := by
  obtain ⟨⟨b, st'⟩, hc, hb⟩ := Res.bind_done_eq compile_one_plus_two
  obtain ⟨rfl, hcode, hconst⟩ : b = true ∧ st'.chunk.code = [0, 0, 0, 1, 7, 13] ∧
      st'.chunk.constants = [Value.NUMBER_VAL 1, Value.NUMBER_VAL 2] := by
    simpa using hb
  obtain ⟨st'', g1, g2, g3, _⟩ := (grouping_emits_no_bytecode Int exampleOps
    (fun t _ => exampleOps_strtod_close t) 50 "1 + 2".toList initChunk (startState Int) st'
    (by decide) hc).1
  exact ⟨st'', g1, g2.trans hcode, g3.trans hconst⟩

/-- C24: the chunk invariant. Whenever `compile`, called with a fresh chunk as `interpret`
does, returns, with or without an error, the chunk has as many instruction bytes as line
entries; the same holds for every chunk that had this property before the call. Every byte is
written by `emitByte`, which appends the byte to the code and the line of the parser's
previous token to the line table; reporting an error, adding a constant, allocating a string
and reading a token leave the code and the line table as they are. -/
theorem chunk_lines_match_code (D : Type) (ops : DoubleOps D) (n : Nat) (source : List Char)
    (st : State D) (b : Bool) (st' : State D)
    (h : compile ops n source initChunk st = Res.done (b, st')) :
    st'.chunk.code.length = st'.chunk.lines.length ∧
    (∀ (chunk : Chunk D) m src (s : State D) b1 s1, chunk.code.length = chunk.lines.length →
      compile ops m src chunk s = Res.done (b1, s1) →
      s1.chunk.code.length = s1.chunk.lines.length) ∧
    (∀ (s : State D) byte,
      (emitByte s byte).chunk.code = s.chunk.code ++ [byte] ∧
      (emitByte s byte).chunk.lines = s.chunk.lines ++ [s.parser.previous.line]) ∧
    (∀ (s : State D) tok msg, (errorAt s tok msg).chunk = s.chunk) ∧
    (∀ (s : State D) v, (makeConstant s v).2.chunk.code = s.chunk.code ∧
      (makeConstant s v).2.chunk.lines = s.chunk.lines) ∧
    (∀ (s : State D) chars length, (copyString s chars length).2.chunk = s.chunk) ∧
    (∀ m (s s1 : State D), advance m s = Res.done s1 → s1.chunk = s.chunk) := by
  refine ⟨?_, ?_, fun _ _ => ⟨rfl, rfl⟩, errorAt_chunk, ?_, fun _ _ _ => rfl, advance_chunk⟩
  · exact compile_preserves ops stepsPreserve_linesInv n source initChunk st b st' rfl h
  · intro chunk m src s b1 s1 hc hm
    exact compile_preserves ops stepsPreserve_linesInv m src chunk s b1 s1 hc hm
  · intro s v
    rcases makeConstant_cases s v with h2 | h2
    · rw [h2]; exact ⟨rfl, rfl⟩
    · rw [h2, errorAt_chunk]; exact ⟨rfl, rfl⟩

/-- Witness of `chunk_lines_match_code`: the source `) 1 2 3`, which is rejected. -/
theorem chunk_lines_match_code_witness :
    ∃ st', compile exampleOps 50 ") 1 2 3".toList initChunk (startState Int) =
        Res.done (false, st') ∧
      st'.chunk.code.length = st'.chunk.lines.length := by
  obtain ⟨⟨b, st'⟩, hc, hb⟩ := Res.bind_done_eq compile_stray_paren
  cases hb
  exact ⟨st', hc, (chunk_lines_match_code Int exampleOps 50 ") 1 2 3".toList (startState Int)
    false st' hc).1⟩

/-- C25: keyword recognition is exact. For an identifier lexeme, a letter or underscore `c`
followed by letters, digits and underscores `w`, between `start` and `current` of the scanner,
`identifierType` returns the kind of a keyword exactly when the lexeme is the text of that
keyword, and `TOKEN_IDENTIFIER` when it is the text of no keyword; `scanToken` returns a token
of that kind for the lexeme. The lexemes `fals`, `falsey`, `t` and `f` are identifiers. -/
theorem keyword_recognition_is_exact (s : Scanner) (c : Char) (w : List Char)
    (hc : Scan.isAlpha c = true) (hw : ∀ x ∈ w, (Scan.isAlpha x || Scan.isDigit x) = true)
    (h : s.start = (c :: w) ++ s.current) :
    (∀ kw ∈ Scan.keywordTable, Scan.identifierType s = kw.2 ↔ c :: w = kw.1) ∧
    ((∀ kw ∈ Scan.keywordTable, c :: w ≠ kw.1) →
      Scan.identifierType s = TokenType.TOKEN_IDENTIFIER) ∧
    (∀ (s0 : Scanner) (k : Nat) (r : List Char),
      (Scan.isAlpha (Scan.deref r) || Scan.isDigit (Scan.deref r)) = false →
      s0.current = List.replicate k ' ' ++ c :: (w ++ r) →
      ∃ j, ∀ m, j ≤ m → Scan.scanToken m s0 =
        Res.done (⟨Scan.identifierType s, c :: (w ++ r), w.length + 1, s0.line⟩,
          ⟨c :: (w ++ r), r, s0.line⟩)) ∧
    Scan.identifierType ⟨"fals".toList, [], 1⟩ = TokenType.TOKEN_IDENTIFIER ∧
    Scan.identifierType ⟨"falsey".toList, [], 1⟩ = TokenType.TOKEN_IDENTIFIER ∧
    Scan.identifierType ⟨"t".toList, [], 1⟩ = TokenType.TOKEN_IDENTIFIER ∧
    Scan.identifierType ⟨"f".toList, [], 1⟩ = TokenType.TOKEN_IDENTIFIER := by
  have he := Scan.identifierType_eq s (c :: w) h
  obtain ⟨e1, e2, e3, e4, _⟩ := Scan.identifierType_examples
  refine ⟨?_, ?_, ?_, e1, e2, e3, e4⟩
  · intro kw hkw
    rw [he]
    exact Scan.keywordKind_iff (c :: w) kw hkw
  · intro hne
    rw [he]
    exact Scan.keywordKind_other (c :: w) hne
  · intro s0 k r hr hs
    rw [he]
    exact Scan.scanToken_word s0 k c w r hc hw hr hs

/-- Witness of `keyword_recognition_is_exact`: the lexeme `false`. -/
theorem keyword_recognition_is_exact_witness :
    Scan.identifierType ⟨"false".toList, [], 1⟩ = TokenType.TOKEN_FALSE :=
  ((keyword_recognition_is_exact ⟨"false".toList, [], 1⟩ 'f' "alse".toList (by decide)
    (by decide) rfl).1 ("false".toList, TokenType.TOKEN_FALSE)
      (by simp [Scan.keywordTable])).2 rfl

/-- C26: compiled code is stack-balanced. For every source text that `compile` accepts, the
walk over the emitted instructions with their stack effects, from an empty stack, finds at
every instruction the values it needs and reaches the final `OP_RETURN`, the last byte of the
code, with exactly one value on the stack. -/
theorem compiled_code_is_stack_balanced (D : Type) (ops : DoubleOps D) (n : Nat)
    (source : List Char) (st st' : State D)
    (h : compile ops n source initChunk st = Res.done (true, st')) :
    stackWalk st'.chunk.code = some 1 :=
  compile_balanced ops n source st st' h

/-- Witness of `compiled_code_is_stack_balanced`: the source `1 + 2`. -/
theorem compiled_code_is_stack_balanced_witness :
    ∃ st', compile exampleOps 50 "1 + 2".toList initChunk (startState Int) =
        Res.done (true, st') ∧ stackWalk st'.chunk.code = some 1 := by
  obtain ⟨⟨b, st'⟩, hc, hb⟩ := Res.bind_done_eq compile_one_plus_two
  obtain ⟨rfl, _⟩ : b = true ∧ st'.chunk.code = [0, 0, 0, 1, 7, 13] ∧
      st'.chunk.constants = [Value.NUMBER_VAL 1, Value.NUMBER_VAL 2] := by
    simpa using hb
  exact ⟨st', hc, compiled_code_is_stack_balanced Int exampleOps 50 "1 + 2".toList
    (startState Int) st' hc⟩

/-- C28: `parsePrecedence` never calls a missing infix handler. Every token kind whose rule
has the precedence `PREC_ASSIGNMENT` or higher has the infix handler `binary`. The callers of
`parsePrecedence` pass `PREC_ASSIGNMENT` (`expression`, `grouping`), `PREC_UNARY` (`unary`)
and the precedence of the operator plus one (`binary`), all at least `PREC_ASSIGNMENT`. With
such a minimum precedence the call of a missing handler, which is the only undefined step of
the compiler, is never reached: not by `parsePrecedence`, not by its loop over the infix
operators, and not by `compile`, for every source text and every state. -/
theorem infix_handler_is_never_missing (D : Type) (ops : DoubleOps D) :
    (∀ ty, PREC_ASSIGNMENT ≤ (getRule ty).precedence →
      (getRule ty).infixRule = some ParseFn.binary) ∧
    (∀ n (st : State D), expression ops n st = parsePrecedence ops n PREC_ASSIGNMENT st) ∧
    PREC_ASSIGNMENT ≤ PREC_UNARY ∧
    (∀ ty, PREC_ASSIGNMENT ≤ (getRule ty).precedence + 1) ∧
    (∀ n p (st : State D), PREC_ASSIGNMENT ≤ p →
      parsePrecedence ops n p st ≠ Res.undefinedBehaviour) ∧
    (∀ n p (st : State D), PREC_ASSIGNMENT ≤ p →
      infixLoop ops n p st ≠ Res.undefinedBehaviour) ∧
    (∀ n (st : State D), unary ops n st ≠ Res.undefinedBehaviour ∧
      binary ops n st ≠ Res.undefinedBehaviour ∧ grouping ops n st ≠ Res.undefinedBehaviour) ∧
    (∀ n source chunk (st : State D), compile ops n source chunk st ≠
      Res.undefinedBehaviour) := by
  refine ⟨rules_infix_handler, fun _ _ => rfl, by decide, ?_, ?_, ?_, ?_, ?_⟩
  · intro ty
    exact Nat.le_add_left _ _
  · intro n p st hp
    exact (parseDefined ops n).1 p st hp
  · intro n p st hp
    exact (parseDefined ops n).2.1 p st hp
  · intro n st
    exact ⟨(parseDefined ops n).2.2.2.2.2 st, (parseDefined ops n).2.2.2.1 st,
      (parseDefined ops n).2.2.2.2.1 st⟩
  · intro n source chunk st
    exact compile_defined ops n source chunk st

/-- Witness of `infix_handler_is_never_missing`: the plus sign. -/
theorem infix_handler_is_never_missing_witness :
    (getRule TokenType.TOKEN_PLUS).infixRule = some ParseFn.binary :=
  (infix_handler_is_never_missing Int exampleOps).1 TokenType.TOKEN_PLUS (by decide)

end Clox
